import Mathlib

/-!
# Exact rational numbers on machine integers: `so-3388-7484/rational.c`

A shallow embedding of the `RationalInt` library.  C `int` and `long long`
values are mathematical integers; the places where the C code narrows a
`long long` to an `int` are written with `toInt`, and the places where it can
stop without returning (a failed `assert`, a division by zero, a loop that
does not end) produce a `Fault`.  The build switch `NDEBUG`, which turns every
`assert` into nothing, is the first argument of each function.
-/

namespace Soq

/-! ## Machine integers -/

/-- Largest `int` (`INT_MAX` of `<limits.h>`, 32-bit two's complement). -/
def INT_MAX : Int := 2147483647

/-- Smallest `int` (`INT_MIN` of `<limits.h>`). -/
def INT_MIN : Int := -2147483648

/-- Conversion of a `long long` to `int` when it is passed to a function taking
`int`: the value is reduced modulo `2^32` into `[INT_MIN, INT_MAX]`. -/
def toInt (x : Int) : Int := (x + 2147483648) % 4294967296 - 2147483648

/-- Ways in which a call ends without returning a value to its caller. -/
inductive Fault where
  /-- A failed `assert`: the program is aborted. -/
  | assertion
  /-- An integer division or remainder whose divisor is zero. -/
  | divByZero
  /-- A loop that never reaches its exit test. -/
  | diverge
  /-- A null pointer is dereferenced. -/
  | nullPointer
deriving DecidableEq

/-- Result of a call: a value, or the fault that stopped it. -/
inductive Res (α : Type) where
  | ok (v : α)
  | fail (e : Fault)
deriving DecidableEq

/-- Sequencing of calls: the first fault stops the computation. -/
def Res.bind {α β : Type} (r : Res α) (f : α → Res β) : Res β :=
  match r with
  | .ok v => f v
  | .fail e => .fail e

instance : Monad Res where
  pure := Res.ok
  bind := Res.bind

/-- The `assert(c)` statement: nothing under `NDEBUG`, otherwise aborts when `c` is false. -/
def cassert (ndebug : Bool) (c : Prop) [Decidable c] : Res Unit :=
  if ndebug = true ∨ c then .ok () else .fail .assertion

/-- C integer division `x / y`: truncates toward zero, traps when `y` is zero. -/
def cdiv (x y : Int) : Res Int :=
  if y = 0 then .fail .divByZero else .ok (Int.tdiv x y)

/-- C integer remainder `x % y`: sign of the dividend, traps when `y` is zero. -/
def cmod (x y : Int) : Res Int :=
  if y = 0 then .fail .divByZero else .ok (Int.tmod x y)

/-! ## The fraction type and its helpers -/

/-- The C `struct RationalInt`. -/
structure RationalInt where
  numerator : Int
  denominator : Int
deriving DecidableEq

/-- The C helper `iabs`. -/
def iabs (x : Int) : Int := if x < 0 then -x else x

/-- The C helper `signum`. -/
def signum (x : Int) : Int := if x > 0 then 1 else if x < 0 then -1 else 0

/-- The loop `while ((r = x % y) != 0) { x = y; y = r; } return y;` shared by
`gcd` and `gcd_ll`.  The divisor `y` is never zero inside the loop and its
magnitude strictly decreases, so `|y|` rounds are enough (`gcd_loop_fuel`). -/
def gcd_loop : Nat → Int → Int → Int
  | 0, _, y => y
  | fuel + 1, x, y =>
    if Int.tmod x y = 0 then y else gcd_loop fuel y (Int.tmod x y)

/-- The C function `gcd` on `int`. -/
def gcd (x y : Int) : Int :=
  if x = 0 ∨ y = 0 then 0 else gcd_loop y.natAbs x y

/-- The C function `gcd_ll` on `long long`. -/
def gcd_ll (x y : Int) : Int :=
  if x = 0 ∨ y = 0 then 0 else gcd_loop y.natAbs x y

/-- The C function `ri_chk`: the storage rules as three assertions. -/
def ri_chk (ndebug : Bool) (val : RationalInt) : Res Unit := do
  cassert ndebug (val.denominator ≠ 0 ∧ val.denominator ≠ INT_MIN)
  cassert ndebug (val.numerator ≥ 0)
  cassert ndebug (val.numerator = 0 ∨ gcd (iabs val.numerator) (iabs val.denominator) = 1)

/-- The C function `ri_new`. -/
def ri_new (ndebug : Bool) (numerator denominator : Int) : Res RationalInt := do
  cassert ndebug (denominator ≠ 0)
  cassert ndebug (denominator ≠ INT_MIN ∧ numerator ≠ INT_MIN)
  if numerator = 0 ∨ numerator = INT_MIN ∨ denominator = 0 ∨ denominator = INT_MIN then
    pure ⟨0, 1⟩
  else
    let sign := signum numerator * signum denominator
    cassert ndebug (sign = 1 ∨ sign = -1)
    let dv := gcd (iabs numerator) (iabs denominator)
    cassert ndebug (dv ≠ 0)
    let n ← cdiv (iabs numerator) dv
    let d ← cdiv (sign * iabs denominator) dv
    pure ⟨n, d⟩

/-- The tail that `ri_add`, `ri_sub`, `ri_mul` and `ri_div` share word for word:
reduce the wide pair `rn / rd` by `gcd_ll`, assert that both reduced values
fit an `int`, and hand them to `ri_new`. -/
def ri_reduce (ndebug : Bool) (rn rd : Int) : Res RationalInt := do
  let dv := gcd_ll rn rd
  let nr ← cdiv rn dv
  let dr ← cdiv rd dv
  cassert ndebug (nr ≤ INT_MAX ∧ nr ≥ INT_MIN)
  cassert ndebug (dr ≤ INT_MAX ∧ dr ≥ INT_MIN)
  ri_new ndebug (toInt nr) (toInt dr)

/-- The C function `ri_add`. -/
def ri_add (ndebug : Bool) (lhs rhs : RationalInt) : Res RationalInt :=
  let rn := lhs.numerator * rhs.denominator + rhs.numerator * lhs.denominator
  if rn = 0 then ri_new ndebug 0 1
  else ri_reduce ndebug rn (lhs.denominator * rhs.denominator)

/-- The C function `ri_sub`. -/
def ri_sub (ndebug : Bool) (lhs rhs : RationalInt) : Res RationalInt :=
  let rn := lhs.numerator * rhs.denominator - rhs.numerator * lhs.denominator
  if rn = 0 then ri_new ndebug 0 1
  else ri_reduce ndebug rn (lhs.denominator * rhs.denominator)

/-- The C function `ri_mul`. -/
def ri_mul (ndebug : Bool) (lhs rhs : RationalInt) : Res RationalInt :=
  let rn := lhs.numerator * rhs.numerator
  if rn = 0 then ri_new ndebug 0 1
  else ri_reduce ndebug rn (lhs.denominator * rhs.denominator)

/-- The C function `ri_div`. -/
def ri_div (ndebug : Bool) (lhs rhs : RationalInt) : Res RationalInt := do
  cassert ndebug (rhs.numerator ≠ 0)
  if lhs.numerator = 0 then ri_new ndebug 0 1
  else ri_reduce ndebug (lhs.numerator * rhs.denominator) (lhs.denominator * rhs.numerator)

/-- The C function `ri_cmp`. -/
def ri_cmp (ndebug : Bool) (lhs rhs : RationalInt) : Res Int :=
  if lhs.denominator = rhs.denominator ∧ lhs.numerator = rhs.numerator then pure 0
  else if signum lhs.denominator ≠ signum rhs.denominator then
    if signum lhs.denominator < signum rhs.denominator then pure (-1) else pure 1
  else do
    let v1 := lhs.numerator * iabs rhs.denominator
    let v2 := rhs.numerator * iabs lhs.denominator
    cassert ndebug (v1 ≠ v2)
    if v1 < v2 then pure (-1) else pure 1

/-- The C function `ri_integer`. -/
def ri_integer (ndebug : Bool) (val : RationalInt) : Res RationalInt := do
  let q ← cdiv val.numerator val.denominator
  ri_new ndebug q 1

/-- The C function `ri_fraction`. -/
def ri_fraction (ndebug : Bool) (val : RationalInt) : Res RationalInt := do
  let r ← cmod val.numerator val.denominator
  ri_new ndebug r val.denominator

/-- The C function `ri_mod`. -/
def ri_mod (ndebug : Bool) (lhs rhs : RationalInt) : Res RationalInt := do
  cassert ndebug (rhs.numerator ≠ 0)
  let rd ← ri_div ndebug lhs rhs
  let ri ← ri_integer ndebug rd
  let rm ← ri_mul ndebug ri rhs
  let rv ← ri_sub ndebug lhs rm
  pure rv

/-- The C function `ri_rec`. -/
def ri_rec (ndebug : Bool) (val : RationalInt) : Res RationalInt := do
  cassert ndebug (val.numerator ≠ 0)
  ri_new ndebug val.denominator val.numerator

/-- The loop of `ri_pow`: `for (i = power.numerator; i != 0; i >>= 1)`, with
`i & 1` read as the parity of `i` and `i >>= 1` as halving rounded down.  A
non-negative `int` reaches zero within 31 halvings; a negative one never does. -/
def pow_loop (ndebug : Bool) : Nat → Int → RationalInt → RationalInt → Res RationalInt
  | 0, i, result, _ => if i = 0 then .ok result else .fail .diverge
  | fuel + 1, i, result, factor =>
    if i = 0 then .ok result
    else
      (if i % 2 ≠ 0 then ri_mul ndebug result factor else .ok result) >>= fun result =>
      (if i > 1 then ri_mul ndebug factor factor else .ok factor) >>= fun factor =>
      pow_loop ndebug fuel (i / 2) result factor

/-- The C function `ri_pow`. -/
def ri_pow (ndebug : Bool) (base power : RationalInt) : Res RationalInt := do
  cassert ndebug (power.denominator = 1 ∨ power.denominator = -1)
  if base.numerator = 0 then ri_new ndebug 0 1
  else if power.numerator = 0 then ri_new ndebug 1 1
  else do
    let result ← ri_new ndebug 1 1
    let result ← pow_loop ndebug 32 power.numerator result base
    if power.denominator < 0 then ri_rec ndebug result else pure result

/-! ## Text: characters, strings, pointers -/

/-- The terminating NUL of a C string. -/
def NUL : Char := Char.ofNat 0

/-- The character `*ptr` of a NUL-terminated string, `ptr` counted from the start
of the string; past the last character the string reads as NUL. -/
def charAt (str : List Char) (ptr : Nat) : Char := str.getD ptr NUL

/-- The `<ctype.h>` test `isdigit` in the C locale. -/
def isdigit (c : Char) : Bool := decide (48 ≤ c.toNat ∧ c.toNat ≤ 57)

/-- The `<ctype.h>` test `isblank` in the C locale: space and horizontal tab. -/
def isblank (c : Char) : Bool := decide (c.toNat = 32 ∨ c.toNat = 9)

/-- The test `c == '0'`. -/
def iszero (c : Char) : Bool := decide (c = '0')

/-- The value `c - '0'` of a digit character. -/
def digit_val (c : Char) : Int := (c.toNat : Int) - 48

/-- Number of leading characters that pass the test: what a loop
`while (test(*p)) p++;` adds to `p`. -/
def run (test : Char → Bool) : List Char → Nat
  | [] => 0
  | c :: cs => if test c then run test cs + 1 else 0

/-- The C helper `skip_blank`. -/
def skip_blank (str : List Char) (ptr : Nat) : Nat := ptr + run isblank (str.drop ptr)

/-- The C helper `skip_digits`. -/
def skip_digits (str : List Char) (ptr : Nat) : Nat := ptr + run isdigit (str.drop ptr)

/-- The value of the decimal digit run in front of a string, continuing from `acc`. -/
def run_value : List Char → Int → Int
  | [], acc => acc
  | c :: cs, acc => if isdigit c then run_value cs (acc * 10 + digit_val c) else acc

/-- The `%d` conversion of `snprintf`: decimal digits, with `-` in front of a
negative number. -/
def fmt_d (x : Int) : List Char :=
  if x < 0 then '-' :: Nat.toDigits 10 x.natAbs else Nat.toDigits 10 x.natAbs

/-- What the buffer holds after `snprintf(buffer, buflen, ...)` has been asked to
write `text` and the formatters have applied
`if (len <= 0 || (size_t)len >= buflen) *buffer = 0`. -/
def buffer_after (text : List Char) (buflen : Nat) : List Char :=
  if text.length ≤ 0 ∨ text.length ≥ buflen then [] else text

/-- The C function `ri_fmt`; `buffer` is what the buffer held before the call,
the result is what it holds afterwards. -/
def ri_fmt (ndebug : Bool) (val : RationalInt) (buffer : List Char) (buflen : Nat) :
    Res (List Char) := do
  cassert ndebug (buflen > 0)
  ri_chk ndebug val
  if buflen > 0 then
    let sign := if val.denominator < 0 then '-' else '+'
    if iabs val.denominator = 1 then
      pure (buffer_after (sign :: fmt_d val.numerator) buflen)
    else
      pure (buffer_after
        (sign :: (fmt_d (iabs val.numerator) ++ '/' :: fmt_d (iabs val.denominator))) buflen)
  else pure buffer

/-- The C function `ri_fmtproper`; `in_` is the C variable `in`. -/
def ri_fmtproper (ndebug : Bool) (val : RationalInt) (buflen : Nat) : Res (List Char) := do
  cassert ndebug (buflen > 0)
  ri_chk ndebug val
  let in_ ← ri_integer ndebug val
  let fr ← ri_fraction ndebug val
  let sign := if val.denominator < 0 then '-' else '+'
  cassert ndebug (in_.denominator = 1 ∨ in_.denominator = -1)
  if in_.numerator ≠ 0 ∧ fr.numerator ≠ 0 then
    pure (buffer_after (sign :: (fmt_d (iabs in_.numerator) ++ ' ' ::
      (fmt_d (iabs fr.numerator) ++ '/' :: fmt_d (iabs fr.denominator)))) buflen)
  else if in_.numerator ≠ 0 then
    pure (buffer_after (sign :: fmt_d (iabs in_.numerator)) buflen)
  else if fr.numerator ≠ 0 then
    pure (buffer_after
      (sign :: (fmt_d (iabs val.numerator) ++ '/' :: fmt_d (iabs val.denominator))) buflen)
  else
    pure (buffer_after ['0'] buflen)

/-! ## Text: the scanner -/

/-- The `errno` values the scanner stores; `ENOERROR` leaves `errno` as it was. -/
inductive Errno where
  | ENOERROR
  | EINVAL
  | ERANGE
deriving DecidableEq

/-- What a call of `ri_scn` leaves behind: the return value, the pointer stored
in `*eor` (`none` is the null pointer), the fraction stored in `*res` (`none`
when nothing was stored) and the `errno` code. -/
structure ScanOut where
  rv : Int
  eor : Option Nat
  res : Option RationalInt
  errnum : Errno
deriving DecidableEq

/-- The C `struct FractionString`; a pointer is an offset from the start of the
scanned string, `none` is the null pointer. -/
structure FractionString where
  sign : Int
  i_start : Option Nat
  i_end : Option Nat
  n_start : Option Nat
  n_end : Option Nat
  d_start : Option Nat
  d_end : Option Nat
deriving DecidableEq

/-- The C helper `seteor_return` for a call that stores no fraction. -/
def seteor_return (eoc : Option Nat) (rv : Int) (errnum : Errno) : ScanOut :=
  ⟨rv, eoc, none, errnum⟩

/-- What `chk_strtoi` hands back: success flag, end of the number, value. -/
structure StrToI where
  ok : Bool
  eon : Nat
  value : Int
deriving DecidableEq

/-- Modelled from the spec: the checked conversion `chk_strtoi` of `chkstrint.h`,
which is not among the sources.  Called at the start of a digit run in base 10,
it reads the whole run, reports its end in `eon`, and succeeds exactly when the
value of the run is at most `INT_MAX` ("magnitude exceeds narrow width by one"
is a range failure whose offset is the end of the digits). -/
def chk_strtoi (str : List Char) (start : Nat) : StrToI :=
  ⟨decide (run_value (str.drop start) 0 ≤ INT_MAX), skip_digits str start,
    run_value (str.drop start) 0⟩

/-- The C function `cvt_integer`. -/
def cvt_integer (ndebug : Bool) (str : List Char) (fs : FractionString) : Res ScanOut :=
  match fs.i_start with
  | none => .fail .nullPointer
  | some i_start =>
    let n := chk_strtoi str i_start
    if n.ok = false then do
      cassert ndebug (some n.eon = fs.i_end)
      pure (seteor_return (some n.eon) (-1) .ERANGE)
    else do
      let r ← ri_new ndebug n.value fs.sign
      pure ⟨0, fs.i_end, some r, .ENOERROR⟩

/-- The first digit loop of `cvt_decimal`, over the integer digits after the
leading zeros: `none` is the range-error exit, otherwise the new `ptr`, `val`
and `num_i_digits`. -/
def dec_int_loop : List Char → Nat → Int → Int → Option (Nat × Int × Int)
  | [], ptr, val, num_i_digits => some (ptr, val, num_i_digits)
  | ch :: rest, ptr, val, num_i_digits =>
    if isdigit ch then
      if val > INT_MAX / 10 ∨ (val = INT_MAX / 10 ∧ digit_val ch > INT_MAX % 10) then none
      else dec_int_loop rest (ptr + 1) (val * 10 + digit_val ch) (num_i_digits + 1)
    else some (ptr, val, num_i_digits)

/-- How the second digit loop of `cvt_decimal` ends. -/
inductive FracOut where
  /-- Only zeros remain: the early `return` with `eor = trz`. -/
  | trailing (trz : Nat) (val i_pow10 : Int)
  /-- One of the two range checks failed. -/
  | range
  /-- The loop test failed: fall through with `ptr`, `val`, `i_pow10`. -/
  | done (ptr : Nat) (val i_pow10 : Int)
deriving DecidableEq

/-- The second digit loop of `cvt_decimal`, over the digits after the point;
the list is the string from `ptr` on. -/
def dec_frac_loop : List Char → Nat → Nat → Int → Int → FracOut
  | [], ptr, _, val, i_pow10 => .done ptr val i_pow10
  | ch :: rest, ptr, trz, val, i_pow10 =>
    if isdigit ch then
      if digit_val ch = 0 ∧ trz < ptr + 1 ∧ isdigit (charAt rest (run iszero rest)) = false then
        .trailing (ptr + 1 + run iszero rest) val i_pow10
      else if val > INT_MAX / 10 ∨ (val = INT_MAX / 10 ∧ digit_val ch > INT_MAX % 10) then
        .range
      else if i_pow10 > INT_MAX / 10 then .range
      else
        dec_frac_loop rest (ptr + 1)
          (if digit_val ch = 0 ∧ trz < ptr + 1 then ptr + 1 + run iszero rest else trz)
          (val * 10 + digit_val ch) (i_pow10 * 10)
    else .done ptr val i_pow10

/-- The part of `cvt_decimal` from `int i_pow10 = 1;` to the end. -/
def cvt_decimal_frac (ndebug : Bool) (str : List Char) (fs : FractionString)
    (ptr : Option Nat) (val num_i_digits num_z_digits : Int) : Res ScanOut :=
  let finish (ptr : Option Nat) (val i_pow10 : Int) : Res ScanOut :=
    if i_pow10 = 1 ∧ num_i_digits + num_z_digits = 0 then
      pure (seteor_return fs.d_end (-1) .EINVAL)
    else do
      let r ← ri_new ndebug val (i_pow10 * fs.sign)
      pure ⟨0, ptr, some r, .ENOERROR⟩
  match ptr with
  | none => finish none val 1
  | some p =>
    match dec_frac_loop (str.drop p) p p val 1 with
    | .trailing trz val i_pow10 => do
      let r ← ri_new ndebug val (i_pow10 * fs.sign)
      pure ⟨0, some trz, some r, .ENOERROR⟩
    | .range => pure (seteor_return fs.d_end (-1) .ERANGE)
    | .done ptr val i_pow10 => finish (some ptr) val i_pow10

/-- The C function `cvt_decimal`. -/
def cvt_decimal (ndebug : Bool) (str : List Char) (fs : FractionString) : Res ScanOut :=
  match fs.i_start with
  | none => cvt_decimal_frac ndebug str fs fs.d_start 0 0 0
  | some i_start => do
    cassert ndebug (isdigit (charAt str i_start) = true)
    let num_z_digits := run iszero (str.drop i_start)
    match dec_int_loop (str.drop (i_start + num_z_digits)) (i_start + num_z_digits) 0 0 with
    | none => pure (seteor_return fs.d_end (-1) .ERANGE)
    | some (ptr, val, num_i_digits) => do
      cassert ndebug (charAt str ptr = '.')
      cvt_decimal_frac ndebug str fs (some (ptr + 1)) val num_i_digits num_z_digits

/-- The C function `cvt_simple`. -/
def cvt_simple (ndebug : Bool) (str : List Char) (fs : FractionString) : Res ScanOut :=
  match fs.i_start, fs.d_start with
  | some i_start, some d_start =>
    let i := chk_strtoi str i_start
    if i.ok = false then pure (seteor_return fs.d_end (-1) .ERANGE)
    else do
      cassert ndebug (some i.eon = fs.i_end)
      let d := chk_strtoi str d_start
      if d.ok = false then pure (seteor_return fs.d_end (-1) .ERANGE)
      else do
        cassert ndebug (some d.eon = fs.d_end)
        let r ← ri_new ndebug i.value (fs.sign * d.value)
        pure ⟨0, fs.d_end, some r, .ENOERROR⟩
  | _, _ => .fail .nullPointer

/-- The C function `cvt_compound`. -/
def cvt_compound (ndebug : Bool) (str : List Char) (fs : FractionString) : Res ScanOut :=
  match fs.i_start, fs.n_start, fs.d_start with
  | some i_start, some n_start, some d_start =>
    let i := chk_strtoi str i_start
    if i.ok = false then pure (seteor_return fs.d_end (-1) .ERANGE)
    else do
      cassert ndebug (some i.eon = fs.i_end)
      let n := chk_strtoi str n_start
      if n.ok = false then pure (seteor_return fs.d_end (-1) .ERANGE)
      else do
        cassert ndebug (some n.eon = fs.n_end)
        let d := chk_strtoi str d_start
        if d.ok = false then pure (seteor_return fs.d_end (-1) .ERANGE)
        else do
          let q ← cdiv (INT_MAX - n.value) d.value
          if i.value > q then pure (seteor_return fs.d_end (-1) .ERANGE)
          else do
            let r ← ri_new ndebug (d.value * i.value + n.value) (fs.sign * d.value)
            pure ⟨0, fs.d_end, some r, .ENOERROR⟩
  | _, _, _ => .fail .nullPointer

/-- The part of `ri_scn` that follows `fs.i_end = ptr = skip_digits(ptr);`:
`fs` holds the sign and the first digit run, `ptr` is the end of that run. -/
def ri_scn_tail (ndebug : Bool) (str : List Char) (fs : FractionString) (ptr : Nat) :
    Res ScanOut :=
  if charAt str ptr = '.' then
    if isdigit (charAt str (ptr + 1)) = true then
      cvt_decimal ndebug str
        { fs with d_start := some (ptr + 1), d_end := some (skip_digits str (ptr + 1)) }
    else cvt_decimal ndebug str fs
  else if isdigit (charAt str (skip_blank str ptr)) = false ∧
      charAt str (skip_blank str ptr) ≠ '/' then
    cvt_integer ndebug str fs
  else if charAt str (skip_blank str ptr) = '/' then
    if isdigit (charAt str (skip_blank str (skip_blank str ptr + 1))) = false then
      cvt_integer ndebug str fs
    else
      cvt_simple ndebug str
        { fs with
          d_start := some (skip_blank str (skip_blank str ptr + 1)),
          d_end := some (skip_digits str (skip_blank str (skip_blank str ptr + 1))) }
  else do
    cassert ndebug (isdigit (charAt str (skip_blank str ptr)) = true)
    let n_start := skip_blank str ptr
    let n_end := skip_digits str n_start
    let fs := { fs with n_start := some n_start, n_end := some n_end }
    if charAt str (skip_blank str n_end) ≠ '/' then cvt_integer ndebug str fs
    else if isdigit (charAt str (skip_blank str (skip_blank str n_end + 1))) = false then
      cvt_integer ndebug str fs
    else
      cvt_compound ndebug str
        { fs with
          d_start := some (skip_blank str (skip_blank str n_end + 1)),
          d_end := some (skip_digits str (skip_blank str (skip_blank str n_end + 1))) }

/-- The C function `ri_scn`; pointers are offsets from `str`, so `str` itself is
offset `0`. -/
def ri_scn (ndebug : Bool) (str : List Char) : Res ScanOut :=
  let ptr := skip_blank str 0
  let sign : Int := if charAt str ptr = '-' then -1 else 1
  let ptr := if charAt str ptr = '+' ∨ charAt str ptr = '-' then ptr + 1 else ptr
  let fs : FractionString := ⟨sign, none, none, none, none, none, none⟩
  if charAt str ptr = '.' ∧ isdigit (charAt str (ptr + 1)) = true then
    cvt_decimal ndebug str
      { fs with d_start := some (ptr + 1), d_end := some (skip_digits str (ptr + 1)) }
  else if isdigit (charAt str ptr) = false then
    pure (seteor_return (some 0) (-1) .EINVAL)
  else
    ri_scn_tail ndebug str
      { fs with i_start := some ptr, i_end := some (skip_digits str ptr) }
      (skip_digits str ptr)

/-! ## Specification vocabulary -/

/-- The value fits a C `int`. -/
def InInt (x : Int) : Prop := INT_MIN ≤ x ∧ x ≤ INT_MAX

instance (x : Int) : Decidable (InInt x) := by unfold InInt; infer_instance

/-- The value fits a C `long long` (64-bit two's complement). -/
def InLLong (x : Int) : Prop := -9223372036854775808 ≤ x ∧ x ≤ 9223372036854775807

instance (x : Int) : Decidable (InLLong x) := by unfold InLLong; infer_instance

/-- Canonical form of a stored fraction: both fields are `int`s, the three
assertions of `ri_chk` hold, and zero is stored as `0/+1`. -/
def Canonical (v : RationalInt) : Prop :=
  InInt v.numerator ∧ InInt v.denominator ∧ ri_chk false v = .ok () ∧
    (v.numerator = 0 → v.denominator = 1)

instance (v : RationalInt) : Decidable (Canonical v) := by unfold Canonical; infer_instance

/-- The exact rational number a stored fraction denotes. -/
def val (v : RationalInt) : ℚ := (v.numerator : ℚ) / (v.denominator : ℚ)

/-- The canonical representation of a rational number: numerator and denominator
of the lowest-terms form, the sign carried by the denominator, zero as `0/+1`. -/
def canon (q : ℚ) : RationalInt :=
  ⟨|q.num|, if q.num < 0 then -(q.den : Int) else (q.den : Int)⟩

/-- The lowest-terms form of a rational number fits the `int` fields. -/
def Fits (q : ℚ) : Prop := |q.num| ≤ INT_MAX ∧ (q.den : Int) ≤ INT_MAX

instance (q : ℚ) : Decidable (Fits q) := by unfold Fits; infer_instance

/-- Rounding a rational number toward zero. -/
def qtrunc (q : ℚ) : Int := if 0 ≤ q then ⌊q⌋ else ⌈q⌉

/-- The compact rendering in the words of the specification: a sign, the decimal
digits of the numerator and, when the magnitude of the denominator is not 1, a
slash and the decimal digits of that magnitude. -/
def spec_compact_text (v : RationalInt) : List Char :=
  (if v.denominator < 0 then '-' else '+') ::
    (Nat.toDigits 10 v.numerator.toNat ++
      (if v.denominator.natAbs ≠ 1 then '/' :: Nat.toDigits 10 v.denominator.natAbs else []))

/-- The proper (mixed-number) rendering in the words of the specification: with
`I` the magnitude of the value rounded toward zero and `N/D` the rest in lowest
terms, the text is sign, `I`, a space, `N`, slash, `D` when both parts are not
zero, sign and `I` when only `I` is not zero, sign, `N`, slash, `D` when only `N`
is not zero, and `0` otherwise; the sign is `-` for a negative value. -/
def spec_proper_text (v : RationalInt) : List Char :=
  let i : Nat := ⌊|val v|⌋.toNat
  let f : ℚ := |val v| - (i : ℚ)
  let sign : Char := if val v < 0 then '-' else '+'
  if i ≠ 0 ∧ f.num ≠ 0 then
    sign :: (Nat.toDigits 10 i ++ ' ' ::
      (Nat.toDigits 10 f.num.toNat ++ '/' :: Nat.toDigits 10 f.den))
  else if i ≠ 0 then sign :: Nat.toDigits 10 i
  else if f.num ≠ 0 then sign :: (Nat.toDigits 10 f.num.toNat ++ '/' :: Nat.toDigits 10 f.den)
  else ['0']

/-! ## The test tables of the source -/

/-- The table `p1_tests`: arguments of `ri_new` and the expected result. -/
def p1_tests : List (Int × Int × RationalInt) :=
  [(1, 1, ⟨1, 1⟩), (0, 1, ⟨0, 1⟩), (2, 2, ⟨1, 1⟩), (1, 2, ⟨1, 2⟩), (15, 3, ⟨5, 1⟩),
   (28, 6, ⟨14, 3⟩), (6, 28, ⟨3, 14⟩), (6, 8, ⟨3, 4⟩), (6, -8, ⟨3, -4⟩), (-6, 8, ⟨3, -4⟩),
   (-6, -8, ⟨3, 4⟩)]

/-- The table `p2_tests`: operands of `ri_cmp` and the expected result. -/
def p2_tests : List (RationalInt × RationalInt × Int) :=
  [(⟨0, 1⟩, ⟨0, 1⟩, 0), (⟨1, 1⟩, ⟨0, 1⟩, 1), (⟨0, 1⟩, ⟨1, 1⟩, -1), (⟨0, 1⟩, ⟨1, -1⟩, 1),
   (⟨1, -1⟩, ⟨1, 1⟩, -1), (⟨1, 1⟩, ⟨1, -1⟩, 1), (⟨9, 10⟩, ⟨1, 1⟩, -1), (⟨11, 10⟩, ⟨1, 1⟩, 1),
   (⟨9, 10⟩, ⟨19, 20⟩, -1), (⟨9, 10⟩, ⟨17, 20⟩, 1)]

/-- The `OP_ADD` rows of the table `p3_tests`: operands and the expected result. -/
def p3_add_tests : List (RationalInt × RationalInt × RationalInt) :=
  [(⟨0, 1⟩, ⟨0, 1⟩, ⟨0, 1⟩), (⟨1, 1⟩, ⟨0, 1⟩, ⟨1, 1⟩), (⟨1, 1⟩, ⟨1, 1⟩, ⟨2, 1⟩),
   (⟨1, 1⟩, ⟨1, -1⟩, ⟨0, 1⟩), (⟨23, 31⟩, ⟨37, 19⟩, ⟨1584, 589⟩),
   (⟨14, -9⟩, ⟨12, -7⟩, ⟨206, -63⟩), (⟨14, -9⟩, ⟨12, 7⟩, ⟨10, 63⟩),
   (⟨14, 9⟩, ⟨12, -7⟩, ⟨10, -63⟩), (⟨14, 9⟩, ⟨12, 7⟩, ⟨206, 63⟩)]

/-- The `OP_SUB` rows of the table `p3_tests`. -/
def p3_sub_tests : List (RationalInt × RationalInt × RationalInt) :=
  [(⟨0, 1⟩, ⟨0, 1⟩, ⟨0, 1⟩), (⟨1, 1⟩, ⟨0, 1⟩, ⟨1, 1⟩), (⟨1, 1⟩, ⟨1, 1⟩, ⟨0, 1⟩),
   (⟨1, -1⟩, ⟨1, 1⟩, ⟨2, -1⟩), (⟨1, -1⟩, ⟨2, -1⟩, ⟨1, 1⟩), (⟨1, 1⟩, ⟨1, -1⟩, ⟨2, 1⟩),
   (⟨23, 31⟩, ⟨37, 19⟩, ⟨710, -589⟩), (⟨14, -9⟩, ⟨12, -7⟩, ⟨10, 63⟩),
   (⟨14, -9⟩, ⟨12, 7⟩, ⟨206, -63⟩), (⟨14, 9⟩, ⟨12, -7⟩, ⟨206, 63⟩),
   (⟨14, 9⟩, ⟨12, 7⟩, ⟨10, -63⟩)]

/-- The `OP_MUL` rows of the table `p3_tests`. -/
def p3_mul_tests : List (RationalInt × RationalInt × RationalInt) :=
  [(⟨0, 1⟩, ⟨0, 1⟩, ⟨0, 1⟩), (⟨1, 1⟩, ⟨0, 1⟩, ⟨0, 1⟩), (⟨1, 1⟩, ⟨1, 1⟩, ⟨1, 1⟩),
   (⟨1, -1⟩, ⟨1, 1⟩, ⟨1, -1⟩), (⟨1, -1⟩, ⟨2, -1⟩, ⟨2, 1⟩), (⟨1, 1⟩, ⟨1, -1⟩, ⟨1, -1⟩),
   (⟨23, 31⟩, ⟨37, 19⟩, ⟨851, 589⟩), (⟨14, -9⟩, ⟨12, -7⟩, ⟨8, 3⟩),
   (⟨14, -9⟩, ⟨12, 7⟩, ⟨8, -3⟩), (⟨14, 9⟩, ⟨12, -7⟩, ⟨8, -3⟩), (⟨14, 9⟩, ⟨12, 7⟩, ⟨8, 3⟩)]

/-- The `OP_DIV` rows of the table `p3_tests`. -/
def p3_div_tests : List (RationalInt × RationalInt × RationalInt) :=
  [(⟨0, 1⟩, ⟨1, 1⟩, ⟨0, 1⟩), (⟨1, 1⟩, ⟨1, 1⟩, ⟨1, 1⟩), (⟨1, -1⟩, ⟨1, 1⟩, ⟨1, -1⟩),
   (⟨1, -1⟩, ⟨2, -1⟩, ⟨1, 2⟩), (⟨1, 1⟩, ⟨1, -1⟩, ⟨1, -1⟩), (⟨23, 31⟩, ⟨37, 19⟩, ⟨437, 1147⟩),
   (⟨14, -9⟩, ⟨12, -7⟩, ⟨49, 54⟩), (⟨14, -9⟩, ⟨12, 7⟩, ⟨49, -54⟩),
   (⟨14, 9⟩, ⟨12, -7⟩, ⟨49, -54⟩), (⟨14, 9⟩, ⟨12, 7⟩, ⟨49, 54⟩)]

/-- The `OP_MOD` rows of the table `p3_tests`: operands and the expected result. -/
def p3_mod_tests : List (RationalInt × RationalInt × RationalInt) :=
  [(⟨0, 1⟩, ⟨1, 1⟩, ⟨0, 1⟩), (⟨1, 1⟩, ⟨1, 1⟩, ⟨0, 1⟩), (⟨1, -1⟩, ⟨1, 1⟩, ⟨0, 1⟩),
   (⟨1, -1⟩, ⟨2, -1⟩, ⟨1, -1⟩), (⟨1, 1⟩, ⟨1, -1⟩, ⟨0, 1⟩), (⟨23, 31⟩, ⟨37, 19⟩, ⟨23, 31⟩),
   (⟨63, 31⟩, ⟨37, 19⟩, ⟨50, 589⟩), (⟨91, 23⟩, ⟨37, 19⟩, ⟨27, 437⟩),
   (⟨23, 31⟩, ⟨19, 37⟩, ⟨262, 1147⟩), (⟨14, -9⟩, ⟨10, -7⟩, ⟨8, -63⟩),
   (⟨14, -9⟩, ⟨10, 7⟩, ⟨8, -63⟩), (⟨14, 9⟩, ⟨10, -7⟩, ⟨8, 63⟩), (⟨14, 9⟩, ⟨10, 7⟩, ⟨8, 63⟩),
   (⟨9, -11⟩, ⟨2, -7⟩, ⟨19, -77⟩), (⟨9, -11⟩, ⟨2, 7⟩, ⟨19, -77⟩), (⟨9, 11⟩, ⟨2, -7⟩, ⟨19, 77⟩),
   (⟨9, 11⟩, ⟨2, 7⟩, ⟨19, 77⟩)]

/-- The table `p6_tests`: base, power and the expected result of `ri_pow`. -/
def p6_tests : List (RationalInt × RationalInt × RationalInt) :=
  [(⟨0, 1⟩, ⟨0, 1⟩, ⟨0, 1⟩), (⟨0, 1⟩, ⟨5, 1⟩, ⟨0, 1⟩), (⟨1, 1⟩, ⟨0, 1⟩, ⟨1, 1⟩),
   (⟨2, 1⟩, ⟨0, 1⟩, ⟨1, 1⟩), (⟨3, 2⟩, ⟨0, 1⟩, ⟨1, 1⟩), (⟨2, 1⟩, ⟨1, 1⟩, ⟨2, 1⟩),
   (⟨3, 1⟩, ⟨1, 1⟩, ⟨3, 1⟩), (⟨5, 2⟩, ⟨1, 1⟩, ⟨5, 2⟩), (⟨2, 1⟩, ⟨2, 1⟩, ⟨4, 1⟩),
   (⟨2, 1⟩, ⟨3, 1⟩, ⟨8, 1⟩), (⟨2, 1⟩, ⟨10, 1⟩, ⟨1024, 1⟩), (⟨2, 1⟩, ⟨15, 1⟩, ⟨32768, 1⟩),
   (⟨5, 2⟩, ⟨2, 1⟩, ⟨25, 4⟩), (⟨5, 2⟩, ⟨2, -1⟩, ⟨4, 25⟩), (⟨2, 1⟩, ⟨16, 1⟩, ⟨65536, 1⟩),
   (⟨2, 1⟩, ⟨17, 1⟩, ⟨131072, 1⟩), (⟨2, 1⟩, ⟨20, 1⟩, ⟨1048576, 1⟩),
   (⟨2, 1⟩, ⟨24, 1⟩, ⟨16777216, 1⟩), (⟨2, 1⟩, ⟨30, 1⟩, ⟨1073741824, 1⟩),
   (⟨2, 1⟩, ⟨30, -1⟩, ⟨1, 1073741824⟩), (⟨10, 1⟩, ⟨8, -1⟩, ⟨1, 100000000⟩),
   (⟨10, 1⟩, ⟨8, 1⟩, ⟨100000000, 1⟩), (⟨10, 13⟩, ⟨8, 1⟩, ⟨100000000, 815730721⟩),
   (⟨10, 13⟩, ⟨8, -1⟩, ⟨815730721, 100000000⟩), (⟨13, 10⟩, ⟨8, 1⟩, ⟨815730721, 100000000⟩),
   (⟨13, 10⟩, ⟨8, -1⟩, ⟨100000000, 815730721⟩), (⟨87, 7⟩, ⟨4, 1⟩, ⟨57289761, 2401⟩)]

/-- The C `struct p7_test_case`: input, expected fraction, expected offset of the
end of conversion, expected status. -/
structure p7_test_case where
  input : String
  output : RationalInt
  offset : Nat
  status : Int

/-- Rows 1 to 26 of the table `p7_tests`. -/
def p7_tests_1 : List p7_test_case :=
  [⟨"0", ⟨0, 1⟩, 1, 0⟩, ⟨"-0", ⟨0, 1⟩, 2, 0⟩, ⟨"+0", ⟨0, 1⟩, 2, 0⟩, ⟨"- 0", ⟨0, 1⟩, 0, -1⟩,
   ⟨"+ 0", ⟨0, 1⟩, 0, -1⟩, ⟨"-. 0", ⟨0, 1⟩, 0, -1⟩, ⟨"+. 0", ⟨0, 1⟩, 0, -1⟩,
   ⟨"+0", ⟨0, 1⟩, 2, 0⟩, ⟨"+000", ⟨0, 1⟩, 4, 0⟩, ⟨"+123", ⟨123, 1⟩, 4, 0⟩,
   ⟨"-321", ⟨321, -1⟩, 4, 0⟩, ⟨"-321.", ⟨321, -1⟩, 5, 0⟩, ⟨"-0.321", ⟨321, -1000⟩, 6, 0⟩,
   ⟨"-0.-321", ⟨0, 1⟩, 3, 0⟩, ⟨"-.-321", ⟨0, 1⟩, 0, -1⟩, ⟨"+0.00", ⟨0, 1⟩, 5, 0⟩,
   ⟨"+0.+00", ⟨0, 1⟩, 3, 0⟩, ⟨"+9.", ⟨9, 1⟩, 3, 0⟩, ⟨"+9+00", ⟨9, 1⟩, 2, 0⟩,
   ⟨"+6.25", ⟨25, 4⟩, 5, 0⟩, ⟨"-.000", ⟨0, 1⟩, 5, 0⟩, ⟨"-.001", ⟨1, -1000⟩, 5, 0⟩,
   ⟨"+.001", ⟨1, 1000⟩, 5, 0⟩, ⟨" .001", ⟨1, 1000⟩, 5, 0⟩, ⟨"0.5XX", ⟨1, 2⟩, 3, 0⟩,
   ⟨"-3.14159", ⟨314159, -100000⟩, 8, 0⟩]

/-- Rows 27 to 51 of the table `p7_tests`. -/
def p7_tests_2 : List p7_test_case :=
  [⟨"2147483647X", ⟨2147483647, 1⟩, 10, 0⟩, ⟨"-2147.483647 ", ⟨2147483647, -1000000⟩, 12, 0⟩,
   ⟨"0002147483.647", ⟨2147483647, 1000⟩, 14, 0⟩, ⟨"000000.7483647", ⟨7483647, 10000000⟩, 14, 0⟩,
   ⟨"-2147.483648 ", ⟨0, 1⟩, 12, -1⟩, ⟨"-2147.48364700", ⟨2147483647, -1000000⟩, 14, 0⟩,
   ⟨"-2147.4836470000", ⟨2147483647, -1000000⟩, 16, 0⟩,
   ⟨"-2147.2147480000", ⟨536803687, -250000⟩, 16, 0⟩, ⟨"-2147.4000000000", ⟨10737, -5⟩, 16, 0⟩,
   ⟨"-2147.2000000000", ⟨10736, -5⟩, 16, 0⟩, ⟨"-2147.2000000001", ⟨0, 1⟩, 16, -1⟩,
   ⟨"-214792000000001", ⟨0, 1⟩, 16, -1⟩, ⟨"-0.0000000000001", ⟨0, 1⟩, 16, -1⟩,
   ⟨"-0.0000000000010", ⟨0, 1⟩, 16, -1⟩, ⟨"-0.0000000000100", ⟨0, 1⟩, 16, -1⟩,
   ⟨"-0.0000000001000", ⟨0, 1⟩, 16, -1⟩, ⟨"-0.0000000010000", ⟨1, -1000000000⟩, 16, 0⟩,
   ⟨"-0.000000001234567", ⟨0, 1⟩, 18, -1⟩, ⟨"-0.000000001200000", ⟨0, 1⟩, 18, -1⟩,
   ⟨"-0.0000000210000", ⟨21, -1000000000⟩, 16, 0⟩,
   ⟨" 0.0000003210000", ⟨321, 1000000000⟩, 16, 0⟩,
   ⟨"+0.010020003000000", ⟨10020003, 1000000000⟩, 18, 0⟩, ⟨"    0", ⟨0, 1⟩, 5, 0⟩,
   ⟨"    0    ", ⟨0, 1⟩, 5, 0⟩, ⟨"    X", ⟨0, 1⟩, 0, -1⟩]

/-- Rows 52 to 82 of the table `p7_tests`. -/
def p7_tests_3 : List p7_test_case :=
  [⟨"0", ⟨0, 1⟩, 1, 0⟩, ⟨"+10", ⟨10, 1⟩, 3, 0⟩, ⟨"-234", ⟨234, -1⟩, 4, 0⟩,
   ⟨"-2147483647", ⟨2147483647, -1⟩, 11, 0⟩, ⟨"-2147483648", ⟨0, 1⟩, 11, -1⟩,
   ⟨"+2147483647", ⟨2147483647, 1⟩, 11, 0⟩, ⟨"+2147483648", ⟨0, 1⟩, 11, -1⟩,
   ⟨"1/2", ⟨1, 2⟩, 3, 0⟩, ⟨"+1/2", ⟨1, 2⟩, 4, 0⟩, ⟨"-1/2", ⟨1, -2⟩, 4, 0⟩,
   ⟨"+3/2", ⟨3, 2⟩, 4, 0⟩, ⟨"-2147483647/3192", ⟨2147483647, -3192⟩, 16, 0⟩,
   ⟨"+2147483648/3192", ⟨0, 1⟩, 16, -1⟩, ⟨"-2147483648/3192", ⟨0, 1⟩, 16, -1⟩,
   ⟨"-3192/2147483647", ⟨3192, -2147483647⟩, 16, 0⟩, ⟨"-3192/2147483648", ⟨0, 1⟩, 16, -1⟩,
   ⟨"-319X/2147483647", ⟨319, -1⟩, 4, 0⟩, ⟨"-3192/2147X83647", ⟨168, -113⟩, 10, 0⟩,
   ⟨"-3192/-214748347", ⟨3192, -1⟩, 5, 0⟩, ⟨"+3192.2147", ⟨31922147, 10000⟩, 10, 0⟩,
   ⟨"+1 1/2", ⟨3, 2⟩, 6, 0⟩, ⟨"-1 1/2", ⟨3, -2⟩, 6, 0⟩, ⟨"1 1/2", ⟨3, 2⟩, 5, 0⟩,
   ⟨"-1 -1/2", ⟨1, -1⟩, 2, 0⟩, ⟨"12 15/3", ⟨17, 1⟩, 7, 0⟩,
   ⟨" 134217727 13/16", ⟨2147483645, 16⟩, 16, 0⟩, ⟨"-134217727 14/16", ⟨1073741823, -8⟩, 16, 0⟩,
   ⟨"+134217727 15/16", ⟨2147483647, 16⟩, 16, 0⟩, ⟨" 134217727 16/16", ⟨0, 1⟩, 16, -1⟩,
   ⟨" 134217727 17/16", ⟨0, 1⟩, 16, -1⟩, ⟨"100000 1/100000", ⟨0, 1⟩, 15, -1⟩]

/-- Rows 83 to 94 of the table `p7_tests`. -/
def p7_tests_4 : List p7_test_case :=
  [⟨"+312 123/235", ⟨73443, 235⟩, 12, 0⟩, ⟨"+312 X", ⟨312, 1⟩, 4, 0⟩,
   ⟨"+312 123X", ⟨312, 1⟩, 4, 0⟩, ⟨"+312 123/X", ⟨312, 1⟩, 4, 0⟩,
   ⟨"+312 123/2X", ⟨747, 2⟩, 10, 0⟩, ⟨"+312.", ⟨312, 1⟩, 5, 0⟩, ⟨"+312.X", ⟨312, 1⟩, 5, 0⟩,
   ⟨"+312.123  ", ⟨312123, 1000⟩, 8, 0⟩, ⟨"+312/123  ", ⟨104, 41⟩, 8, 0⟩,
   ⟨"+312/X", ⟨312, 1⟩, 4, 0⟩, ⟨"+312/", ⟨312, 1⟩, 4, 0⟩,
   ⟨"     +1000138887464217727     \t  2314134213112217\t/\t112324233423432432422226", ⟨0, 1⟩, 76, -1⟩]

/-- The checks of `p7_tester` on one row: the status, then the offset of the end
of conversion, then (on status 0) the fraction. -/
def p7_row_ok (t : p7_test_case) : Bool :=
  match ri_scn false t.input.toList with
  | .ok o =>
    decide (o.rv = t.status) && decide (o.eor = some t.offset) &&
      (decide (o.rv = -1) || decide (o.res = some t.output))
  | .fail _ => false

/-! ## Sequencing and assertions -/

@[simp] theorem Res.ok_bind {α β : Type} (v : α) (f : α → Res β) :
    (Res.ok v >>= f) = f v := rfl

@[simp] theorem Res.fail_bind {α β : Type} (e : Fault) (f : α → Res β) :
    (Res.fail e >>= f) = Res.fail e := rfl

@[simp] theorem Res.pure_eq {α : Type} (v : α) : (pure v : Res α) = Res.ok v := rfl

theorem Res.bind_eq_ok {α β : Type} {r : Res α} {f : α → Res β} {b : β}
    (h : (r >>= f) = Res.ok b) : ∃ a, r = Res.ok a ∧ f a = Res.ok b := by
  cases r with
  | ok v => exact ⟨v, rfl, h⟩
  | fail e => cases h

theorem cassert_of {ndebug : Bool} {c : Prop} [Decidable c] (h : c) :
    cassert ndebug c = Res.ok () := by
  simp [cassert, h]

theorem cassert_ndebug (c : Prop) [Decidable c] : cassert true c = Res.ok () := by
  simp [cassert]

theorem cassert_fail {c : Prop} [Decidable c] (h : ¬ c) :
    cassert false c = Res.fail Fault.assertion := by
  simp [cassert, h]

theorem cdiv_of_ne {x y : Int} (h : y ≠ 0) : cdiv x y = Res.ok (Int.tdiv x y) := by
  simp [cdiv, h]

theorem cmod_of_ne {x y : Int} (h : y ≠ 0) : cmod x y = Res.ok (Int.tmod x y) := by
  simp [cmod, h]

/-! ## Machine-integer helpers -/

theorem toInt_of_inInt {x : Int} (h : InInt x) : toInt x = x := by
  unfold InInt INT_MIN INT_MAX at h
  unfold toInt
  omega

theorem toInt_inInt (x : Int) : InInt (toInt x) := by
  unfold InInt INT_MIN INT_MAX toInt
  omega

theorem iabs_eq (x : Int) : iabs x = (x.natAbs : Int) := by
  unfold iabs
  split_ifs <;> omega

theorem signum_pos {x : Int} (h : 0 < x) : signum x = 1 := by
  simp [signum, h]

theorem signum_neg {x : Int} (h : x < 0) : signum x = -1 := by
  unfold signum
  rw [if_neg (by omega), if_pos h]

theorem signum_mul_natAbs (x : Int) : signum x * (x.natAbs : Int) = x := by
  unfold signum
  split_ifs <;> omega

/-! ## Euclid's loop -/

theorem natAbs_tmod (x y : Int) : (Int.tmod x y).natAbs = x.natAbs % y.natAbs := by
  cases x <;> cases y <;> simp [Int.tmod] <;> rfl

/-- With `|y|` rounds of fuel the loop leaves through its exit test, and what it
returns is, up to sign, the greatest common divisor. -/
theorem gcd_loop_natAbs : ∀ (f : Nat) (x y : Int), y ≠ 0 → y.natAbs ≤ f →
    (gcd_loop f x y).natAbs = Nat.gcd x.natAbs y.natAbs
  | 0, _, y, hy, hf => absurd (Int.natAbs_eq_zero.mp (Nat.le_zero.mp hf)) hy
  | f + 1, x, y, hy, hf => by
    unfold gcd_loop
    split_ifs with h
    · have h0 : x.natAbs % y.natAbs = 0 := by rw [← natAbs_tmod, h]; rfl
      exact (Nat.gcd_eq_right (Nat.dvd_of_mod_eq_zero h0)).symm
    · have hr : (Int.tmod x y).natAbs < y.natAbs := by
        rw [natAbs_tmod]; exact Nat.mod_lt _ (Int.natAbs_pos.mpr hy)
      rw [gcd_loop_natAbs f y _ h (by omega), natAbs_tmod]
      calc Nat.gcd y.natAbs (x.natAbs % y.natAbs)
          = Nat.gcd (x.natAbs % y.natAbs) y.natAbs := Nat.gcd_comm _ _
        _ = Nat.gcd y.natAbs x.natAbs := (Nat.gcd_rec _ _).symm
        _ = Nat.gcd x.natAbs y.natAbs := Nat.gcd_comm _ _

/-- More fuel than `|y|` changes nothing: the loop has already left. -/
theorem gcd_loop_fuel : ∀ (f g : Nat) (x y : Int), y ≠ 0 → y.natAbs ≤ f → y.natAbs ≤ g →
    gcd_loop f x y = gcd_loop g x y
  | 0, _, _, y, hy, hf, _ => absurd (Int.natAbs_eq_zero.mp (Nat.le_zero.mp hf)) hy
  | _ + 1, 0, _, y, hy, _, hg => absurd (Int.natAbs_eq_zero.mp (Nat.le_zero.mp hg)) hy
  | f + 1, g + 1, x, y, hy, hf, hg => by
    unfold gcd_loop
    split_ifs with h
    · rfl
    · have hr : (Int.tmod x y).natAbs < y.natAbs := by
        rw [natAbs_tmod]; exact Nat.mod_lt _ (Int.natAbs_pos.mpr hy)
      exact gcd_loop_fuel f g y _ h (by omega) (by omega)

theorem gcd_loop_pos : ∀ (f : Nat) (x y : Int), 0 ≤ x → 0 < y → 0 < gcd_loop f x y
  | 0, _, _, _, hy => hy
  | f + 1, x, y, hx, hy => by
    unfold gcd_loop
    split_ifs with h
    · exact hy
    · have h1 : 0 ≤ Int.tmod x y := Int.tmod_nonneg y hx
      exact gcd_loop_pos f y _ (le_of_lt hy) (lt_of_le_of_ne h1 (Ne.symm h))

/-- On positive `int`s the C `gcd` is the greatest common divisor. -/
theorem gcd_eq {x y : Int} (hx : 0 < x) (hy : 0 < y) : gcd x y = (Int.gcd x y : Int) := by
  have h1 : gcd x y = gcd_loop y.natAbs x y := by
    unfold gcd; rw [if_neg (by omega)]
  have h2 := gcd_loop_natAbs y.natAbs x y (by omega) le_rfl
  have h3 := gcd_loop_pos y.natAbs x y (le_of_lt hx) hy
  rw [h1, Int.gcd_eq_natAbs, ← h2]
  omega

/-- On non-zero `long long`s the C `gcd_ll` is, up to sign, the greatest common divisor. -/
theorem gcd_ll_natAbs {x y : Int} (hx : x ≠ 0) (hy : y ≠ 0) :
    (gcd_ll x y).natAbs = Int.gcd x y := by
  unfold gcd_ll
  rw [if_neg (by simp [hx, hy]), Int.gcd_eq_natAbs]
  exact gcd_loop_natAbs y.natAbs x y hy le_rfl

/-! ## The normalising constructor -/

theorem ri_chk_ok_iff (v : RationalInt) :
    ri_chk false v = Res.ok () ↔
      (v.denominator ≠ 0 ∧ v.denominator ≠ INT_MIN) ∧ v.numerator ≥ 0 ∧
        (v.numerator = 0 ∨ gcd (iabs v.numerator) (iabs v.denominator) = 1) := by
  unfold ri_chk
  by_cases h1 : v.denominator ≠ 0 ∧ v.denominator ≠ INT_MIN
  · rw [cassert_of h1]
    by_cases h2 : v.numerator ≥ 0
    · rw [cassert_of h2]
      by_cases h3 : v.numerator = 0 ∨ gcd (iabs v.numerator) (iabs v.denominator) = 1
      · rw [cassert_of h3]; simp [h1, h2, h3]
      · rw [cassert_fail h3]; simp [h3]
    · rw [cassert_fail h2]; simp [h2]
  · rw [cassert_fail h1]; simp [h1]

theorem gcd_iabs {n d : Int} (hn : n ≠ 0) (hd : d ≠ 0) :
    gcd (iabs n) (iabs d) = (Int.gcd n d : Int) := by
  rw [gcd_eq (by rw [iabs_eq]; omega) (by rw [iabs_eq]; omega), iabs_eq, iabs_eq]
  simp only [Int.gcd_eq_natAbs, Int.natAbs_ofNat]

/-- Canonical form in arithmetic terms. -/
theorem canonical_iff (v : RationalInt) :
    Canonical v ↔
      0 ≤ v.numerator ∧ v.numerator ≤ INT_MAX ∧ v.denominator ≠ 0 ∧
        -INT_MAX ≤ v.denominator ∧ v.denominator ≤ INT_MAX ∧
        Int.gcd v.numerator v.denominator = 1 ∧ (v.numerator = 0 → v.denominator = 1) := by
  unfold Canonical
  rw [ri_chk_ok_iff]
  unfold InInt INT_MIN INT_MAX
  constructor
  · rintro ⟨⟨_, h2⟩, ⟨h3, h4⟩, ⟨⟨h5, h6⟩, h7, h8⟩, h9⟩
    refine ⟨h7, h2, h5, by omega, h4, ?_, h9⟩
    rcases h8 with h8 | h8
    · rw [h8, h9 h8]; rfl
    · have hn : v.numerator ≠ 0 := by
        intro h0; rw [h0] at h8; simp [gcd, iabs] at h8
      rw [gcd_iabs hn h5] at h8
      exact_mod_cast h8
  · rintro ⟨h1, h2, h3, h4, h5, h6, h7⟩
    refine ⟨⟨by omega, h2⟩, ⟨by omega, h5⟩, ⟨⟨h3, by omega⟩, h1, ?_⟩, h7⟩
    by_cases hn : v.numerator = 0
    · exact Or.inl hn
    · right
      rw [gcd_iabs hn h3]
      exact_mod_cast h6

theorem canonical_zero : Canonical ⟨0, 1⟩ := by decide

/-- A zero numerator gives `0/+1` (when the denominator is a valid one). -/
theorem ri_new_zero (ndebug : Bool) {d : Int} (hd : d ≠ 0) (hd2 : d ≠ INT_MIN) :
    ri_new ndebug 0 d = Res.ok ⟨0, 1⟩ := by
  unfold ri_new
  rw [cassert_of hd, cassert_of (show d ≠ INT_MIN ∧ (0 : Int) ≠ INT_MIN from ⟨hd2, by decide⟩)]
  simp

/-- On valid non-zero input `ri_new` divides both magnitudes by their greatest
common divisor and gives the denominator the sign of the quotient. -/
theorem ri_new_ok (ndebug : Bool) {n d : Int} (hn : n ≠ 0) (hn2 : n ≠ INT_MIN)
    (hd : d ≠ 0) (hd2 : d ≠ INT_MIN) :
    ri_new ndebug n d =
      Res.ok ⟨((n.natAbs / Int.gcd n d : Nat) : Int),
        signum n * signum d * ((d.natAbs / Int.gcd n d : Nat) : Int)⟩ := by
  have hg : gcd (iabs n) (iabs d) = (Int.gcd n d : Int) := gcd_iabs hn hd
  have hg0 : (Int.gcd n d : Int) ≠ 0 := by
    have := Int.gcd_pos_of_ne_zero_left d hn
    omega
  have hs : signum n * signum d = 1 ∨ signum n * signum d = -1 := by
    unfold signum; split_ifs <;> omega
  unfold ri_new
  rw [cassert_of hd, cassert_of (And.intro hd2 hn2)]
  simp only [Res.ok_bind]
  rw [if_neg (by simp [hn, hn2, hd, hd2])]
  simp only [hg]
  rw [cassert_of hs, cassert_of hg0, cdiv_of_ne hg0, cdiv_of_ne hg0]
  simp only [Res.ok_bind, Res.pure_eq, iabs_eq]
  congr 2
  rcases hs with hs | hs <;> rw [hs]
  · simp only [one_mul]; rfl
  · rw [show (-1 : Int) * (d.natAbs : Int) = -(d.natAbs : Int) by ring, Int.neg_tdiv]
    simp only [neg_mul, one_mul, neg_inj]; rfl

/-! ## Stored fractions and rational numbers -/

theorem rat_of_coprime {x y : Int} (hy : y ≠ 0) (h : Int.gcd x y = 1) :
    ((x : ℚ) / (y : ℚ)).num = Int.sign y * x ∧ (((x : ℚ) / (y : ℚ)).den : Int) = |y| := by
  have hc : Nat.Coprime x.natAbs y.natAbs := by
    rw [Int.gcd_eq_natAbs] at h; exact h
  rcases lt_or_gt_of_ne hy with hneg | hpos
  · have e : (x : ℚ) / (y : ℚ) = ((-x : Int) : ℚ) / ((-y : Int) : ℚ) := by
      push_cast; rw [neg_div_neg_eq]
    have hc2 : Nat.Coprime (-x).natAbs (-y).natAbs := by simpa using hc
    rw [e, Rat.num_div_eq_of_coprime (by omega) hc2, Rat.den_div_eq_of_coprime (by omega) hc2,
      Int.sign_eq_neg_one_of_neg hneg, abs_of_neg hneg]
    constructor <;> ring
  · rw [Rat.num_div_eq_of_coprime hpos hc, Rat.den_div_eq_of_coprime hpos hc,
      Int.sign_eq_one_of_pos hpos, abs_of_pos hpos]
    constructor <;> ring

theorem canon_of_coprime {x y : Int} (hx : x ≠ 0) (hy : y ≠ 0) (h : Int.gcd x y = 1) :
    canon ((x : ℚ) / (y : ℚ)) = ⟨|x|, signum x * signum y * |y|⟩ := by
  obtain ⟨h1, h2⟩ := rat_of_coprime hy h
  unfold canon
  rw [h1, h2]
  rcases lt_or_gt_of_ne hy with hneg | hpos <;> rcases lt_or_gt_of_ne hx with xneg | xpos
  · rw [Int.sign_eq_neg_one_of_neg hneg, signum_neg hneg, signum_neg xneg, if_neg (by omega)]
    congr 1
    · rw [abs_of_pos (by omega), abs_of_neg xneg]; ring
    · ring
  · rw [Int.sign_eq_neg_one_of_neg hneg, signum_neg hneg, signum_pos xpos, if_pos (by omega)]
    congr 1
    · rw [abs_of_neg (by omega), abs_of_pos xpos]; ring
    · ring
  · rw [Int.sign_eq_one_of_pos hpos, signum_pos hpos, signum_neg xneg, if_pos (by omega)]
    congr 1
    · rw [abs_of_neg (by omega), abs_of_neg xneg]; ring
    · ring
  · rw [Int.sign_eq_one_of_pos hpos, signum_pos hpos, signum_pos xpos, if_neg (by omega)]
    congr 1
    · rw [abs_of_pos (by omega), abs_of_pos xpos]; ring
    · ring

theorem canon_zero : canon 0 = ⟨0, 1⟩ := by
  simp [canon]

theorem val_canon (q : ℚ) : val (canon q) = q := by
  unfold val canon
  by_cases h : q.num < 0
  · simp only [if_pos h, abs_of_neg h]
    push_cast
    rw [neg_div_neg_eq]
    exact Rat.num_div_den q
  · simp only [if_neg h, abs_of_nonneg (not_lt.mp h)]
    exact Rat.num_div_den q

theorem canon_val {v : RationalInt} (h : Canonical v) : canon (val v) = v := by
  obtain ⟨h1, _, h3, _, _, h6, h7⟩ := (canonical_iff v).mp h
  by_cases hn : v.numerator = 0
  · have hd := h7 hn
    have e : v = ⟨0, 1⟩ := by
      cases v; simp only [RationalInt.mk.injEq]; exact ⟨hn, hd⟩
    rw [e]; simp [val, canon]
  · unfold val
    rw [canon_of_coprime hn h3 h6, signum_pos (by omega), abs_of_nonneg h1]
    cases v with
    | mk n d =>
      simp only [RationalInt.mk.injEq, true_and, one_mul]
      rw [← Int.natCast_natAbs]
      exact signum_mul_natAbs d

/-- Two canonical fractions that denote the same rational number are identical. -/
theorem canonical_ext {v w : RationalInt} (hv : Canonical v) (hw : Canonical w)
    (h : val v = val w) : v = w := by
  rw [← canon_val hv, ← canon_val hw, h]

theorem fits_val {v : RationalInt} (h : Canonical v) : Fits (val v) := by
  obtain ⟨h1, h2, h3, h4, h5, h6, _⟩ := (canonical_iff v).mp h
  obtain ⟨e1, e2⟩ := rat_of_coprime h3 h6
  unfold Fits val
  rw [e1, e2, abs_mul, Int.abs_sign_of_nonzero h3, one_mul, abs_of_nonneg h1]
  exact ⟨h2, abs_le.mpr ⟨h4, h5⟩⟩

theorem canonical_canon {q : ℚ} (h : Fits q) : Canonical (canon q) := by
  rw [canonical_iff]
  unfold Fits INT_MAX at h
  unfold canon INT_MAX
  have hd : (0 : Int) < (q.den : Int) := by exact_mod_cast q.den_pos
  have hc : Nat.gcd q.num.natAbs q.den = 1 := q.reduced
  have hz : |q.num| = 0 → q.num = 0 := fun h0 => abs_eq_zero.mp h0
  by_cases hneg : q.num < 0
  · simp only [if_pos hneg]
    refine ⟨abs_nonneg _, h.1, by omega, by omega, by omega, ?_, fun h0 => by omega⟩
    simp only [Int.gcd_eq_natAbs, Int.natAbs_abs, Int.natAbs_neg, Int.natAbs_ofNat]
    exact hc
  · simp only [if_neg hneg]
    refine ⟨abs_nonneg _, h.1, by omega, by omega, by omega, ?_, fun h0 => ?_⟩
    · simp only [Int.gcd_eq_natAbs, Int.natAbs_abs, Int.natAbs_ofNat]
      exact hc
    · have hq : q = 0 := Rat.zero_of_num_zero (hz h0)
      subst hq
      rfl

/-! ## Reduction to lowest terms -/

theorem signum_mul_pos (x : Int) {g : Int} (hg : 0 < g) : signum (x * g) = signum x := by
  rcases lt_trichotomy x 0 with h | h | h
  · rw [signum_neg h, signum_neg (mul_neg_of_neg_of_pos h hg)]
  · subst h; simp [signum]
  · rw [signum_pos h, signum_pos (mul_pos h hg)]

/-- Dividing two non-zero integers by their greatest common divisor. -/
theorem reduce_facts (n d : Int) (hn : n ≠ 0) (hd : d ≠ 0) :
    n / (Int.gcd n d : Int) * (Int.gcd n d : Int) = n ∧
    d / (Int.gcd n d : Int) * (Int.gcd n d : Int) = d ∧
    Int.gcd (n / (Int.gcd n d : Int)) (d / (Int.gcd n d : Int)) = 1 ∧
    (n / (Int.gcd n d : Int)).natAbs = n.natAbs / Int.gcd n d ∧
    (d / (Int.gcd n d : Int)).natAbs = d.natAbs / Int.gcd n d ∧
    (n : ℚ) / (d : ℚ) =
      ((n / (Int.gcd n d : Int) : Int) : ℚ) / ((d / (Int.gcd n d : Int) : Int) : ℚ) := by
  have hg : 0 < Int.gcd n d := Int.gcd_pos_of_ne_zero_left d hn
  have hgz : (Int.gcd n d : Int) ≠ 0 := by omega
  have h1 : n / (Int.gcd n d : Int) * (Int.gcd n d : Int) = n :=
    Int.ediv_mul_cancel Int.gcd_dvd_left
  have h2 : d / (Int.gcd n d : Int) * (Int.gcd n d : Int) = d :=
    Int.ediv_mul_cancel Int.gcd_dvd_right
  refine ⟨h1, h2, Int.gcd_div_gcd_div_gcd hg, ?_, ?_, ?_⟩
  · rw [Int.natAbs_ediv _ _ Int.gcd_dvd_left, Int.natAbs_ofNat]
  · rw [Int.natAbs_ediv _ _ Int.gcd_dvd_right, Int.natAbs_ofNat]
  · have hgq : ((Int.gcd n d : Int) : ℚ) ≠ 0 := by exact_mod_cast hgz
    have hy : ((d / (Int.gcd n d : Int) : Int) : ℚ) ≠ 0 := by
      intro h0
      have : d / (Int.gcd n d : Int) = 0 := by exact_mod_cast h0
      rw [this, zero_mul] at h2
      exact hd h2.symm
    have hdq : (d : ℚ) ≠ 0 := by exact_mod_cast hd
    rw [div_eq_div_iff hdq hy]
    have e1 : (n : ℚ) = ((n / (Int.gcd n d : Int) : Int) : ℚ) * ((Int.gcd n d : Int) : ℚ) := by
      exact_mod_cast h1.symm
    have e2 : (d : ℚ) = ((d / (Int.gcd n d : Int) : Int) : ℚ) * ((Int.gcd n d : Int) : ℚ) := by
      exact_mod_cast h2.symm
    rw [e1, e2]
    ring

/-- On every valid input `ri_new` returns the canonical representation of `n / d`. -/
theorem ri_new_eq_canon (ndebug : Bool) {n d : Int} (hn2 : n ≠ INT_MIN)
    (hd : d ≠ 0) (hd2 : d ≠ INT_MIN) :
    ri_new ndebug n d = Res.ok (canon ((n : ℚ) / (d : ℚ))) := by
  by_cases hn : n = 0
  · subst hn
    rw [ri_new_zero ndebug hd hd2]
    simp [canon_zero]
  · obtain ⟨h1, h2, h3, h4, h5, h6⟩ := reduce_facts n d hn hd
    have hg : (0 : Int) < (Int.gcd n d : Int) := by
      have := Int.gcd_pos_of_ne_zero_left d hn
      omega
    have hx : n / (Int.gcd n d : Int) ≠ 0 := by
      intro h0; rw [h0, zero_mul] at h1; exact hn h1.symm
    have hy : d / (Int.gcd n d : Int) ≠ 0 := by
      intro h0; rw [h0, zero_mul] at h2; exact hd h2.symm
    have s1 : signum (n / (Int.gcd n d : Int)) = signum n := by
      rw [← signum_mul_pos _ hg, h1]
    have s2 : signum (d / (Int.gcd n d : Int)) = signum d := by
      rw [← signum_mul_pos _ hg, h2]
    rw [ri_new_ok ndebug hn hn2 hd hd2, h6, canon_of_coprime hx hy h3, s1, s2,
      ← Int.natCast_natAbs, ← Int.natCast_natAbs, h4, h5]

theorem ri_new_fail {n d : Int} (h : d = 0 ∨ d = INT_MIN ∨ n = INT_MIN) :
    ri_new false n d = Res.fail Fault.assertion := by
  unfold ri_new
  by_cases hd : d ≠ 0
  · rw [cassert_of hd, cassert_fail (by tauto)]
    rfl
  · rw [cassert_fail hd]
    rfl

/-- Numerator and denominator of the lowest-terms form of `n / d`. -/
theorem rat_num_den {x y : Int} (hy : y ≠ 0) (h : Int.gcd x y = 1) :
    Fits ((x : ℚ) / (y : ℚ)) ↔ |x| ≤ INT_MAX ∧ |y| ≤ INT_MAX := by
  obtain ⟨h1, h2⟩ := rat_of_coprime hy h
  unfold Fits
  rw [h1, h2, abs_mul, Int.abs_sign_of_nonzero hy, one_mul]

/-- Whatever `ri_new` returns on `int` arguments is canonical. -/
theorem ri_new_canonical {ndebug : Bool} {n d : Int} {r : RationalInt}
    (hn : InInt n) (hd : InInt d) (h : ri_new ndebug n d = Res.ok r) : Canonical r := by
  by_cases hdeg : n = 0 ∨ n = INT_MIN ∨ d = 0 ∨ d = INT_MIN
  · unfold ri_new at h
    rw [if_pos hdeg] at h
    obtain ⟨_, _, h⟩ := Res.bind_eq_ok h
    obtain ⟨_, _, h⟩ := Res.bind_eq_ok h
    cases h
    exact canonical_zero
  · have hn0 : n ≠ 0 := fun e => hdeg (Or.inl e)
    have hn2 : n ≠ INT_MIN := fun e => hdeg (Or.inr (Or.inl e))
    have hd0 : d ≠ 0 := fun e => hdeg (Or.inr (Or.inr (Or.inl e)))
    have hd2 : d ≠ INT_MIN := fun e => hdeg (Or.inr (Or.inr (Or.inr e)))
    rw [ri_new_eq_canon ndebug hn2 hd0 hd2] at h
    cases h
    apply canonical_canon
    obtain ⟨h1, h2, h3, h4, h5, h6⟩ := reduce_facts n d hn0 hd0
    have hy : d / (Int.gcd n d : Int) ≠ 0 := by
      intro h0; rw [h0, zero_mul] at h2; exact hd0 h2.symm
    rw [h6, rat_num_den hy h3]
    rw [Int.abs_eq_natAbs, Int.abs_eq_natAbs, h4, h5]
    unfold InInt INT_MIN INT_MAX at hn hd
    unfold INT_MIN at hn2 hd2
    unfold INT_MAX
    have a1 : n.natAbs / Int.gcd n d ≤ n.natAbs := Nat.div_le_self _ _
    have a2 : d.natAbs / Int.gcd n d ≤ d.natAbs := Nat.div_le_self _ _
    omega

/-- The two quotients `rn / dv` and `rd / dv` of the shared tail are coprime,
non-zero, and denote the same rational number as `rn / rd`. -/
theorem reduce_wide {rn rd : Int} (hn : rn ≠ 0) (hd : rd ≠ 0) :
    gcd_ll rn rd ≠ 0 ∧ Int.tdiv rn (gcd_ll rn rd) ≠ 0 ∧ Int.tdiv rd (gcd_ll rn rd) ≠ 0 ∧
    Int.gcd (Int.tdiv rn (gcd_ll rn rd)) (Int.tdiv rd (gcd_ll rn rd)) = 1 ∧
    (rn : ℚ) / (rd : ℚ) =
      ((Int.tdiv rn (gcd_ll rn rd) : Int) : ℚ) / ((Int.tdiv rd (gcd_ll rn rd) : Int) : ℚ) := by
  obtain ⟨h1, h2, h3, _, _, h6⟩ := reduce_facts rn rd hn hd
  have hg : 0 < Int.gcd rn rd := Int.gcd_pos_of_ne_zero_left rd hn
  have hx : rn / (Int.gcd rn rd : Int) ≠ 0 := by
    intro h0; rw [h0, zero_mul] at h1; exact hn h1.symm
  have hy : rd / (Int.gcd rn rd : Int) ≠ 0 := by
    intro h0; rw [h0, zero_mul] at h2; exact hd h2.symm
  have hdv := gcd_ll_natAbs hn hd
  have t1 : Int.tdiv rn (Int.gcd rn rd : Int) = rn / (Int.gcd rn rd : Int) :=
    Int.tdiv_eq_ediv_of_dvd Int.gcd_dvd_left
  have t2 : Int.tdiv rd (Int.gcd rn rd : Int) = rd / (Int.gcd rn rd : Int) :=
    Int.tdiv_eq_ediv_of_dvd Int.gcd_dvd_right
  rcases Int.natAbs_eq (gcd_ll rn rd) with e | e
  · rw [hdv] at e
    rw [e, t1, t2]
    exact ⟨by omega, hx, hy, h3, h6⟩
  · rw [hdv] at e
    rw [e, Int.tdiv_neg, Int.tdiv_neg, t1, t2]
    refine ⟨by omega, by omega, by omega, ?_, ?_⟩
    · rw [Int.gcd_eq_natAbs, Int.natAbs_neg, Int.natAbs_neg, ← Int.gcd_eq_natAbs]
      exact h3
    · rw [h6]
      push_cast
      rw [neg_div_neg_eq]

/-- The shared tail, in either build: when the lowest-terms form of `rn / rd`
fits, the result is its canonical representation. -/
theorem ri_reduce_fits (ndebug : Bool) {rn rd : Int} (hn : rn ≠ 0) (hd : rd ≠ 0)
    (hf : Fits ((rn : ℚ) / (rd : ℚ))) :
    ri_reduce ndebug rn rd = Res.ok (canon ((rn : ℚ) / (rd : ℚ))) := by
  obtain ⟨hdv, hx, hy, hc, hq⟩ := reduce_wide hn hd
  unfold ri_reduce
  simp only [cdiv_of_ne hdv, Res.ok_bind]
  rw [hq] at hf ⊢
  have hfit := rat_num_den hy hc
  generalize Int.tdiv rn (gcd_ll rn rd) = nr at *
  generalize Int.tdiv rd (gcd_ll rn rd) = dr at *
  have hm : INT_MAX = 2147483647 := rfl
  have hi : INT_MIN = -2147483648 := rfl
  obtain ⟨f1, f2⟩ := hfit.mp hf
  rw [abs_le] at f1 f2
  have i1 : InInt nr := ⟨by omega, f1.2⟩
  have i2 : InInt dr := ⟨by omega, f2.2⟩
  rw [cassert_of (show nr ≤ INT_MAX ∧ nr ≥ INT_MIN from ⟨i1.2, i1.1⟩),
    cassert_of (show dr ≤ INT_MAX ∧ dr ≥ INT_MIN from ⟨i2.2, i2.1⟩)]
  simp only [Res.ok_bind]
  rw [toInt_of_inInt i1, toInt_of_inInt i2]
  exact ri_new_eq_canon ndebug (by omega) hy (by omega)

/-- The shared tail with assertions enabled: when the lowest-terms form of
`rn / rd` does not fit, one of the assertions fails. -/
theorem ri_reduce_unfit {rn rd : Int} (hn : rn ≠ 0) (hd : rd ≠ 0)
    (hf : ¬ Fits ((rn : ℚ) / (rd : ℚ))) :
    ri_reduce false rn rd = Res.fail Fault.assertion := by
  obtain ⟨hdv, hx, hy, hc, hq⟩ := reduce_wide hn hd
  unfold ri_reduce
  simp only [cdiv_of_ne hdv, Res.ok_bind]
  rw [hq] at hf
  have hfit := rat_num_den hy hc
  generalize Int.tdiv rn (gcd_ll rn rd) = nr at *
  generalize Int.tdiv rd (gcd_ll rn rd) = dr at *
  have hm : INT_MAX = 2147483647 := rfl
  have hi : INT_MIN = -2147483648 := rfl
  by_cases a1 : nr ≤ INT_MAX ∧ nr ≥ INT_MIN
  · rw [cassert_of a1]
    by_cases a2 : dr ≤ INT_MAX ∧ dr ≥ INT_MIN
    · rw [cassert_of a2]
      simp only [Res.ok_bind]
      rw [toInt_of_inInt ⟨a1.2, a1.1⟩, toInt_of_inInt ⟨a2.2, a2.1⟩]
      apply ri_new_fail
      by_contra hne
      push_neg at hne
      apply hf
      rw [hfit, abs_le, abs_le]
      omega
    · rw [cassert_fail a2]; rfl
  · rw [cassert_fail a1]; rfl

/-! ## The four arithmetic operations -/

theorem fits_zero : Fits 0 := by
  unfold Fits INT_MAX
  simp

theorem ri_new_zero_one (ndebug : Bool) : ri_new ndebug 0 1 = Res.ok ⟨0, 1⟩ :=
  ri_new_zero ndebug (by decide) (by decide)

theorem val_add {a b : RationalInt} (ha : a.denominator ≠ 0) (hb : b.denominator ≠ 0) :
    val a + val b =
      ((a.numerator * b.denominator + b.numerator * a.denominator : Int) : ℚ) /
        ((a.denominator * b.denominator : Int) : ℚ) := by
  have h1 : (a.denominator : ℚ) ≠ 0 := by exact_mod_cast ha
  have h2 : (b.denominator : ℚ) ≠ 0 := by exact_mod_cast hb
  unfold val
  push_cast
  field_simp
  try ring

theorem val_sub {a b : RationalInt} (ha : a.denominator ≠ 0) (hb : b.denominator ≠ 0) :
    val a - val b =
      ((a.numerator * b.denominator - b.numerator * a.denominator : Int) : ℚ) /
        ((a.denominator * b.denominator : Int) : ℚ) := by
  have h1 : (a.denominator : ℚ) ≠ 0 := by exact_mod_cast ha
  have h2 : (b.denominator : ℚ) ≠ 0 := by exact_mod_cast hb
  unfold val
  push_cast
  field_simp
  try ring

theorem val_mul (a b : RationalInt) :
    val a * val b =
      ((a.numerator * b.numerator : Int) : ℚ) / ((a.denominator * b.denominator : Int) : ℚ) := by
  unfold val
  push_cast
  rw [div_mul_div_comm]

theorem val_div (a b : RationalInt) :
    val a / val b =
      ((a.numerator * b.denominator : Int) : ℚ) / ((a.denominator * b.numerator : Int) : ℚ) := by
  unfold val
  push_cast
  rw [div_div_div_eq]

theorem ri_add_fits (ndebug : Bool) {a b : RationalInt} (ha : a.denominator ≠ 0)
    (hb : b.denominator ≠ 0) (hf : Fits (val a + val b)) :
    ri_add ndebug a b = Res.ok (canon (val a + val b)) := by
  have hv := val_add ha hb
  unfold ri_add
  by_cases h0 : a.numerator * b.denominator + b.numerator * a.denominator = 0
  · simp only [if_pos h0]
    rw [hv, h0, ri_new_zero_one]
    simp [canon_zero]
  · simp only [if_neg h0]
    rw [hv] at hf ⊢
    exact ri_reduce_fits ndebug h0 (mul_ne_zero ha hb) hf

theorem ri_add_unfit {a b : RationalInt} (ha : a.denominator ≠ 0)
    (hb : b.denominator ≠ 0) (hf : ¬ Fits (val a + val b)) :
    ri_add false a b = Res.fail Fault.assertion := by
  have hv := val_add ha hb
  unfold ri_add
  by_cases h0 : a.numerator * b.denominator + b.numerator * a.denominator = 0
  · exfalso
    apply hf
    rw [hv, h0]
    simpa using fits_zero
  · simp only [if_neg h0]
    rw [hv] at hf
    exact ri_reduce_unfit h0 (mul_ne_zero ha hb) hf

theorem ri_sub_fits (ndebug : Bool) {a b : RationalInt} (ha : a.denominator ≠ 0)
    (hb : b.denominator ≠ 0) (hf : Fits (val a - val b)) :
    ri_sub ndebug a b = Res.ok (canon (val a - val b)) := by
  have hv := val_sub ha hb
  unfold ri_sub
  by_cases h0 : a.numerator * b.denominator - b.numerator * a.denominator = 0
  · simp only [if_pos h0]
    rw [hv, h0, ri_new_zero_one]
    simp [canon_zero]
  · simp only [if_neg h0]
    rw [hv] at hf ⊢
    exact ri_reduce_fits ndebug h0 (mul_ne_zero ha hb) hf

theorem ri_sub_unfit {a b : RationalInt} (ha : a.denominator ≠ 0)
    (hb : b.denominator ≠ 0) (hf : ¬ Fits (val a - val b)) :
    ri_sub false a b = Res.fail Fault.assertion := by
  have hv := val_sub ha hb
  unfold ri_sub
  by_cases h0 : a.numerator * b.denominator - b.numerator * a.denominator = 0
  · exfalso
    apply hf
    rw [hv, h0]
    simpa using fits_zero
  · simp only [if_neg h0]
    rw [hv] at hf
    exact ri_reduce_unfit h0 (mul_ne_zero ha hb) hf

theorem ri_mul_fits (ndebug : Bool) {a b : RationalInt} (ha : a.denominator ≠ 0)
    (hb : b.denominator ≠ 0) (hf : Fits (val a * val b)) :
    ri_mul ndebug a b = Res.ok (canon (val a * val b)) := by
  have hv := val_mul a b
  unfold ri_mul
  by_cases h0 : a.numerator * b.numerator = 0
  · simp only [if_pos h0]
    rw [hv, h0, ri_new_zero_one]
    simp [canon_zero]
  · simp only [if_neg h0]
    rw [hv] at hf ⊢
    exact ri_reduce_fits ndebug h0 (mul_ne_zero ha hb) hf

theorem ri_mul_unfit {a b : RationalInt} (ha : a.denominator ≠ 0)
    (hb : b.denominator ≠ 0) (hf : ¬ Fits (val a * val b)) :
    ri_mul false a b = Res.fail Fault.assertion := by
  have hv := val_mul a b
  unfold ri_mul
  by_cases h0 : a.numerator * b.numerator = 0
  · exfalso
    apply hf
    rw [hv, h0]
    simpa using fits_zero
  · simp only [if_neg h0]
    rw [hv] at hf
    exact ri_reduce_unfit h0 (mul_ne_zero ha hb) hf

theorem ri_div_fits (ndebug : Bool) {a b : RationalInt} (ha : a.denominator ≠ 0)
    (hb : b.denominator ≠ 0) (hbn : b.numerator ≠ 0) (hf : Fits (val a / val b)) :
    ri_div ndebug a b = Res.ok (canon (val a / val b)) := by
  have hv := val_div a b
  unfold ri_div
  rw [cassert_of hbn]
  simp only [Res.ok_bind]
  by_cases h0 : a.numerator = 0
  · simp only [if_pos h0]
    rw [hv, h0, ri_new_zero_one]
    simp [canon_zero]
  · simp only [if_neg h0]
    rw [hv] at hf ⊢
    exact ri_reduce_fits ndebug (mul_ne_zero h0 hb) (mul_ne_zero ha hbn) hf

theorem ri_div_unfit {a b : RationalInt} (ha : a.denominator ≠ 0)
    (hb : b.denominator ≠ 0) (hbn : b.numerator ≠ 0) (hf : ¬ Fits (val a / val b)) :
    ri_div false a b = Res.fail Fault.assertion := by
  have hv := val_div a b
  unfold ri_div
  rw [cassert_of hbn]
  simp only [Res.ok_bind]
  by_cases h0 : a.numerator = 0
  · exfalso
    apply hf
    rw [hv, h0]
    simpa using fits_zero
  · simp only [if_neg h0]
    rw [hv] at hf
    exact ri_reduce_unfit (mul_ne_zero h0 hb) (mul_ne_zero ha hbn) hf

theorem canonical_den_ne {v : RationalInt} (h : Canonical v) : v.denominator ≠ 0 :=
  ((canonical_iff v).mp h).2.2.1

/-! ## Every returned value is canonical -/

theorem ri_reduce_canonical {ndebug : Bool} {rn rd : Int} {r : RationalInt}
    (h : ri_reduce ndebug rn rd = Res.ok r) : Canonical r := by
  unfold ri_reduce at h
  obtain ⟨_, _, h⟩ := Res.bind_eq_ok h
  obtain ⟨_, _, h⟩ := Res.bind_eq_ok h
  obtain ⟨_, _, h⟩ := Res.bind_eq_ok h
  obtain ⟨_, _, h⟩ := Res.bind_eq_ok h
  exact ri_new_canonical (toInt_inInt _) (toInt_inInt _) h

theorem ri_new_zero_one_canonical {ndebug : Bool} {k : Int} {r : RationalInt}
    (hk : InInt k) (h : ri_new ndebug k 1 = Res.ok r) : Canonical r :=
  ri_new_canonical hk (by decide) h

theorem ri_add_canonical {ndebug : Bool} {a b r : RationalInt}
    (h : ri_add ndebug a b = Res.ok r) : Canonical r := by
  unfold ri_add at h
  simp only at h
  split_ifs at h
  · exact ri_new_zero_one_canonical (by decide) h
  · exact ri_reduce_canonical h

theorem ri_sub_canonical {ndebug : Bool} {a b r : RationalInt}
    (h : ri_sub ndebug a b = Res.ok r) : Canonical r := by
  unfold ri_sub at h
  simp only at h
  split_ifs at h
  · exact ri_new_zero_one_canonical (by decide) h
  · exact ri_reduce_canonical h

theorem ri_mul_canonical {ndebug : Bool} {a b r : RationalInt}
    (h : ri_mul ndebug a b = Res.ok r) : Canonical r := by
  unfold ri_mul at h
  simp only at h
  split_ifs at h
  · exact ri_new_zero_one_canonical (by decide) h
  · exact ri_reduce_canonical h

theorem ri_div_canonical {ndebug : Bool} {a b r : RationalInt}
    (h : ri_div ndebug a b = Res.ok r) : Canonical r := by
  unfold ri_div at h
  obtain ⟨_, _, h⟩ := Res.bind_eq_ok h
  split_ifs at h
  · exact ri_new_zero_one_canonical (by decide) h
  · exact ri_reduce_canonical h

theorem ri_mod_canonical {ndebug : Bool} {a b r : RationalInt}
    (h : ri_mod ndebug a b = Res.ok r) : Canonical r := by
  unfold ri_mod at h
  obtain ⟨_, _, h⟩ := Res.bind_eq_ok h
  obtain ⟨_, _, h⟩ := Res.bind_eq_ok h
  obtain ⟨_, _, h⟩ := Res.bind_eq_ok h
  obtain ⟨_, _, h⟩ := Res.bind_eq_ok h
  obtain ⟨rv, h1, h⟩ := Res.bind_eq_ok h
  cases h
  exact ri_sub_canonical h1

theorem ri_rec_canonical {ndebug : Bool} {a r : RationalInt} (ha : Canonical a)
    (h : ri_rec ndebug a = Res.ok r) : Canonical r := by
  unfold ri_rec at h
  obtain ⟨_, _, h⟩ := Res.bind_eq_ok h
  exact ri_new_canonical ha.2.1 ha.1 h

theorem tdiv_inInt {n d : Int} (h0 : 0 ≤ n) (hn : n ≤ INT_MAX) : InInt (Int.tdiv n d) := by
  have h1 : (Int.tdiv n d).natAbs ≤ n.natAbs := by
    rw [Int.natAbs_tdiv]; exact Nat.div_le_self _ _
  unfold InInt INT_MIN INT_MAX
  unfold INT_MAX at hn
  omega

theorem tmod_inInt {n d : Int} (h0 : 0 ≤ n) (hn : n ≤ INT_MAX) : InInt (Int.tmod n d) := by
  have h1 : (Int.tmod n d).natAbs ≤ n.natAbs := by
    rw [natAbs_tmod]; exact Nat.mod_le _ _
  unfold InInt INT_MIN INT_MAX
  unfold INT_MAX at hn
  omega

theorem ri_integer_canonical {ndebug : Bool} {a r : RationalInt} (ha : Canonical a)
    (h : ri_integer ndebug a = Res.ok r) : Canonical r := by
  obtain ⟨h1, h2, h3, _⟩ := (canonical_iff a).mp ha
  unfold ri_integer at h
  rw [cdiv_of_ne h3] at h
  exact ri_new_zero_one_canonical (tdiv_inInt h1 h2) h

theorem ri_fraction_canonical {ndebug : Bool} {a r : RationalInt} (ha : Canonical a)
    (h : ri_fraction ndebug a = Res.ok r) : Canonical r := by
  obtain ⟨h1, h2, h3, _⟩ := (canonical_iff a).mp ha
  unfold ri_fraction at h
  rw [cmod_of_ne h3] at h
  exact ri_new_canonical (tmod_inInt h1 h2) ha.2.1 h

theorem pow_loop_canonical (ndebug : Bool) : ∀ (f : Nat) (i : Int) (res fac r : RationalInt),
    Canonical res → pow_loop ndebug f i res fac = Res.ok r → Canonical r
  | 0, i, res, fac, r, hres, h => by
    unfold pow_loop at h
    split_ifs at h
    cases h
    exact hres
  | f + 1, i, res, fac, r, hres, h => by
    unfold pow_loop at h
    by_cases h0 : i = 0
    · rw [if_pos h0] at h
      cases h
      exact hres
    · rw [if_neg h0] at h
      obtain ⟨res2, e1, h⟩ := Res.bind_eq_ok h
      obtain ⟨fac2, _, h⟩ := Res.bind_eq_ok h
      have hres2 : Canonical res2 := by
        by_cases hp : i % 2 ≠ 0
        · rw [if_pos hp] at e1; exact ri_mul_canonical e1
        · rw [if_neg hp] at e1; cases e1; exact hres
      exact pow_loop_canonical ndebug f _ res2 fac2 r hres2 h

theorem ri_pow_canonical {ndebug : Bool} {a b r : RationalInt}
    (h : ri_pow ndebug a b = Res.ok r) : Canonical r := by
  unfold ri_pow at h
  obtain ⟨_, _, h⟩ := Res.bind_eq_ok h
  by_cases h1 : a.numerator = 0
  · rw [if_pos h1] at h
    exact ri_new_zero_one_canonical (by decide) h
  · rw [if_neg h1] at h
    by_cases h2 : b.numerator = 0
    · rw [if_pos h2] at h
      exact ri_new_zero_one_canonical (by decide) h
    · rw [if_neg h2] at h
      obtain ⟨one, e1, h⟩ := Res.bind_eq_ok h
      obtain ⟨res, e2, h⟩ := Res.bind_eq_ok h
      have hone : Canonical one := ri_new_zero_one_canonical (by decide) e1
      have hres : Canonical res := pow_loop_canonical ndebug 32 _ one a res hone e2
      by_cases h3 : b.denominator < 0
      · rw [if_pos h3] at h
        exact ri_rec_canonical hres h
      · rw [if_neg h3] at h
        cases h
        exact hres

/-- Deciding `Fits` for a rational number given as a quotient in lowest terms. -/
theorem fits_of_eq {q : ℚ} {x y : Int} (hq : q = (x : ℚ) / (y : ℚ)) (hy : y ≠ 0)
    (hc : Int.gcd x y = 1) : Fits q ↔ |x| ≤ INT_MAX ∧ |y| ≤ INT_MAX := by
  rw [hq]
  exact rat_num_den hy hc

theorem gcd_iabs_right (n d : Int) : Int.gcd n (iabs d) = Int.gcd n d := by
  rw [iabs_eq, Int.gcd_eq_natAbs, Int.gcd_eq_natAbs, Int.natAbs_ofNat]

/-! ## What a returned value denotes (assertions enabled) -/

theorem ri_add_ok {a b r : RationalInt} (ha : a.denominator ≠ 0) (hb : b.denominator ≠ 0)
    (h : ri_add false a b = Res.ok r) : val r = val a + val b := by
  by_cases hf : Fits (val a + val b)
  · rw [ri_add_fits false ha hb hf] at h
    cases h
    exact val_canon _
  · rw [ri_add_unfit ha hb hf] at h
    cases h

theorem ri_cmp_self (ndebug : Bool) (a : RationalInt) : ri_cmp ndebug a a = Res.ok 0 := by
  unfold ri_cmp
  rw [if_pos ⟨rfl, rfl⟩]
  rfl

/-! ## Integer part -/

theorem qtrunc_div {n d : Int} (hn : 0 ≤ n) (hd : d ≠ 0) :
    qtrunc ((n : ℚ) / (d : ℚ)) = Int.tdiv n d := by
  rcases lt_or_gt_of_ne hd with hneg | hpos
  · obtain ⟨k, hk⟩ := Int.eq_ofNat_of_zero_le (show 0 ≤ -d by omega)
    have hd' : d = -(k : Int) := by omega
    have hkpos : (0 : ℚ) < (k : ℚ) := by
      have : 0 < k := by omega
      exact_mod_cast this
    subst hd'
    rw [Int.tdiv_neg, Int.tdiv_eq_ediv hn (by omega)]
    have hq : ((n : ℚ) / ((-(k : Int) : Int) : ℚ)) = -((n : ℚ) / (k : ℚ)) := by
      push_cast; rw [div_neg]
    have hnq : (0 : ℚ) ≤ (n : ℚ) := by exact_mod_cast hn
    have hfl : ⌊(n : ℚ) / (k : ℚ)⌋ = n / (k : Int) := Rat.floor_intCast_div_natCast n k
    rw [hq]
    unfold qtrunc
    by_cases h0 : (0 : ℚ) ≤ -((n : ℚ) / (k : ℚ))
    · rw [if_pos h0]
      have hz : (n : ℚ) / (k : ℚ) = 0 :=
        le_antisymm (by linarith) (div_nonneg hnq (le_of_lt hkpos))
      rw [← hfl, hz]
      simp
    · rw [if_neg h0, Int.ceil_neg, hfl]
  · obtain ⟨k, hk⟩ := Int.eq_ofNat_of_zero_le (show 0 ≤ d by omega)
    subst hk
    have hkpos : (0 : ℚ) ≤ (k : ℚ) := by positivity
    have hnq : (0 : ℚ) ≤ (n : ℚ) := by exact_mod_cast hn
    rw [Int.tdiv_eq_ediv hn (by omega)]
    unfold qtrunc
    rw [if_pos (by push_cast; exact div_nonneg hnq hkpos)]
    exact Rat.floor_intCast_div_natCast n k

theorem trunc_rem_facts (x y : ℚ) (hy : y ≠ 0) :
    |x - (qtrunc (x / y) : ℚ) * y| < |y| ∧
    (x - (qtrunc (x / y) : ℚ) * y = 0 ∨
      (0 < x - (qtrunc (x / y) : ℚ) * y ∧ 0 < x) ∨
      (x - (qtrunc (x / y) : ℚ) * y < 0 ∧ x < 0)) := by
  have hx : x = x / y * y := by field_simp
  have hr : x - (qtrunc (x / y) : ℚ) * y = (x / y - (qtrunc (x / y) : ℚ)) * y := by
    rw [sub_mul, ← hx]
  have hypos : 0 < |y| := abs_pos.mpr hy
  have key : |x / y - (qtrunc (x / y) : ℚ)| < 1 ∧
      0 ≤ (x / y - (qtrunc (x / y) : ℚ)) * (x / y) := by
    unfold qtrunc
    by_cases h0 : 0 ≤ x / y
    · rw [if_pos h0]
      have a1 := Int.floor_le (x / y)
      have a2 := Int.lt_floor_add_one (x / y)
      refine ⟨abs_lt.mpr ⟨by linarith, by linarith⟩, mul_nonneg (by linarith) h0⟩
    · rw [if_neg h0]
      have a1 := Int.le_ceil (x / y)
      have a2 := Int.ceil_lt_add_one (x / y)
      refine ⟨abs_lt.mpr ⟨by linarith, by linarith⟩, ?_⟩
      exact mul_nonneg_of_nonpos_of_nonpos (by linarith) (by linarith)
  obtain ⟨k1, k2⟩ := key
  constructor
  · rw [hr, abs_mul]
    calc |x / y - (qtrunc (x / y) : ℚ)| * |y| < 1 * |y| := by
          exact mul_lt_mul_of_pos_right k1 hypos
      _ = |y| := one_mul _
  · by_cases hz : x - (qtrunc (x / y) : ℚ) * y = 0
    · exact Or.inl hz
    · right
      have hprod : 0 ≤ (x - (qtrunc (x / y) : ℚ) * y) * x := by
        have e : (x - (qtrunc (x / y) : ℚ) * y) * x =
            ((x / y - (qtrunc (x / y) : ℚ)) * (x / y)) * (y * y) := by
          rw [hr]
          nth_rewrite 3 [hx]
          ring
        rw [e]
        exact mul_nonneg k2 (mul_self_nonneg y)
      have hx0 : x ≠ 0 := by
        intro h
        apply hz
        rw [h]
        simp [qtrunc]
      have hpos : 0 < (x - (qtrunc (x / y) : ℚ) * y) * x :=
        lt_of_le_of_ne hprod (Ne.symm (mul_ne_zero hz hx0))
      rcases mul_pos_iff.mp hpos with h | h
      · exact Or.inl h
      · exact Or.inr h

/-! ## The model against the source's own tests, and against the machine widths -/

/-- The model passes `p1_tester` on every row of `p1_tests`. -/
theorem p1_tests_pass :
    ∀ t ∈ p1_tests, Canonical t.2.2 ∧ ri_new false t.1 t.2.1 = Res.ok t.2.2 := by
  decide

/-- The model passes `p2_tester` on every row of `p2_tests`. -/
theorem p2_tests_pass :
    ∀ t ∈ p2_tests, Canonical t.1 ∧ Canonical t.2.1 ∧ ri_cmp false t.1 t.2.1 = Res.ok t.2.2 := by
  decide

/-- The model passes `p3_tester` on every `OP_ADD`, `OP_SUB`, `OP_MUL` and
`OP_DIV` row of `p3_tests`. -/
theorem p3_arith_tests_pass :
    (∀ t ∈ p3_add_tests, ri_add false t.1 t.2.1 = Res.ok t.2.2) ∧
    (∀ t ∈ p3_sub_tests, ri_sub false t.1 t.2.1 = Res.ok t.2.2) ∧
    (∀ t ∈ p3_mul_tests, ri_mul false t.1 t.2.1 = Res.ok t.2.2) ∧
    (∀ t ∈ p3_div_tests, ri_div false t.1 t.2.1 = Res.ok t.2.2) := by
  decide

/-- The model passes `p3_tester` on every `OP_MOD` row of `p3_tests`. -/
theorem p3_mod_tests_pass :
    ∀ t ∈ p3_mod_tests, Canonical t.1 ∧ Canonical t.2.1 ∧
      ri_mod false t.1 t.2.1 = Res.ok t.2.2 := by
  decide

/-- The model passes `p6_tester` on every row of `p6_tests`. -/
theorem p6_tests_pass :
    ∀ t ∈ p6_tests, Canonical t.1 ∧ Canonical t.2.1 ∧
      ri_pow false t.1 t.2.1 = Res.ok t.2.2 := by
  decide

/-- The model passes `p7_tester` on every row of `p7_tests`. -/
theorem p7_tests_pass :
    (∀ t ∈ p7_tests_1, p7_row_ok t = true) ∧ (∀ t ∈ p7_tests_2, p7_row_ok t = true) ∧
    (∀ t ∈ p7_tests_3, p7_row_ok t = true) ∧ (∀ t ∈ p7_tests_4, p7_row_ok t = true) := by
  refine ⟨?_, ?_, ?_, ?_⟩ <;> decide

theorem abs_mul_le {x y : Int} (hx : |x| ≤ 2147483647) (hy : |y| ≤ 2147483647) :
    |x * y| ≤ 4611686014132420609 := by
  rw [abs_mul]
  calc |x| * |y| ≤ 2147483647 * 2147483647 :=
        mul_le_mul hx hy (abs_nonneg y) (by norm_num)
    _ = 4611686014132420609 := by norm_num

theorem canonical_abs_le {v : RationalInt} (h : Canonical v) :
    |v.numerator| ≤ 2147483647 ∧ |v.denominator| ≤ 2147483647 := by
  obtain ⟨h1, h2, _, h4, h5, _⟩ := (canonical_iff v).mp h
  unfold INT_MAX at h2 h4 h5
  exact ⟨abs_le.mpr ⟨by omega, h2⟩, abs_le.mpr ⟨h4, h5⟩⟩

/-- On canonical operands every `long long` value formed by `ri_add`, `ri_sub`,
`ri_mul`, `ri_div` and `ri_cmp` is within the 64-bit range, so reading the C
arithmetic as arithmetic on integers loses nothing. -/
theorem wide_values_in_range (a b : RationalInt) (ha : Canonical a) (hb : Canonical b) :
    InLLong (a.numerator * b.denominator + b.numerator * a.denominator) ∧
    InLLong (a.numerator * b.denominator - b.numerator * a.denominator) ∧
    InLLong (a.numerator * b.numerator) ∧ InLLong (a.denominator * b.denominator) ∧
    InLLong (a.numerator * b.denominator) ∧ InLLong (a.denominator * b.numerator) ∧
    InLLong (a.numerator * iabs b.denominator) ∧ InLLong (b.numerator * iabs a.denominator) := by
  obtain ⟨a1, a2⟩ := canonical_abs_le ha
  obtain ⟨b1, b2⟩ := canonical_abs_le hb
  have p1 := abs_le.mp (abs_mul_le a1 b2)
  have p2 := abs_le.mp (abs_mul_le b1 a2)
  have p3 := abs_le.mp (abs_mul_le a1 b1)
  have p4 := abs_le.mp (abs_mul_le a2 b2)
  have p5 := abs_le.mp (abs_mul_le a2 b1)
  have i1 : |iabs b.denominator| ≤ 2147483647 := by
    rw [iabs_eq, ← Int.abs_eq_natAbs, abs_abs]; exact b2
  have i2 : |iabs a.denominator| ≤ 2147483647 := by
    rw [iabs_eq, ← Int.abs_eq_natAbs, abs_abs]; exact a2
  have p6 := abs_le.mp (abs_mul_le a1 i1)
  have p7 := abs_le.mp (abs_mul_le b1 i2)
  unfold InLLong
  refine ⟨⟨by omega, by omega⟩, ⟨by omega, by omega⟩, ⟨by omega, by omega⟩,
    ⟨by omega, by omega⟩, ⟨by omega, by omega⟩, ⟨by omega, by omega⟩,
    ⟨by omega, by omega⟩, ⟨by omega, by omega⟩⟩

/-- With assertions disabled the same overflow is not reported: the narrowed
value `INT_MIN` reaches `ri_new`, which answers `0/1`. -/
theorem ri_add_ndebug_wraps :
    ri_add true ⟨2147483647, 1⟩ ⟨1, 1⟩ = Res.ok ⟨0, 1⟩ ∧
      ri_add false ⟨2147483647, 1⟩ ⟨1, 1⟩ = Res.fail Fault.assertion := by
  decide

/-! ## Integer powers -/

/-- The lowest-terms form of a power of a canonical fraction with non-zero
numerator is the pair of powers of its numerator and of its denominator. -/
theorem fits_pow {v : RationalInt} (hv : Canonical v) (m : Nat) :
    Fits (val v ^ m) ↔ v.numerator ^ m ≤ INT_MAX ∧ |v.denominator| ^ m ≤ INT_MAX := by
  obtain ⟨h1, _, h3, _, _, h6, _⟩ := (canonical_iff v).mp hv
  have hq : val v ^ m = ((v.numerator ^ m : Int) : ℚ) / ((v.denominator ^ m : Int) : ℚ) := by
    unfold val
    push_cast
    rw [div_pow]
  have hc : Int.gcd (v.numerator ^ m) (v.denominator ^ m) = 1 := by
    rw [Int.gcd_eq_natAbs, Int.natAbs_pow, Int.natAbs_pow]
    rw [Int.gcd_eq_natAbs] at h6
    exact Nat.Coprime.pow m m h6
  rw [fits_of_eq hq (pow_ne_zero m h3) hc, abs_pow, abs_pow, abs_of_nonneg h1]

theorem fits_pow_le {v : RationalInt} (hv : Canonical v) (hn : v.numerator ≠ 0) {m k : Nat}
    (hmk : m ≤ k) (hk : Fits (val v ^ k)) : Fits (val v ^ m) := by
  obtain ⟨h1, _, h3, _, _, _, _⟩ := (canonical_iff v).mp hv
  rw [fits_pow hv] at hk ⊢
  have a1 : (1 : Int) ≤ v.numerator := by omega
  have a2 : (1 : Int) ≤ |v.denominator| := by
    have := abs_pos.mpr h3
    omega
  exact ⟨le_trans (pow_le_pow_right₀ a1 hmk) hk.1, le_trans (pow_le_pow_right₀ a2 hmk) hk.2⟩

/-- The loop of `ri_pow`, in either build: when every power up to the `k`-th
fits, the loop returns the canonical representation of the `k`-th power. -/
theorem pow_loop_fits (ndebug : Bool) {base : RationalInt} {k : Nat}
    (hfit : ∀ m, m ≤ k → Fits (val base ^ m)) :
    ∀ (f j e p : Nat) (res fac : RationalInt), Canonical res → Canonical fac →
      val res = val base ^ e → val fac = val base ^ p → e + j * p = k → j < 2 ^ f →
      pow_loop ndebug f (j : Int) res fac = Res.ok (canon (val base ^ k))
  | 0, j, e, p, res, fac, hres, _, hvr, _, hk, hj => by
    have hj0 : j = 0 := by
      simp only [pow_zero] at hj; omega
    subst hj0
    have he : e = k := by simpa using hk
    unfold pow_loop
    rw [if_pos (by simp), ← he, ← hvr, canon_val hres]
  | f + 1, j, e, p, res, fac, hres, hfac, hvr, hvf, hk, hj => by
    unfold pow_loop
    by_cases hj0 : j = 0
    · subst hj0
      have he : e = k := by simpa using hk
      rw [if_pos (by simp), ← he, ← hvr, canon_val hres]
    · rw [if_neg (by exact_mod_cast hj0)]
      have hdecomp : j = 2 * (j / 2) + j % 2 := by omega
      have hjlt : j / 2 < 2 ^ f := by
        rw [pow_succ] at hj; omega
      have hmul : ∀ (x y : RationalInt) (a b : Nat), Canonical x → Canonical y →
          val x = val base ^ a → val y = val base ^ b → a + b ≤ k →
          ri_mul ndebug x y = Res.ok (canon (val base ^ (a + b))) := by
        intro x y a b hx hy hxa hyb hab
        have hv : val x * val y = val base ^ (a + b) := by rw [hxa, hyb, pow_add]
        rw [← hv]
        apply ri_mul_fits ndebug (canonical_den_ne hx) (canonical_den_ne hy)
        rw [hv]
        exact hfit _ hab
      have hkk : e + (2 * (j / 2) + j % 2) * p = k := by rw [← hdecomp]; exact hk
      by_cases hodd : j % 2 = 1
      · have hodd' : ((j : Int) % 2 ≠ 0) := by omega
        rw [if_pos hodd']
        have hep : e + p ≤ k := by
          have : p ≤ j * p := Nat.le_mul_of_pos_left p (by omega)
          omega
        rw [hmul res fac e p hres hfac hvr hvf hep]
        simp only [Res.ok_bind]
        have hres2 : Canonical (canon (val base ^ (e + p))) := canonical_canon (hfit _ hep)
        by_cases hgt : 1 < j
        · rw [if_pos (by exact_mod_cast hgt)]
          have hpp : p + p ≤ k := by
            have : 2 * p ≤ j * p := Nat.mul_le_mul_right p (by omega)
            omega
          rw [hmul fac fac p p hfac hfac hvf hvf hpp]
          simp only [Res.ok_bind]
          have hfac2 : Canonical (canon (val base ^ (p + p))) := canonical_canon (hfit _ hpp)
          have hcast : ((j : Int) / 2) = ((j / 2 : Nat) : Int) := by omega
          rw [hcast]
          apply pow_loop_fits ndebug hfit f (j / 2) (e + p) (p + p) _ _ hres2 hfac2
            (val_canon _) (val_canon _) _ hjlt
          rw [hodd] at hkk
          rw [← hkk]; ring
        · rw [if_neg (by omega)]
          simp only [Res.ok_bind]
          have hj1 : j = 1 := by omega
          subst hj1
          have hcast : (((1 : Nat) : Int) / 2) = ((0 : Nat) : Int) := by decide
          rw [hcast]
          apply pow_loop_fits ndebug hfit f 0 (e + p) p _ _ hres2 hfac
            (val_canon _) hvf _ (by positivity)
          simpa using hk
      · have heven : j % 2 = 0 := by omega
        have heven' : ¬ ((j : Int) % 2 ≠ 0) := by omega
        rw [if_neg heven']
        simp only [Res.ok_bind]
        have hgt : 1 < j := by omega
        rw [if_pos (by exact_mod_cast hgt)]
        have hpp : p + p ≤ k := by
          have : 2 * p ≤ j * p := Nat.mul_le_mul_right p (by omega)
          omega
        rw [hmul fac fac p p hfac hfac hvf hvf hpp]
        simp only [Res.ok_bind]
        have hfac2 : Canonical (canon (val base ^ (p + p))) := canonical_canon (hfit _ hpp)
        have hcast : ((j : Int) / 2) = ((j / 2 : Nat) : Int) := by omega
        rw [hcast]
        apply pow_loop_fits ndebug hfit f (j / 2) e (p + p) _ _ hres hfac2
          hvr (val_canon _) _ hjlt
        rw [heven] at hkk
        rw [← hkk]; ring

/-- With assertions enabled a multiplication either returns the canonical
representation of the exact product or ends in a failed assertion. -/
theorem ri_mul_cases {a b : RationalInt} (ha : Canonical a) (hb : Canonical b) :
    (Fits (val a * val b) ∧ ri_mul false a b = Res.ok (canon (val a * val b))) ∨
    (¬ Fits (val a * val b) ∧ ri_mul false a b = Res.fail Fault.assertion) := by
  by_cases hf : Fits (val a * val b)
  · exact Or.inl ⟨hf, ri_mul_fits false (canonical_den_ne ha) (canonical_den_ne hb) hf⟩
  · exact Or.inr ⟨hf, ri_mul_unfit (canonical_den_ne ha) (canonical_den_ne hb) hf⟩

/-- The loop of `ri_pow` with assertions enabled: when the `k`-th power does not
fit, one of the multiplications ends in a failed assertion. -/
theorem pow_loop_unfit {base : RationalInt} {k : Nat} (hunfit : ¬ Fits (val base ^ k)) :
    ∀ (f j e p : Nat) (res fac : RationalInt), Canonical res → Canonical fac →
      val res = val base ^ e → val fac = val base ^ p → e + j * p = k → 1 ≤ j → j < 2 ^ f →
      pow_loop false f (j : Int) res fac = Res.fail Fault.assertion
  | 0, j, _, _, _, _, _, _, _, _, _, h1, hj => by
    simp only [pow_zero] at hj; omega
  | f + 1, j, e, p, res, fac, hres, hfac, hvr, hvf, hk, h1, hj => by
    unfold pow_loop
    rw [if_neg (by omega)]
    have hdecomp : j = 2 * (j / 2) + j % 2 := by omega
    have hjlt : j / 2 < 2 ^ f := by
      rw [pow_succ] at hj; omega
    have hkk : e + (2 * (j / 2) + j % 2) * p = k := by rw [← hdecomp]; exact hk
    have hcast : ((j : Int) / 2) = ((j / 2 : Nat) : Int) := by omega
    have hsq : 1 < j → ∀ (res2 : RationalInt) (e2 : Nat), Canonical res2 →
        val res2 = val base ^ e2 → e2 + (j / 2) * (p + p) = k →
        ((if (j : Int) > 1 then ri_mul false fac fac else Res.ok fac) >>= fun factor =>
          pow_loop false f ((j : Int) / 2) res2 factor) = Res.fail Fault.assertion := by
      intro hgt res2 e2 hres2 hv2 hk2
      rw [if_pos (by exact_mod_cast hgt)]
      rcases ri_mul_cases hfac hfac with ⟨hf, hok⟩ | ⟨_, hfail⟩
      · rw [hok]
        simp only [Res.ok_bind]
        rw [hcast]
        have hvv : val fac * val fac = val base ^ (p + p) := by rw [hvf, pow_add]
        exact pow_loop_unfit hunfit f (j / 2) e2 (p + p) _ _ hres2 (canonical_canon hf) hv2
          (by rw [val_canon, hvv]) hk2 (by omega) hjlt
      · rw [hfail]; rfl
    by_cases hodd : j % 2 = 1
    · have hodd' : ((j : Int) % 2 ≠ 0) := by omega
      rw [if_pos hodd']
      have hvv : val res * val fac = val base ^ (e + p) := by rw [hvr, hvf, pow_add]
      rcases ri_mul_cases hres hfac with ⟨hf, hok⟩ | ⟨_, hfail⟩
      · rw [hok]
        simp only [Res.ok_bind]
        by_cases hgt : 1 < j
        · apply hsq hgt _ (e + p) (canonical_canon hf) (by rw [val_canon, hvv])
          rw [hodd] at hkk
          rw [← hkk]; ring
        · exfalso
          have hj1 : j = 1 := by omega
          subst hj1
          apply hunfit
          have : e + p = k := by simpa using hk
          rw [← this, ← hvv]
          exact hf
      · rw [hfail]; rfl
    · have heven : j % 2 = 0 := by omega
      have heven' : ¬ ((j : Int) % 2 ≠ 0) := by omega
      rw [if_neg heven']
      simp only [Res.ok_bind]
      apply hsq (by omega) res e hres hvr
      rw [heven] at hkk
      rw [← hkk]; ring

/-- The function `ri_rec` on a canonical fraction with non-zero numerator, in
either build: the canonical representation of the reciprocal. -/
theorem ri_rec_eq (ndebug : Bool) {v : RationalInt} (hv : Canonical v) (hn : v.numerator ≠ 0) :
    ri_rec ndebug v = Res.ok (canon (val v)⁻¹) := by
  obtain ⟨h1, h2, h3, h4, h5, _, _⟩ := (canonical_iff v).mp hv
  have hm : INT_MAX = 2147483647 := rfl
  have hi : INT_MIN = -2147483648 := rfl
  unfold ri_rec
  rw [cassert_of hn]
  simp only [Res.ok_bind]
  rw [ri_new_eq_canon ndebug (by omega) hn (by omega)]
  unfold val
  rw [inv_div]

theorem canonical_one : Canonical ⟨1, 1⟩ := by decide

theorem ri_new_one_one (ndebug : Bool) : ri_new ndebug 1 1 = Res.ok ⟨1, 1⟩ := by
  cases ndebug <;> decide

theorem val_one : val ⟨1, 1⟩ = 1 := by
  unfold val; norm_num

/-- Unfolding `ri_pow` on a non-zero base and a positive integer exponent. -/
theorem ri_pow_unfold (ndebug : Bool) {base power : RationalInt} (hbn : base.numerator ≠ 0)
    (hpd : power.denominator = 1 ∨ power.denominator = -1) (hk : 1 ≤ power.numerator) :
    ri_pow ndebug base power =
      (pow_loop ndebug 32 power.numerator ⟨1, 1⟩ base >>= fun result =>
        if power.denominator < 0 then ri_rec ndebug result else Res.ok result) := by
  unfold ri_pow
  rw [cassert_of hpd]
  simp only [Res.ok_bind]
  rw [if_neg hbn, if_neg (by omega), ri_new_one_one]
  rfl

/-! ## Identities, reciprocal, integer and fractional part -/

theorem fits_one : Fits 1 := by
  unfold Fits INT_MAX
  simp

theorem canon_one : canon 1 = ⟨1, 1⟩ := by
  simp [canon]

theorem val_zero_one : val ⟨0, 1⟩ = 0 := by
  unfold val; norm_num

theorem val_ne_zero {v : RationalInt} (hv : Canonical v) (hn : v.numerator ≠ 0) :
    val v ≠ 0 := by
  unfold val
  have a1 : (v.numerator : ℚ) ≠ 0 := by exact_mod_cast hn
  have a2 : (v.denominator : ℚ) ≠ 0 := by exact_mod_cast canonical_den_ne hv
  exact div_ne_zero a1 a2

/-- The function `ri_integer` on a canonical fraction, in either build. -/
theorem ri_integer_eq (ndebug : Bool) {v : RationalInt} (hv : Canonical v) :
    ri_integer ndebug v = Res.ok (canon ((qtrunc (val v) : Int) : ℚ)) := by
  obtain ⟨h1, h2, h3, _⟩ := (canonical_iff v).mp hv
  have hmin : Int.tdiv v.numerator v.denominator ≠ INT_MIN := by
    have h4 : (Int.tdiv v.numerator v.denominator).natAbs ≤ v.numerator.natAbs := by
      rw [Int.natAbs_tdiv]; exact Nat.div_le_self _ _
    unfold INT_MAX at h2
    unfold INT_MIN
    omega
  unfold ri_integer
  rw [cdiv_of_ne h3]
  simp only [Res.ok_bind]
  rw [ri_new_eq_canon ndebug hmin (by decide) (by decide)]
  unfold val
  rw [qtrunc_div h1 h3]
  push_cast
  rw [div_one]

/-- The function `ri_fraction` on a canonical fraction, in either build. -/
theorem ri_fraction_eq (ndebug : Bool) {v : RationalInt} (hv : Canonical v) :
    ri_fraction ndebug v = Res.ok (canon (val v - ((qtrunc (val v) : Int) : ℚ))) := by
  obtain ⟨h1, h2, h3, h4, h5, _⟩ := (canonical_iff v).mp hv
  have hm : INT_MAX = 2147483647 := rfl
  have hi : INT_MIN = -2147483648 := rfl
  have hr := tmod_inInt (d := v.denominator) h1 h2
  have hr0 : 0 ≤ Int.tmod v.numerator v.denominator := Int.tmod_nonneg _ h1
  unfold ri_fraction
  rw [cmod_of_ne h3]
  simp only [Res.ok_bind]
  rw [ri_new_eq_canon ndebug (by omega) h3 (by omega)]
  congr 2
  unfold val
  rw [qtrunc_div h1 h3]
  have hd : (v.denominator : ℚ) ≠ 0 := by exact_mod_cast h3
  have e := Int.tmod_add_tdiv v.numerator v.denominator
  have e2 : (v.numerator : ℚ) =
      ((Int.tmod v.numerator v.denominator : Int) : ℚ) +
        (v.denominator : ℚ) * ((Int.tdiv v.numerator v.denominator : Int) : ℚ) := by
    exact_mod_cast e.symm
  field_simp
  linarith

theorem canon_int_den (t : Int) :
    (canon (t : ℚ)).denominator = 1 ∨ (canon (t : ℚ)).denominator = -1 := by
  unfold canon
  simp only [Rat.den_intCast, Rat.num_intCast]
  split_ifs
  · right; rfl
  · left; rfl

/-! ## Strings, pointers and digit runs -/

theorem charAt_zero_cons (c : Char) (cs : List Char) : charAt (c :: cs) 0 = c := rfl

theorem charAt_zero_nil : charAt [] 0 = NUL := rfl

theorem charAt_append_right (pre rest : List Char) (k : Nat) :
    charAt (pre ++ rest) (pre.length + k) = charAt rest k := by
  induction pre with
  | nil => simp
  | cons a pre ih =>
    have e : (a :: pre).length + k = (pre.length + k) + 1 := by
      simp only [List.length_cons]; omega
    rw [e]
    exact ih

/-- Reading at the pointer that stands right after `pre`. -/
theorem charAt_at {str pre rest : List Char} (h : str = pre ++ rest) :
    charAt str pre.length = charAt rest 0 := by
  rw [h]
  exact charAt_append_right pre rest 0

theorem charAt_at_succ {str pre rest : List Char} (h : str = pre ++ rest) :
    charAt str (pre.length + 1) = charAt rest 1 := by
  rw [h]
  exact charAt_append_right pre rest 1

theorem drop_at {str pre rest : List Char} (h : str = pre ++ rest) :
    str.drop pre.length = rest := by
  rw [h]
  exact List.drop_left pre rest

theorem run_stop {test : Char → Bool} {rest : List Char}
    (h : test (charAt rest 0) = false) : run test rest = 0 := by
  cases rest with
  | nil => rfl
  | cons c cs =>
    rw [charAt_zero_cons] at h
    unfold run
    rw [if_neg (by simp [h])]

theorem run_append {test : Char → Bool} {ds rest : List Char}
    (hd : ∀ c ∈ ds, test c = true) (hr : test (charAt rest 0) = false) :
    run test (ds ++ rest) = ds.length := by
  induction ds with
  | nil => simpa using run_stop hr
  | cons c cs ih =>
    have hc : test c = true := hd c (List.mem_cons_self c cs)
    have ih2 := ih (fun x hx => hd x (List.mem_cons_of_mem c hx))
    show run test (c :: (cs ++ rest)) = (c :: cs).length
    unfold run
    rw [if_pos hc, ih2]
    rfl

/-- The helper `skip_digits` at the start of a digit run moves to its end. -/
theorem skip_digits_at {str pre ds rest : List Char} (h : str = pre ++ (ds ++ rest))
    (hd : ∀ c ∈ ds, isdigit c = true) (hr : isdigit (charAt rest 0) = false) :
    skip_digits str pre.length = pre.length + ds.length := by
  unfold skip_digits
  rw [drop_at h, run_append hd hr]

/-- The helper `skip_blank` at the start of a run of blanks moves to its end. -/
theorem skip_blank_at {str pre bl rest : List Char} (h : str = pre ++ (bl ++ rest))
    (hb : ∀ c ∈ bl, isblank c = true) (hr : isblank (charAt rest 0) = false) :
    skip_blank str pre.length = pre.length + bl.length := by
  unfold skip_blank
  rw [drop_at h, run_append hb hr]

theorem skip_blank_stay {str pre rest : List Char} (h : str = pre ++ rest)
    (hr : isblank (charAt rest 0) = false) : skip_blank str pre.length = pre.length := by
  unfold skip_blank
  rw [drop_at h, run_stop hr]
  rfl

theorem run_value_stop {rest : List Char} (h : isdigit (charAt rest 0) = false) (acc : Int) :
    run_value rest acc = acc := by
  cases rest with
  | nil => rfl
  | cons c cs =>
    rw [charAt_zero_cons] at h
    unfold run_value
    rw [if_neg (by simp [h])]

theorem run_value_append {ds rest : List Char} (hd : ∀ c ∈ ds, isdigit c = true)
    (hr : isdigit (charAt rest 0) = false) :
    ∀ acc : Int, run_value (ds ++ rest) acc = run_value ds acc := by
  induction ds with
  | nil =>
    intro acc
    simpa [run_value] using run_value_stop hr acc
  | cons c cs ih =>
    intro acc
    have hc : isdigit c = true := hd c (List.mem_cons_self c cs)
    show run_value (c :: (cs ++ rest)) acc = run_value (c :: cs) acc
    unfold run_value
    rw [if_pos hc, if_pos hc]
    exact ih (fun x hx => hd x (List.mem_cons_of_mem c hx)) _

theorem run_value_snoc {ds : List Char} (hd : ∀ c ∈ ds, isdigit c = true) (c : Char)
    (hc : isdigit c = true) :
    ∀ acc : Int, run_value (ds ++ [c]) acc = run_value ds acc * 10 + digit_val c := by
  induction ds with
  | nil =>
    intro acc
    show run_value [c] acc = run_value [] acc * 10 + digit_val c
    unfold run_value
    rw [if_pos hc]
    rfl
  | cons d ds ih =>
    intro acc
    have hd0 : isdigit d = true := hd d (List.mem_cons_self d ds)
    show run_value (d :: (ds ++ [c])) acc = run_value (d :: ds) acc * 10 + digit_val c
    unfold run_value
    rw [if_pos hd0, if_pos hd0]
    exact ih (fun x hx => hd x (List.mem_cons_of_mem d hx)) _

/-- The modelled `chk_strtoi` at the start of a digit run. -/
theorem chk_strtoi_at {str pre ds rest : List Char} (h : str = pre ++ (ds ++ rest))
    (hd : ∀ c ∈ ds, isdigit c = true) (hr : isdigit (charAt rest 0) = false) :
    chk_strtoi str pre.length =
      ⟨decide (run_value ds 0 ≤ INT_MAX), pre.length + ds.length, run_value ds 0⟩ := by
  unfold chk_strtoi
  rw [skip_digits_at h hd hr, drop_at h, run_value_append hd hr]

/-! ## The `%d` conversion -/

theorem digitChar_spec (m : Nat) (hm : m < 10) :
    isdigit (Nat.digitChar m) = true ∧ digit_val (Nat.digitChar m) = (m : Int) := by
  interval_cases m <;> exact ⟨by decide, by decide⟩

theorem toDigitsCore_spec : ∀ (fuel n : Nat) (acc : List Char), n < fuel →
    ∃ ds : List Char, Nat.toDigitsCore 10 fuel n acc = ds ++ acc ∧ ds ≠ [] ∧
      (∀ c ∈ ds, isdigit c = true) ∧ run_value ds 0 = (n : Int)
  | 0, n, _, h => absurd h (Nat.not_lt_zero n)
  | fuel + 1, n, acc, h => by
    obtain ⟨hdig, hval⟩ := digitChar_spec (n % 10) (Nat.mod_lt n (by decide))
    unfold Nat.toDigitsCore
    by_cases h0 : n / 10 = 0
    · simp only [h0, if_true]
      refine ⟨[Nat.digitChar (n % 10)], rfl, by simp, ?_, ?_⟩
      · intro c hc
        rw [List.mem_singleton] at hc
        rw [hc]; exact hdig
      · unfold run_value
        rw [if_pos hdig, hval]
        unfold run_value
        omega
    · simp only [h0, if_false]
      obtain ⟨ds, e, hne, hall, hv⟩ :=
        toDigitsCore_spec fuel (n / 10) (Nat.digitChar (n % 10) :: acc) (by omega)
      refine ⟨ds ++ [Nat.digitChar (n % 10)], ?_, by simp, ?_, ?_⟩
      · rw [e, List.append_assoc]; rfl
      · intro c hc
        rw [List.mem_append, List.mem_singleton] at hc
        rcases hc with hc | hc
        · exact hall c hc
        · rw [hc]; exact hdig
      · rw [run_value_snoc hall _ hdig, hv, hval]
        omega

/-- The decimal rendering of a natural number is a non-empty run of digits whose
value is the number. -/
theorem toDigits_spec (n : Nat) :
    Nat.toDigits 10 n ≠ [] ∧ (∀ c ∈ Nat.toDigits 10 n, isdigit c = true) ∧
      run_value (Nat.toDigits 10 n) 0 = (n : Int) := by
  obtain ⟨ds, e, hne, hall, hv⟩ := toDigitsCore_spec (n + 1) n [] (Nat.lt_succ_self n)
  unfold Nat.toDigits
  rw [e, List.append_nil]
  exact ⟨hne, hall, hv⟩

theorem fmt_d_nonneg {x : Int} (h : 0 ≤ x) : fmt_d x = Nat.toDigits 10 x.natAbs := by
  unfold fmt_d
  rw [if_neg (by omega)]

/-! ## The scanner on strings of a known shape -/

theorem isblank_of_isdigit {c : Char} (h : isdigit c = true) : isblank c = false := by
  unfold isdigit at h
  unfold isblank
  simp only [decide_eq_true_eq] at h
  simp only [decide_eq_false_iff_not]
  omega

theorem isdigit_of_isblank {c : Char} (h : isblank c = true) : isdigit c = false := by
  unfold isblank at h
  unfold isdigit
  simp only [decide_eq_true_eq] at h
  simp only [decide_eq_false_iff_not]
  omega

theorem ne_of_isdigit {d c : Char} (hd : isdigit d = true) (hc : isdigit c = false) : d ≠ c := by
  intro e
  rw [e, hc] at hd
  cases hd

theorem ne_of_isblank {b c : Char} (hb : isblank b = true) (hc : isblank c = false) : b ≠ c := by
  intro e
  rw [e, hc] at hb
  cases hb

theorem charAt_zero_mem {l : List Char} (hne : l ≠ []) : charAt l 0 ∈ l := by
  cases l with
  | nil => exact absurd rfl hne
  | cons c cs => exact List.mem_cons_self c cs

theorem charAt_zero_append {l : List Char} (hne : l ≠ []) (r : List Char) :
    charAt (l ++ r) 0 = charAt l 0 := by
  cases l with
  | nil => exact absurd rfl hne
  | cons c cs => rfl

/-- The first character of a non-empty digit run followed by anything. -/
theorem head_digit {ds : List Char} (hne : ds ≠ []) (hds : ∀ c ∈ ds, isdigit c = true)
    (r : List Char) : isdigit (charAt (ds ++ r) 0) = true := by
  rw [charAt_zero_append hne]
  exact hds _ (charAt_zero_mem hne)

/-- The first character of a run of blanks followed by a non-blank. -/
theorem head_blank_run {bl r : List Char} (hbl : ∀ c ∈ bl, isblank c = true) {test : Char → Bool}
    (hb : ∀ c, isblank c = true → test c = false) (hr : test (charAt r 0) = false) :
    test (charAt (bl ++ r) 0) = false := by
  cases bl with
  | nil => exact hr
  | cons c cs => exact hb c (hbl c (List.mem_cons_self c cs))

/-- The function `ri_scn` up to the end of the first digit run: blanks, an
optional sign, digits. -/
theorem ri_scn_head (ndebug : Bool) {str bl sg ds rest : List Char}
    (h : str = bl ++ (sg ++ (ds ++ rest)))
    (hbl : ∀ c ∈ bl, isblank c = true) (hsg : sg = [] ∨ sg = ['+'] ∨ sg = ['-'])
    (hne : ds ≠ []) (hds : ∀ c ∈ ds, isdigit c = true)
    (hr : isdigit (charAt rest 0) = false) :
    ri_scn ndebug str =
      ri_scn_tail ndebug str
        ⟨if sg = ['-'] then -1 else 1, some (bl.length + sg.length),
          some (bl.length + sg.length + ds.length), none, none, none, none⟩
        (bl.length + sg.length + ds.length) := by
  have hd0 : isdigit (charAt (ds ++ rest) 0) = true := head_digit hne hds rest
  have hnb : isblank (charAt (sg ++ (ds ++ rest)) 0) = false := by
    rcases hsg with e | e | e <;> rw [e]
    · exact isblank_of_isdigit hd0
    · show isblank '+' = false
      decide
    · show isblank '-' = false
      decide
  have h0 : str = [] ++ (bl ++ (sg ++ (ds ++ rest))) := h
  have hskip : skip_blank str 0 = bl.length := by
    have := skip_blank_at h0 hbl hnb
    simpa using this
  have hc1 : charAt str bl.length = charAt (sg ++ (ds ++ rest)) 0 := charAt_at h
  have h2 : str = (bl ++ sg) ++ (ds ++ rest) := by rw [h, List.append_assoc]
  have hlen : (bl ++ sg).length = bl.length + sg.length := List.length_append bl sg
  have hc2 : charAt str (bl.length + sg.length) = charAt (ds ++ rest) 0 := by
    rw [← hlen]; exact charAt_at h2
  have hsd : skip_digits str (bl.length + sg.length) = bl.length + sg.length + ds.length := by
    rw [← hlen]; exact skip_digits_at h2 hds hr
  have hndot : charAt (ds ++ rest) 0 ≠ '.' := ne_of_isdigit hd0 (by decide)
  unfold ri_scn
  simp only [hskip, hc1]
  rcases hsg with e | e | e
  · subst e
    simp only [List.nil_append, List.length_nil, Nat.add_zero] at hc2 hsd ⊢
    have a1 : charAt (ds ++ rest) 0 ≠ '+' := ne_of_isdigit hd0 (by decide)
    have a2 : charAt (ds ++ rest) 0 ≠ '-' := ne_of_isdigit hd0 (by decide)
    simp only [a1, a2, or_self, if_false, hc2, hsd, hndot, false_and, hd0]
    simp
  · subst e
    simp only [List.length_singleton] at hc2 hsd ⊢
    have a1 : charAt (['+'] ++ (ds ++ rest)) 0 = '+' := rfl
    simp only [a1, true_or, if_true, hc2, hsd, hndot, false_and, hd0]
    simp
  · subst e
    simp only [List.length_singleton] at hc2 hsd ⊢
    have a1 : charAt (['-'] ++ (ds ++ rest)) 0 = '-' := rfl
    simp only [a1, or_true, if_true, hc2, hsd, hndot, false_and, hd0]
    simp

/-- After the first digit run: the integer form.  Blanks, then a character that
is neither a digit nor `/`. -/
theorem ri_scn_tail_integer (ndebug : Bool) {str pre bl rest : List Char}
    (fs : FractionString) {p : Nat} (hp : p = pre.length) (h : str = pre ++ (bl ++ rest))
    (hbl : ∀ c ∈ bl, isblank c = true) (hdot : charAt rest 0 ≠ '.')
    (hr1 : isblank (charAt rest 0) = false) (hr2 : isdigit (charAt rest 0) = false)
    (hr3 : charAt rest 0 ≠ '/') :
    ri_scn_tail ndebug str fs p = cvt_integer ndebug str fs := by
  subst hp
  have c0 : charAt str pre.length ≠ '.' := by
    rw [charAt_at h]
    cases bl with
    | nil => exact hdot
    | cons c cs => exact ne_of_isblank (hbl c (List.mem_cons_self c cs)) (by decide)
  have e1 : skip_blank str pre.length = (pre ++ bl).length := by
    rw [skip_blank_at h hbl hr1, List.length_append]
  have h2 : str = (pre ++ bl) ++ rest := by rw [h, List.append_assoc]
  have c1 : charAt str (pre ++ bl).length = charAt rest 0 := charAt_at h2
  unfold ri_scn_tail
  rw [if_neg c0, e1, c1, if_pos ⟨hr2, hr3⟩]

/-- After the first digit run: the simple-fraction form.  Blanks, `/`, blanks,
a digit run. -/
theorem ri_scn_tail_simple (ndebug : Bool) {str pre bl1 bl2 ds rest : List Char}
    (fs : FractionString) {p : Nat} (hp : p = pre.length)
    (h : str = pre ++ (bl1 ++ ('/' :: (bl2 ++ (ds ++ rest)))))
    (hb1 : ∀ c ∈ bl1, isblank c = true) (hb2 : ∀ c ∈ bl2, isblank c = true)
    (hne : ds ≠ []) (hds : ∀ c ∈ ds, isdigit c = true) :
    ri_scn_tail ndebug str fs p =
      cvt_simple ndebug str
        { fs with
          d_start := some (p + bl1.length + 1 + bl2.length),
          d_end := some (skip_digits str (p + bl1.length + 1 + bl2.length)) } := by
  subst hp
  have hd0 : isdigit (charAt (ds ++ rest) 0) = true := head_digit hne hds rest
  have c0 : charAt str pre.length ≠ '.' := by
    rw [charAt_at h]
    cases bl1 with
    | nil => show '/' ≠ '.'; decide
    | cons c cs => exact ne_of_isblank (hb1 c (List.mem_cons_self c cs)) (by decide)
  have e1 : skip_blank str pre.length = pre.length + bl1.length :=
    skip_blank_at h hb1 (by show isblank '/' = false; decide)
  have h2 : str = (pre ++ bl1) ++ ('/' :: (bl2 ++ (ds ++ rest))) := by
    rw [h, List.append_assoc]
  have l2 : (pre ++ bl1).length = pre.length + bl1.length := List.length_append _ _
  have c1 : charAt str (pre.length + bl1.length) = '/' := by
    rw [← l2, charAt_at h2]; rfl
  have h3 : str = (pre ++ bl1 ++ ['/']) ++ (bl2 ++ (ds ++ rest)) := by
    rw [h]; simp only [List.append_assoc, List.singleton_append, List.cons_append, List.nil_append]
  have l3 : (pre ++ bl1 ++ ['/']).length = pre.length + bl1.length + 1 := by
    simp only [List.length_append, List.length_singleton]
  have e2 : skip_blank str (pre.length + bl1.length + 1) =
      pre.length + bl1.length + 1 + bl2.length := by
    rw [← l3]; exact skip_blank_at h3 hb2 (isblank_of_isdigit hd0)
  have h4 : str = (pre ++ bl1 ++ ['/'] ++ bl2) ++ (ds ++ rest) := by
    rw [h]; simp only [List.append_assoc, List.singleton_append, List.cons_append, List.nil_append]
  have l4 : (pre ++ bl1 ++ ['/'] ++ bl2).length =
      pre.length + bl1.length + 1 + bl2.length := by
    simp only [List.length_append, List.length_singleton]
  have c2 : isdigit (charAt str (pre.length + bl1.length + 1 + bl2.length)) = true := by
    rw [← l4, charAt_at h4]; exact hd0
  unfold ri_scn_tail
  rw [if_neg c0, e1, c1, if_neg (by simp), if_pos rfl, e2, c2, if_neg (by simp)]

/-- After the first digit run: the compound form.  Blanks, a digit run, blanks,
`/`, blanks, a digit run. -/
theorem ri_scn_tail_compound (ndebug : Bool) {str pre bl1 ns bl2 bl3 ds rest : List Char}
    (fs : FractionString) {p : Nat} (hp : p = pre.length)
    (h : str = pre ++ (bl1 ++ (ns ++ (bl2 ++ ('/' :: (bl3 ++ (ds ++ rest)))))))
    (hb1 : ∀ c ∈ bl1, isblank c = true) (hb2 : ∀ c ∈ bl2, isblank c = true)
    (hb3 : ∀ c ∈ bl3, isblank c = true)
    (hnn : ns ≠ []) (hns : ∀ c ∈ ns, isdigit c = true)
    (hne : ds ≠ []) (hds : ∀ c ∈ ds, isdigit c = true) :
    ri_scn_tail ndebug str fs p =
      cvt_compound ndebug str
        { fs with
          n_start := some (p + bl1.length),
          n_end := some (p + bl1.length + ns.length),
          d_start := some (p + bl1.length + ns.length + bl2.length + 1 + bl3.length),
          d_end := some (skip_digits str
            (p + bl1.length + ns.length + bl2.length + 1 + bl3.length)) } := by
  subst hp
  have hn0 : isdigit (charAt (ns ++ (bl2 ++ ('/' :: (bl3 ++ (ds ++ rest))))) 0) = true :=
    head_digit hnn hns _
  have hd0 : isdigit (charAt (ds ++ rest) 0) = true := head_digit hne hds rest
  have c0 : charAt str pre.length ≠ '.' := by
    rw [charAt_at h]
    cases bl1 with
    | nil => exact ne_of_isdigit hn0 (by decide)
    | cons c cs => exact ne_of_isblank (hb1 c (List.mem_cons_self c cs)) (by decide)
  have e1 : skip_blank str pre.length = pre.length + bl1.length :=
    skip_blank_at h hb1 (isblank_of_isdigit hn0)
  have h2 : str = (pre ++ bl1) ++ (ns ++ (bl2 ++ ('/' :: (bl3 ++ (ds ++ rest))))) := by
    rw [h, List.append_assoc]
  have l2 : (pre ++ bl1).length = pre.length + bl1.length := List.length_append _ _
  have c1 : isdigit (charAt str (pre.length + bl1.length)) = true := by
    rw [← l2, charAt_at h2]; exact hn0
  have c1s : charAt str (pre.length + bl1.length) ≠ '/' := ne_of_isdigit c1 (by decide)
  have hstop : isdigit (charAt (bl2 ++ ('/' :: (bl3 ++ (ds ++ rest)))) 0) = false :=
    head_blank_run hb2 (fun c hc => isdigit_of_isblank hc) (by show isdigit '/' = false; decide)
  have e2 : skip_digits str (pre.length + bl1.length) = pre.length + bl1.length + ns.length := by
    rw [← l2]; exact skip_digits_at h2 hns hstop
  have h3 : str = (pre ++ bl1 ++ ns) ++ (bl2 ++ ('/' :: (bl3 ++ (ds ++ rest)))) := by
    rw [h]; simp only [List.append_assoc]
  have l3 : (pre ++ bl1 ++ ns).length = pre.length + bl1.length + ns.length := by
    simp only [List.length_append]
  have e3 : skip_blank str (pre.length + bl1.length + ns.length) =
      pre.length + bl1.length + ns.length + bl2.length := by
    rw [← l3]; exact skip_blank_at h3 hb2 (by show isblank '/' = false; decide)
  have h4 : str = (pre ++ bl1 ++ ns ++ bl2) ++ ('/' :: (bl3 ++ (ds ++ rest))) := by
    rw [h]; simp only [List.append_assoc]
  have l4 : (pre ++ bl1 ++ ns ++ bl2).length =
      pre.length + bl1.length + ns.length + bl2.length := by
    simp only [List.length_append]
  have c3 : charAt str (pre.length + bl1.length + ns.length + bl2.length) = '/' := by
    rw [← l4, charAt_at h4]; rfl
  have h5 : str = (pre ++ bl1 ++ ns ++ bl2 ++ ['/']) ++ (bl3 ++ (ds ++ rest)) := by
    rw [h]; simp only [List.append_assoc, List.singleton_append, List.cons_append, List.nil_append]
  have l5 : (pre ++ bl1 ++ ns ++ bl2 ++ ['/']).length =
      pre.length + bl1.length + ns.length + bl2.length + 1 := by
    simp only [List.length_append, List.length_singleton]
  have e4 : skip_blank str (pre.length + bl1.length + ns.length + bl2.length + 1) =
      pre.length + bl1.length + ns.length + bl2.length + 1 + bl3.length := by
    rw [← l5]; exact skip_blank_at h5 hb3 (isblank_of_isdigit hd0)
  have h6 : str = (pre ++ bl1 ++ ns ++ bl2 ++ ['/'] ++ bl3) ++ (ds ++ rest) := by
    rw [h]; simp only [List.append_assoc, List.singleton_append, List.cons_append, List.nil_append]
  have l6 : (pre ++ bl1 ++ ns ++ bl2 ++ ['/'] ++ bl3).length =
      pre.length + bl1.length + ns.length + bl2.length + 1 + bl3.length := by
    simp only [List.length_append, List.length_singleton]
  have c4 : isdigit (charAt str
      (pre.length + bl1.length + ns.length + bl2.length + 1 + bl3.length)) = true := by
    rw [← l6, charAt_at h6]; exact hd0
  unfold ri_scn_tail
  rw [if_neg c0, e1, c1, if_neg (by simp), if_neg c1s, cassert_of rfl]
  simp only [Res.ok_bind]
  rw [e2, e3, c3, if_neg (by simp), e4, c4, if_neg (by simp)]

theorem cassert_true (ndebug : Bool) : cassert ndebug True = Res.ok () :=
  cassert_of trivial

/-- The function `cvt_integer` on a digit run: the fraction `value / sign` when
the value is at most `INT_MAX`, otherwise a range failure; the end of
conversion is the end of the run either way. -/
theorem cvt_integer_at (ndebug : Bool) {str pre ds rest : List Char} {fs : FractionString}
    {p : Nat} (hp : p = pre.length) (h : str = pre ++ (ds ++ rest))
    (hds : ∀ c ∈ ds, isdigit c = true) (hr : isdigit (charAt rest 0) = false)
    (hs : fs.i_start = some p) (he : fs.i_end = some (p + ds.length)) :
    cvt_integer ndebug str fs =
      if run_value ds 0 ≤ INT_MAX then
        ri_new ndebug (run_value ds 0) fs.sign >>= fun r =>
          Res.ok ⟨0, some (p + ds.length), some r, Errno.ENOERROR⟩
      else Res.ok ⟨-1, some (p + ds.length), none, Errno.ERANGE⟩ := by
  subst hp
  unfold cvt_integer
  rw [hs]
  simp only [chk_strtoi_at h hds hr, he]
  by_cases hv : run_value ds 0 ≤ INT_MAX
  · simp only [hv, decide_True, if_true]
    rfl
  · simp only [hv, decide_False, if_true, cassert_true, Res.ok_bind]
    rfl

/-- The function `cvt_simple` on two digit runs. -/
theorem cvt_simple_at (ndebug : Bool) {str pre1 is r1 pre2 ds r2 : List Char}
    {fs : FractionString} {p1 p2 : Nat} (hp1 : p1 = pre1.length) (hp2 : p2 = pre2.length)
    (h1 : str = pre1 ++ (is ++ r1)) (h2 : str = pre2 ++ (ds ++ r2))
    (his : ∀ c ∈ is, isdigit c = true) (hr1 : isdigit (charAt r1 0) = false)
    (hds : ∀ c ∈ ds, isdigit c = true) (hr2 : isdigit (charAt r2 0) = false)
    (hs : fs.i_start = some p1) (he : fs.i_end = some (p1 + is.length))
    (hd : fs.d_start = some p2) (hde : fs.d_end = some (skip_digits str p2)) :
    cvt_simple ndebug str fs =
      if run_value is 0 ≤ INT_MAX ∧ run_value ds 0 ≤ INT_MAX then
        ri_new ndebug (run_value is 0) (fs.sign * run_value ds 0) >>= fun r =>
          Res.ok ⟨0, some (p2 + ds.length), some r, Errno.ENOERROR⟩
      else Res.ok ⟨-1, some (p2 + ds.length), none, Errno.ERANGE⟩ := by
  subst hp1
  subst hp2
  rw [skip_digits_at h2 hds hr2] at hde
  unfold cvt_simple
  rw [hs, hd]
  simp only [chk_strtoi_at h1 his hr1, chk_strtoi_at h2 hds hr2, he, hde]
  by_cases hv1 : run_value is 0 ≤ INT_MAX
  · simp only [hv1, decide_True, true_and, cassert_true, Res.ok_bind]
    by_cases hv2 : run_value ds 0 ≤ INT_MAX
    · simp only [hv2, decide_True, if_true, cassert_true, Res.ok_bind]
      rfl
    · simp only [hv2, decide_False, if_false]
      rfl
  · simp only [hv1, decide_False, false_and, if_false]
    rfl

/-- The function `cvt_compound` on three digit runs. -/
theorem cvt_compound_at (ndebug : Bool) {str pre1 is r1 pre2 ns r2 pre3 ds r3 : List Char}
    {fs : FractionString} {p1 p2 p3 : Nat}
    (hp1 : p1 = pre1.length) (hp2 : p2 = pre2.length) (hp3 : p3 = pre3.length)
    (h1 : str = pre1 ++ (is ++ r1)) (h2 : str = pre2 ++ (ns ++ r2))
    (h3 : str = pre3 ++ (ds ++ r3))
    (his : ∀ c ∈ is, isdigit c = true) (hr1 : isdigit (charAt r1 0) = false)
    (hns : ∀ c ∈ ns, isdigit c = true) (hr2 : isdigit (charAt r2 0) = false)
    (hds : ∀ c ∈ ds, isdigit c = true) (hr3 : isdigit (charAt r3 0) = false)
    (hs : fs.i_start = some p1) (he : fs.i_end = some (p1 + is.length))
    (hn : fs.n_start = some p2) (hne : fs.n_end = some (p2 + ns.length))
    (hd : fs.d_start = some p3) (hde : fs.d_end = some (skip_digits str p3)) :
    cvt_compound ndebug str fs =
      if run_value is 0 ≤ INT_MAX ∧ run_value ns 0 ≤ INT_MAX ∧ run_value ds 0 ≤ INT_MAX then
        cdiv (INT_MAX - run_value ns 0) (run_value ds 0) >>= fun q =>
          if run_value is 0 > q then Res.ok ⟨-1, some (p3 + ds.length), none, Errno.ERANGE⟩
          else
            ri_new ndebug (run_value ds 0 * run_value is 0 + run_value ns 0)
                (fs.sign * run_value ds 0) >>= fun r =>
              Res.ok ⟨0, some (p3 + ds.length), some r, Errno.ENOERROR⟩
      else Res.ok ⟨-1, some (p3 + ds.length), none, Errno.ERANGE⟩ := by
  subst hp1
  subst hp2
  subst hp3
  rw [skip_digits_at h3 hds hr3] at hde
  unfold cvt_compound
  rw [hs, hn, hd]
  simp only [chk_strtoi_at h1 his hr1, chk_strtoi_at h2 hns hr2, chk_strtoi_at h3 hds hr3,
    he, hne, hde]
  by_cases hv1 : run_value is 0 ≤ INT_MAX
  · simp only [hv1, decide_True, true_and, cassert_true, Res.ok_bind]
    by_cases hv2 : run_value ns 0 ≤ INT_MAX
    · simp only [hv2, decide_True, true_and, cassert_true, Res.ok_bind]
      by_cases hv3 : run_value ds 0 ≤ INT_MAX
      · simp only [hv3, decide_True, if_true]
        rfl
      · simp only [hv3, decide_False, if_false]
        rfl
    · simp only [hv2, decide_False, false_and, if_false]
      rfl
  · simp only [hv1, decide_False, false_and, if_false]
    rfl

/-! ## Scanning what the formatters write -/

theorem ri_chk_canonical (ndebug : Bool) {v : RationalInt} (hv : Canonical v) :
    ri_chk ndebug v = Res.ok () := by
  cases ndebug with
  | false => exact hv.2.2.1
  | true =>
    unfold ri_chk
    rw [cassert_ndebug, cassert_ndebug, cassert_ndebug]
    rfl

/-- Handing the two fields of a canonical fraction to `ri_new` gives it back. -/
theorem ri_new_self (ndebug : Bool) {v : RationalInt} (hv : Canonical v) :
    ri_new ndebug v.numerator v.denominator = Res.ok v := by
  obtain ⟨h1, h2, h3, h4, h5, _, _⟩ := (canonical_iff v).mp hv
  have hm : INT_MAX = 2147483647 := rfl
  have hi : INT_MIN = -2147483648 := rfl
  rw [ri_new_eq_canon ndebug (by omega) h3 (by omega)]
  exact congrArg Res.ok (canon_val hv)

theorem nul_facts : isdigit NUL = false ∧ isblank NUL = false ∧ NUL ≠ '.' ∧ NUL ≠ '/' := by
  decide

/-- Scanning a sign (or none) followed by the decimal digits of `n`. -/
theorem scan_integer_text (ndebug : Bool) {sg : List Char}
    (hsg : sg = [] ∨ sg = ['+'] ∨ sg = ['-']) (n : Nat) (hn : (n : Int) ≤ INT_MAX) :
    ri_scn ndebug (sg ++ Nat.toDigits 10 n) =
      ri_new ndebug n (if sg = ['-'] then -1 else 1) >>= fun r =>
        Res.ok ⟨0, some (sg ++ Nat.toDigits 10 n).length, some r, Errno.ENOERROR⟩ := by
  obtain ⟨hne, hds, hv⟩ := toDigits_spec n
  have hstr : sg ++ Nat.toDigits 10 n = [] ++ (sg ++ (Nat.toDigits 10 n ++ [])) := by simp
  rw [ri_scn_head ndebug hstr (by simp) hsg hne hds nul_facts.1]
  simp only [List.length_nil, Nat.zero_add]
  have hp : sg.length + (Nat.toDigits 10 n).length = (sg ++ Nat.toDigits 10 n).length := by
    simp
  have hstr2 : sg ++ Nat.toDigits 10 n = (sg ++ Nat.toDigits 10 n) ++ ([] ++ []) := by simp
  rw [ri_scn_tail_integer ndebug _ hp hstr2 (by simp) nul_facts.2.2.1 nul_facts.2.1
    nul_facts.1 nul_facts.2.2.2]
  have hstr3 : sg ++ Nat.toDigits 10 n = sg ++ (Nat.toDigits 10 n ++ []) := by simp
  rw [cvt_integer_at ndebug rfl hstr3 hds nul_facts.1 rfl rfl, hv, if_pos hn]
  simp only [List.length_append]

/-- Scanning a sign (or none), the digits of `n`, `/`, the digits of `d`. -/
theorem scan_simple_text (ndebug : Bool) {sg : List Char}
    (hsg : sg = [] ∨ sg = ['+'] ∨ sg = ['-']) (n d : Nat) (hn : (n : Int) ≤ INT_MAX)
    (hd : (d : Int) ≤ INT_MAX) :
    ri_scn ndebug (sg ++ (Nat.toDigits 10 n ++ '/' :: Nat.toDigits 10 d)) =
      ri_new ndebug n ((if sg = ['-'] then -1 else 1) * (d : Int)) >>= fun r =>
        Res.ok ⟨0, some (sg ++ (Nat.toDigits 10 n ++ '/' :: Nat.toDigits 10 d)).length,
          some r, Errno.ENOERROR⟩ := by
  obtain ⟨hne, hds, hv⟩ := toDigits_spec n
  obtain ⟨hne2, hds2, hv2⟩ := toDigits_spec d
  have hslash : isdigit (charAt ('/' :: Nat.toDigits 10 d) 0) = false := by
    show isdigit '/' = false
    decide
  have hstr : sg ++ (Nat.toDigits 10 n ++ '/' :: Nat.toDigits 10 d) =
      [] ++ (sg ++ (Nat.toDigits 10 n ++ '/' :: Nat.toDigits 10 d)) := by simp
  rw [ri_scn_head ndebug hstr (by simp) hsg hne hds hslash]
  simp only [List.length_nil, Nat.zero_add]
  have hp : sg.length + (Nat.toDigits 10 n).length = (sg ++ Nat.toDigits 10 n).length := by
    simp
  have hstr2 : sg ++ (Nat.toDigits 10 n ++ '/' :: Nat.toDigits 10 d) =
      (sg ++ Nat.toDigits 10 n) ++ ([] ++ ('/' :: ([] ++ (Nat.toDigits 10 d ++ [])))) := by simp
  rw [ri_scn_tail_simple ndebug _ hp hstr2 (by simp) (by simp) hne2 hds2]
  simp only [List.length_nil, Nat.add_zero]
  have hstr4 : sg ++ (Nat.toDigits 10 n ++ '/' :: Nat.toDigits 10 d) =
      (sg ++ Nat.toDigits 10 n ++ ['/']) ++ (Nat.toDigits 10 d ++ []) := by simp
  have hp2 : sg.length + (Nat.toDigits 10 n).length + 1 =
      (sg ++ Nat.toDigits 10 n ++ ['/']).length := by
    simp only [List.length_append, List.length_singleton]
  rw [cvt_simple_at ndebug rfl hp2 rfl hstr4 hds hslash hds2 nul_facts.1 rfl rfl rfl rfl,
    hv, hv2, if_pos ⟨hn, hd⟩]
  have hlen : (sg ++ (Nat.toDigits 10 n ++ '/' :: Nat.toDigits 10 d)).length =
      sg.length + (Nat.toDigits 10 n).length + 1 + (Nat.toDigits 10 d).length := by
    simp only [List.length_append, List.length_cons]
    omega
  rw [hlen]

/-- Scanning a sign (or none), the digits of `i`, one space, the digits of `n`,
`/`, the digits of `d`, when `d * i + n` is at most `INT_MAX`. -/
theorem scan_compound_text (ndebug : Bool) {sg : List Char}
    (hsg : sg = [] ∨ sg = ['+'] ∨ sg = ['-']) (i n d : Nat) (hd0 : 0 < d)
    (hd : (d : Int) ≤ INT_MAX) (hsum : ((d * i + n : Nat) : Int) ≤ INT_MAX) :
    ri_scn ndebug
        (sg ++ (Nat.toDigits 10 i ++ ' ' :: (Nat.toDigits 10 n ++ '/' :: Nat.toDigits 10 d))) =
      ri_new ndebug ((d : Int) * (i : Int) + (n : Int))
          ((if sg = ['-'] then -1 else 1) * (d : Int)) >>= fun r =>
        Res.ok ⟨0, some (sg ++ (Nat.toDigits 10 i ++ ' ' ::
          (Nat.toDigits 10 n ++ '/' :: Nat.toDigits 10 d))).length, some r, Errno.ENOERROR⟩ := by
  obtain ⟨hnei, hdsi, hvi⟩ := toDigits_spec i
  obtain ⟨hnen, hdsn, hvn⟩ := toDigits_spec n
  obtain ⟨hned, hdsd, hvd⟩ := toDigits_spec d
  have hm : INT_MAX = 2147483647 := rfl
  have hsum2 : d * i + n ≤ 2147483647 := by
    rw [hm] at hsum
    exact_mod_cast hsum
  have hile : i ≤ d * i := Nat.le_mul_of_pos_left i hd0
  have hi : (i : Int) ≤ INT_MAX := by
    rw [hm]
    omega
  have hn : (n : Int) ≤ INT_MAX := by
    rw [hm]
    omega
  have hspace : isdigit (charAt (' ' :: (Nat.toDigits 10 n ++ '/' :: Nat.toDigits 10 d)) 0)
      = false := by
    show isdigit ' ' = false
    decide
  have hslash : isdigit (charAt ('/' :: Nat.toDigits 10 d) 0) = false := by
    show isdigit '/' = false
    decide
  have hbl : ∀ c ∈ [' '], isblank c = true := by
    intro c hc
    rw [List.mem_singleton] at hc
    subst hc
    decide
  have hstr : sg ++ (Nat.toDigits 10 i ++ ' ' :: (Nat.toDigits 10 n ++ '/' :: Nat.toDigits 10 d))
      = [] ++ (sg ++ (Nat.toDigits 10 i ++
          ' ' :: (Nat.toDigits 10 n ++ '/' :: Nat.toDigits 10 d))) := by simp
  rw [ri_scn_head ndebug hstr (by simp) hsg hnei hdsi hspace]
  simp only [List.length_nil, Nat.zero_add]
  have hp : sg.length + (Nat.toDigits 10 i).length = (sg ++ Nat.toDigits 10 i).length := by
    simp
  have hstr2 : sg ++ (Nat.toDigits 10 i ++ ' ' :: (Nat.toDigits 10 n ++ '/' :: Nat.toDigits 10 d))
      = (sg ++ Nat.toDigits 10 i) ++ ([' '] ++ (Nat.toDigits 10 n ++
          ([] ++ ('/' :: ([] ++ (Nat.toDigits 10 d ++ [])))))) := by simp
  rw [ri_scn_tail_compound ndebug _ hp hstr2 hbl (by simp) (by simp) hnen hdsn hned hdsd]
  simp only [List.length_nil, Nat.add_zero, List.length_singleton]
  have hstr3 : sg ++ (Nat.toDigits 10 i ++ ' ' :: (Nat.toDigits 10 n ++ '/' :: Nat.toDigits 10 d))
      = (sg ++ Nat.toDigits 10 i ++ [' ']) ++
          (Nat.toDigits 10 n ++ '/' :: Nat.toDigits 10 d) := by simp
  have hstr4 : sg ++ (Nat.toDigits 10 i ++ ' ' :: (Nat.toDigits 10 n ++ '/' :: Nat.toDigits 10 d))
      = (sg ++ Nat.toDigits 10 i ++ [' '] ++ Nat.toDigits 10 n ++ ['/']) ++
          (Nat.toDigits 10 d ++ []) := by simp
  have hp2 : sg.length + (Nat.toDigits 10 i).length + 1 =
      (sg ++ Nat.toDigits 10 i ++ [' ']).length := by
    simp only [List.length_append, List.length_singleton]
  have hp3 : sg.length + (Nat.toDigits 10 i).length + 1 + (Nat.toDigits 10 n).length + 1 =
      (sg ++ Nat.toDigits 10 i ++ [' '] ++ Nat.toDigits 10 n ++ ['/']).length := by
    simp only [List.length_append, List.length_singleton]
  rw [cvt_compound_at ndebug rfl hp2 hp3 rfl hstr3 hstr4 hdsi hspace hdsn hslash hdsd
    nul_facts.1 rfl rfl rfl rfl rfl rfl, hvi, hvn, hvd, if_pos ⟨hi, hn, hd⟩]
  have hdne : (d : Int) ≠ 0 := by omega
  have hq : cdiv (INT_MAX - (n : Int)) (d : Int) =
      Res.ok ((INT_MAX - (n : Int)).tdiv (d : Int)) := by
    unfold cdiv
    rw [if_neg hdne]
  rw [hq, Res.ok_bind]
  have hnn : (0 : Int) ≤ INT_MAX - (n : Int) := by
    rw [hm]
    omega
  have hle : (i : Int) ≤ (INT_MAX - (n : Int)).tdiv (d : Int) := by
    rw [Int.tdiv_eq_ediv hnn (by omega)]
    apply Int.le_ediv_of_mul_le (by omega)
    rw [hm]
    have : ((d * i + n : Nat) : Int) = (d : Int) * (i : Int) + (n : Int) := by push_cast; ring
    have h2 : (i : Int) * (d : Int) = (d : Int) * (i : Int) := Int.mul_comm _ _
    rw [hm, this] at hsum
    omega
  rw [if_neg (by omega)]
  have hlen : (sg ++ (Nat.toDigits 10 i ++ ' ' ::
        (Nat.toDigits 10 n ++ '/' :: Nat.toDigits 10 d))).length =
      sg.length + (Nat.toDigits 10 i).length + 1 + (Nat.toDigits 10 n).length + 1 +
        (Nat.toDigits 10 d).length := by
    simp only [List.length_append, List.length_cons]
    omega
  rw [hlen]

/-! ## What the formatters write -/

theorem buffer_after_fits {text : List Char} {buflen : Nat} (hne : text ≠ [])
    (hlen : text.length < buflen) : buffer_after text buflen = text := by
  unfold buffer_after
  have : 0 < text.length := List.length_pos.mpr hne
  rw [if_neg (by omega)]

/-- The integer part of a canonical fraction, field by field. -/
theorem ri_integer_fields (ndebug : Bool) {v : RationalInt} (hv : Canonical v) :
    ∃ s : Int, (s = 1 ∨ s = -1) ∧
      ri_integer ndebug v =
        Res.ok ⟨((v.numerator.natAbs / v.denominator.natAbs : Nat) : Int), s⟩ := by
  obtain ⟨h1, h2, h3, _⟩ := (canonical_iff v).mp hv
  have hna : (Int.tdiv v.numerator v.denominator).natAbs =
      v.numerator.natAbs / v.denominator.natAbs := by
    rw [Int.natAbs_tdiv]
    rfl
  have hmin : Int.tdiv v.numerator v.denominator ≠ INT_MIN := by
    have h4 : (Int.tdiv v.numerator v.denominator).natAbs ≤ v.numerator.natAbs := by
      rw [hna]; exact Nat.div_le_self _ _
    unfold INT_MAX at h2
    unfold INT_MIN
    omega
  unfold ri_integer
  rw [cdiv_of_ne h3]
  simp only [Res.ok_bind]
  by_cases ht : Int.tdiv v.numerator v.denominator = 0
  · refine ⟨1, Or.inl rfl, ?_⟩
    rw [← hna, ht, ri_new_zero ndebug (by decide) (by decide)]
    rfl
  · have hg : Int.gcd (Int.tdiv v.numerator v.denominator) 1 = 1 := by
      rw [Int.gcd_eq_natAbs]
      exact Nat.gcd_one_right _
    have hone : Int.natAbs 1 = 1 := rfl
    have hs1 : signum 1 = 1 := by decide
    rw [ri_new_ok ndebug ht hmin (by decide) (by decide), hg, hone, Nat.div_one, Nat.div_one,
      hna, hs1]
    refine ⟨signum (Int.tdiv v.numerator v.denominator) * 1 * ((1 : Nat) : Int), ?_, rfl⟩
    unfold signum
    split_ifs <;> simp
    omega

/-- The fractional part of a canonical fraction, field by field. -/
theorem ri_fraction_fields (ndebug : Bool) {v : RationalInt} (hv : Canonical v) :
    ri_fraction ndebug v =
      Res.ok (if v.numerator.natAbs % v.denominator.natAbs = 0 then ⟨0, 1⟩
        else ⟨((v.numerator.natAbs % v.denominator.natAbs : Nat) : Int),
          signum v.denominator * (v.denominator.natAbs : Int)⟩) := by
  obtain ⟨h1, h2, h3, h4, h5, h6, _⟩ := (canonical_iff v).mp hv
  have hm : INT_MAX = 2147483647 := rfl
  have hi : INT_MIN = -2147483648 := rfl
  have hna := natAbs_tmod v.numerator v.denominator
  have hr0 : 0 ≤ Int.tmod v.numerator v.denominator := Int.tmod_nonneg _ h1
  unfold ri_fraction
  rw [cmod_of_ne h3]
  simp only [Res.ok_bind]
  by_cases ht : Int.tmod v.numerator v.denominator = 0
  · rw [if_pos (by rw [← hna, ht]; rfl), ht, ri_new_zero ndebug h3 (by omega)]
  · have hne : v.numerator.natAbs % v.denominator.natAbs ≠ 0 := by
      rw [← hna]
      omega
    have hg : Int.gcd (Int.tmod v.numerator v.denominator) v.denominator = 1 := by
      rw [Int.gcd_eq_natAbs, hna, ← Nat.gcd_rec, Nat.gcd_comm, ← Int.gcd_eq_natAbs]
      exact h6
    rw [if_neg hne, ri_new_ok ndebug ht (by omega) h3 (by omega), hg, Nat.div_one, Nat.div_one,
      hna, signum_pos (by omega), one_mul]

/-- The text `ri_fmt` writes for a canonical fraction when it fits the buffer. -/
theorem ri_fmt_text (ndebug : Bool) {v : RationalInt} (hv : Canonical v) (buffer : List Char)
    {buflen : Nat} (hb : 0 < buflen) :
    ri_fmt ndebug v buffer buflen =
      Res.ok (buffer_after
        ((if v.denominator < 0 then '-' else '+') ::
          (if v.denominator.natAbs = 1 then Nat.toDigits 10 v.numerator.natAbs
           else Nat.toDigits 10 v.numerator.natAbs ++ '/' :: Nat.toDigits 10 v.denominator.natAbs))
        buflen) := by
  obtain ⟨h1, _⟩ := (canonical_iff v).mp hv
  unfold ri_fmt
  rw [cassert_of (show buflen > 0 from hb), ri_chk_canonical ndebug hv]
  simp only [Res.ok_bind]
  rw [if_pos (show buflen > 0 from hb)]
  have ha : iabs v.numerator = v.numerator := by
    rw [iabs_eq]
    omega
  by_cases hd : v.denominator.natAbs = 1
  · have hd2 : iabs v.denominator = 1 := by
      rw [iabs_eq, hd]
      rfl
    rw [if_pos hd2, if_pos hd, fmt_d_nonneg h1]
    rfl
  · have hd2 : ¬ iabs v.denominator = 1 := by
      rw [iabs_eq]
      omega
    rw [if_neg hd2, if_neg hd, fmt_d_nonneg (show 0 ≤ iabs v.numerator by rw [ha]; exact h1),
      fmt_d_nonneg (show 0 ≤ iabs v.denominator by rw [iabs_eq]; omega), ha]
    have : (iabs v.denominator).natAbs = v.denominator.natAbs := by
      rw [iabs_eq]
      rfl
    rw [this]
    rfl

/-- The sign character and the magnitude of the denominator give the denominator back. -/
theorem sign_char_mul (d : Int) :
    (if [if d < 0 then '-' else '+'] = ['-'] then (-1 : Int) else 1) * (d.natAbs : Int) = d := by
  by_cases h : d < 0
  · rw [if_pos h, if_pos rfl]
    omega
  · rw [if_neg h, if_neg (by decide)]
    omega

theorem sign_char_cases (d : Int) :
    [if d < 0 then '-' else '+'] = [] ∨ [if d < 0 then '-' else '+'] = ['+'] ∨
      [if d < 0 then '-' else '+'] = ['-'] := by
  by_cases h : d < 0
  · rw [if_pos h]
    exact Or.inr (Or.inr rfl)
  · rw [if_neg h]
    exact Or.inr (Or.inl rfl)

theorem fmt_d_iabs (x : Int) : fmt_d (iabs x) = Nat.toDigits 10 x.natAbs := by
  have h : (iabs x).natAbs = x.natAbs := by
    rw [iabs_eq]
    rfl
  rw [fmt_d_nonneg (by rw [iabs_eq]; omega), h]

/-- The text `ri_fmtproper` writes for a canonical fraction when it fits the buffer;
the integer part is the quotient and the numerator of the fractional part the
remainder of the two magnitudes. -/
theorem ri_fmtproper_text (ndebug : Bool) {v : RationalInt} (hv : Canonical v)
    {buflen : Nat} (hb : 0 < buflen) :
    ri_fmtproper ndebug v buflen =
      Res.ok (buffer_after
        (if v.numerator.natAbs / v.denominator.natAbs ≠ 0 ∧
            v.numerator.natAbs % v.denominator.natAbs ≠ 0 then
          (if v.denominator < 0 then '-' else '+') ::
            (Nat.toDigits 10 (v.numerator.natAbs / v.denominator.natAbs) ++ ' ' ::
              (Nat.toDigits 10 (v.numerator.natAbs % v.denominator.natAbs) ++ '/' ::
                Nat.toDigits 10 v.denominator.natAbs))
        else if v.numerator.natAbs / v.denominator.natAbs ≠ 0 then
          (if v.denominator < 0 then '-' else '+') ::
            Nat.toDigits 10 (v.numerator.natAbs / v.denominator.natAbs)
        else if v.numerator.natAbs % v.denominator.natAbs ≠ 0 then
          (if v.denominator < 0 then '-' else '+') ::
            (Nat.toDigits 10 v.numerator.natAbs ++ '/' :: Nat.toDigits 10 v.denominator.natAbs)
        else ['0'])
        buflen) := by
  obtain ⟨s, hs, hI⟩ := ri_integer_fields ndebug hv
  have hF := ri_fraction_fields ndebug hv
  unfold ri_fmtproper
  rw [cassert_of (show buflen > 0 from hb), ri_chk_canonical ndebug hv, hI, hF]
  simp only [Res.ok_bind]
  rw [cassert_of hs]
  simp only [Res.ok_bind, fmt_d_iabs, Int.natAbs_ofNat]
  generalize (if v.denominator < 0 then '-' else '+') = sgc
  by_cases hq : v.numerator.natAbs / v.denominator.natAbs = 0
  · have hq2 : ¬ ((v.numerator.natAbs / v.denominator.natAbs : Nat) : Int) ≠ 0 := by
      rw [hq]
      decide
    by_cases hr : v.numerator.natAbs % v.denominator.natAbs = 0
    · rw [if_pos hr]
      rw [if_neg (fun h => hq2 h.1), if_neg hq2, if_neg (by decide),
        if_neg (fun h => h.1 hq), if_neg (fun h => h hq), if_neg (fun h => h hr)]
      rfl
    · rw [if_neg hr]
      have hr2 : ((v.numerator.natAbs % v.denominator.natAbs : Nat) : Int) ≠ 0 := by omega
      rw [if_neg (fun h => hq2 h.1), if_neg hq2, if_pos hr2,
        if_neg (fun h => h.1 hq), if_neg (fun h => h hq), if_pos hr]
      rfl
  · have hq2 : ((v.numerator.natAbs / v.denominator.natAbs : Nat) : Int) ≠ 0 := by omega
    by_cases hr : v.numerator.natAbs % v.denominator.natAbs = 0
    · rw [if_pos hr]
      rw [if_neg (fun h => h.2 rfl), if_pos hq2, if_neg (fun h => h.2 hr), if_pos hq]
      rfl
    · rw [if_neg hr]
      have hr2 : ((v.numerator.natAbs % v.denominator.natAbs : Nat) : Int) ≠ 0 := by omega
      have hden : (signum v.denominator * (v.denominator.natAbs : Int)).natAbs =
          v.denominator.natAbs := by
        rw [signum_mul_natAbs]
      rw [if_pos ⟨hq2, hr2⟩, if_pos ⟨hq, hr⟩, hden]
      rfl

/-! ## Scanning a rendering of a canonical fraction -/

theorem canonical_nat_bounds {v : RationalInt} (hv : Canonical v) :
    ((v.numerator.natAbs : Nat) : Int) = v.numerator ∧
      ((v.numerator.natAbs : Nat) : Int) ≤ INT_MAX ∧
      ((v.denominator.natAbs : Nat) : Int) ≤ INT_MAX ∧ 0 < v.denominator.natAbs := by
  obtain ⟨h1, h2, h3, h4, h5, _⟩ := (canonical_iff v).mp hv
  have hm : INT_MAX = 2147483647 := rfl
  refine ⟨by omega, by omega, by omega, by omega⟩

/-- Sign and numerator, for a fraction whose denominator is `+1` or `-1`. -/
theorem scan_sign_integer (ndebug : Bool) {v : RationalInt} (hv : Canonical v)
    (hd : v.denominator.natAbs = 1) :
    ri_scn ndebug ((if v.denominator < 0 then '-' else '+') ::
        Nat.toDigits 10 v.numerator.natAbs) =
      Res.ok ⟨0, some ((if v.denominator < 0 then '-' else '+') ::
        Nat.toDigits 10 v.numerator.natAbs).length, some v, Errno.ENOERROR⟩ := by
  obtain ⟨e1, e2, _, _⟩ := canonical_nat_bounds hv
  have hs := sign_char_mul v.denominator
  rw [hd, Nat.cast_one, mul_one] at hs
  have h := scan_integer_text ndebug (sign_char_cases v.denominator) v.numerator.natAbs e2
  rw [e1, hs, ri_new_self ndebug hv, Res.ok_bind] at h
  exact h

/-- Sign, numerator, `/`, magnitude of the denominator. -/
theorem scan_sign_simple (ndebug : Bool) {v : RationalInt} (hv : Canonical v) :
    ri_scn ndebug ((if v.denominator < 0 then '-' else '+') ::
        (Nat.toDigits 10 v.numerator.natAbs ++ '/' :: Nat.toDigits 10 v.denominator.natAbs)) =
      Res.ok ⟨0, some ((if v.denominator < 0 then '-' else '+') ::
        (Nat.toDigits 10 v.numerator.natAbs ++
          '/' :: Nat.toDigits 10 v.denominator.natAbs)).length, some v, Errno.ENOERROR⟩ := by
  obtain ⟨e1, e2, e3, _⟩ := canonical_nat_bounds hv
  have h := scan_simple_text ndebug (sign_char_cases v.denominator) v.numerator.natAbs
    v.denominator.natAbs e2 e3
  rw [e1, sign_char_mul, ri_new_self ndebug hv, Res.ok_bind] at h
  exact h

/-- Sign, integer part, a space, remainder, `/`, magnitude of the denominator: the
overflow test of `cvt_compound` passes because denominator times integer part
plus remainder is the numerator again. -/
theorem scan_sign_compound (ndebug : Bool) {v : RationalInt} (hv : Canonical v) :
    ri_scn ndebug ((if v.denominator < 0 then '-' else '+') ::
        (Nat.toDigits 10 (v.numerator.natAbs / v.denominator.natAbs) ++ ' ' ::
          (Nat.toDigits 10 (v.numerator.natAbs % v.denominator.natAbs) ++ '/' ::
            Nat.toDigits 10 v.denominator.natAbs))) =
      Res.ok ⟨0, some ((if v.denominator < 0 then '-' else '+') ::
        (Nat.toDigits 10 (v.numerator.natAbs / v.denominator.natAbs) ++ ' ' ::
          (Nat.toDigits 10 (v.numerator.natAbs % v.denominator.natAbs) ++ '/' ::
            Nat.toDigits 10 v.denominator.natAbs))).length, some v, Errno.ENOERROR⟩ := by
  obtain ⟨e1, e2, e3, e4⟩ := canonical_nat_bounds hv
  have hdm := Nat.div_add_mod v.numerator.natAbs v.denominator.natAbs
  have hsum : ((v.denominator.natAbs * (v.numerator.natAbs / v.denominator.natAbs) +
      v.numerator.natAbs % v.denominator.natAbs : Nat) : Int) ≤ INT_MAX := by
    rw [hdm]
    exact e2
  have h := scan_compound_text ndebug (sign_char_cases v.denominator)
    (v.numerator.natAbs / v.denominator.natAbs) (v.numerator.natAbs % v.denominator.natAbs)
    v.denominator.natAbs e4 e3 hsum
  have hnum : ((v.denominator.natAbs : Nat) : Int) *
      ((v.numerator.natAbs / v.denominator.natAbs : Nat) : Int) +
      ((v.numerator.natAbs % v.denominator.natAbs : Nat) : Int) = v.numerator := by
    rw [← e1]
    exact_mod_cast hdm
  rw [hnum, sign_char_mul, ri_new_self ndebug hv, Res.ok_bind] at h
  exact h

/-- The text `0` scans to the zero fraction. -/
theorem scan_zero_text (ndebug : Bool) :
    ri_scn ndebug ['0'] = Res.ok ⟨0, some 1, some ⟨0, 1⟩, Errno.ENOERROR⟩ := by
  cases ndebug <;> decide

/-! ## The renderings in the words of the specification -/

theorem spec_compact_text_eq {v : RationalInt} (hv : Canonical v) :
    spec_compact_text v =
      (if v.denominator < 0 then '-' else '+') ::
        (if v.denominator.natAbs = 1 then Nat.toDigits 10 v.numerator.natAbs
         else Nat.toDigits 10 v.numerator.natAbs ++
           '/' :: Nat.toDigits 10 v.denominator.natAbs) := by
  obtain ⟨h1, _⟩ := (canonical_iff v).mp hv
  have e1 : v.numerator.toNat = v.numerator.natAbs := by omega
  unfold spec_compact_text
  rw [e1]
  generalize (if v.denominator < 0 then '-' else '+') = sgc
  by_cases hd : v.denominator.natAbs = 1
  · rw [if_neg (fun h => h hd), if_pos hd, List.append_nil]
  · rw [if_pos hd, if_neg hd]

theorem buffer_after_eq {text : List Char} (hne : text ≠ []) (buflen : Nat) :
    buffer_after text buflen = if text.length < buflen then text else [] := by
  unfold buffer_after
  have : 0 < text.length := List.length_pos.mpr hne
  by_cases h : text.length < buflen
  · rw [if_neg (by omega), if_pos h]
  · rw [if_pos (by omega), if_neg h]

theorem spec_compact_text_ne (v : RationalInt) : spec_compact_text v ≠ [] :=
  List.cons_ne_nil _ _

theorem spec_proper_text_ne (v : RationalInt) : spec_proper_text v ≠ [] := by
  unfold spec_proper_text
  simp only
  split_ifs <;> exact List.cons_ne_nil _ _

/-- With room for at least the terminator `ri_fmt` leaves the compact rendering or,
when that does not fit, the empty string. -/
theorem ri_fmt_spec (ndebug : Bool) {v : RationalInt} (hv : Canonical v) (buffer : List Char)
    {buflen : Nat} (hb : 0 < buflen) :
    ri_fmt ndebug v buffer buflen =
      Res.ok (if (spec_compact_text v).length < buflen then spec_compact_text v else []) := by
  rw [ri_fmt_text ndebug hv buffer hb, ← spec_compact_text_eq hv,
    buffer_after_eq (spec_compact_text_ne v)]

/-- The magnitude of a canonical value, its integer part and the rest in lowest terms. -/
theorem abs_val_parts {v : RationalInt} (hv : Canonical v) :
    ⌊|val v|⌋.toNat = v.numerator.natAbs / v.denominator.natAbs ∧
      (|val v| - ((v.numerator.natAbs / v.denominator.natAbs : Nat) : ℚ)).num =
        ((v.numerator.natAbs % v.denominator.natAbs : Nat) : Int) ∧
      (v.numerator.natAbs % v.denominator.natAbs ≠ 0 →
        (|val v| - ((v.numerator.natAbs / v.denominator.natAbs : Nat) : ℚ)).den =
          v.denominator.natAbs) ∧
      (val v < 0 ↔ v.denominator < 0 ∧ v.numerator ≠ 0) := by
  obtain ⟨h1, _, h3, _, _, h6, _⟩ := (canonical_iff v).mp hv
  have hDpos : 0 < v.denominator.natAbs := Int.natAbs_pos.mpr h3
  have hDq : (0 : ℚ) < (v.denominator.natAbs : ℚ) := by exact_mod_cast hDpos
  have habs : |val v| = ((v.numerator.natAbs : Nat) : ℚ) / ((v.denominator.natAbs : Nat) : ℚ) := by
    unfold val
    rw [abs_div, ← Int.cast_abs, ← Int.cast_abs, Int.abs_eq_natAbs, Int.abs_eq_natAbs]
    simp only [Int.cast_natCast]
  have hfloor : ⌊|val v|⌋ = ((v.numerator.natAbs / v.denominator.natAbs : Nat) : Int) := by
    rw [habs]
    have := Rat.floor_intCast_div_natCast (v.numerator.natAbs : Int) v.denominator.natAbs
    simp only [Int.cast_natCast] at this
    rw [this]
    rfl
  have hrest : |val v| - ((v.numerator.natAbs / v.denominator.natAbs : Nat) : ℚ) =
      (((v.numerator.natAbs % v.denominator.natAbs : Nat) : Int) : ℚ) /
        (((v.denominator.natAbs : Nat) : Int) : ℚ) := by
    rw [habs]
    have hdm := Nat.div_add_mod v.numerator.natAbs v.denominator.natAbs
    have hq : ((v.numerator.natAbs : Nat) : ℚ) =
        (v.denominator.natAbs : ℚ) * ((v.numerator.natAbs / v.denominator.natAbs : Nat) : ℚ) +
          ((v.numerator.natAbs % v.denominator.natAbs : Nat) : ℚ) := by
      exact_mod_cast hdm.symm
    simp only [Int.cast_natCast]
    field_simp
    linarith
  have hg : Int.gcd ((v.numerator.natAbs % v.denominator.natAbs : Nat) : Int)
      ((v.denominator.natAbs : Nat) : Int) = 1 := by
    rw [Int.gcd_eq_natAbs, Int.natAbs_ofNat, Int.natAbs_ofNat, ← Nat.gcd_rec, Nat.gcd_comm,
      ← Int.gcd_eq_natAbs]
    exact h6
  have hDne : ((v.denominator.natAbs : Nat) : Int) ≠ 0 := by omega
  obtain ⟨e1, e2⟩ := rat_of_coprime hDne hg
  refine ⟨by rw [hfloor]; rfl, ?_, ?_, ?_⟩
  · rw [hrest, e1, Int.sign_eq_one_of_pos (by omega), one_mul]
  · intro _
    rw [hrest]
    have : |((v.denominator.natAbs : Nat) : Int)| = ((v.denominator.natAbs : Nat) : Int) :=
      abs_of_nonneg (by omega)
    rw [this] at e2
    exact_mod_cast e2
  · have hnq : (0 : ℚ) ≤ (v.numerator : ℚ) := by exact_mod_cast h1
    have hdq : (v.denominator : ℚ) ≠ 0 := by exact_mod_cast h3
    unfold val
    constructor
    · intro h
      have hd : v.denominator < 0 := by
        by_contra hcon
        have : (0 : ℚ) ≤ (v.denominator : ℚ) := by exact_mod_cast (not_lt.mp hcon)
        exact absurd h (not_lt.mpr (div_nonneg hnq this))
      refine ⟨hd, ?_⟩
      intro h0
      rw [h0] at h
      simp at h
    · rintro ⟨hd, hn⟩
      have hn2 : (0 : ℚ) < (v.numerator : ℚ) := by
        have : 0 < v.numerator := by omega
        exact_mod_cast this
      have hd2 : (v.denominator : ℚ) < 0 := by exact_mod_cast hd
      exact div_neg_of_pos_of_neg hn2 hd2

theorem spec_proper_text_eq {v : RationalInt} (hv : Canonical v) :
    spec_proper_text v =
      (if v.numerator.natAbs / v.denominator.natAbs ≠ 0 ∧
          v.numerator.natAbs % v.denominator.natAbs ≠ 0 then
        (if v.denominator < 0 then '-' else '+') ::
          (Nat.toDigits 10 (v.numerator.natAbs / v.denominator.natAbs) ++ ' ' ::
            (Nat.toDigits 10 (v.numerator.natAbs % v.denominator.natAbs) ++ '/' ::
              Nat.toDigits 10 v.denominator.natAbs))
      else if v.numerator.natAbs / v.denominator.natAbs ≠ 0 then
        (if v.denominator < 0 then '-' else '+') ::
          Nat.toDigits 10 (v.numerator.natAbs / v.denominator.natAbs)
      else if v.numerator.natAbs % v.denominator.natAbs ≠ 0 then
        (if v.denominator < 0 then '-' else '+') ::
          (Nat.toDigits 10 v.numerator.natAbs ++ '/' :: Nat.toDigits 10 v.denominator.natAbs)
      else ['0']) := by
  obtain ⟨e1, e2, e3, e4⟩ := abs_val_parts hv
  obtain ⟨h1, _, h3, _, _, _, h7⟩ := (canonical_iff v).mp hv
  have hdm := Nat.div_add_mod v.numerator.natAbs v.denominator.natAbs
  unfold spec_proper_text
  simp only [e1, e2, Int.toNat_ofNat, Nat.cast_ne_zero]
  by_cases hn : v.numerator = 0
  · have hq : v.numerator.natAbs / v.denominator.natAbs = 0 := by
      rw [hn]
      simp
    have hr : v.numerator.natAbs % v.denominator.natAbs = 0 := by
      rw [hn]
      simp
    generalize (if val v < 0 then '-' else '+') = s1
    generalize (if v.denominator < 0 then '-' else '+') = s2
    rw [if_neg (fun h => h.1 hq), if_neg (fun h => h hq), if_neg (fun h => h hr),
      if_neg (fun h => h.1 hq), if_neg (fun h => h hq), if_neg (fun h => h hr)]
  · have hsign : (if val v < 0 then '-' else '+') = (if v.denominator < 0 then '-' else '+') := by
      by_cases hd : v.denominator < 0
      · rw [if_pos (e4.mpr ⟨hd, hn⟩), if_pos hd]
      · rw [if_neg (fun h => hd (e4.mp h).1), if_neg hd]
    rw [hsign]
    generalize (if v.denominator < 0 then '-' else '+') = sgc
    by_cases hq : v.numerator.natAbs / v.denominator.natAbs = 0
    · have hr : v.numerator.natAbs % v.denominator.natAbs ≠ 0 := by
        intro hr
        rw [hq, hr] at hdm
        omega
      have hN : v.numerator.natAbs % v.denominator.natAbs = v.numerator.natAbs := by
        rw [hq] at hdm
        omega
      rw [if_neg (fun h => h.1 hq), if_neg (fun h => h hq), if_pos hr,
        if_neg (fun h => h.1 hq), if_neg (fun h => h hq), if_pos hr, e3 hr, hN]
    · by_cases hr : v.numerator.natAbs % v.denominator.natAbs = 0
      · rw [if_neg (fun h => h.2 hr), if_pos hq, if_neg (fun h => h.2 hr), if_pos hq]
      · rw [if_pos ⟨hq, hr⟩, if_pos ⟨hq, hr⟩, e3 hr]

/-- With room for at least the terminator `ri_fmtproper` leaves the proper rendering
or, when that does not fit, the empty string. -/
theorem ri_fmtproper_spec (ndebug : Bool) {v : RationalInt} (hv : Canonical v)
    {buflen : Nat} (hb : 0 < buflen) :
    ri_fmtproper ndebug v buflen =
      Res.ok (if (spec_proper_text v).length < buflen then spec_proper_text v else []) := by
  rw [ri_fmtproper_text ndebug hv hb, ← spec_proper_text_eq hv,
    buffer_after_eq (spec_proper_text_ne v)]

/-! ## The scanner on the forms of the specification -/

theorem run_value_nonneg : ∀ (ds : List Char) (acc : Int), 0 ≤ acc → 0 ≤ run_value ds acc
  | [], acc, h => h
  | c :: cs, acc, h => by
    unfold run_value
    by_cases hc : isdigit c = true
    · rw [if_pos hc]
      apply run_value_nonneg cs
      have hd := hc
      unfold isdigit at hd
      simp only [decide_eq_true_eq] at hd
      unfold digit_val
      omega
    · rw [if_neg hc]
      exact h

/-- The fraction `ri_new` makes of a non-negative `int` and a sign. -/
theorem ri_new_unit (ndebug : Bool) {n s : Int} (h0 : 0 ≤ n) (hn : n ≤ INT_MAX)
    (hs : s = 1 ∨ s = -1) :
    ri_new ndebug n s = Res.ok (if n = 0 then ⟨0, 1⟩ else ⟨n, s⟩) := by
  have hm : INT_MAX = 2147483647 := rfl
  have hi : INT_MIN = -2147483648 := rfl
  by_cases hz : n = 0
  · rw [if_pos hz, hz]
    exact ri_new_zero ndebug (by omega) (by omega)
  · rw [if_neg hz]
    have hc : Canonical ⟨n, s⟩ := by
      rw [canonical_iff]
      show 0 ≤ n ∧ n ≤ INT_MAX ∧ s ≠ 0 ∧ -INT_MAX ≤ s ∧ s ≤ INT_MAX ∧ Int.gcd n s = 1 ∧
        (n = 0 → s = 1)
      refine ⟨h0, hn, by omega, by omega, by omega, ?_, fun h => absurd h hz⟩
      rcases hs with e | e <;> rw [e, Int.gcd_eq_natAbs] <;> exact Nat.gcd_one_right _
    exact ri_new_self ndebug hc

theorem sign_cases {sg : List Char} :
    (if sg = ['-'] then (-1 : Int) else 1) = 1 ∨ (if sg = ['-'] then (-1 : Int) else 1) = -1 := by
  by_cases h : sg = ['-']
  · rw [if_pos h]
    exact Or.inr rfl
  · rw [if_neg h]
    exact Or.inl rfl

/-- Nothing recognised: after the blanks and the optional sign comes neither a
digit nor a point with a digit behind it. -/
theorem ri_scn_nothing (ndebug : Bool) {bl sg rest : List Char}
    (hbl : ∀ c ∈ bl, isblank c = true) (hsg : sg = [] ∨ sg = ['+'] ∨ sg = ['-'])
    (hmax : sg = [] →
      isblank (charAt rest 0) = false ∧ charAt rest 0 ≠ '+' ∧ charAt rest 0 ≠ '-')
    (hnd : isdigit (charAt rest 0) = false)
    (hdot : ¬ (charAt rest 0 = '.' ∧ isdigit (charAt rest 1) = true)) :
    ri_scn ndebug (bl ++ (sg ++ rest)) = Res.ok ⟨-1, some 0, none, Errno.EINVAL⟩ := by
  have hnb : isblank (charAt (sg ++ rest) 0) = false := by
    rcases hsg with e | e | e
    · rw [e]
      exact (hmax e).1
    · rw [e]
      show isblank '+' = false
      decide
    · rw [e]
      show isblank '-' = false
      decide
  have h0 : bl ++ (sg ++ rest) = [] ++ (bl ++ (sg ++ rest)) := rfl
  have hskip : skip_blank (bl ++ (sg ++ rest)) 0 = bl.length := by
    have := skip_blank_at h0 hbl hnb
    simpa using this
  have hc1 : charAt (bl ++ (sg ++ rest)) bl.length = charAt (sg ++ rest) 0 := charAt_at rfl
  have h2 : bl ++ (sg ++ rest) = (bl ++ sg) ++ rest := by rw [List.append_assoc]
  have hlen : (bl ++ sg).length = bl.length + sg.length := List.length_append bl sg
  have hc2 : charAt (bl ++ (sg ++ rest)) (bl.length + sg.length) = charAt rest 0 := by
    rw [← hlen]
    exact charAt_at h2
  have hc3 : charAt (bl ++ (sg ++ rest)) (bl.length + sg.length + 1) = charAt rest 1 := by
    rw [← hlen]
    exact charAt_at_succ h2
  unfold ri_scn
  simp only [hskip, hc1]
  rcases hsg with e | e | e
  · subst e
    simp only [List.nil_append, List.length_nil, Nat.add_zero] at hc2 hc3 ⊢
    obtain ⟨_, a1, a2⟩ := hmax rfl
    simp only [a1, a2, or_self, if_false, hc2, hc3, hdot, hnd]
    rfl
  · subst e
    simp only [List.length_singleton] at hc2 hc3 ⊢
    have a1 : charAt (['+'] ++ rest) 0 = '+' := rfl
    simp only [a1, true_or, if_true, hc2, hc3, hdot, hnd]
    rfl
  · subst e
    simp only [List.length_singleton] at hc2 hc3 ⊢
    have a1 : charAt (['-'] ++ rest) 0 = '-' := rfl
    simp only [a1, or_true, if_true, hc2, hc3, hdot, hnd]
    rfl

/-- After the first digit run: blanks, then a character that is neither a digit
nor `/`, the run itself not being followed by a point. -/
theorem ri_scn_tail_integer_blank (ndebug : Bool) {str pre bl rest : List Char}
    (fs : FractionString) {p : Nat} (hp : p = pre.length) (h : str = pre ++ (bl ++ rest))
    (hbl : ∀ c ∈ bl, isblank c = true) (hdot : charAt (bl ++ rest) 0 ≠ '.')
    (hr1 : isblank (charAt rest 0) = false) (hr2 : isdigit (charAt rest 0) = false)
    (hr3 : charAt rest 0 ≠ '/') :
    ri_scn_tail ndebug str fs p = cvt_integer ndebug str fs := by
  subst hp
  have c0 : charAt str pre.length ≠ '.' := by
    rw [charAt_at h]
    exact hdot
  have e1 : skip_blank str pre.length = (pre ++ bl).length := by
    rw [skip_blank_at h hbl hr1, List.length_append]
  have h2 : str = (pre ++ bl) ++ rest := by rw [h, List.append_assoc]
  have c1 : charAt str (pre ++ bl).length = charAt rest 0 := charAt_at h2
  unfold ri_scn_tail
  rw [if_neg c0, e1, c1, if_pos ⟨hr2, hr3⟩]

/-- After the first digit run: blanks, `/`, blanks, then no digit. -/
theorem ri_scn_tail_slash_only (ndebug : Bool) {str pre bl1 bl2 rest : List Char}
    (fs : FractionString) {p : Nat} (hp : p = pre.length)
    (h : str = pre ++ (bl1 ++ ('/' :: (bl2 ++ rest))))
    (hb1 : ∀ c ∈ bl1, isblank c = true) (hb2 : ∀ c ∈ bl2, isblank c = true)
    (hr1 : isblank (charAt rest 0) = false) (hr2 : isdigit (charAt rest 0) = false) :
    ri_scn_tail ndebug str fs p = cvt_integer ndebug str fs := by
  subst hp
  have c0 : charAt str pre.length ≠ '.' := by
    rw [charAt_at h]
    cases bl1 with
    | nil => show '/' ≠ '.'; decide
    | cons c cs => exact ne_of_isblank (hb1 c (List.mem_cons_self c cs)) (by decide)
  have e1 : skip_blank str pre.length = pre.length + bl1.length :=
    skip_blank_at h hb1 (by show isblank '/' = false; decide)
  have h2 : str = (pre ++ bl1) ++ ('/' :: (bl2 ++ rest)) := by
    rw [h, List.append_assoc]
  have l2 : (pre ++ bl1).length = pre.length + bl1.length := List.length_append _ _
  have c1 : charAt str (pre.length + bl1.length) = '/' := by
    rw [← l2, charAt_at h2]; rfl
  have h3 : str = (pre ++ bl1 ++ ['/']) ++ (bl2 ++ rest) := by
    rw [h]; simp only [List.append_assoc, List.singleton_append, List.cons_append, List.nil_append]
  have l3 : (pre ++ bl1 ++ ['/']).length = pre.length + bl1.length + 1 := by
    simp only [List.length_append, List.length_singleton]
  have e2 : skip_blank str (pre.length + bl1.length + 1) =
      pre.length + bl1.length + 1 + bl2.length := by
    rw [← l3]; exact skip_blank_at h3 hb2 hr1
  have h4 : str = (pre ++ bl1 ++ ['/'] ++ bl2) ++ rest := by
    rw [h]; simp only [List.append_assoc, List.singleton_append, List.cons_append, List.nil_append]
  have l4 : (pre ++ bl1 ++ ['/'] ++ bl2).length =
      pre.length + bl1.length + 1 + bl2.length := by
    simp only [List.length_append, List.length_singleton]
  have c2 : isdigit (charAt str (pre.length + bl1.length + 1 + bl2.length)) = false := by
    rw [← l4, charAt_at h4]; exact hr2
  unfold ri_scn_tail
  rw [if_neg c0, e1, c1, if_neg (by simp), if_pos rfl, e2, c2, if_pos rfl]

/-- After the first digit run: blanks, a second digit run, blanks, then no `/`. -/
theorem ri_scn_tail_second_run (ndebug : Bool) {str pre bl1 ns bl2 rest : List Char}
    (fs : FractionString) {p : Nat} (hp : p = pre.length)
    (h : str = pre ++ (bl1 ++ (ns ++ (bl2 ++ rest))))
    (hb1 : ∀ c ∈ bl1, isblank c = true) (hb2 : ∀ c ∈ bl2, isblank c = true)
    (hnn : ns ≠ []) (hns : ∀ c ∈ ns, isdigit c = true)
    (hr1 : isblank (charAt rest 0) = false) (hstop : isdigit (charAt (bl2 ++ rest) 0) = false)
    (hr3 : charAt rest 0 ≠ '/') :
    ri_scn_tail ndebug str fs p =
      cvt_integer ndebug str
        { fs with n_start := some (p + bl1.length),
                  n_end := some (p + bl1.length + ns.length) } := by
  subst hp
  have hn0 : isdigit (charAt (ns ++ (bl2 ++ rest)) 0) = true := head_digit hnn hns _
  have c0 : charAt str pre.length ≠ '.' := by
    rw [charAt_at h]
    cases bl1 with
    | nil => exact ne_of_isdigit hn0 (by decide)
    | cons c cs => exact ne_of_isblank (hb1 c (List.mem_cons_self c cs)) (by decide)
  have e1 : skip_blank str pre.length = pre.length + bl1.length :=
    skip_blank_at h hb1 (isblank_of_isdigit hn0)
  have h2 : str = (pre ++ bl1) ++ (ns ++ (bl2 ++ rest)) := by
    rw [h, List.append_assoc]
  have l2 : (pre ++ bl1).length = pre.length + bl1.length := List.length_append _ _
  have c1 : isdigit (charAt str (pre.length + bl1.length)) = true := by
    rw [← l2, charAt_at h2]; exact hn0
  have c1s : charAt str (pre.length + bl1.length) ≠ '/' := ne_of_isdigit c1 (by decide)
  have e2 : skip_digits str (pre.length + bl1.length) = pre.length + bl1.length + ns.length := by
    rw [← l2]; exact skip_digits_at h2 hns hstop
  have h3 : str = (pre ++ bl1 ++ ns) ++ (bl2 ++ rest) := by
    rw [h]; simp only [List.append_assoc]
  have l3 : (pre ++ bl1 ++ ns).length = pre.length + bl1.length + ns.length := by
    simp only [List.length_append]
  have e3 : skip_blank str (pre.length + bl1.length + ns.length) =
      pre.length + bl1.length + ns.length + bl2.length := by
    rw [← l3]; exact skip_blank_at h3 hb2 hr1
  have h4 : str = (pre ++ bl1 ++ ns ++ bl2) ++ rest := by
    rw [h]; simp only [List.append_assoc]
  have l4 : (pre ++ bl1 ++ ns ++ bl2).length =
      pre.length + bl1.length + ns.length + bl2.length := by
    simp only [List.length_append]
  have c3 : charAt str (pre.length + bl1.length + ns.length + bl2.length) ≠ '/' := by
    rw [← l4, charAt_at h4]; exact hr3
  unfold ri_scn_tail
  rw [if_neg c0, e1, c1, if_neg (by simp), if_neg c1s, cassert_of rfl]
  simp only [Res.ok_bind]
  rw [e2, e3, if_pos c3]

/-- After the first digit run: blanks, a second digit run, blanks, `/`, blanks,
then no digit. -/
theorem ri_scn_tail_second_run_slash (ndebug : Bool)
    {str pre bl1 ns bl2 bl3 rest : List Char}
    (fs : FractionString) {p : Nat} (hp : p = pre.length)
    (h : str = pre ++ (bl1 ++ (ns ++ (bl2 ++ ('/' :: (bl3 ++ rest))))))
    (hb1 : ∀ c ∈ bl1, isblank c = true) (hb2 : ∀ c ∈ bl2, isblank c = true)
    (hb3 : ∀ c ∈ bl3, isblank c = true)
    (hnn : ns ≠ []) (hns : ∀ c ∈ ns, isdigit c = true)
    (hr1 : isblank (charAt rest 0) = false) (hr2 : isdigit (charAt rest 0) = false) :
    ri_scn_tail ndebug str fs p =
      cvt_integer ndebug str
        { fs with n_start := some (p + bl1.length),
                  n_end := some (p + bl1.length + ns.length) } := by
  subst hp
  have hn0 : isdigit (charAt (ns ++ (bl2 ++ ('/' :: (bl3 ++ rest)))) 0) = true :=
    head_digit hnn hns _
  have c0 : charAt str pre.length ≠ '.' := by
    rw [charAt_at h]
    cases bl1 with
    | nil => exact ne_of_isdigit hn0 (by decide)
    | cons c cs => exact ne_of_isblank (hb1 c (List.mem_cons_self c cs)) (by decide)
  have e1 : skip_blank str pre.length = pre.length + bl1.length :=
    skip_blank_at h hb1 (isblank_of_isdigit hn0)
  have h2 : str = (pre ++ bl1) ++ (ns ++ (bl2 ++ ('/' :: (bl3 ++ rest)))) := by
    rw [h, List.append_assoc]
  have l2 : (pre ++ bl1).length = pre.length + bl1.length := List.length_append _ _
  have c1 : isdigit (charAt str (pre.length + bl1.length)) = true := by
    rw [← l2, charAt_at h2]; exact hn0
  have c1s : charAt str (pre.length + bl1.length) ≠ '/' := ne_of_isdigit c1 (by decide)
  have hstop : isdigit (charAt (bl2 ++ ('/' :: (bl3 ++ rest))) 0) = false :=
    head_blank_run hb2 (fun c hc => isdigit_of_isblank hc) (by show isdigit '/' = false; decide)
  have e2 : skip_digits str (pre.length + bl1.length) = pre.length + bl1.length + ns.length := by
    rw [← l2]; exact skip_digits_at h2 hns hstop
  have h3 : str = (pre ++ bl1 ++ ns) ++ (bl2 ++ ('/' :: (bl3 ++ rest))) := by
    rw [h]; simp only [List.append_assoc]
  have l3 : (pre ++ bl1 ++ ns).length = pre.length + bl1.length + ns.length := by
    simp only [List.length_append]
  have e3 : skip_blank str (pre.length + bl1.length + ns.length) =
      pre.length + bl1.length + ns.length + bl2.length := by
    rw [← l3]; exact skip_blank_at h3 hb2 (by show isblank '/' = false; decide)
  have h4 : str = (pre ++ bl1 ++ ns ++ bl2) ++ ('/' :: (bl3 ++ rest)) := by
    rw [h]; simp only [List.append_assoc]
  have l4 : (pre ++ bl1 ++ ns ++ bl2).length =
      pre.length + bl1.length + ns.length + bl2.length := by
    simp only [List.length_append]
  have c3 : charAt str (pre.length + bl1.length + ns.length + bl2.length) = '/' := by
    rw [← l4, charAt_at h4]; rfl
  have h5 : str = (pre ++ bl1 ++ ns ++ bl2 ++ ['/']) ++ (bl3 ++ rest) := by
    rw [h]; simp only [List.append_assoc, List.singleton_append, List.cons_append, List.nil_append]
  have l5 : (pre ++ bl1 ++ ns ++ bl2 ++ ['/']).length =
      pre.length + bl1.length + ns.length + bl2.length + 1 := by
    simp only [List.length_append, List.length_singleton]
  have e4 : skip_blank str (pre.length + bl1.length + ns.length + bl2.length + 1) =
      pre.length + bl1.length + ns.length + bl2.length + 1 + bl3.length := by
    rw [← l5]; exact skip_blank_at h5 hb3 hr1
  have h6 : str = (pre ++ bl1 ++ ns ++ bl2 ++ ['/'] ++ bl3) ++ rest := by
    rw [h]; simp only [List.append_assoc, List.singleton_append, List.cons_append, List.nil_append]
  have l6 : (pre ++ bl1 ++ ns ++ bl2 ++ ['/'] ++ bl3).length =
      pre.length + bl1.length + ns.length + bl2.length + 1 + bl3.length := by
    simp only [List.length_append, List.length_singleton]
  have c4 : isdigit (charAt str
      (pre.length + bl1.length + ns.length + bl2.length + 1 + bl3.length)) = false := by
    rw [← l6, charAt_at h6]; exact hr2
  unfold ri_scn_tail
  rw [if_neg c0, e1, c1, if_neg (by simp), if_neg c1s, cassert_of rfl]
  simp only [Res.ok_bind]
  rw [e2, e3, c3, if_neg (by simp), e4, c4, if_pos rfl]

/-- What `cvt_integer` returns for a first digit run of value at most `INT_MAX`,
whatever the other fields of `fs` hold. -/
theorem cvt_integer_value (ndebug : Bool) {str pre ds rest : List Char} {fs : FractionString}
    {p : Nat} (hp : p = pre.length) (h : str = pre ++ (ds ++ rest))
    (hds : ∀ c ∈ ds, isdigit c = true) (hr : isdigit (charAt rest 0) = false)
    (hs : fs.i_start = some p) (he : fs.i_end = some (p + ds.length))
    (hsign : fs.sign = 1 ∨ fs.sign = -1) :
    cvt_integer ndebug str fs =
      if run_value ds 0 ≤ INT_MAX then
        Res.ok ⟨0, some (p + ds.length),
          some (if run_value ds 0 = 0 then ⟨0, 1⟩ else ⟨run_value ds 0, fs.sign⟩),
          Errno.ENOERROR⟩
      else Res.ok ⟨-1, some (p + ds.length), none, Errno.ERANGE⟩ := by
  rw [cvt_integer_at ndebug hp h hds hr hs he]
  by_cases hv : run_value ds 0 ≤ INT_MAX
  · rw [if_pos hv, if_pos hv, ri_new_unit ndebug (run_value_nonneg ds 0 le_rfl) hv hsign,
      Res.ok_bind]
  · rw [if_neg hv, if_neg hv]

/-- A fraction whose denominator carries a sign of magnitude one: the value is the
signed numerator over the magnitude. -/
theorem signed_div (n d : Int) {s : Int} (hs : s = 1 ∨ s = -1) :
    ((n : Int) : ℚ) / ((s * d : Int) : ℚ) = ((s * n : Int) : ℚ) / ((d : Int) : ℚ) := by
  rcases hs with e | e
  · rw [e, one_mul, one_mul]
  · rw [e]
    push_cast
    rw [neg_one_mul, neg_one_mul, div_neg, neg_div]

/-- What `ri_new` returns for a numerator in `[0, INT_MAX]` and a signed denominator
of magnitude in `[1, INT_MAX]`. -/
theorem ri_new_signed (ndebug : Bool) {n d s : Int} (h0 : 0 ≤ n)
    (hd0 : 0 < d) (hd : d ≤ INT_MAX) (hs : s = 1 ∨ s = -1) :
    ri_new ndebug n (s * d) = Res.ok (canon (((s * n : Int) : ℚ) / ((d : Int) : ℚ))) := by
  have hm : INT_MAX = 2147483647 := rfl
  have hi : INT_MIN = -2147483648 := rfl
  have hsd : s * d = d ∨ s * d = -d := by
    rcases hs with e | e
    · left
      rw [e, one_mul]
    · right
      rw [e, neg_one_mul]
  rw [ri_new_eq_canon ndebug (by omega) (by omega) (by omega), signed_div n d hs]

/-! ## The decimal form -/

theorem digit_val_range {c : Char} (h : isdigit c = true) :
    0 ≤ digit_val c ∧ digit_val c ≤ 9 := by
  unfold isdigit at h
  simp only [decide_eq_true_eq] at h
  unfold digit_val
  omega

theorem iszero_iff (c : Char) : iszero c = true ↔ c = '0' := by
  unfold iszero
  simp only [decide_eq_true_eq]

theorem digit_val_zero_iff (c : Char) : digit_val c = 0 ↔ c = '0' := by
  unfold digit_val
  constructor
  · intro h
    have h2 : c.toNat = ('0' : Char).toNat := by
      have : ('0' : Char).toNat = 48 := rfl
      omega
    exact Char.ext (UInt32.ext h2)
  · intro h
    rw [h]
    rfl

theorem isdigit_zero : isdigit '0' = true := by decide

theorem iszero_of_not_digit {c : Char} (h : isdigit c = false) : iszero c = false := by
  cases hz : iszero c with
  | false => rfl
  | true =>
    rw [(iszero_iff c).mp hz, isdigit_zero] at h
    cases h

theorem run_value_cons {c : Char} (hc : isdigit c = true) (cs : List Char) (acc : Int) :
    run_value (c :: cs) acc = run_value cs (acc * 10 + digit_val c) := by
  rw [run_value, if_pos hc]

theorem run_cons_pos {test : Char → Bool} {c : Char} (hc : test c = true) (cs : List Char) :
    run test (c :: cs) = run test cs + 1 := by
  rw [run, if_pos hc]

theorem run_cons_neg {test : Char → Bool} {c : Char} (hc : ¬ test c = true) (cs : List Char) :
    run test (c :: cs) = 0 := by
  rw [run, if_neg hc]

theorem run_value_ge : ∀ (ds : List Char) (acc : Int), 0 ≤ acc → acc ≤ run_value ds acc
  | [], acc, _ => le_refl acc
  | c :: cs, acc, h => by
    by_cases hc : isdigit c = true
    · rw [run_value_cons hc]
      obtain ⟨h1, _⟩ := digit_val_range hc
      have := run_value_ge cs (acc * 10 + digit_val c) (by omega)
      omega
    · rw [run_value, if_neg hc]

theorem int_max_div : INT_MAX / 10 = 214748364 ∧ INT_MAX % 10 = 7 := by decide

/-- The first digit loop of `cvt_decimal` on a digit run whose value stays within
`INT_MAX`: it reaches the end of the run with that value. -/
theorem dec_int_loop_ok : ∀ (ds rest : List Char) (ptr : Nat) (val n : Int),
    (∀ c ∈ ds, isdigit c = true) → isdigit (charAt rest 0) = false → 0 ≤ val →
    run_value ds val ≤ INT_MAX →
    dec_int_loop (ds ++ rest) ptr val n = some (ptr + ds.length, run_value ds val, n + ds.length)
  | [], rest, ptr, val, n, _, hr, _, _ => by
    cases rest with
    | nil => simp [dec_int_loop, run_value]
    | cons c r =>
      rw [charAt_zero_cons] at hr
      simp [dec_int_loop, run_value, hr]
  | c :: cs, rest, ptr, val, n, hds, hr, h0, hv => by
    have hc : isdigit c = true := hds c (List.mem_cons_self c cs)
    obtain ⟨d0, d9⟩ := digit_val_range hc
    have hv2 : run_value cs (val * 10 + digit_val c) ≤ INT_MAX := by
      rw [run_value_cons hc] at hv
      exact hv
    have hstep := run_value_ge cs (val * 10 + digit_val c) (by omega)
    have hm : INT_MAX = 2147483647 := rfl
    have ih := dec_int_loop_ok cs rest (ptr + 1) (val * 10 + digit_val c) (n + 1)
      (fun x hx => hds x (List.mem_cons_of_mem c hx)) hr (by omega) hv2
    show dec_int_loop (c :: (cs ++ rest)) ptr val n = _
    rw [dec_int_loop, if_pos hc, int_max_div.1, int_max_div.2, if_neg (by omega), ih,
      run_value_cons hc]
    simp only [List.length_cons, Nat.cast_add, Nat.cast_one, Option.some.injEq, Prod.mk.injEq,
      true_and]
    constructor <;> omega

/-- The first digit loop of `cvt_decimal` on a digit run whose value exceeds
`INT_MAX`: it leaves through the range check. -/
theorem dec_int_loop_range : ∀ (ds rest : List Char) (ptr : Nat) (val n : Int),
    (∀ c ∈ ds, isdigit c = true) → 0 ≤ val → val ≤ INT_MAX →
    INT_MAX < run_value ds val → dec_int_loop (ds ++ rest) ptr val n = none
  | [], _, _, val, _, _, _, hle, hv => by
    rw [run_value] at hv
    omega
  | c :: cs, rest, ptr, val, n, hds, h0, hle, hv => by
    have hc : isdigit c = true := hds c (List.mem_cons_self c cs)
    obtain ⟨d0, d9⟩ := digit_val_range hc
    have hv2 : INT_MAX < run_value cs (val * 10 + digit_val c) := by
      rw [run_value_cons hc] at hv
      exact hv
    have hm : INT_MAX = 2147483647 := rfl
    show dec_int_loop (c :: (cs ++ rest)) ptr val n = none
    rw [dec_int_loop, if_pos hc, int_max_div.1, int_max_div.2]
    by_cases hover : val > 214748364 ∨ (val = 214748364 ∧ digit_val c > 7)
    · rw [if_pos hover]
    · rw [if_neg hover]
      exact dec_int_loop_range cs rest (ptr + 1) (val * 10 + digit_val c) (n + 1)
        (fun x hx => hds x (List.mem_cons_of_mem c hx)) (by omega) (by omega) hv2

theorem run_value_zero_cons {c : Char} (hc : c = '0') (cs : List Char) :
    run_value (c :: cs) 0 = run_value cs 0 := by
  subst hc
  rw [run_value_cons isdigit_zero]
  rfl

/-- The leading zeros and the first digit loop of `cvt_decimal` together. -/
theorem dec_int_after_zeros : ∀ (ds rest : List Char) (p0 : Nat),
    (∀ c ∈ ds, isdigit c = true) → isdigit (charAt rest 0) = false →
    run_value ds 0 ≤ INT_MAX →
    ∃ ni : Int,
      dec_int_loop ((ds ++ rest).drop (run iszero (ds ++ rest)))
          (p0 + run iszero (ds ++ rest)) 0 0 = some (p0 + ds.length, run_value ds 0, ni) ∧
        ni + (run iszero (ds ++ rest) : Int) = (ds.length : Int)
  | [], rest, p0, _, hr, _ => by
    have hz : run iszero rest = 0 := run_stop (iszero_of_not_digit hr)
    refine ⟨0, ?_, ?_⟩
    · have := dec_int_loop_ok [] rest p0 0 0 (fun _ h => absurd h (List.not_mem_nil _)) hr
        le_rfl (by decide)
      simpa [hz, run_value] using this
    · simp [hz]
  | c :: cs, rest, p0, hds, hr, hv => by
    by_cases hz : iszero c = true
    · have hc0 : c = '0' := (iszero_iff c).mp hz
      have hrun : run iszero (c :: cs ++ rest) = run iszero (cs ++ rest) + 1 :=
        run_cons_pos hz (cs ++ rest)
      rw [run_value_zero_cons hc0] at hv ⊢
      obtain ⟨ni, h1, h2⟩ := dec_int_after_zeros cs rest (p0 + 1)
        (fun x hx => hds x (List.mem_cons_of_mem c hx)) hr hv
      refine ⟨ni, ?_, ?_⟩
      · rw [hrun]
        have e1 : (c :: cs ++ rest).drop (run iszero (cs ++ rest) + 1) =
            (cs ++ rest).drop (run iszero (cs ++ rest)) := rfl
        have e2 : p0 + (run iszero (cs ++ rest) + 1) = p0 + 1 + run iszero (cs ++ rest) := by
          omega
        have e3 : p0 + (c :: cs).length = p0 + 1 + cs.length := by
          simp only [List.length_cons]
          omega
        rw [e1, e2, e3]
        exact h1
      · rw [hrun]
        simp only [List.length_cons, Nat.cast_add, Nat.cast_one]
        omega
    · have hrun : run iszero (c :: cs ++ rest) = 0 := run_cons_neg hz (cs ++ rest)
      refine ⟨((c :: cs).length : Int), ?_, ?_⟩
      · rw [hrun]
        have := dec_int_loop_ok (c :: cs) rest p0 0 0 hds hr le_rfl hv
        simpa using this
      · rw [hrun]
        simp

theorem zeros_run {zs rest : List Char} (hzs : ∀ c ∈ zs, c = '0')
    (hr : isdigit (charAt rest 0) = false) :
    run iszero (zs ++ rest) = zs.length ∧
      isdigit (charAt (zs ++ rest) (run iszero (zs ++ rest))) = false := by
  have h1 : run iszero (zs ++ rest) = zs.length :=
    run_append (fun c hc => (iszero_iff c).mpr (hzs c hc)) (iszero_of_not_digit hr)
  refine ⟨h1, ?_⟩
  rw [h1]
  have := charAt_append_right zs rest 0
  rw [Nat.add_zero] at this
  rw [this]
  exact hr

theorem charAt_cons_succ (c : Char) (l : List Char) (k : Nat) :
    charAt (c :: l) (k + 1) = charAt l k := rfl

theorem getLast_tail {c : Char} {cs : List Char} (hne : cs ≠ [])
    (h : (c :: cs).getLast? ≠ some '0') : cs.getLast? ≠ some '0' := by
  cases cs with
  | nil => exact absurd rfl hne
  | cons b l =>
    rw [List.getLast?_cons_cons] at h
    exact h

/-- In a digit run that does not end in a zero, the zeros in front end at a digit. -/
theorem zero_run_ends_in_digit : ∀ (cs tail : List Char), (∀ c ∈ cs, isdigit c = true) →
    cs ≠ [] → cs.getLast? ≠ some '0' →
    isdigit (charAt (cs ++ tail) (run iszero (cs ++ tail))) = true
  | [], _, _, hne, _ => absurd rfl hne
  | c :: cs, tail, hds, _, hlast => by
    have hc : isdigit c = true := hds c (List.mem_cons_self c cs)
    by_cases hz : iszero c = true
    · have hc0 : c = '0' := (iszero_iff c).mp hz
      have hcs : cs ≠ [] := by
        intro e
        apply hlast
        rw [e, hc0]
        rfl
      show isdigit (charAt (c :: (cs ++ tail)) (run iszero (c :: (cs ++ tail)))) = true
      rw [run_cons_pos hz, charAt_cons_succ]
      exact zero_run_ends_in_digit cs tail (fun x hx => hds x (List.mem_cons_of_mem c hx)) hcs
        (getLast_tail hcs hlast)
    · show isdigit (charAt (c :: (cs ++ tail)) (run iszero (c :: (cs ++ tail)))) = true
      rw [run_cons_neg hz, charAt_zero_cons]
      exact hc

theorem getLast_tail_any {c : Char} {cs : List Char}
    (h : (c :: cs).getLast? ≠ some '0') : cs.getLast? ≠ some '0' := by
  cases cs with
  | nil =>
    intro e
    cases e
  | cons b l => exact getLast_tail (List.cons_ne_nil b l) h

/-- The second digit loop of `cvt_decimal` on digits that do not end in a zero,
followed by zeros: with at most nine digits and a value within `INT_MAX` it
leaves through the trailing-zero exit when there are zeros, and through the loop
test otherwise. -/
theorem dec_frac_loop_ok : ∀ (fp zs rest : List Char) (ptr trz : Nat) (val pow : Int),
    (∀ c ∈ fp, isdigit c = true) → fp.getLast? ≠ some '0' → (∀ c ∈ zs, c = '0') →
    isdigit (charAt rest 0) = false →
    (trz ≤ ptr ∨ (trz = ptr + run iszero (fp ++ (zs ++ rest)) ∧
        isdigit (charAt (fp ++ (zs ++ rest)) (run iszero (fp ++ (zs ++ rest)))) = true)) →
    0 ≤ val → run_value fp val ≤ INT_MAX → 0 < pow → pow * 10 ^ fp.length ≤ 1000000000 →
    dec_frac_loop (fp ++ (zs ++ rest)) ptr trz val pow =
      if zs = [] then FracOut.done (ptr + fp.length) (run_value fp val) (pow * 10 ^ fp.length)
      else FracOut.trailing (ptr + fp.length + zs.length) (run_value fp val)
        (pow * 10 ^ fp.length)
  | [], zs, rest, ptr, trz, val, pow, _, _, hzs, hr, hinv, _, _, _, _ => by
    obtain ⟨_, z2⟩ := zeros_run hzs hr
    have htrz : trz ≤ ptr := by
      rcases hinv with h | ⟨_, h⟩
      · exact h
      · rw [List.nil_append, z2] at h
        cases h
    cases zs with
    | nil =>
      rw [if_pos rfl]
      show dec_frac_loop rest ptr trz val pow = _
      cases rest with
      | nil => simp [dec_frac_loop, run_value]
      | cons c r =>
        rw [charAt_zero_cons] at hr
        simp [dec_frac_loop, run_value, hr]
    | cons z zs1 =>
      rw [if_neg (List.cons_ne_nil _ _)]
      have hz0 : z = '0' := hzs z (List.mem_cons_self _ _)
      obtain ⟨y1, y2⟩ := zeros_run (fun c hc => hzs c (List.mem_cons_of_mem z hc)) hr
      have hzd : isdigit z = true := by
        rw [hz0]
        exact isdigit_zero
      show dec_frac_loop (z :: (zs1 ++ rest)) ptr trz val pow = _
      rw [dec_frac_loop, if_pos hzd,
        if_pos ⟨(digit_val_zero_iff z).mpr hz0, Nat.lt_succ_of_le htrz, y2⟩, y1, run_value]
      simp only [List.length_nil, List.length_cons, pow_zero, mul_one, Nat.add_zero]
      congr 1
      omega
  | c :: cs, zs, rest, ptr, trz, val, pow, hds, hlast, hzs, hr, hinv, h0, hv, hp0, hp => by
    have hc : isdigit c = true := hds c (List.mem_cons_self c cs)
    have hcs : ∀ x ∈ cs, isdigit x = true := fun x hx => hds x (List.mem_cons_of_mem c hx)
    obtain ⟨d0, d9⟩ := digit_val_range hc
    have hv2 : run_value cs (val * 10 + digit_val c) ≤ INT_MAX := by
      rw [run_value_cons hc] at hv
      exact hv
    have hstep := run_value_ge cs (val * 10 + digit_val c) (by omega)
    have hm : INT_MAX = 2147483647 := rfl
    have hpow : pow * 10 ^ (c :: cs).length = (pow * 10) * 10 ^ cs.length := by
      rw [List.length_cons, pow_succ]
      ring
    have hone : (1 : Int) ≤ 10 ^ cs.length := one_le_pow₀ (by norm_num)
    have hp10 : pow * 10 ≤ 1000000000 := by
      rw [hpow] at hp
      have : pow * 10 ≤ pow * 10 * 10 ^ cs.length := le_mul_of_one_le_right (by omega) hone
      omega
    have hdig : digit_val c = 0 →
        isdigit (charAt (cs ++ (zs ++ rest)) (run iszero (cs ++ (zs ++ rest)))) = true := by
      intro hd
      have hc0 := (digit_val_zero_iff c).mp hd
      have hne : cs ≠ [] := by
        intro e
        apply hlast
        rw [e, hc0]
        rfl
      exact zero_run_ends_in_digit cs (zs ++ rest) hcs hne (getLast_tail hne hlast)
    have hnotrail : ¬ (digit_val c = 0 ∧ trz < ptr + 1 ∧
        isdigit (charAt (cs ++ (zs ++ rest)) (run iszero (cs ++ (zs ++ rest)))) = false) := by
      rintro ⟨hd, _, hnd⟩
      rw [hdig hd] at hnd
      cases hnd
    have hinv2 : (if digit_val c = 0 ∧ trz < ptr + 1 then
          ptr + 1 + run iszero (cs ++ (zs ++ rest)) else trz) ≤ ptr + 1 ∨
        ((if digit_val c = 0 ∧ trz < ptr + 1 then
          ptr + 1 + run iszero (cs ++ (zs ++ rest)) else trz) =
            ptr + 1 + run iszero (cs ++ (zs ++ rest)) ∧
          isdigit (charAt (cs ++ (zs ++ rest)) (run iszero (cs ++ (zs ++ rest)))) = true) := by
      by_cases hd : digit_val c = 0
      · have hz : iszero c = true := (iszero_iff c).mpr ((digit_val_zero_iff c).mp hd)
        by_cases ht : trz < ptr + 1
        · rw [if_pos ⟨hd, ht⟩]
          exact Or.inr ⟨rfl, hdig hd⟩
        · rw [if_neg (fun h => ht h.2)]
          rcases hinv with h | ⟨h, _⟩
          · omega
          · have hrun : run iszero (c :: cs ++ (zs ++ rest)) =
                run iszero (cs ++ (zs ++ rest)) + 1 := run_cons_pos hz _
            rw [hrun] at h
            exact Or.inr ⟨by omega, hdig hd⟩
      · rw [if_neg (fun h => hd h.1)]
        have hz : ¬ iszero c = true := fun h => hd ((digit_val_zero_iff c).mpr ((iszero_iff c).mp h))
        rcases hinv with h | ⟨h, _⟩
        · exact Or.inl (by omega)
        · have hrun : run iszero (c :: cs ++ (zs ++ rest)) = 0 := run_cons_neg hz _
          rw [hrun] at h
          exact Or.inl (by omega)
    have ih := dec_frac_loop_ok cs zs rest (ptr + 1) _ (val * 10 + digit_val c) (pow * 10)
      hcs (getLast_tail_any hlast) hzs hr hinv2 (by omega) hv2 (by omega)
      (by rw [← hpow]; exact hp)
    show dec_frac_loop (c :: (cs ++ (zs ++ rest))) ptr trz val pow = _
    rw [dec_frac_loop, if_pos hc, if_neg hnotrail, int_max_div.1, int_max_div.2,
      if_neg (by omega), if_neg (by omega), ih, run_value_cons hc, hpow]
    have e1 : ptr + 1 + cs.length = ptr + (c :: cs).length := by
      simp only [List.length_cons]
      omega
    rw [e1]

theorem run_value_digits_append : ∀ (a b : List Char) (acc : Int),
    (∀ c ∈ a, isdigit c = true) → run_value (a ++ b) acc = run_value b (run_value a acc)
  | [], _, _, _ => rfl
  | c :: cs, b, acc, h => by
    have hc : isdigit c = true := h c (List.mem_cons_self c cs)
    show run_value (c :: (cs ++ b)) acc = _
    rw [run_value_cons hc, run_value_cons hc]
    exact run_value_digits_append cs b _ (fun x hx => h x (List.mem_cons_of_mem c hx))

theorem pow10_bounds {k : Nat} (hk : k ≤ 9) :
    (0 : Int) < 10 ^ k ∧ (10 : Int) ^ k ≤ 1000000000 ∧ (k ≠ 0 → (10 : Int) ≤ 10 ^ k) := by
  interval_cases k <;> norm_num

/-- The part of `cvt_decimal` after the point, on at most nine digits that do not end
in a zero, followed by zeros. -/
theorem cvt_decimal_frac_ok (ndebug : Bool) {str pre fp zs rest : List Char}
    {fs : FractionString} {p : Nat} (hp : p = pre.length)
    (h : str = pre ++ (fp ++ (zs ++ rest)))
    (hfp : ∀ c ∈ fp, isdigit c = true) (hlast : fp.getLast? ≠ some '0')
    (hzs : ∀ c ∈ zs, c = '0') (hr : isdigit (charAt rest 0) = false)
    (hs : fs.sign = 1 ∨ fs.sign = -1) {val ni nz : Int} (h0 : 0 ≤ val)
    (hv : run_value fp val ≤ INT_MAX) (hlen : fp.length ≤ 9)
    (hnz : ni + nz ≠ 0 ∨ (zs = [] → fp ≠ [])) :
    cvt_decimal_frac ndebug str fs (some p) val ni nz =
      Res.ok ⟨0, some (p + fp.length + zs.length),
        some (canon (((fs.sign * run_value fp val : Int) : ℚ) /
          (((10 : Int) ^ fp.length : Int) : ℚ))),
        Errno.ENOERROR⟩ := by
  subst hp
  obtain ⟨b1, b2, b3⟩ := pow10_bounds hlen
  have hm : INT_MAX = 2147483647 := rfl
  have hloop := dec_frac_loop_ok fp zs rest pre.length pre.length val 1 hfp hlast hzs hr
    (Or.inl le_rfl) h0 hv (by decide) (by rw [one_mul]; exact b2)
  rw [one_mul] at hloop
  have hv0 : 0 ≤ run_value fp val := le_trans h0 (run_value_ge fp val h0)
  have hnew : ri_new ndebug (run_value fp val) (10 ^ fp.length * fs.sign) =
      Res.ok (canon (((fs.sign * run_value fp val : Int) : ℚ) /
        (((10 : Int) ^ fp.length : Int) : ℚ))) := by
    rw [Int.mul_comm]
    exact ri_new_signed ndebug hv0 b1 (by omega) hs
  unfold cvt_decimal_frac
  simp only [drop_at h, hloop]
  by_cases hz : zs = []
  · subst hz
    have hne : ¬ ((10 : Int) ^ fp.length = 1 ∧ ni + nz = 0) := by
      rintro ⟨e1, e2⟩
      rcases hnz with hnz | hnz
      · exact hnz e2
      · have h10 := b3 (fun e => hnz rfl (List.length_eq_zero.mp e))
        omega
    simp only [if_true, if_neg hne, hnew, Res.ok_bind, Res.pure_eq, List.length_nil,
      Nat.add_zero]
  · simp only [if_neg hz, hnew, Res.ok_bind, Res.pure_eq]

/-- The function `cvt_decimal` on integer digits, a point, and fraction digits. -/
theorem cvt_decimal_int_ok (ndebug : Bool) {str pre is fp zs rest : List Char}
    {fs : FractionString} {p1 : Nat} (hp1 : p1 = pre.length)
    (h : str = pre ++ (is ++ ('.' :: (fp ++ (zs ++ rest)))))
    (hin : is ≠ []) (his : ∀ c ∈ is, isdigit c = true)
    (hfp : ∀ c ∈ fp, isdigit c = true) (hlast : fp.getLast? ≠ some '0')
    (hzs : ∀ c ∈ zs, c = '0') (hr : isdigit (charAt rest 0) = false)
    (hsi : fs.i_start = some p1) (hs : fs.sign = 1 ∨ fs.sign = -1)
    (hlen : fp.length ≤ 9) (hval : run_value (is ++ fp) 0 ≤ INT_MAX) :
    cvt_decimal ndebug str fs =
      Res.ok ⟨0, some (p1 + is.length + 1 + fp.length + zs.length),
        some (canon (((fs.sign * run_value (is ++ fp) 0 : Int) : ℚ) /
          (((10 : Int) ^ fp.length : Int) : ℚ))),
        Errno.ENOERROR⟩ := by
  subst hp1
  have hsplit : run_value (is ++ fp) 0 = run_value fp (run_value is 0) :=
    run_value_digits_append is fp 0 his
  have hi0 : 0 ≤ run_value is 0 := run_value_nonneg is 0 le_rfl
  have hiv : run_value is 0 ≤ INT_MAX := by
    have := run_value_ge fp (run_value is 0) hi0
    rw [hsplit] at hval
    omega
  have hdot : isdigit (charAt ('.' :: (fp ++ (zs ++ rest))) 0) = false := by
    show isdigit '.' = false
    decide
  obtain ⟨ni, hloop, hcount⟩ :=
    dec_int_after_zeros is ('.' :: (fp ++ (zs ++ rest))) pre.length his hdot hiv
  have hhead : isdigit (charAt str pre.length) = true := by
    rw [charAt_at h]
    exact head_digit hin his _
  have hdrop : ∀ k, str.drop (pre.length + k) = (is ++ ('.' :: (fp ++ (zs ++ rest)))).drop k := by
    intro k
    rw [← List.drop_drop, drop_at h]
  have h2 : str = (pre ++ is) ++ ('.' :: (fp ++ (zs ++ rest))) := by
    rw [h, List.append_assoc]
  have l2 : (pre ++ is).length = pre.length + is.length := List.length_append _ _
  have hpt : charAt str (pre.length + is.length) = '.' := by
    rw [← l2, charAt_at h2]
    rfl
  have h3 : str = (pre ++ is ++ ['.']) ++ (fp ++ (zs ++ rest)) := by
    rw [h]
    simp only [List.append_assoc, List.singleton_append, List.cons_append, List.nil_append]
  have l3 : pre.length + is.length + 1 = (pre ++ is ++ ['.']).length := by
    simp only [List.length_append, List.length_singleton]
  have hnz : ni + ((run iszero (is ++ ('.' :: (fp ++ (zs ++ rest)))) : Nat) : Int) ≠ 0 ∨
      (zs = [] → fp ≠ []) := by
    left
    rw [hcount]
    have : 0 < is.length := List.length_pos.mpr hin
    omega
  unfold cvt_decimal
  rw [hsi]
  simp only [hhead, cassert_true, Res.ok_bind, drop_at h, hdrop, hloop, hpt]
  rw [cvt_decimal_frac_ok ndebug l3 h3 hfp hlast hzs hr hs hi0 (by rw [← hsplit]; exact hval)
    hlen hnz, hsplit]

/-- The function `cvt_decimal` on a point and fraction digits. -/
theorem cvt_decimal_point_ok (ndebug : Bool) {str pre fp zs rest : List Char}
    {fs : FractionString} {p : Nat} (hp : p = pre.length)
    (h : str = pre ++ (fp ++ (zs ++ rest)))
    (hne : zs = [] → fp ≠ [])
    (hfp : ∀ c ∈ fp, isdigit c = true) (hlast : fp.getLast? ≠ some '0')
    (hzs : ∀ c ∈ zs, c = '0') (hr : isdigit (charAt rest 0) = false)
    (hsi : fs.i_start = none) (hsd : fs.d_start = some p) (hs : fs.sign = 1 ∨ fs.sign = -1)
    (hlen : fp.length ≤ 9) (hval : run_value fp 0 ≤ INT_MAX) :
    cvt_decimal ndebug str fs =
      Res.ok ⟨0, some (p + fp.length + zs.length),
        some (canon (((fs.sign * run_value fp 0 : Int) : ℚ) /
          (((10 : Int) ^ fp.length : Int) : ℚ))),
        Errno.ENOERROR⟩ := by
  unfold cvt_decimal
  rw [hsi]
  simp only [hsd]
  exact cvt_decimal_frac_ok ndebug hp h hfp hlast hzs hr hs le_rfl hval hlen (Or.inr hne)

/-- The function `ri_scn` on blanks, an optional sign, a point and a digit. -/
theorem ri_scn_point (ndebug : Bool) {bl sg ds rest : List Char}
    (hbl : ∀ c ∈ bl, isblank c = true) (hsg : sg = [] ∨ sg = ['+'] ∨ sg = ['-'])
    (hne : ds ≠ []) (hds : ∀ c ∈ ds, isdigit c = true) :
    ri_scn ndebug (bl ++ (sg ++ ('.' :: (ds ++ rest)))) =
      cvt_decimal ndebug (bl ++ (sg ++ ('.' :: (ds ++ rest))))
        ⟨if sg = ['-'] then -1 else 1, none, none, none, none,
          some (bl.length + sg.length + 1),
          some (skip_digits (bl ++ (sg ++ ('.' :: (ds ++ rest)))) (bl.length + sg.length + 1))⟩ := by
  have hd0 : isdigit (charAt (ds ++ rest) 0) = true := head_digit hne hds rest
  have hnb : isblank (charAt (sg ++ ('.' :: (ds ++ rest))) 0) = false := by
    rcases hsg with e | e | e <;> rw [e]
    · show isblank '.' = false
      decide
    · show isblank '+' = false
      decide
    · show isblank '-' = false
      decide
  have h0 : bl ++ (sg ++ ('.' :: (ds ++ rest))) = [] ++ (bl ++ (sg ++ ('.' :: (ds ++ rest)))) :=
    rfl
  have hskip : skip_blank (bl ++ (sg ++ ('.' :: (ds ++ rest)))) 0 = bl.length := by
    have := skip_blank_at h0 hbl hnb
    simpa using this
  have hc1 : charAt (bl ++ (sg ++ ('.' :: (ds ++ rest)))) bl.length =
      charAt (sg ++ ('.' :: (ds ++ rest))) 0 := charAt_at rfl
  have h2 : bl ++ (sg ++ ('.' :: (ds ++ rest))) = (bl ++ sg) ++ ('.' :: (ds ++ rest)) := by
    rw [List.append_assoc]
  have hlen : (bl ++ sg).length = bl.length + sg.length := List.length_append bl sg
  have hc2 : charAt (bl ++ (sg ++ ('.' :: (ds ++ rest)))) (bl.length + sg.length) = '.' := by
    rw [← hlen, charAt_at h2]
    rfl
  have hc3 : isdigit (charAt (bl ++ (sg ++ ('.' :: (ds ++ rest)))) (bl.length + sg.length + 1))
      = true := by
    rw [← hlen, charAt_at_succ h2]
    exact hd0
  unfold ri_scn
  simp only [hskip, hc1]
  rcases hsg with e | e | e
  · subst e
    simp only [List.nil_append, List.length_nil, Nat.add_zero] at hc2 hc3 ⊢
    have a0 : charAt ('.' :: (ds ++ rest)) 0 = '.' := rfl
    simp only [a0]
    simp [hc2, hc3]
  · subst e
    simp only [List.length_singleton] at hc2 hc3 ⊢
    have a1 : charAt (['+'] ++ ('.' :: (ds ++ rest))) 0 = '+' := rfl
    simp only [a1, true_or, if_true, hc2, hc3]
    simp
  · subst e
    simp only [List.length_singleton] at hc2 hc3 ⊢
    have a1 : charAt (['-'] ++ ('.' :: (ds ++ rest))) 0 = '-' := rfl
    simp only [a1, or_true, if_true, hc2, hc3]
    simp

/-- After the first digit run: a point sends the scan to `cvt_decimal`, with the
fraction digits recorded when there are any. -/
theorem ri_scn_tail_point (ndebug : Bool) {str pre rest : List Char} (fs : FractionString)
    {p : Nat} (hp : p = pre.length) (h : str = pre ++ ('.' :: rest)) :
    ∃ fs2 : FractionString, fs2.sign = fs.sign ∧ fs2.i_start = fs.i_start ∧
      (fs2.d_end = fs.d_end ∨ fs2.d_end = some (skip_digits str (p + 1))) ∧
      (isdigit (charAt rest 0) = false → fs2 = fs) ∧
      ri_scn_tail ndebug str fs p = cvt_decimal ndebug str fs2 := by
  subst hp
  have hc : charAt str pre.length = '.' := by
    rw [charAt_at h]
    rfl
  have hc1 : charAt str (pre.length + 1) = charAt rest 0 := by
    rw [charAt_at_succ h]
    rfl
  unfold ri_scn_tail
  rw [if_pos hc]
  by_cases hd : isdigit (charAt str (pre.length + 1)) = true
  · rw [if_pos hd]
    refine ⟨{ fs with d_start := some (pre.length + 1),
                      d_end := some (skip_digits str (pre.length + 1)) },
      rfl, rfl, Or.inr rfl, ?_, rfl⟩
    intro hn
    rw [hc1, hn] at hd
    cases hd
  · rw [if_neg hd]
    exact ⟨fs, rfl, rfl, Or.inl rfl, fun _ => rfl, rfl⟩

/-- Scanning a decimal: blanks, an optional sign, integer digits (none in the form
that starts with the point), the point, at most nine fraction digits that do not end
in a zero, then zeros. -/
theorem scan_decimal_text (ndebug : Bool) {bl sg is fp zs rest : List Char}
    (hbl : ∀ c ∈ bl, isblank c = true) (hsg : sg = [] ∨ sg = ['+'] ∨ sg = ['-'])
    (his : ∀ c ∈ is, isdigit c = true) (hfp : ∀ c ∈ fp, isdigit c = true)
    (hlast : fp.getLast? ≠ some '0') (hzs : ∀ c ∈ zs, c = '0')
    (hne : is = [] → fp ++ zs ≠ []) (hr : isdigit (charAt rest 0) = false)
    (hlen : fp.length ≤ 9) (hval : run_value (is ++ fp) 0 ≤ INT_MAX) :
    ri_scn ndebug (bl ++ (sg ++ (is ++ ('.' :: (fp ++ (zs ++ rest)))))) =
      Res.ok ⟨0, some (bl.length + sg.length + is.length + 1 + fp.length + zs.length),
        some (canon ((((if sg = ['-'] then -1 else 1) * run_value (is ++ fp) 0 : Int) : ℚ) /
          (((10 : Int) ^ fp.length : Int) : ℚ))),
        Errno.ENOERROR⟩ := by
  by_cases hi : is = []
  · subst hi
    have hF := hne rfl
    have hFd : ∀ c ∈ fp ++ zs, isdigit c = true := by
      intro c hc
      rcases List.mem_append.mp hc with h | h
      · exact hfp c h
      · rw [hzs c h]
        exact isdigit_zero
    have hshape : bl ++ (sg ++ ([] ++ ('.' :: (fp ++ (zs ++ rest))))) =
        bl ++ (sg ++ ('.' :: ((fp ++ zs) ++ rest))) := by
      simp only [List.nil_append, List.append_assoc]
    have hpre : bl ++ (sg ++ ('.' :: ((fp ++ zs) ++ rest))) =
        (bl ++ sg ++ ['.']) ++ (fp ++ (zs ++ rest)) := by
      simp only [List.append_assoc, List.singleton_append, List.cons_append, List.nil_append]
    have hp : bl.length + sg.length + 1 = (bl ++ sg ++ ['.']).length := by
      simp only [List.length_append, List.length_singleton]
    have hz : zs = [] → fp ≠ [] := by
      intro e
      rw [e, List.append_nil] at hF
      exact hF
    rw [hshape, ri_scn_point ndebug hbl hsg hF hFd,
      cvt_decimal_point_ok ndebug hp hpre hz hfp hlast hzs hr rfl rfl sign_cases hlen
        (by simpa using hval)]
    simp only [List.nil_append, List.length_nil, Nat.add_zero]
  · have hdot : isdigit (charAt ('.' :: (fp ++ (zs ++ rest))) 0) = false := by
      show isdigit '.' = false
      decide
    have hp : bl.length + sg.length + is.length = (bl ++ sg ++ is).length := by
      simp only [List.length_append]
    have h2 : bl ++ (sg ++ (is ++ ('.' :: (fp ++ (zs ++ rest))))) =
        (bl ++ sg ++ is) ++ ('.' :: (fp ++ (zs ++ rest))) := by
      simp only [List.append_assoc]
    have hp1 : bl.length + sg.length = (bl ++ sg).length := by
      simp only [List.length_append]
    have h3 : bl ++ (sg ++ (is ++ ('.' :: (fp ++ (zs ++ rest))))) =
        (bl ++ sg) ++ (is ++ ('.' :: (fp ++ (zs ++ rest)))) := by
      simp only [List.append_assoc]
    rw [ri_scn_head ndebug (rfl : bl ++ (sg ++ (is ++ ('.' :: (fp ++ (zs ++ rest))))) = _)
      hbl hsg hi his hdot]
    obtain ⟨fs2, e1, e2, _, _, e5⟩ := ri_scn_tail_point ndebug
      (⟨if sg = ['-'] then -1 else 1, some (bl.length + sg.length),
        some (bl.length + sg.length + is.length), none, none, none, none⟩ : FractionString)
      hp h2
    rw [e5, cvt_decimal_int_ok ndebug hp1 h3 hi his hfp hlast hzs hr e2
      (by rw [e1]; exact sign_cases) hlen hval, e1]

theorem dec_int_over_zeros : ∀ (ds rest : List Char) (p0 : Nat),
    (∀ c ∈ ds, isdigit c = true) → INT_MAX < run_value ds 0 →
    dec_int_loop ((ds ++ rest).drop (run iszero (ds ++ rest)))
      (p0 + run iszero (ds ++ rest)) 0 0 = none
  | [], _, _, _, hv => by
    rw [run_value] at hv
    exact absurd hv (by decide)
  | c :: cs, rest, p0, hds, hv => by
    by_cases hz : iszero c = true
    · have hc0 : c = '0' := (iszero_iff c).mp hz
      have hrun : run iszero (c :: cs ++ rest) = run iszero (cs ++ rest) + 1 :=
        run_cons_pos hz (cs ++ rest)
      rw [run_value_zero_cons hc0] at hv
      have ih := dec_int_over_zeros cs rest (p0 + 1)
        (fun x hx => hds x (List.mem_cons_of_mem c hx)) hv
      rw [hrun]
      have e1 : (c :: cs ++ rest).drop (run iszero (cs ++ rest) + 1) =
          (cs ++ rest).drop (run iszero (cs ++ rest)) := rfl
      have e2 : p0 + (run iszero (cs ++ rest) + 1) = p0 + 1 + run iszero (cs ++ rest) := by
        omega
      rw [e1, e2]
      exact ih
    · have hrun : run iszero (c :: cs ++ rest) = 0 := run_cons_neg hz (cs ++ rest)
      rw [hrun]
      exact dec_int_loop_range (c :: cs) rest (p0 + 0) 0 0 hds le_rfl (by decide) hv

/-- An integer part above `INT_MAX` followed by a point and no digit: the range
failure hands back the unset `fs.d_end`, a null pointer, as the end of conversion. -/
theorem scan_point_overflow_null (ndebug : Bool) {bl sg is rest : List Char}
    (hbl : ∀ c ∈ bl, isblank c = true) (hsg : sg = [] ∨ sg = ['+'] ∨ sg = ['-'])
    (hin : is ≠ []) (his : ∀ c ∈ is, isdigit c = true)
    (hr : isdigit (charAt rest 0) = false) (hval : INT_MAX < run_value is 0) :
    ri_scn ndebug (bl ++ (sg ++ (is ++ ('.' :: rest)))) =
      Res.ok ⟨-1, none, none, Errno.ERANGE⟩ := by
  have hdot : isdigit (charAt ('.' :: rest) 0) = false := by
    show isdigit '.' = false
    decide
  have hp : bl.length + sg.length + is.length = (bl ++ sg ++ is).length := by
    simp only [List.length_append]
  have h2 : bl ++ (sg ++ (is ++ ('.' :: rest))) = (bl ++ sg ++ is) ++ ('.' :: rest) := by
    simp only [List.append_assoc]
  have hp1 : bl.length + sg.length = (bl ++ sg).length := by
    simp only [List.length_append]
  have h3 : bl ++ (sg ++ (is ++ ('.' :: rest))) = (bl ++ sg) ++ (is ++ ('.' :: rest)) := by
    simp only [List.append_assoc]
  rw [ri_scn_head ndebug (rfl : bl ++ (sg ++ (is ++ ('.' :: rest))) = _) hbl hsg hin his hdot]
  obtain ⟨fs2, _, _, _, e4, e5⟩ := ri_scn_tail_point ndebug
    (⟨if sg = ['-'] then -1 else 1, some (bl.length + sg.length),
      some (bl.length + sg.length + is.length), none, none, none, none⟩ : FractionString)
    hp h2
  rw [e5, e4 hr]
  have hhead : isdigit (charAt (bl ++ (sg ++ (is ++ ('.' :: rest)))) (bl.length + sg.length))
      = true := by
    rw [hp1, charAt_at h3]
    exact head_digit hin his _
  have hdrop : ∀ k, (bl ++ (sg ++ (is ++ ('.' :: rest)))).drop (bl.length + sg.length + k) =
      (is ++ ('.' :: rest)).drop k := by
    intro k
    rw [← List.drop_drop, hp1, drop_at h3]
  have hloop := dec_int_over_zeros is ('.' :: rest) (bl.length + sg.length) his hval
  unfold cvt_decimal
  simp only [hhead, cassert_true, Res.ok_bind, hdrop]
  have hd0 := hdrop 0
  rw [Nat.add_zero, List.drop_zero] at hd0
  rw [hd0, hloop]
  rfl

/-! ## Where the end of conversion can lie -/

theorem run_le (test : Char → Bool) : ∀ l : List Char, run test l ≤ l.length
  | [] => Nat.le_refl 0
  | c :: cs => by
    by_cases hc : test c = true
    · rw [run_cons_pos hc, List.length_cons]
      exact Nat.succ_le_succ (run_le test cs)
    · rw [run_cons_neg hc]
      exact Nat.zero_le _

theorem skip_blank_le {str : List Char} {p : Nat} (hp : p ≤ str.length) :
    skip_blank str p ≤ str.length := by
  unfold skip_blank
  have h := run_le isblank (str.drop p)
  rw [List.length_drop] at h
  omega

theorem skip_digits_le {str : List Char} {p : Nat} (hp : p ≤ str.length) :
    skip_digits str p ≤ str.length := by
  unfold skip_digits
  have h := run_le isdigit (str.drop p)
  rw [List.length_drop] at h
  omega

theorem charAt_lt {str : List Char} {p : Nat} (h : charAt str p ≠ NUL) : p < str.length := by
  by_contra hcon
  apply h
  unfold charAt
  exact List.getD_eq_default _ _ (Nat.le_of_not_lt hcon)

theorem isdigit_lt {str : List Char} {p : Nat} (h : isdigit (charAt str p) = true) :
    p < str.length := by
  apply charAt_lt
  intro e
  rw [e] at h
  exact absurd h (by decide)

theorem dec_int_loop_ptr : ∀ (l : List Char) (q : Nat) (v n : Int) (r : Nat × Int × Int),
    dec_int_loop l q v n = some r → r.1 = q + run isdigit l
  | [], q, v, n, r, h => by
    rw [dec_int_loop] at h
    cases h
    rfl
  | c :: cs, q, v, n, r, h => by
    rw [dec_int_loop] at h
    by_cases hc : isdigit c = true
    · rw [if_pos hc] at h
      by_cases ho : v > INT_MAX / 10 ∨ (v = INT_MAX / 10 ∧ digit_val c > INT_MAX % 10)
      · rw [if_pos ho] at h
        cases h
      · rw [if_neg ho] at h
        rw [dec_int_loop_ptr cs (q + 1) _ _ r h, run_cons_pos hc]
        omega
    · rw [if_neg hc] at h
      cases h
      rw [run_cons_neg hc]
      rfl

theorem run_digit_zero_split : ∀ l : List Char,
    run isdigit l = run iszero l + run isdigit (l.drop (run iszero l))
  | [] => rfl
  | c :: cs => by
    by_cases hz : iszero c = true
    · have hd : isdigit c = true := by
        rw [(iszero_iff c).mp hz]
        exact isdigit_zero
      rw [run_cons_pos hz, run_cons_pos hd, List.drop_succ_cons, run_digit_zero_split cs]
      omega
    · rw [run_cons_neg hz, List.drop_zero, Nat.zero_add]

theorem dec_frac_loop_bound : ∀ (l : List Char) (ptr trz : Nat) (val pow : Int) (N : Nat),
    ptr + l.length = N →
    (∀ t v p, dec_frac_loop l ptr trz val pow = FracOut.trailing t v p → t ≤ N) ∧
      (∀ q v p, dec_frac_loop l ptr trz val pow = FracOut.done q v p → q ≤ N)
  | [], ptr, trz, val, pow, N, hN => by
    rw [dec_frac_loop]
    constructor
    · intro t v p h
      cases h
    · intro q v p h
      cases h
      simpa using hN.le
  | c :: cs, ptr, trz, val, pow, N, hN => by
    rw [List.length_cons] at hN
    have hrun := run_le iszero cs
    rw [dec_frac_loop]
    by_cases hc : isdigit c = true
    · rw [if_pos hc]
      by_cases h1 : digit_val c = 0 ∧ trz < ptr + 1 ∧
          isdigit (charAt cs (run iszero cs)) = false
      · rw [if_pos h1]
        constructor
        · intro t v p h
          cases h
          omega
        · intro q v p h
          cases h
      · rw [if_neg h1]
        by_cases h2 : val > INT_MAX / 10 ∨ (val = INT_MAX / 10 ∧ digit_val c > INT_MAX % 10)
        · rw [if_pos h2]
          constructor
          · intro t v p h
            cases h
          · intro q v p h
            cases h
        · rw [if_neg h2]
          by_cases h3 : pow > INT_MAX / 10
          · rw [if_pos h3]
            constructor
            · intro t v p h
              cases h
            · intro q v p h
              cases h
          · rw [if_neg h3]
            exact dec_frac_loop_bound cs (ptr + 1) _ _ _ N (by omega)
    · rw [if_neg hc]
      constructor
      · intro t v p h
        cases h
      · intro q v p h
        cases h
        omega

/-- The part of `cvt_decimal` after the point stores a position inside the string,
or hands back `fs.d_end` with a failure. -/
theorem cvt_decimal_frac_eor {ndebug : Bool} {str : List Char} {fs : FractionString}
    {p : Nat} {val ni nz : Int} {out : ScanOut} (hp : p ≤ str.length)
    (h : cvt_decimal_frac ndebug str fs (some p) val ni nz = Res.ok out) :
    (∃ q, out.eor = some q ∧ q ≤ str.length) ∨
      (out.eor = fs.d_end ∧ out.rv = -1 ∧ out.res = none) := by
  have hN : p + (str.drop p).length = str.length := by
    rw [List.length_drop]
    omega
  obtain ⟨b1, b2⟩ := dec_frac_loop_bound (str.drop p) p p val 1 str.length hN
  unfold cvt_decimal_frac at h
  simp only at h
  cases hl : dec_frac_loop (str.drop p) p p val 1 with
  | trailing t v pw =>
    rw [hl] at h
    simp only at h
    obtain ⟨r, _, hr⟩ := Res.bind_eq_ok h
    cases hr
    exact Or.inl ⟨t, rfl, b1 t v pw hl⟩
  | range =>
    rw [hl] at h
    simp only at h
    cases h
    exact Or.inr ⟨rfl, rfl, rfl⟩
  | done q v pw =>
    rw [hl] at h
    simp only at h
    by_cases he : pw = 1 ∧ ni + nz = 0
    · rw [if_pos he] at h
      cases h
      exact Or.inr ⟨rfl, rfl, rfl⟩
    · rw [if_neg he] at h
      obtain ⟨r, _, hr⟩ := Res.bind_eq_ok h
      cases hr
      exact Or.inl ⟨q, rfl, b2 q v pw hl⟩

theorem cassert_ok_elim {ndebug : Bool} {c : Prop} [Decidable c] {β : Type} {f : Unit → Res β}
    {b : β} (h : (cassert ndebug c >>= f) = Res.ok b) : f () = Res.ok b := by
  obtain ⟨u, _, hf⟩ := Res.bind_eq_ok h
  exact hf

/-- The function `cvt_decimal` behind a first digit run that ends at a point. -/
theorem cvt_decimal_eor {ndebug : Bool} {str : List Char} {fs : FractionString}
    {i : Nat} {out : ScanOut} (hi : fs.i_start = some i)
    (hdot : charAt str (skip_digits str i) = '.')
    (h : cvt_decimal ndebug str fs = Res.ok out) :
    (∃ q, out.eor = some q ∧ q ≤ str.length) ∨
      (out.eor = fs.d_end ∧ out.rv = -1 ∧ out.res = none) := by
  unfold cvt_decimal at h
  rw [hi] at h
  simp only at h
  have h1 := cassert_ok_elim h
  cases hl : dec_int_loop (str.drop (i + run iszero (str.drop i)))
      (i + run iszero (str.drop i)) 0 0 with
  | none =>
    rw [hl] at h1
    simp only at h1
    cases h1
    exact Or.inr ⟨rfl, rfl, rfl⟩
  | some r =>
    obtain ⟨ptr, v, ni⟩ := r
    rw [hl] at h1
    simp only at h1
    have h2 := cassert_ok_elim h1
    have hptr := dec_int_loop_ptr _ _ _ _ _ hl
    simp only at hptr
    have hsd : ptr = skip_digits str i := by
      unfold skip_digits
      rw [hptr, run_digit_zero_split (str.drop i), List.drop_drop]
      omega
    have hlt : ptr < str.length := by
      rw [hsd]
      apply charAt_lt
      rw [hdot]
      decide
    exact cvt_decimal_frac_eor (Nat.succ_le_of_lt hlt) h2

theorem cvt_integer_eor {ndebug : Bool} {str : List Char} {fs : FractionString}
    {i : Nat} {out : ScanOut} (hi : fs.i_start = some i)
    (h : cvt_integer ndebug str fs = Res.ok out) :
    out.eor = some (skip_digits str i) ∨ out.eor = fs.i_end := by
  unfold cvt_integer at h
  rw [hi] at h
  simp only at h
  by_cases hok : (chk_strtoi str i).ok = false
  · rw [if_pos hok] at h
    have h1 := cassert_ok_elim h
    cases h1
    exact Or.inl rfl
  · rw [if_neg hok] at h
    obtain ⟨r, _, hr⟩ := Res.bind_eq_ok h
    cases hr
    exact Or.inr rfl

theorem cvt_simple_eor {ndebug : Bool} {str : List Char} {fs : FractionString}
    {out : ScanOut} (h : cvt_simple ndebug str fs = Res.ok out) : out.eor = fs.d_end := by
  unfold cvt_simple at h
  cases hi : fs.i_start with
  | none =>
    rw [hi] at h
    cases h
  | some i =>
    cases hd : fs.d_start with
    | none =>
      rw [hi, hd] at h
      cases h
    | some d =>
      rw [hi, hd] at h
      simp only at h
      by_cases h1 : (chk_strtoi str i).ok = false
      · rw [if_pos h1] at h
        cases h
        rfl
      · rw [if_neg h1] at h
        have h2 := cassert_ok_elim h
        by_cases h3 : (chk_strtoi str d).ok = false
        · rw [if_pos h3] at h2
          cases h2
          rfl
        · rw [if_neg h3] at h2
          have h4 := cassert_ok_elim h2
          obtain ⟨r, _, hr⟩ := Res.bind_eq_ok h4
          cases hr
          rfl

theorem cvt_compound_eor {ndebug : Bool} {str : List Char} {fs : FractionString}
    {out : ScanOut} (h : cvt_compound ndebug str fs = Res.ok out) : out.eor = fs.d_end := by
  unfold cvt_compound at h
  cases hi : fs.i_start with
  | none =>
    rw [hi] at h
    cases h
  | some i =>
    cases hn : fs.n_start with
    | none =>
      rw [hi, hn] at h
      cases h
    | some n =>
      cases hd : fs.d_start with
      | none =>
        rw [hi, hn, hd] at h
        cases h
      | some d =>
        rw [hi, hn, hd] at h
        simp only at h
        by_cases h1 : (chk_strtoi str i).ok = false
        · rw [if_pos h1] at h
          cases h
          rfl
        · rw [if_neg h1] at h
          have h2 := cassert_ok_elim h
          by_cases h3 : (chk_strtoi str n).ok = false
          · rw [if_pos h3] at h2
            cases h2
            rfl
          · rw [if_neg h3] at h2
            have h4 := cassert_ok_elim h2
            by_cases h5 : (chk_strtoi str d).ok = false
            · rw [if_pos h5] at h4
              cases h4
              rfl
            · rw [if_neg h5] at h4
              obtain ⟨q, _, hq⟩ := Res.bind_eq_ok h4
              by_cases h6 : (chk_strtoi str i).value > q
              · rw [if_pos h6] at hq
                cases hq
                rfl
              · rw [if_neg h6] at hq
                obtain ⟨r, _, hr⟩ := Res.bind_eq_ok hq
                cases hr
                rfl

/-- After the first digit run: whatever `ri_scn` returns from here on either stores a
position inside the string, or is the failure that hands back the unset `fs.d_end`
behind a point that no digit follows. -/
theorem ri_scn_tail_eor {ndebug : Bool} {str : List Char} {fs : FractionString}
    {i : Nat} {out : ScanOut} (hi : fs.i_start = some i) (hil : i ≤ str.length)
    (hie : fs.i_end = some (skip_digits str i)) (hde : fs.d_end = none)
    (h : ri_scn_tail ndebug str fs (skip_digits str i) = Res.ok out) :
    (∃ q, out.eor = some q ∧ q ≤ str.length) ∨
      (out.eor = none ∧ out.rv = -1 ∧ out.res = none ∧
        charAt str (skip_digits str i) = '.' ∧
        isdigit (charAt str (skip_digits str i + 1)) = false) := by
  have hptr : skip_digits str i ≤ str.length := skip_digits_le hil
  have hint : ∀ {fs2 : FractionString}, fs2.i_start = some i →
      fs2.i_end = some (skip_digits str i) → cvt_integer ndebug str fs2 = Res.ok out →
      ∃ q, out.eor = some q ∧ q ≤ str.length := by
    intro fs2 h1 h2 h3
    rcases cvt_integer_eor h1 h3 with e | e
    · exact ⟨_, e, hptr⟩
    · rw [h2] at e
      exact ⟨_, e, hptr⟩
  unfold ri_scn_tail at h
  by_cases c1 : charAt str (skip_digits str i) = '.'
  · rw [if_pos c1] at h
    have hlt : skip_digits str i < str.length := by
      apply charAt_lt
      rw [c1]
      decide
    by_cases c2 : isdigit (charAt str (skip_digits str i + 1)) = true
    · rw [if_pos c2] at h
      rcases cvt_decimal_eor (by exact hi) c1 h with g | ⟨e, _, _⟩
      · exact Or.inl g
      · exact Or.inl ⟨_, e, skip_digits_le (Nat.succ_le_of_lt hlt)⟩
    · rw [if_neg c2] at h
      rcases cvt_decimal_eor hi c1 h with g | ⟨e, e2, e3⟩
      · exact Or.inl g
      · rw [hde] at e
        refine Or.inr ⟨e, e2, e3, c1, ?_⟩
        cases hd : isdigit (charAt str (skip_digits str i + 1)) with
        | false => rfl
        | true => exact absurd hd c2
  · rw [if_neg c1] at h
    left
    have hq1 : skip_blank str (skip_digits str i) ≤ str.length := skip_blank_le hptr
    by_cases c2 : isdigit (charAt str (skip_blank str (skip_digits str i))) = false ∧
        charAt str (skip_blank str (skip_digits str i)) ≠ '/'
    · rw [if_pos c2] at h
      exact hint hi hie h
    · rw [if_neg c2] at h
      by_cases c3 : charAt str (skip_blank str (skip_digits str i)) = '/'
      · rw [if_pos c3] at h
        have hlt : skip_blank str (skip_digits str i) < str.length := by
          apply charAt_lt
          rw [c3]
          decide
        by_cases c4 : isdigit (charAt str
            (skip_blank str (skip_blank str (skip_digits str i) + 1))) = false
        · rw [if_pos c4] at h
          exact hint hi hie h
        · rw [if_neg c4] at h
          have e := cvt_simple_eor h
          exact ⟨_, e, skip_digits_le (skip_blank_le (Nat.succ_le_of_lt hlt))⟩
      · rw [if_neg c3] at h
        have h1 := cassert_ok_elim h
        simp only at h1
        have hne : skip_digits str (skip_blank str (skip_digits str i)) ≤ str.length :=
          skip_digits_le hq1
        have hq3 : skip_blank str (skip_digits str (skip_blank str (skip_digits str i))) ≤
            str.length := skip_blank_le hne
        by_cases c5 : charAt str
            (skip_blank str (skip_digits str (skip_blank str (skip_digits str i)))) ≠ '/'
        · rw [if_pos c5] at h1
          exact hint (by exact hi) (by exact hie) h1
        · rw [if_neg c5] at h1
          have c5e : charAt str
              (skip_blank str (skip_digits str (skip_blank str (skip_digits str i)))) = '/' :=
            not_not.mp c5
          have hlt : skip_blank str (skip_digits str (skip_blank str (skip_digits str i))) <
              str.length := by
            apply charAt_lt
            rw [c5e]
            decide
          by_cases c6 : isdigit (charAt str (skip_blank str
              (skip_blank str (skip_digits str (skip_blank str (skip_digits str i))) + 1)))
              = false
          · rw [if_pos c6] at h1
            exact hint (by exact hi) (by exact hie) h1
          · rw [if_neg c6] at h1
            have e := cvt_compound_eor h1
            exact ⟨_, e, skip_digits_le (skip_blank_le (Nat.succ_le_of_lt hlt))⟩

/-- Whatever `ri_scn` returns, the end of conversion it stores is a position from the
start of the input to its terminator, with one exception: the range failure behind an
integer part, a point and no digit, which stores the null pointer. -/
theorem ri_scn_eor {ndebug : Bool} {str : List Char} {out : ScanOut}
    (h : ri_scn ndebug str = Res.ok out) :
    (∃ q, out.eor = some q ∧ q ≤ str.length) ∨
      (out.eor = none ∧ out.rv = -1 ∧ out.res = none) := by
  have hp0 : skip_blank str 0 ≤ str.length := skip_blank_le (Nat.zero_le _)
  have hp1 : (if charAt str (skip_blank str 0) = '+' ∨ charAt str (skip_blank str 0) = '-'
      then skip_blank str 0 + 1 else skip_blank str 0) ≤ str.length := by
    by_cases hs : charAt str (skip_blank str 0) = '+' ∨ charAt str (skip_blank str 0) = '-'
    · rw [if_pos hs]
      apply Nat.succ_le_of_lt
      apply charAt_lt
      rcases hs with e | e <;> rw [e] <;> decide
    · rw [if_neg hs]
      exact hp0
  unfold ri_scn at h
  simp only at h
  generalize (if charAt str (skip_blank str 0) = '+' ∨ charAt str (skip_blank str 0) = '-'
      then skip_blank str 0 + 1 else skip_blank str 0) = p1 at h hp1
  by_cases c1 : charAt str p1 = '.' ∧ isdigit (charAt str (p1 + 1)) = true
  · rw [if_pos c1] at h
    have hlt : p1 < str.length := by
      apply charAt_lt
      rw [c1.1]
      decide
    unfold cvt_decimal at h
    simp only at h
    rcases cvt_decimal_frac_eor (Nat.succ_le_of_lt hlt) h with g | ⟨e, _, _⟩
    · exact Or.inl g
    · exact Or.inl ⟨_, e, skip_digits_le (Nat.succ_le_of_lt hlt)⟩
  · rw [if_neg c1] at h
    by_cases c2 : isdigit (charAt str p1) = false
    · rw [if_pos c2] at h
      cases h
      exact Or.inl ⟨0, rfl, Nat.zero_le _⟩
    · rw [if_neg c2] at h
      rcases ri_scn_tail_eor rfl hp1 rfl rfl h with g | ⟨e1, e2, e3, _, _⟩
      · exact Or.inl g
      · exact Or.inr ⟨e1, e2, e3⟩

/-! ## Range failures of the decimal form -/

/-- The second digit loop of `cvt_decimal` on digits that do not end in a zero: when
their value runs over `INT_MAX`, or the scale would pass `10^9`, the loop leaves
through a range check before it reaches their end. -/
theorem dec_frac_loop_range : ∀ (fp tail : List Char) (ptr trz : Nat) (val pow : Int) (k : Nat),
    (∀ c ∈ fp, isdigit c = true) → fp.getLast? ≠ some '0' →
    0 ≤ val → val ≤ INT_MAX → pow = 10 ^ k → k ≤ 9 →
    (INT_MAX < run_value fp val ∨ 9 < k + fp.length) →
    dec_frac_loop (fp ++ tail) ptr trz val pow = FracOut.range
  | [], _, _, _, val, _, k, _, _, _, hle, _, hk, hov => by
    rcases hov with h | h
    · rw [run_value] at h
      omega
    · rw [List.length_nil] at h
      omega
  | c :: cs, tail, ptr, trz, val, pow, k, hds, hlast, h0, hle, hpow, hk, hov => by
    have hc : isdigit c = true := hds c (List.mem_cons_self c cs)
    have hcs : ∀ x ∈ cs, isdigit x = true := fun x hx => hds x (List.mem_cons_of_mem c hx)
    obtain ⟨d0, d9⟩ := digit_val_range hc
    have hm : INT_MAX = 2147483647 := rfl
    have hnotrail : ¬ (digit_val c = 0 ∧ trz < ptr + 1 ∧
        isdigit (charAt (cs ++ tail) (run iszero (cs ++ tail))) = false) := by
      rintro ⟨hd, _, hnd⟩
      have hc0 := (digit_val_zero_iff c).mp hd
      have hne : cs ≠ [] := by
        intro e
        apply hlast
        rw [e, hc0]
        rfl
      rw [zero_run_ends_in_digit cs tail hcs hne (getLast_tail hne hlast)] at hnd
      cases hnd
    show dec_frac_loop (c :: (cs ++ tail)) ptr trz val pow = FracOut.range
    rw [dec_frac_loop, if_pos hc, if_neg hnotrail, int_max_div.1, int_max_div.2]
    by_cases h1 : val > 214748364 ∨ (val = 214748364 ∧ digit_val c > 7)
    · rw [if_pos h1]
    · rw [if_neg h1]
      by_cases h2 : pow > 214748364
      · rw [if_pos h2]
      · rw [if_neg h2]
        have hk8 : k ≤ 8 := by
          by_contra hcon
          have hk9 : k = 9 := by omega
          rw [hk9] at hpow
          norm_num at hpow
          omega
        apply dec_frac_loop_range cs tail (ptr + 1) _ (val * 10 + digit_val c) (pow * 10) (k + 1)
          hcs (getLast_tail_any hlast) (by omega) (by omega)
          (by rw [hpow, pow_succ]) (by omega)
        rcases hov with h | h
        · left
          rw [run_value_cons hc] at h
          exact h
        · right
          rw [List.length_cons] at h
          omega

/-- The part of `cvt_decimal` after the point on such digits: a range failure that
hands back `fs.d_end`. -/
theorem cvt_decimal_frac_range (ndebug : Bool) {str pre fp tail : List Char}
    {fs : FractionString} {p : Nat} (hp : p = pre.length) (h : str = pre ++ (fp ++ tail))
    (hfp : ∀ c ∈ fp, isdigit c = true) (hlast : fp.getLast? ≠ some '0')
    {val : Int} (ni nz : Int) (h0 : 0 ≤ val) (hle : val ≤ INT_MAX)
    (hov : INT_MAX < run_value fp val ∨ 9 < fp.length) :
    cvt_decimal_frac ndebug str fs (some p) val ni nz =
      Res.ok ⟨-1, fs.d_end, none, Errno.ERANGE⟩ := by
  subst hp
  have hloop := dec_frac_loop_range fp tail pre.length pre.length val 1 0 hfp hlast h0 hle
    (by norm_num) (by omega) (by rcases hov with h | h; exact Or.inl h; exact Or.inr (by omega))
  unfold cvt_decimal_frac
  simp only [drop_at h, hloop]
  rfl

/-- The function `cvt_decimal` on integer digits, a point and fraction digits whose
joint value runs over `INT_MAX` or that are more than nine. -/
theorem cvt_decimal_int_range (ndebug : Bool) {str pre is fp tail : List Char}
    {fs : FractionString} {p1 : Nat} (hp1 : p1 = pre.length)
    (h : str = pre ++ (is ++ ('.' :: (fp ++ tail))))
    (hin : is ≠ []) (his : ∀ c ∈ is, isdigit c = true)
    (hfp : ∀ c ∈ fp, isdigit c = true) (hlast : fp.getLast? ≠ some '0')
    (hsi : fs.i_start = some p1)
    (hov : INT_MAX < run_value (is ++ fp) 0 ∨ 9 < fp.length) :
    cvt_decimal ndebug str fs = Res.ok ⟨-1, fs.d_end, none, Errno.ERANGE⟩ := by
  subst hp1
  have hsplit : run_value (is ++ fp) 0 = run_value fp (run_value is 0) :=
    run_value_digits_append is fp 0 his
  have hi0 : 0 ≤ run_value is 0 := run_value_nonneg is 0 le_rfl
  have hdot : isdigit (charAt ('.' :: (fp ++ tail)) 0) = false := by
    show isdigit '.' = false
    decide
  have hhead : isdigit (charAt str pre.length) = true := by
    rw [charAt_at h]
    exact head_digit hin his _
  have hdrop : ∀ k, str.drop (pre.length + k) = (is ++ ('.' :: (fp ++ tail))).drop k := by
    intro k
    rw [← List.drop_drop, drop_at h]
  unfold cvt_decimal
  rw [hsi]
  by_cases hiv : run_value is 0 ≤ INT_MAX
  · obtain ⟨ni, hloop, _⟩ :=
      dec_int_after_zeros is ('.' :: (fp ++ tail)) pre.length his hdot hiv
    have h2 : str = (pre ++ is) ++ ('.' :: (fp ++ tail)) := by
      rw [h, List.append_assoc]
    have l2 : (pre ++ is).length = pre.length + is.length := List.length_append _ _
    have hpt : charAt str (pre.length + is.length) = '.' := by
      rw [← l2, charAt_at h2]
      rfl
    have h3 : str = (pre ++ is ++ ['.']) ++ (fp ++ tail) := by
      rw [h]
      simp only [List.append_assoc, List.singleton_append, List.cons_append, List.nil_append]
    have l3 : pre.length + is.length + 1 = (pre ++ is ++ ['.']).length := by
      simp only [List.length_append, List.length_singleton]
    simp only [hhead, cassert_true, Res.ok_bind, drop_at h, hdrop, hloop, hpt]
    exact cvt_decimal_frac_range ndebug l3 h3 hfp hlast _ _ hi0 hiv
      (by rw [← hsplit]; exact hov)
  · have hloop := dec_int_over_zeros is ('.' :: (fp ++ tail)) pre.length his (by omega)
    simp only [hhead, cassert_true, Res.ok_bind, drop_at h, hdrop, hloop]
    rfl

/-- After the first digit run: a point with a digit behind it sends the scan to
`cvt_decimal` with the fraction digits recorded. -/
theorem ri_scn_tail_point_digit (ndebug : Bool) {str pre rest : List Char}
    (fs : FractionString) {p : Nat} (hp : p = pre.length) (h : str = pre ++ ('.' :: rest))
    (hd : isdigit (charAt rest 0) = true) :
    ri_scn_tail ndebug str fs p =
      cvt_decimal ndebug str
        { fs with d_start := some (p + 1), d_end := some (skip_digits str (p + 1)) } := by
  subst hp
  have hc : charAt str pre.length = '.' := by
    rw [charAt_at h]
    rfl
  have hc1 : isdigit (charAt str (pre.length + 1)) = true := by
    rw [charAt_at_succ h]
    exact hd
  unfold ri_scn_tail
  rw [if_pos hc, if_pos hc1]

/-- Scanning a decimal whose fraction digits are not empty and whose digits, without
the trailing zeros, run over `INT_MAX` or are more than nine behind the point. -/
theorem scan_decimal_range (ndebug : Bool) {bl sg is fp zs rest : List Char}
    (hbl : ∀ c ∈ bl, isblank c = true) (hsg : sg = [] ∨ sg = ['+'] ∨ sg = ['-'])
    (his : ∀ c ∈ is, isdigit c = true) (hfp : ∀ c ∈ fp, isdigit c = true)
    (hlast : fp.getLast? ≠ some '0') (hzs : ∀ c ∈ zs, c = '0')
    (hF : fp ++ zs ≠ []) (hr : isdigit (charAt rest 0) = false)
    (hov : INT_MAX < run_value (is ++ fp) 0 ∨ 9 < fp.length) :
    ri_scn ndebug (bl ++ (sg ++ (is ++ ('.' :: (fp ++ (zs ++ rest)))))) =
      Res.ok ⟨-1, some (bl.length + sg.length + is.length + 1 + fp.length + zs.length),
        none, Errno.ERANGE⟩ := by
  have hFd : ∀ c ∈ fp ++ zs, isdigit c = true := by
    intro c hc
    rcases List.mem_append.mp hc with h | h
    · exact hfp c h
    · rw [hzs c h]
      exact isdigit_zero
  have hFh : isdigit (charAt (fp ++ (zs ++ rest)) 0) = true := by
    rw [← List.append_assoc]
    exact head_digit hF hFd rest
  by_cases hi : is = []
  · subst hi
    have hshape : bl ++ (sg ++ ([] ++ ('.' :: (fp ++ (zs ++ rest))))) =
        bl ++ (sg ++ ('.' :: ((fp ++ zs) ++ rest))) := by
      simp only [List.nil_append, List.append_assoc]
    have hpre : bl ++ (sg ++ ('.' :: ((fp ++ zs) ++ rest))) =
        (bl ++ sg ++ ['.']) ++ (fp ++ (zs ++ rest)) := by
      simp only [List.append_assoc, List.singleton_append, List.cons_append, List.nil_append]
    have hpre2 : bl ++ (sg ++ ('.' :: ((fp ++ zs) ++ rest))) =
        (bl ++ sg ++ ['.']) ++ ((fp ++ zs) ++ rest) := by
      simp only [List.append_assoc, List.singleton_append, List.cons_append, List.nil_append]
    have hp : bl.length + sg.length + 1 = (bl ++ sg ++ ['.']).length := by
      simp only [List.length_append, List.length_singleton]
    have hend : skip_digits (bl ++ (sg ++ ('.' :: ((fp ++ zs) ++ rest))))
        (bl.length + sg.length + 1) = bl.length + sg.length + 1 + (fp ++ zs).length := by
      rw [hp]
      exact skip_digits_at hpre2 hFd hr
    rw [hshape, ri_scn_point ndebug hbl hsg hF hFd, hend]
    unfold cvt_decimal
    simp only
    rw [cvt_decimal_frac_range ndebug hp hpre hfp hlast 0 0 le_rfl (by decide)
      (by simpa using hov)]
    simp only [List.length_nil, Nat.add_zero, List.length_append, ← Nat.add_assoc]
  · have hdot : isdigit (charAt ('.' :: (fp ++ (zs ++ rest))) 0) = false := by
      show isdigit '.' = false
      decide
    have hp : bl.length + sg.length + is.length = (bl ++ sg ++ is).length := by
      simp only [List.length_append]
    have h2 : bl ++ (sg ++ (is ++ ('.' :: (fp ++ (zs ++ rest))))) =
        (bl ++ sg ++ is) ++ ('.' :: (fp ++ (zs ++ rest))) := by
      simp only [List.append_assoc]
    have hp1 : bl.length + sg.length = (bl ++ sg).length := by
      simp only [List.length_append]
    have h3 : bl ++ (sg ++ (is ++ ('.' :: (fp ++ (zs ++ rest))))) =
        (bl ++ sg) ++ (is ++ ('.' :: (fp ++ (zs ++ rest)))) := by
      simp only [List.append_assoc]
    have hp4 : bl.length + sg.length + is.length + 1 = (bl ++ sg ++ is ++ ['.']).length := by
      simp only [List.length_append, List.length_singleton]
    have h4 : bl ++ (sg ++ (is ++ ('.' :: (fp ++ (zs ++ rest))))) =
        (bl ++ sg ++ is ++ ['.']) ++ ((fp ++ zs) ++ rest) := by
      simp only [List.append_assoc, List.singleton_append, List.cons_append, List.nil_append]
    have hend : skip_digits (bl ++ (sg ++ (is ++ ('.' :: (fp ++ (zs ++ rest))))))
        (bl.length + sg.length + is.length + 1) =
          bl.length + sg.length + is.length + 1 + (fp ++ zs).length := by
      rw [hp4]
      exact skip_digits_at h4 hFd hr
    rw [ri_scn_head ndebug (rfl : bl ++ (sg ++ (is ++ ('.' :: (fp ++ (zs ++ rest))))) = _)
        hbl hsg hi his hdot,
      ri_scn_tail_point_digit ndebug _ hp h2 hFh,
      cvt_decimal_int_range ndebug hp1 h3 hi his hfp hlast rfl hov, hend]
    simp only [List.length_append, ← Nat.add_assoc]

/-! ## A denominator of zero in the text -/

theorem ri_new_ndebug_zero_den (n : Int) : ri_new true n 0 = Res.ok ⟨0, 1⟩ := by
  unfold ri_new
  rw [cassert_ndebug, cassert_ndebug]
  simp

/-- The simple-fraction form up to the call of `ri_new`. -/
theorem scan_simple_form (ndebug : Bool) {bl sg ns bl1 bl2 ds rest : List Char}
    (hbl : ∀ c ∈ bl, isblank c = true) (hsg : sg = [] ∨ sg = ['+'] ∨ sg = ['-'])
    (hnn : ns ≠ []) (hns : ∀ c ∈ ns, isdigit c = true)
    (hb1 : ∀ c ∈ bl1, isblank c = true) (hb2 : ∀ c ∈ bl2, isblank c = true)
    (hne : ds ≠ []) (hds : ∀ c ∈ ds, isdigit c = true)
    (hr : isdigit (charAt rest 0) = false) :
    ri_scn ndebug (bl ++ (sg ++ (ns ++ (bl1 ++ ('/' :: (bl2 ++ (ds ++ rest))))))) =
      if run_value ns 0 ≤ INT_MAX ∧ run_value ds 0 ≤ INT_MAX then
        ri_new ndebug (run_value ns 0) ((if sg = ['-'] then -1 else 1) * run_value ds 0) >>=
          fun r => Res.ok ⟨0,
            some (bl.length + sg.length + ns.length + bl1.length + 1 + bl2.length + ds.length),
            some r, Errno.ENOERROR⟩
      else Res.ok ⟨-1,
        some (bl.length + sg.length + ns.length + bl1.length + 1 + bl2.length + ds.length),
        none, Errno.ERANGE⟩ := by
  have hstop : isdigit (charAt (bl1 ++ ('/' :: (bl2 ++ (ds ++ rest)))) 0) = false :=
    head_blank_run hb1 (fun c hc => isdigit_of_isblank hc) (by show isdigit '/' = false; decide)
  have hp : bl.length + sg.length + ns.length = (bl ++ sg ++ ns).length := by
    simp only [List.length_append]
  have h2 : bl ++ (sg ++ (ns ++ (bl1 ++ ('/' :: (bl2 ++ (ds ++ rest)))))) =
      (bl ++ sg ++ ns) ++ (bl1 ++ ('/' :: (bl2 ++ (ds ++ rest)))) := by
    simp only [List.append_assoc]
  have hp1 : bl.length + sg.length = (bl ++ sg).length := by
    simp only [List.length_append]
  have h3 : bl ++ (sg ++ (ns ++ (bl1 ++ ('/' :: (bl2 ++ (ds ++ rest)))))) =
      (bl ++ sg) ++ (ns ++ (bl1 ++ ('/' :: (bl2 ++ (ds ++ rest))))) := by
    simp only [List.append_assoc]
  have hp2 : bl.length + sg.length + ns.length + bl1.length + 1 + bl2.length =
      (bl ++ sg ++ ns ++ bl1 ++ ['/'] ++ bl2).length := by
    simp only [List.length_append, List.length_singleton]
  have h4 : bl ++ (sg ++ (ns ++ (bl1 ++ ('/' :: (bl2 ++ (ds ++ rest)))))) =
      (bl ++ sg ++ ns ++ bl1 ++ ['/'] ++ bl2) ++ (ds ++ rest) := by
    simp only [List.append_assoc, List.singleton_append, List.cons_append, List.nil_append]
  rw [ri_scn_head ndebug
      (rfl : bl ++ (sg ++ (ns ++ (bl1 ++ ('/' :: (bl2 ++ (ds ++ rest)))))) = _) hbl hsg hnn
      hns hstop,
    ri_scn_tail_simple ndebug _ hp h2 hb1 hb2 hne hds,
    cvt_simple_at ndebug hp1 hp2 h3 h4 hns hstop hds hr rfl rfl rfl rfl]

/-- The simple-fraction form with a denominator that denotes zero: the zero goes to
`ri_new` unchecked.  With assertions the call aborts; without them `ri_new` answers
`0/1` and the scan reports success. -/
theorem scan_simple_zero_den {bl sg ns bl1 bl2 ds rest : List Char}
    (hbl : ∀ c ∈ bl, isblank c = true) (hsg : sg = [] ∨ sg = ['+'] ∨ sg = ['-'])
    (hnn : ns ≠ []) (hns : ∀ c ∈ ns, isdigit c = true)
    (hb1 : ∀ c ∈ bl1, isblank c = true) (hb2 : ∀ c ∈ bl2, isblank c = true)
    (hne : ds ≠ []) (hds : ∀ c ∈ ds, isdigit c = true)
    (hr : isdigit (charAt rest 0) = false)
    (hN : run_value ns 0 ≤ INT_MAX) (hD : run_value ds 0 = 0) :
    ri_scn false (bl ++ (sg ++ (ns ++ (bl1 ++ ('/' :: (bl2 ++ (ds ++ rest))))))) =
        Res.fail Fault.assertion ∧
      ri_scn true (bl ++ (sg ++ (ns ++ (bl1 ++ ('/' :: (bl2 ++ (ds ++ rest))))))) =
        Res.ok ⟨0,
          some (bl.length + sg.length + ns.length + bl1.length + 1 + bl2.length + ds.length),
          some ⟨0, 1⟩, Errno.ENOERROR⟩ := by
  have hcond : run_value ns 0 ≤ INT_MAX ∧ run_value ds 0 ≤ INT_MAX := by
    refine ⟨hN, ?_⟩
    rw [hD]
    decide
  constructor
  · rw [scan_simple_form false hbl hsg hnn hns hb1 hb2 hne hds hr, if_pos hcond, hD, mul_zero,
      ri_new_fail (Or.inl rfl)]
    rfl
  · rw [scan_simple_form true hbl hsg hnn hns hb1 hb2 hne hds hr, if_pos hcond, hD, mul_zero,
      ri_new_ndebug_zero_den, Res.ok_bind]

/-- The compound form with a denominator that denotes zero: the overflow test
`i > (INT_MAX - n) / d` divides by it, in either build. -/
theorem scan_compound_zero_den (ndebug : Bool)
    {bl sg is bl1 ns bl2 bl3 ds rest : List Char}
    (hbl : ∀ c ∈ bl, isblank c = true) (hsg : sg = [] ∨ sg = ['+'] ∨ sg = ['-'])
    (hin : is ≠ []) (his : ∀ c ∈ is, isdigit c = true)
    (hb1n : bl1 ≠ []) (hb1 : ∀ c ∈ bl1, isblank c = true)
    (hnn : ns ≠ []) (hns : ∀ c ∈ ns, isdigit c = true)
    (hb2 : ∀ c ∈ bl2, isblank c = true) (hb3 : ∀ c ∈ bl3, isblank c = true)
    (hne : ds ≠ []) (hds : ∀ c ∈ ds, isdigit c = true)
    (hr : isdigit (charAt rest 0) = false)
    (hI : run_value is 0 ≤ INT_MAX) (hN : run_value ns 0 ≤ INT_MAX)
    (hD : run_value ds 0 = 0) :
    ri_scn ndebug
        (bl ++ (sg ++ (is ++ (bl1 ++ (ns ++ (bl2 ++ ('/' :: (bl3 ++ (ds ++ rest))))))))) =
      Res.fail Fault.divByZero := by
  have hb1h : isblank (charAt (bl1 ++ (ns ++ (bl2 ++ ('/' :: (bl3 ++ (ds ++ rest)))))) 0)
      = true := by
    rw [charAt_zero_append hb1n]
    exact hb1 _ (charAt_zero_mem hb1n)
  have hstop1 : isdigit (charAt (bl1 ++ (ns ++ (bl2 ++ ('/' :: (bl3 ++ (ds ++ rest)))))) 0)
      = false := isdigit_of_isblank hb1h
  have hstop2 : isdigit (charAt (bl2 ++ ('/' :: (bl3 ++ (ds ++ rest)))) 0) = false :=
    head_blank_run hb2 (fun c hc => isdigit_of_isblank hc) (by show isdigit '/' = false; decide)
  have hp : bl.length + sg.length + is.length = (bl ++ sg ++ is).length := by
    simp only [List.length_append]
  have h2 : bl ++ (sg ++ (is ++ (bl1 ++ (ns ++ (bl2 ++ ('/' :: (bl3 ++ (ds ++ rest)))))))) =
      (bl ++ sg ++ is) ++ (bl1 ++ (ns ++ (bl2 ++ ('/' :: (bl3 ++ (ds ++ rest)))))) := by
    simp only [List.append_assoc]
  have hp1 : bl.length + sg.length = (bl ++ sg).length := by
    simp only [List.length_append]
  have h3 : bl ++ (sg ++ (is ++ (bl1 ++ (ns ++ (bl2 ++ ('/' :: (bl3 ++ (ds ++ rest)))))))) =
      (bl ++ sg) ++ (is ++ (bl1 ++ (ns ++ (bl2 ++ ('/' :: (bl3 ++ (ds ++ rest))))))) := by
    simp only [List.append_assoc]
  have hp2 : bl.length + sg.length + is.length + bl1.length =
      (bl ++ sg ++ is ++ bl1).length := by
    simp only [List.length_append]
  have h4 : bl ++ (sg ++ (is ++ (bl1 ++ (ns ++ (bl2 ++ ('/' :: (bl3 ++ (ds ++ rest)))))))) =
      (bl ++ sg ++ is ++ bl1) ++ (ns ++ (bl2 ++ ('/' :: (bl3 ++ (ds ++ rest))))) := by
    simp only [List.append_assoc]
  have hp3 : bl.length + sg.length + is.length + bl1.length + ns.length + bl2.length + 1 +
      bl3.length = (bl ++ sg ++ is ++ bl1 ++ ns ++ bl2 ++ ['/'] ++ bl3).length := by
    simp only [List.length_append, List.length_singleton]
  have h5 : bl ++ (sg ++ (is ++ (bl1 ++ (ns ++ (bl2 ++ ('/' :: (bl3 ++ (ds ++ rest)))))))) =
      (bl ++ sg ++ is ++ bl1 ++ ns ++ bl2 ++ ['/'] ++ bl3) ++ (ds ++ rest) := by
    simp only [List.append_assoc, List.singleton_append, List.cons_append, List.nil_append]
  have hcond : run_value is 0 ≤ INT_MAX ∧ run_value ns 0 ≤ INT_MAX ∧
      run_value ds 0 ≤ INT_MAX := by
    refine ⟨hI, hN, ?_⟩
    rw [hD]
    decide
  rw [ri_scn_head ndebug
      (rfl : bl ++ (sg ++ (is ++ (bl1 ++ (ns ++ (bl2 ++ ('/' :: (bl3 ++ (ds ++ rest)))))))) = _)
      hbl hsg hin his hstop1,
    ri_scn_tail_compound ndebug _ hp h2 hb1 hb2 hb3 hnn hns hne hds,
    cvt_compound_at ndebug hp1 hp2 hp3 h3 h4 h5 his hstop1 hns hstop2 hds hr rfl rfl rfl rfl
      rfl rfl,
    if_pos hcond, hD]
  rfl

/-! ## Comparison of distinct fractions -/

/-- Two distinct canonical fractions whose denominators have the same sign have
different cross products. -/
theorem cross_ne {a b : RationalInt} (ha : Canonical a) (hb : Canonical b) (hab : a ≠ b)
    (hs : signum a.denominator = signum b.denominator) :
    a.numerator * iabs b.denominator ≠ b.numerator * iabs a.denominator := by
  obtain ⟨_, _, ha3, _⟩ := (canonical_iff a).mp ha
  obtain ⟨_, _, hb3, _⟩ := (canonical_iff b).mp hb
  have haq : (a.denominator : ℚ) ≠ 0 := by exact_mod_cast ha3
  have hbq : (b.denominator : ℚ) ≠ 0 := by exact_mod_cast hb3
  intro e
  apply hab
  apply canonical_ext ha hb
  unfold val
  rw [div_eq_div_iff haq hbq]
  have hcross : a.numerator * b.denominator = b.numerator * a.denominator := by
    rcases lt_or_gt_of_ne ha3 with han | hap
    · have hbn : b.denominator < 0 := by
        rw [signum_neg han] at hs
        unfold signum at hs
        split_ifs at hs
        omega
      have i1 : iabs b.denominator = -b.denominator := by unfold iabs; rw [if_pos hbn]
      have i2 : iabs a.denominator = -a.denominator := by unfold iabs; rw [if_pos han]
      rw [i1, i2] at e
      linarith
    · have hbp : 0 < b.denominator := by
        rw [signum_pos hap] at hs
        unfold signum at hs
        split_ifs at hs <;> omega
      have i1 : iabs b.denominator = b.denominator := by
        unfold iabs; rw [if_neg (by omega)]
      have i2 : iabs a.denominator = a.denominator := by
        unfold iabs; rw [if_neg (by omega)]
      rw [i1, i2] at e
      exact e
  exact_mod_cast hcross

/-- On canonical fractions `ri_cmp` always returns, and what it returns is `0` when
the two are identical and `-1` or `+1` otherwise. -/
theorem ri_cmp_cases (ndebug : Bool) {a b : RationalInt} (ha : Canonical a) (hb : Canonical b) :
    (a = b ∧ ri_cmp ndebug a b = Res.ok 0) ∨
      (a ≠ b ∧ (ri_cmp ndebug a b = Res.ok (-1) ∨ ri_cmp ndebug a b = Res.ok 1)) := by
  by_cases hab : a = b
  · left
    refine ⟨hab, ?_⟩
    rw [hab]
    exact ri_cmp_self ndebug b
  · right
    refine ⟨hab, ?_⟩
    have hne : ¬ (a.denominator = b.denominator ∧ a.numerator = b.numerator) := by
      rintro ⟨h1, h2⟩
      apply hab
      cases a; cases b
      simp only [RationalInt.mk.injEq]
      exact ⟨h2, h1⟩
    unfold ri_cmp
    rw [if_neg hne]
    by_cases hs : signum a.denominator ≠ signum b.denominator
    · rw [if_pos hs]
      by_cases hl : signum a.denominator < signum b.denominator
      · rw [if_pos hl]
        exact Or.inl rfl
      · rw [if_neg hl]
        exact Or.inr rfl
    · rw [if_neg hs]
      simp only
      rw [cassert_of (cross_ne ha hb hab (not_not.mp hs))]
      simp only [Res.ok_bind, Res.pure_eq]
      by_cases hl : a.numerator * iabs b.denominator < b.numerator * iabs a.denominator
      · rw [if_pos hl]
        exact Or.inl rfl
      · rw [if_neg hl]
        exact Or.inr rfl

/-! ## Construction -/

/-- C1: for all `int`s `n`, `d` with `d ≠ 0`, `d ≠ INT_MIN` and `n ≠ INT_MIN`,
`ri_new(n, d)` returns a fraction in canonical form: the denominator is neither
`0` nor `INT_MIN`, the numerator is non-negative, and either
`gcd(numerator, |denominator|) = 1` or the result is exactly `0/+1`.  This holds
with assertions enabled and disabled. -/
theorem ri_new_canonical_form (ndebug : Bool) (n d : Int) (hn : InInt n) (hd : InInt d)
    (hd0 : d ≠ 0) (hd2 : d ≠ INT_MIN) (hn2 : n ≠ INT_MIN) :
    ∃ r, ri_new ndebug n d = Res.ok r ∧
      r.denominator ≠ 0 ∧ r.denominator ≠ INT_MIN ∧ 0 ≤ r.numerator ∧
      (Int.gcd r.numerator (iabs r.denominator) = 1 ∨ r = ⟨0, 1⟩) ∧ Canonical r := by
  refine ⟨_, ri_new_eq_canon ndebug hn2 hd0 hd2, ?_⟩
  have hc : Canonical (canon ((n : ℚ) / (d : ℚ))) :=
    ri_new_canonical hn hd (ri_new_eq_canon ndebug hn2 hd0 hd2)
  obtain ⟨h1, _, h3, h4, _, h6, _⟩ := (canonical_iff _).mp hc
  refine ⟨h3, ?_, h1, Or.inl ?_, hc⟩
  · unfold INT_MAX at h4
    unfold INT_MIN
    omega
  · rw [gcd_iabs_right]
    exact h6

theorem ri_new_canonical_form_witness :
    (InInt 6 ∧ InInt (-8) ∧ (-8 : Int) ≠ 0 ∧ (-8 : Int) ≠ INT_MIN ∧ (6 : Int) ≠ INT_MIN) ∧
    ∃ r, ri_new false 6 (-8) = Res.ok r ∧
      r.denominator ≠ 0 ∧ r.denominator ≠ INT_MIN ∧ 0 ≤ r.numerator ∧
      (Int.gcd r.numerator (iabs r.denominator) = 1 ∨ r = ⟨0, 1⟩) ∧ Canonical r :=
  ⟨by decide,
    ri_new_canonical_form false 6 (-8) (by decide) (by decide) (by decide) (by decide)
      (by decide)⟩

/-- C2: canonical form is preserved by every core operation: on canonical
operands, whatever `ri_add`, `ri_sub`, `ri_mul`, `ri_div`, `ri_mod`, `ri_rec`,
`ri_integer`, `ri_fraction` or `ri_pow` returns satisfies the three assertions of
`ri_chk`, has `int` fields, and is `0/+1` when its numerator is zero
(`Canonical`).  This holds with assertions enabled and disabled. -/
theorem core_ops_preserve_canonical (ndebug : Bool) (a b : RationalInt)
    (ha : Canonical a) (_hb : Canonical b) :
    (∀ r, ri_add ndebug a b = Res.ok r → Canonical r) ∧
    (∀ r, ri_sub ndebug a b = Res.ok r → Canonical r) ∧
    (∀ r, ri_mul ndebug a b = Res.ok r → Canonical r) ∧
    (∀ r, ri_div ndebug a b = Res.ok r → Canonical r) ∧
    (∀ r, ri_mod ndebug a b = Res.ok r → Canonical r) ∧
    (∀ r, ri_rec ndebug a = Res.ok r → Canonical r) ∧
    (∀ r, ri_integer ndebug a = Res.ok r → Canonical r) ∧
    (∀ r, ri_fraction ndebug a = Res.ok r → Canonical r) ∧
    (∀ r, ri_pow ndebug a b = Res.ok r → Canonical r) := by
  exact ⟨fun _ h => ri_add_canonical h, fun _ h => ri_sub_canonical h,
    fun _ h => ri_mul_canonical h, fun _ h => ri_div_canonical h,
    fun _ h => ri_mod_canonical h, fun _ h => ri_rec_canonical ha h,
    fun _ h => ri_integer_canonical ha h, fun _ h => ri_fraction_canonical ha h,
    fun _ h => ri_pow_canonical h⟩

theorem core_ops_preserve_canonical_witness :
    (Canonical ⟨5, -2⟩ ∧ Canonical ⟨3, 1⟩) ∧
    ri_add false ⟨5, -2⟩ ⟨3, 1⟩ = Res.ok ⟨1, 2⟩ ∧ Canonical ⟨1, 2⟩ ∧
    ri_mod false ⟨5, -2⟩ ⟨3, 1⟩ = Res.ok ⟨5, -2⟩ ∧ Canonical ⟨5, -2⟩ ∧
    ri_pow false ⟨5, -2⟩ ⟨3, 1⟩ = Res.ok ⟨125, -8⟩ ∧ Canonical ⟨125, -8⟩ :=
  ⟨by decide, by decide,
    (core_ops_preserve_canonical false ⟨5, -2⟩ ⟨3, 1⟩ (by decide) (by decide)).1 _ (by decide),
    by decide,
    (core_ops_preserve_canonical false ⟨5, -2⟩ ⟨3, 1⟩ (by decide) (by decide)).2.2.2.2.1 _
      (by decide),
    by decide,
    (core_ops_preserve_canonical false ⟨5, -2⟩ ⟨3, 1⟩ (by decide) (by decide)).2.2.2.2.2.2.2.2 _
      (by decide)⟩

/-- C3: `ri_new` keeps the value and moves the sign into the denominator: for
`int`s `n ≠ 0`, `d ≠ 0`, neither `INT_MIN`, the result `r` satisfies
`r.numerator * d = n * r.denominator` (so `r` denotes `n / d`),
`r.numerator = |n| / gcd(|n|, |d|)`, and `r.denominator < 0` exactly when `n` and
`d` have opposite signs; for `n = 0` the result is `0/+1`.  This holds with
assertions enabled and disabled. -/
theorem ri_new_value (ndebug : Bool) (n d : Int) (hn : InInt n) (hd : InInt d)
    (hd0 : d ≠ 0) (hd2 : d ≠ INT_MIN) (hn2 : n ≠ INT_MIN) :
    (n ≠ 0 → ∃ r, ri_new ndebug n d = Res.ok r ∧
        InInt r.numerator ∧ InInt r.denominator ∧
        r.numerator * d = n * r.denominator ∧ val r = (n : ℚ) / (d : ℚ) ∧
        r.numerator = |n| / (Int.gcd |n| |d| : Int) ∧
        (r.denominator < 0 ↔ (n < 0 ∧ 0 < d) ∨ (0 < n ∧ d < 0))) ∧
    (n = 0 → ri_new ndebug n d = Res.ok ⟨0, 1⟩) := by
  constructor
  · intro hn0
    have hok := ri_new_ok ndebug hn0 hn2 hd0 hd2
    have hcan := ri_new_eq_canon ndebug hn2 hd0 hd2
    have hc : Canonical _ := ri_new_canonical hn hd hok
    have hv : val ⟨((n.natAbs / Int.gcd n d : Nat) : Int),
        signum n * signum d * ((d.natAbs / Int.gcd n d : Nat) : Int)⟩ = (n : ℚ) / (d : ℚ) := by
      have e := hok.symm.trans hcan
      injection e with e
      rw [e]
      exact val_canon _
    refine ⟨_, hok, hc.1, hc.2.1, ?_, hv, ?_, ?_⟩
    · have hg1 : Int.gcd n d ∣ n.natAbs := by
        rw [Int.gcd_eq_natAbs]; exact Nat.gcd_dvd_left _ _
      have hg2 : Int.gcd n d ∣ d.natAbs := by
        rw [Int.gcd_eq_natAbs]; exact Nat.gcd_dvd_right _ _
      have e1 : (n.natAbs : Int) = ((n.natAbs / Int.gcd n d : Nat) : Int) * (Int.gcd n d : Int) := by
        exact_mod_cast (Nat.div_mul_cancel hg1).symm
      have e2 : (d.natAbs : Int) = ((d.natAbs / Int.gcd n d : Nat) : Int) * (Int.gcd n d : Int) := by
        exact_mod_cast (Nat.div_mul_cancel hg2).symm
      have hn' : n = signum n * (((n.natAbs / Int.gcd n d : Nat) : Int) * (Int.gcd n d : Int)) := by
        rw [← e1, signum_mul_natAbs]
      have hd' : d = signum d * (((d.natAbs / Int.gcd n d : Nat) : Int) * (Int.gcd n d : Int)) := by
        rw [← e2, signum_mul_natAbs]
      have hs : signum n * signum n = 1 := by
        rcases lt_or_gt_of_ne hn0 with h | h
        · rw [signum_neg h]; rfl
        · rw [signum_pos h]; rfl
      show ((n.natAbs / Int.gcd n d : Nat) : Int) * d =
        n * (signum n * signum d * ((d.natAbs / Int.gcd n d : Nat) : Int))
      linear_combination ((n.natAbs / Int.gcd n d : Nat) : Int) * hd'
        - (signum n * signum d * ((d.natAbs / Int.gcd n d : Nat) : Int)) * hn'
        - (((n.natAbs / Int.gcd n d : Nat) : Int) * signum d *
            ((d.natAbs / Int.gcd n d : Nat) : Int) * (Int.gcd n d : Int)) * hs
    · show ((n.natAbs / Int.gcd n d : Nat) : Int) = |n| / (Int.gcd |n| |d| : Int)
      rw [Int.natCast_div, Int.natCast_natAbs]
      congr 2
      simp only [Int.gcd_eq_natAbs, Int.natAbs_abs]
    · show signum n * signum d * ((d.natAbs / Int.gcd n d : Nat) : Int) < 0 ↔ _
      have hD : 0 < d.natAbs / Int.gcd n d := by
        apply Nat.div_pos
        · apply Nat.le_of_dvd (Int.natAbs_pos.mpr hd0)
          rw [Int.gcd_eq_natAbs]; exact Nat.gcd_dvd_right _ _
        · exact Int.gcd_pos_of_ne_zero_left d hn0
      rcases lt_or_gt_of_ne hn0 with h1 | h1 <;> rcases lt_or_gt_of_ne hd0 with h2 | h2
      · rw [signum_neg h1, signum_neg h2]; omega
      · rw [signum_neg h1, signum_pos h2]; omega
      · rw [signum_pos h1, signum_neg h2]; omega
      · rw [signum_pos h1, signum_pos h2]; omega
  · intro hn0
    subst hn0
    exact ri_new_zero ndebug hd0 hd2

theorem ri_new_value_witness :
    (InInt (-6) ∧ InInt 8 ∧ (8 : Int) ≠ 0 ∧ (8 : Int) ≠ INT_MIN ∧ (-6 : Int) ≠ INT_MIN ∧
      (-6 : Int) ≠ 0) ∧
    ∃ r, ri_new false (-6) 8 = Res.ok r ∧
        InInt r.numerator ∧ InInt r.denominator ∧
        r.numerator * 8 = -6 * r.denominator ∧ val r = ((-6 : Int) : ℚ) / ((8 : Int) : ℚ) ∧
        r.numerator = |(-6 : Int)| / (Int.gcd |(-6 : Int)| |(8 : Int)| : Int) ∧
        (r.denominator < 0 ↔ ((-6 : Int) < 0 ∧ (0 : Int) < 8) ∨ ((0 : Int) < -6 ∧ (8 : Int) < 0)) :=
  ⟨by decide,
    (ri_new_value false (-6) 8 (by decide) (by decide) (by decide) (by decide) (by decide)).1
      (by decide)⟩

/-! ## Addition, subtraction, multiplication, division -/

/-- C4: `ri_add` and `ri_sub` are exact: for canonical `a` and `b`, when the exact
sum (difference) in lowest terms has numerator and denominator of magnitude at
most `INT_MAX`, the call reports no failure and returns the canonical fraction
that denotes exactly that rational number; an exact zero comes back as `0/+1`.
This holds with assertions enabled and disabled. -/
theorem ri_add_sub_exact (ndebug : Bool) (a b : RationalInt)
    (ha : Canonical a) (hb : Canonical b) :
    (Fits (val a + val b) → ∃ r, ri_add ndebug a b = Res.ok r ∧ Canonical r ∧
        val r = val a + val b ∧ (val a + val b = 0 → r = ⟨0, 1⟩)) ∧
    (Fits (val a - val b) → ∃ r, ri_sub ndebug a b = Res.ok r ∧ Canonical r ∧
        val r = val a - val b ∧ (val a - val b = 0 → r = ⟨0, 1⟩)) := by
  have h1 := canonical_den_ne ha
  have h2 := canonical_den_ne hb
  constructor
  · intro hf
    refine ⟨_, ri_add_fits ndebug h1 h2 hf, canonical_canon hf, val_canon _, fun h0 => ?_⟩
    rw [h0, canon_zero]
  · intro hf
    refine ⟨_, ri_sub_fits ndebug h1 h2 hf, canonical_canon hf, val_canon _, fun h0 => ?_⟩
    rw [h0, canon_zero]

theorem ri_add_sub_exact_witness :
    (Canonical ⟨14, -9⟩ ∧ Canonical ⟨12, -7⟩ ∧ Fits (val ⟨14, -9⟩ + val ⟨12, -7⟩)) ∧
    ∃ r, ri_add false ⟨14, -9⟩ ⟨12, -7⟩ = Res.ok r ∧ Canonical r ∧
      val r = val ⟨14, -9⟩ + val ⟨12, -7⟩ ∧ (val ⟨14, -9⟩ + val ⟨12, -7⟩ = 0 → r = ⟨0, 1⟩) :=
  have hf : Fits (val ⟨14, -9⟩ + val ⟨12, -7⟩) :=
    (fits_of_eq (x := -206) (y := 63) (by norm_num [val]) (by decide) (by decide)).mpr
      (by decide)
  ⟨⟨by decide, by decide, hf⟩,
    (ri_add_sub_exact false ⟨14, -9⟩ ⟨12, -7⟩ (by decide) (by decide)).1 hf⟩

/-- C5: `ri_mul` and `ri_div` are exact: for canonical `a` and `b` (with
`b.numerator ≠ 0` for `ri_div`), when the exact product (quotient) in lowest
terms has numerator and denominator of magnitude at most `INT_MAX`, the call
reports no failure and returns the canonical fraction that denotes exactly that
rational number; in particular `ri_div(0/1, b) = 0/1` for every non-zero `b`.
This holds with assertions enabled and disabled. -/
theorem ri_mul_div_exact (ndebug : Bool) (a b : RationalInt)
    (ha : Canonical a) (hb : Canonical b) :
    (Fits (val a * val b) → ∃ r, ri_mul ndebug a b = Res.ok r ∧ Canonical r ∧
        val r = val a * val b) ∧
    (b.numerator ≠ 0 → Fits (val a / val b) → ∃ r, ri_div ndebug a b = Res.ok r ∧
        Canonical r ∧ val r = val a / val b) ∧
    (b.numerator ≠ 0 → ri_div ndebug ⟨0, 1⟩ b = Res.ok ⟨0, 1⟩) := by
  have h1 := canonical_den_ne ha
  have h2 := canonical_den_ne hb
  refine ⟨fun hf => ?_, fun hbn hf => ?_, fun hbn => ?_⟩
  · exact ⟨_, ri_mul_fits ndebug h1 h2 hf, canonical_canon hf, val_canon _⟩
  · exact ⟨_, ri_div_fits ndebug h1 h2 hbn hf, canonical_canon hf, val_canon _⟩
  · unfold ri_div
    rw [cassert_of hbn]
    simp only [Res.ok_bind, if_pos]
    exact ri_new_zero_one ndebug

theorem ri_mul_div_exact_witness :
    (Canonical ⟨14, -9⟩ ∧ Canonical ⟨12, 7⟩ ∧ (12 : Int) ≠ 0 ∧
      Fits (val ⟨14, -9⟩ / val ⟨12, 7⟩)) ∧
    ∃ r, ri_div false ⟨14, -9⟩ ⟨12, 7⟩ = Res.ok r ∧ Canonical r ∧
      val r = val ⟨14, -9⟩ / val ⟨12, 7⟩ :=
  have hf : Fits (val ⟨14, -9⟩ / val ⟨12, 7⟩) :=
    (fits_of_eq (x := -49) (y := 54) (by norm_num [val]) (by decide) (by decide)).mpr
      (by decide)
  ⟨⟨by decide, by decide, by decide, hf⟩,
    (ri_mul_div_exact false ⟨14, -9⟩ ⟨12, 7⟩ (by decide) (by decide)).2.1 (by decide) hf⟩

/-- C6 (the claim fails in the build without assertions): the exact sum of
`2147483647/1` and `1/1` is `2^31` and the exact product of `65536/1` and `65537/1`
is `4295032832`, neither fits, and yet under `NDEBUG` `ri_add` returns the
zero-substituted `0/1` and `ri_mul` returns the wrapped `65536/1`; with assertions both
calls end in a failed assertion. -/
theorem overflow_unreported_ndebug :
    (Canonical ⟨2147483647, 1⟩ ∧ Canonical ⟨1, 1⟩ ∧
      ¬ Fits (val ⟨2147483647, 1⟩ + val ⟨1, 1⟩)) ∧
    ri_add true ⟨2147483647, 1⟩ ⟨1, 1⟩ = Res.ok ⟨0, 1⟩ ∧
    (Canonical ⟨65536, 1⟩ ∧ Canonical ⟨65537, 1⟩ ∧
      ¬ Fits (val ⟨65536, 1⟩ * val ⟨65537, 1⟩)) ∧
    ri_mul true ⟨65536, 1⟩ ⟨65537, 1⟩ = Res.ok ⟨65536, 1⟩ ∧
    ri_add false ⟨2147483647, 1⟩ ⟨1, 1⟩ = Res.fail Fault.assertion ∧
    ri_mul false ⟨65536, 1⟩ ⟨65537, 1⟩ = Res.fail Fault.assertion :=
  have hf1 : ¬ Fits (val ⟨2147483647, 1⟩ + val ⟨1, 1⟩) := fun h =>
    absurd ((fits_of_eq (x := 2147483648) (y := 1) (by norm_num [val]) (by decide)
      (by decide)).mp h) (by decide)
  have hf2 : ¬ Fits (val ⟨65536, 1⟩ * val ⟨65537, 1⟩) := fun h =>
    absurd ((fits_of_eq (x := 4295032832) (y := 1) (by norm_num [val]) (by decide)
      (by decide)).mp h) (by decide)
  ⟨⟨by decide, by decide, hf1⟩, by decide, ⟨by decide, by decide, hf2⟩, by decide, by decide,
    by decide⟩

/-- C6 as amended: with assertions enabled, overflow never wraps silently in the four
arithmetic operations: for canonical `a` and `b` (`b` non-zero for `ri_div`), when
the exact result in lowest terms has a numerator or denominator whose magnitude
exceeds `INT_MAX`, the call ends in a failed assertion and returns no fraction;
the boundary magnitude `2^31` is included. -/
theorem overflow_is_reported (a b : RationalInt) (ha : Canonical a) (hb : Canonical b) :
    (¬ Fits (val a + val b) → ri_add false a b = Res.fail Fault.assertion) ∧
    (¬ Fits (val a - val b) → ri_sub false a b = Res.fail Fault.assertion) ∧
    (¬ Fits (val a * val b) → ri_mul false a b = Res.fail Fault.assertion) ∧
    (b.numerator ≠ 0 → ¬ Fits (val a / val b) →
      ri_div false a b = Res.fail Fault.assertion) := by
  have h1 := canonical_den_ne ha
  have h2 := canonical_den_ne hb
  exact ⟨ri_add_unfit h1 h2, ri_sub_unfit h1 h2, ri_mul_unfit h1 h2,
    fun hbn => ri_div_unfit h1 h2 hbn⟩

theorem overflow_is_reported_witness :
    (Canonical ⟨2147483647, -1⟩ ∧ Canonical ⟨1, -1⟩ ∧
      ¬ Fits (val ⟨2147483647, -1⟩ + val ⟨1, -1⟩)) ∧
    ri_add false ⟨2147483647, -1⟩ ⟨1, -1⟩ = Res.fail Fault.assertion :=
  have hf : ¬ Fits (val ⟨2147483647, -1⟩ + val ⟨1, -1⟩) := fun h =>
    absurd ((fits_of_eq (x := -2147483648) (y := 1) (by norm_num [val]) (by decide)
      (by decide)).mp h) (by decide)
  ⟨⟨by decide, by decide, hf⟩,
    (overflow_is_reported ⟨2147483647, -1⟩ ⟨1, -1⟩ (by decide) (by decide)).1 hf⟩

/-! ## Comparison -/

/-- On two distinct canonical fractions that are both negative, `ri_cmp` compares
the magnitudes and does not turn the answer round: it returns `-1` exactly when
the left value is the greater one. -/
theorem ri_cmp_both_negative (a b : RationalInt) (ha : Canonical a) (hb : Canonical b)
    (hab : a ≠ b) (han : a.denominator < 0) (hbn : b.denominator < 0) :
    ri_cmp false a b = Res.ok (if val b < val a then -1 else 1) := by
  have hne : ¬ (a.denominator = b.denominator ∧ a.numerator = b.numerator) := by
    rintro ⟨h1, h2⟩
    apply hab
    cases a; cases b
    simp only [RationalInt.mk.injEq]
    exact ⟨h2, h1⟩
  have hda : ((-a.denominator : Int) : ℚ) > 0 := by
    have : 0 < -a.denominator := by omega
    exact_mod_cast this
  have hdb : ((-b.denominator : Int) : ℚ) > 0 := by
    have : 0 < -b.denominator := by omega
    exact_mod_cast this
  have va : val a = -((a.numerator : ℚ) / ((-a.denominator : Int) : ℚ)) := by
    unfold val; push_cast; rw [div_neg, neg_neg]
  have vb : val b = -((b.numerator : ℚ) / ((-b.denominator : Int) : ℚ)) := by
    unfold val; push_cast; rw [div_neg, neg_neg]
  have hlt : val b < val a ↔
      a.numerator * (-b.denominator) < b.numerator * (-a.denominator) := by
    rw [va, vb, neg_lt_neg_iff, div_lt_div_iff₀ hda hdb]
    exact_mod_cast Iff.rfl
  have hneq : a.numerator * (-b.denominator) ≠ b.numerator * (-a.denominator) := by
    intro e
    apply hab
    apply canonical_ext ha hb
    rw [va, vb, neg_inj, div_eq_div_iff (ne_of_gt hda) (ne_of_gt hdb)]
    exact_mod_cast e
  unfold ri_cmp
  rw [if_neg hne, signum_neg han, signum_neg hbn, if_neg (by simp)]
  have i1 : iabs b.denominator = -b.denominator := by unfold iabs; rw [if_pos hbn]
  have i2 : iabs a.denominator = -a.denominator := by unfold iabs; rw [if_pos han]
  simp only [i1, i2]
  rw [cassert_of hneq]
  simp only [Res.ok_bind, Res.pure_eq]
  by_cases h : a.numerator * (-b.denominator) < b.numerator * (-a.denominator)
  · rw [if_pos h, if_pos (hlt.mpr h)]
  · rw [if_neg h, if_neg (fun h2 => h (hlt.mp h2))]

/-- C7 (the code departs from the claim): `ri_cmp` on `1/(-1)` and `2/(-1)` returns `-1`,
"less than", although both operands are canonical and the left value `-1` is
greater than the right value `-2`; an ordering by value gives `+1`. -/
theorem ri_cmp_negative_pair :
    Canonical ⟨1, -1⟩ ∧ Canonical ⟨2, -1⟩ ∧ val ⟨2, -1⟩ < val ⟨1, -1⟩ ∧
    ri_cmp false ⟨1, -1⟩ ⟨2, -1⟩ = Res.ok (-1) ∧ ri_cmp true ⟨1, -1⟩ ⟨2, -1⟩ = Res.ok (-1) :=
  ⟨by decide, by decide, by norm_num [val], by decide, by decide⟩

/-! ## Modulus -/

/-- C10 (the claim fails at base zero): `ri_pow(0/1, 0/1)` returns `0/1`, not
`1/1`, because the test for a zero base comes first; the table `p6_tests` of the
source expects this `0/1`. -/
theorem ri_pow_zero_zero :
    Canonical ⟨0, 1⟩ ∧ ri_pow false ⟨0, 1⟩ ⟨0, 1⟩ = Res.ok ⟨0, 1⟩ ∧
      ri_pow false ⟨0, 1⟩ ⟨0, 1⟩ ≠ Res.ok ⟨1, 1⟩ :=
  ⟨by decide, by decide, by decide⟩

/-- C10 as amended: a zero exponent gives `1/1` for every canonical base with a
non-zero numerator, and `0/1` for the base `0/1`.  This holds with assertions
enabled and disabled. -/
theorem ri_pow_zero_exponent (ndebug : Bool) (base : RationalInt) (_hbase : Canonical base) :
    (base.numerator ≠ 0 → ri_pow ndebug base ⟨0, 1⟩ = Res.ok ⟨1, 1⟩) ∧
    (base.numerator = 0 → ri_pow ndebug base ⟨0, 1⟩ = Res.ok ⟨0, 1⟩) := by
  have hone : ri_new ndebug 1 1 = Res.ok ⟨1, 1⟩ := by
    cases ndebug <;> decide
  constructor
  · intro h
    unfold ri_pow
    rw [cassert_of (show (1 : Int) = 1 ∨ (1 : Int) = -1 from Or.inl rfl)]
    simp only [Res.ok_bind]
    rw [if_neg h, if_pos True.intro]
    exact hone
  · intro h
    unfold ri_pow
    rw [cassert_of (show (1 : Int) = 1 ∨ (1 : Int) = -1 from Or.inl rfl)]
    simp only [Res.ok_bind]
    rw [if_pos h]
    exact ri_new_zero_one ndebug

theorem ri_pow_zero_exponent_witness :
    (Canonical ⟨3, 2⟩ ∧ (3 : Int) ≠ 0) ∧ ri_pow false ⟨3, 2⟩ ⟨0, 1⟩ = Res.ok ⟨1, 1⟩ :=
  ⟨by decide, (ri_pow_zero_exponent false ⟨3, 2⟩ (by decide)).1 (by decide)⟩

/-- C11: `ri_pow` computes the exact integer power and never fails spuriously:
for a canonical base with non-zero numerator and a canonical power with
denominator `+1` or `-1` and numerator `k ≥ 1`, when `base.numerator ^ k` and
`|base.denominator| ^ k` are at most `INT_MAX`, the call reports no failure (so
no square formed by the loop overflows) and returns the canonical fraction
denoting `base ^ k` for denominator `+1` and `1 / base ^ k` for denominator
`-1`.  This holds with assertions enabled and disabled. -/
theorem ri_pow_exact (ndebug : Bool) (base power : RationalInt) (hb : Canonical base)
    (hp : Canonical power) (hbn : base.numerator ≠ 0)
    (hpd : power.denominator = 1 ∨ power.denominator = -1) (hk : 1 ≤ power.numerator)
    (h1 : base.numerator ^ power.numerator.toNat ≤ INT_MAX)
    (h2 : |base.denominator| ^ power.numerator.toNat ≤ INT_MAX) :
    ∃ r, ri_pow ndebug base power = Res.ok r ∧ Canonical r ∧
      (power.denominator = 1 → val r = val base ^ power.numerator.toNat) ∧
      (power.denominator = -1 → val r = 1 / val base ^ power.numerator.toNat) := by
  have hfk : Fits (val base ^ power.numerator.toNat) := (fits_pow hb _).mpr ⟨h1, h2⟩
  have hfit : ∀ m, m ≤ power.numerator.toNat → Fits (val base ^ m) :=
    fun m hm => fits_pow_le hb hbn hm hfk
  have hpn : power.numerator = ((power.numerator.toNat : Nat) : Int) := by omega
  have hlt : power.numerator.toNat < 2 ^ 32 := by
    have := hp.1.2
    unfold INT_MAX at this
    omega
  have hloop : pow_loop ndebug 32 power.numerator ⟨1, 1⟩ base =
      Res.ok (canon (val base ^ power.numerator.toNat)) := by
    rw [hpn]
    simp only [Int.toNat_ofNat]
    exact pow_loop_fits ndebug hfit 32 _ 0 1 _ _ canonical_one hb (by rw [val_one, pow_zero])
      (by rw [pow_one]) (by ring) hlt
  have hcan : Canonical (canon (val base ^ power.numerator.toNat)) := canonical_canon hfk
  rw [ri_pow_unfold ndebug hbn hpd hk, hloop]
  simp only [Res.ok_bind]
  rcases hpd with hpd | hpd
  · rw [if_neg (by omega)]
    exact ⟨_, rfl, hcan, fun _ => val_canon _, fun h => by omega⟩
  · rw [if_pos (by omega)]
    have hb0 : val base ≠ 0 := by
      unfold val
      have a1 : (base.numerator : ℚ) ≠ 0 := by exact_mod_cast hbn
      have a2 : (base.denominator : ℚ) ≠ 0 := by exact_mod_cast canonical_den_ne hb
      exact div_ne_zero a1 a2
    have hnum : (canon (val base ^ power.numerator.toNat)).numerator ≠ 0 := by
      intro h0
      have : (val base ^ power.numerator.toNat).num = 0 := abs_eq_zero.mp h0
      exact pow_ne_zero _ hb0 (Rat.zero_of_num_zero this)
    have hrec := ri_rec_eq ndebug hcan hnum
    rw [val_canon] at hrec
    have hcr : Canonical (canon (val base ^ power.numerator.toNat)⁻¹) :=
      ri_rec_canonical hcan hrec
    refine ⟨_, hrec, hcr, fun h => by omega, fun _ => ?_⟩
    rw [val_canon, one_div]

theorem ri_pow_exact_witness :
    (Canonical ⟨2, 1⟩ ∧ Canonical ⟨30, -1⟩ ∧ (2 : Int) ≠ 0 ∧
      ((-1 : Int) = 1 ∨ (-1 : Int) = -1) ∧ (1 : Int) ≤ 30 ∧
      (2 : Int) ^ (30 : Int).toNat ≤ INT_MAX ∧ |(1 : Int)| ^ (30 : Int).toNat ≤ INT_MAX) ∧
    ri_pow false ⟨2, 1⟩ ⟨30, 1⟩ = Res.ok ⟨1073741824, 1⟩ ∧
    ri_pow false ⟨2, 1⟩ ⟨30, -1⟩ = Res.ok ⟨1, 1073741824⟩ ∧
    ∃ r, ri_pow false ⟨2, 1⟩ ⟨30, -1⟩ = Res.ok r ∧ Canonical r ∧
      ((-1 : Int) = 1 → val r = val ⟨2, 1⟩ ^ (30 : Int).toNat) ∧
      ((-1 : Int) = -1 → val r = 1 / val ⟨2, 1⟩ ^ (30 : Int).toNat) :=
  ⟨by decide, by decide, by decide,
    ri_pow_exact false ⟨2, 1⟩ ⟨30, -1⟩ (by decide) (by decide) (by decide) (by decide)
      (by decide) (by decide) (by decide)⟩

/-- C12 (the claim fails in the build without assertions): `2^31` exceeds `INT_MAX`,
and yet under `NDEBUG` `ri_pow(2/1, 31/1)` reports nothing and returns `0/1`; with
assertions the call ends in a failed assertion. -/
theorem ri_pow_unreported_ndebug :
    (Canonical ⟨2, 1⟩ ∧ Canonical ⟨31, 1⟩ ∧ INT_MAX < (2 : Int) ^ 31) ∧
    ri_pow true ⟨2, 1⟩ ⟨31, 1⟩ = Res.ok ⟨0, 1⟩ ∧
    ri_pow false ⟨2, 1⟩ ⟨31, 1⟩ = Res.fail Fault.assertion := by
  decide

/-- C12 as amended: `ri_pow` reports a range failure instead of wrapping, with assertions
enabled: for a canonical base with non-zero numerator and a canonical power with
denominator `+1` or `-1` and numerator `k ≥ 1`, when `base.numerator ^ k` or
`|base.denominator| ^ k` exceeds `INT_MAX`, the call ends in a failed assertion
and returns no fraction; in particular `ri_pow(2/1, 31/1)` fails. -/
theorem ri_pow_overflow (base power : RationalInt) (hb : Canonical base)
    (hp : Canonical power) (hbn : base.numerator ≠ 0)
    (hpd : power.denominator = 1 ∨ power.denominator = -1) (hk : 1 ≤ power.numerator)
    (h : INT_MAX < base.numerator ^ power.numerator.toNat ∨
      INT_MAX < |base.denominator| ^ power.numerator.toNat) :
    ri_pow false base power = Res.fail Fault.assertion := by
  have hunfit : ¬ Fits (val base ^ power.numerator.toNat) := by
    rw [fits_pow hb]
    rintro ⟨a1, a2⟩
    rcases h with h | h
    · exact absurd a1 (not_le.mpr h)
    · exact absurd a2 (not_le.mpr h)
  have hpn : power.numerator = ((power.numerator.toNat : Nat) : Int) := by omega
  have hlt : power.numerator.toNat < 2 ^ 32 := by
    have := hp.1.2
    unfold INT_MAX at this
    omega
  have hloop : pow_loop false 32 power.numerator ⟨1, 1⟩ base = Res.fail Fault.assertion := by
    rw [hpn]
    exact pow_loop_unfit hunfit 32 _ 0 1 _ _ canonical_one hb (by rw [val_one, pow_zero])
      (by rw [pow_one]) (by ring) (by omega) hlt
  rw [ri_pow_unfold false hbn hpd hk, hloop]
  rfl

theorem ri_pow_overflow_witness :
    (Canonical ⟨2, 1⟩ ∧ Canonical ⟨31, 1⟩ ∧ (2 : Int) ≠ 0 ∧
      ((1 : Int) = 1 ∨ (1 : Int) = -1) ∧ (1 : Int) ≤ 31 ∧
      (INT_MAX < (2 : Int) ^ (31 : Int).toNat ∨ INT_MAX < |(1 : Int)| ^ (31 : Int).toNat)) ∧
    ri_pow false ⟨2, 1⟩ ⟨31, 1⟩ = Res.fail Fault.assertion :=
  ⟨by decide,
    ri_pow_overflow ⟨2, 1⟩ ⟨31, 1⟩ (by decide) (by decide) (by decide) (by decide)
      (by decide) (by decide)⟩

/-! ## Domain failures and fail-soft construction -/

/-- C13 (the claim fails in the build without assertions): under `NDEBUG` the zero
divisor is not caught: `ri_div(1/1, 0/1)` and `ri_mod(1/1, 0/1)` reach the division by
the zero greatest common divisor, an integer division by zero, and `ri_rec(0/1)`
reports nothing and answers `0/1`. -/
theorem zero_divisor_ndebug :
    (Canonical ⟨1, 1⟩ ∧ Canonical ⟨0, 1⟩) ∧
    ri_div true ⟨1, 1⟩ ⟨0, 1⟩ = Res.fail Fault.divByZero ∧
      ri_mod true ⟨1, 1⟩ ⟨0, 1⟩ = Res.fail Fault.divByZero ∧
      ri_rec true ⟨0, 1⟩ = Res.ok ⟨0, 1⟩ := by
  decide

/-- C13 as amended: division by a zero operand is a reported failure, with assertions
enabled: for canonical `a` and canonical `z` with `z.numerator = 0`, `ri_div(a, z)`,
`ri_mod(a, z)` and `ri_rec(z)` end in a failed assertion and return no fraction;
the assertion comes first, so no integer division by zero is executed. -/
theorem zero_divisor_reported (a z : RationalInt) (_ha : Canonical a) (_hz : Canonical z)
    (hz0 : z.numerator = 0) :
    ri_div false a z = Res.fail Fault.assertion ∧
      ri_mod false a z = Res.fail Fault.assertion ∧
      ri_rec false z = Res.fail Fault.assertion := by
  have hc : cassert false (z.numerator ≠ 0) = Res.fail Fault.assertion :=
    cassert_fail (by simp [hz0])
  refine ⟨?_, ?_, ?_⟩
  · unfold ri_div; rw [hc]; rfl
  · unfold ri_mod; rw [hc]; rfl
  · unfold ri_rec; rw [hc]; rfl

theorem zero_divisor_reported_witness :
    (Canonical ⟨14, -9⟩ ∧ Canonical ⟨0, 1⟩ ∧ (0 : Int) = 0) ∧
    ri_div false ⟨14, -9⟩ ⟨0, 1⟩ = Res.fail Fault.assertion ∧
      ri_mod false ⟨14, -9⟩ ⟨0, 1⟩ = Res.fail Fault.assertion ∧
      ri_rec false ⟨0, 1⟩ = Res.fail Fault.assertion :=
  ⟨by decide, zero_divisor_reported ⟨14, -9⟩ ⟨0, 1⟩ (by decide) (by decide) rfl⟩

/-- C14 (the claim fails in the build with assertions): `ri_new(1, 0)` stops at
`assert(denominator != 0)` and yields no fraction. -/
theorem ri_new_zero_denominator_aborts :
    ri_new false 1 0 = Res.fail Fault.assertion ∧ ri_new false 1 0 ≠ Res.ok ⟨0, 1⟩ := by
  decide

/-- C14 as amended: for `int`s `n`, `d` with `d = 0`, `d = INT_MIN` or
`n = INT_MIN`, `ri_new(n, d)` yields `0/+1` when assertions are disabled; with
assertions enabled the call ends in a failed assertion. -/
theorem ri_new_fail_soft (n d : Int) (_hn : InInt n) (_hd : InInt d)
    (h : d = 0 ∨ d = INT_MIN ∨ n = INT_MIN) :
    ri_new true n d = Res.ok ⟨0, 1⟩ ∧ ri_new false n d = Res.fail Fault.assertion := by
  refine ⟨?_, ri_new_fail h⟩
  unfold ri_new
  rw [cassert_ndebug, cassert_ndebug]
  simp only [Res.ok_bind]
  rw [if_pos (by tauto)]
  rfl

theorem ri_new_fail_soft_witness :
    (InInt 7 ∧ InInt INT_MIN ∧ (INT_MIN = 0 ∨ INT_MIN = INT_MIN ∨ (7 : Int) = INT_MIN)) ∧
    ri_new true 7 INT_MIN = Res.ok ⟨0, 1⟩ ∧
      ri_new false 7 INT_MIN = Res.fail Fault.assertion :=
  ⟨by decide, ri_new_fail_soft 7 INT_MIN (by decide) (by decide) (by decide)⟩

/-! ## Algebraic laws -/

/-- C15: commutativity: for canonical `a` and `b`, `ri_add(a, b)` and
`ri_add(b, a)` are the same outcome, so either both fail or both return the
identical fraction, on which `ri_cmp` gives `0`; likewise `ri_mul(a, b)` and
`ri_mul(b, a)`.  This holds with assertions enabled and disabled. -/
theorem add_mul_commutative (ndebug : Bool) (a b : RationalInt)
    (_ha : Canonical a) (_hb : Canonical b) :
    ri_add ndebug a b = ri_add ndebug b a ∧ ri_mul ndebug a b = ri_mul ndebug b a ∧
    ((∃ e, ri_add ndebug a b = Res.fail e ∧ ri_add ndebug b a = Res.fail e) ∨
      (∃ r s, ri_add ndebug a b = Res.ok r ∧ ri_add ndebug b a = Res.ok s ∧ r = s ∧
        ri_cmp ndebug r s = Res.ok 0)) ∧
    ((∃ e, ri_mul ndebug a b = Res.fail e ∧ ri_mul ndebug b a = Res.fail e) ∨
      (∃ r s, ri_mul ndebug a b = Res.ok r ∧ ri_mul ndebug b a = Res.ok s ∧ r = s ∧
        ri_cmp ndebug r s = Res.ok 0)) := by
  have hadd : ri_add ndebug a b = ri_add ndebug b a := by
    unfold ri_add
    rw [add_comm (a.numerator * b.denominator), mul_comm a.denominator b.denominator]
  have hmul : ri_mul ndebug a b = ri_mul ndebug b a := by
    unfold ri_mul
    rw [mul_comm a.numerator b.numerator, mul_comm a.denominator b.denominator]
  refine ⟨hadd, hmul, ?_, ?_⟩
  · rw [← hadd]
    cases h : ri_add ndebug a b with
    | ok r => exact Or.inr ⟨r, r, rfl, rfl, rfl, ri_cmp_self ndebug r⟩
    | fail e => exact Or.inl ⟨e, rfl, rfl⟩
  · rw [← hmul]
    cases h : ri_mul ndebug a b with
    | ok r => exact Or.inr ⟨r, r, rfl, rfl, rfl, ri_cmp_self ndebug r⟩
    | fail e => exact Or.inl ⟨e, rfl, rfl⟩

theorem add_mul_commutative_witness :
    (Canonical ⟨14, -9⟩ ∧ Canonical ⟨12, 7⟩) ∧
    ri_add false ⟨14, -9⟩ ⟨12, 7⟩ = Res.ok ⟨10, 63⟩ ∧
    ri_add false ⟨14, -9⟩ ⟨12, 7⟩ = ri_add false ⟨12, 7⟩ ⟨14, -9⟩ ∧
    ri_mul false ⟨14, -9⟩ ⟨12, 7⟩ = ri_mul false ⟨12, 7⟩ ⟨14, -9⟩ :=
  ⟨by decide, by decide,
    (add_mul_commutative false ⟨14, -9⟩ ⟨12, 7⟩ (by decide) (by decide)).1,
    (add_mul_commutative false ⟨14, -9⟩ ⟨12, 7⟩ (by decide) (by decide)).2.1⟩

/-- C16: identities: for every canonical `a`, `ri_add(a, 0/1)` and
`ri_mul(a, 1/1)` report no failure and return `a` unchanged.  This holds with
assertions enabled and disabled. -/
theorem add_zero_mul_one (ndebug : Bool) (a : RationalInt) (ha : Canonical a) :
    ri_add ndebug a ⟨0, 1⟩ = Res.ok a ∧ ri_mul ndebug a ⟨1, 1⟩ = Res.ok a := by
  have hden := canonical_den_ne ha
  constructor
  · have hv : val a + val ⟨0, 1⟩ = val a := by rw [val_zero_one, add_zero]
    have hf : Fits (val a + val ⟨0, 1⟩) := by rw [hv]; exact fits_val ha
    rw [ri_add_fits ndebug hden (by decide) hf, hv, canon_val ha]
  · have hv : val a * val ⟨1, 1⟩ = val a := by rw [val_one, mul_one]
    have hf : Fits (val a * val ⟨1, 1⟩) := by rw [hv]; exact fits_val ha
    rw [ri_mul_fits ndebug hden (by decide) hf, hv, canon_val ha]

theorem add_zero_mul_one_witness :
    Canonical ⟨206, -63⟩ ∧
    ri_add false ⟨206, -63⟩ ⟨0, 1⟩ = Res.ok ⟨206, -63⟩ ∧
      ri_mul false ⟨206, -63⟩ ⟨1, 1⟩ = Res.ok ⟨206, -63⟩ :=
  ⟨by decide, add_zero_mul_one false ⟨206, -63⟩ (by decide)⟩

/-- C17: integer/fraction decomposition: for every canonical `v`, `ri_integer(v)`
is the canonical fraction with denominator `+1` or `-1` whose value is `v`
rounded toward zero (`0/+1` when `|v| < 1`); `ri_fraction(v)` is the canonical
fraction of `v` minus that integer, which is zero or has the sign of `v` and has
magnitude below one; and `ri_add(ri_integer(v), ri_fraction(v))` returns `v`.
This holds with assertions enabled and disabled. -/
theorem integer_fraction_decomposition (ndebug : Bool) (v : RationalInt) (hv : Canonical v) :
    ∃ iv fv, ri_integer ndebug v = Res.ok iv ∧ ri_fraction ndebug v = Res.ok fv ∧
      Canonical iv ∧ Canonical fv ∧
      (iv.denominator = 1 ∨ iv.denominator = -1) ∧
      val iv = ((qtrunc (val v) : Int) : ℚ) ∧ (|val v| < 1 → iv = ⟨0, 1⟩) ∧
      val fv = val v - ((qtrunc (val v) : Int) : ℚ) ∧
      (val fv = 0 ∨ (0 < val fv ∧ 0 < val v) ∨ (val fv < 0 ∧ val v < 0)) ∧
      |val fv| < 1 ∧
      ri_add ndebug iv fv = Res.ok v := by
  have hi := ri_integer_eq ndebug hv
  have hf := ri_fraction_eq ndebug hv
  have hic : Canonical _ := ri_integer_canonical hv hi
  have hfc : Canonical _ := ri_fraction_canonical hv hf
  obtain ⟨f1, f2⟩ := trunc_rem_facts (val v) 1 one_ne_zero
  simp only [div_one, mul_one, abs_one] at f1 f2
  refine ⟨_, _, hi, hf, hic, hfc, canon_int_den _, val_canon _, ?_, val_canon _, ?_, ?_, ?_⟩
  · intro hlt
    have h0 : qtrunc (val v) = 0 := by
      have hl := abs_lt.mp hlt
      unfold qtrunc
      by_cases hp : 0 ≤ val v
      · rw [if_pos hp, Int.floor_eq_iff]
        constructor
        · simpa using hp
        · simpa using hl.2
      · rw [if_neg hp, Int.ceil_eq_iff]
        constructor
        · simpa using hl.1
        · simpa using le_of_lt (not_le.mp hp)
    rw [h0]
    simp [canon_zero]
  · rw [val_canon]; exact f2
  · rw [val_canon]; exact f1
  · have hsum : val (canon ((qtrunc (val v) : Int) : ℚ)) +
        val (canon (val v - ((qtrunc (val v) : Int) : ℚ))) = val v := by
      rw [val_canon, val_canon]; ring
    have hfit : Fits (val (canon ((qtrunc (val v) : Int) : ℚ)) +
        val (canon (val v - ((qtrunc (val v) : Int) : ℚ)))) := by
      rw [hsum]; exact fits_val hv
    rw [ri_add_fits ndebug (canonical_den_ne hic) (canonical_den_ne hfc) hfit, hsum,
      canon_val hv]

theorem integer_fraction_decomposition_witness :
    Canonical ⟨23, -12⟩ ∧
    ri_integer false ⟨23, -12⟩ = Res.ok ⟨1, -1⟩ ∧
    ri_fraction false ⟨23, -12⟩ = Res.ok ⟨11, -12⟩ ∧
    ri_add false ⟨1, -1⟩ ⟨11, -12⟩ = Res.ok ⟨23, -12⟩ ∧
    ∃ iv fv, ri_integer false ⟨23, -12⟩ = Res.ok iv ∧ ri_fraction false ⟨23, -12⟩ = Res.ok fv ∧
      Canonical iv ∧ Canonical fv ∧
      (iv.denominator = 1 ∨ iv.denominator = -1) ∧
      val iv = ((qtrunc (val ⟨23, -12⟩) : Int) : ℚ) ∧ (|val ⟨23, -12⟩| < 1 → iv = ⟨0, 1⟩) ∧
      val fv = val ⟨23, -12⟩ - ((qtrunc (val ⟨23, -12⟩) : Int) : ℚ) ∧
      (val fv = 0 ∨ (0 < val fv ∧ 0 < val ⟨23, -12⟩) ∨ (val fv < 0 ∧ val ⟨23, -12⟩ < 0)) ∧
      |val fv| < 1 ∧
      ri_add false iv fv = Res.ok ⟨23, -12⟩ :=
  ⟨by decide, by decide, by decide, by decide,
    integer_fraction_decomposition false ⟨23, -12⟩ (by decide)⟩

/-- C18: `ri_rec` swaps numerator and denominator: for a canonical `v` with
non-zero numerator, `ri_rec(v)` returns the canonical fraction with numerator
`|v.denominator|` and denominator `sign(v.denominator) * v.numerator`, so that
`ri_rec(ri_rec(v)) = v` and `ri_mul(v, ri_rec(v)) = 1/1`.  This holds with
assertions enabled and disabled. -/
theorem ri_rec_swaps (ndebug : Bool) (v : RationalInt) (hv : Canonical v)
    (hn : v.numerator ≠ 0) :
    ∃ r, ri_rec ndebug v = Res.ok r ∧ Canonical r ∧
      r.numerator = |v.denominator| ∧ r.denominator = signum v.denominator * v.numerator ∧
      ri_rec ndebug r = Res.ok v ∧ ri_mul ndebug v r = Res.ok ⟨1, 1⟩ := by
  obtain ⟨h1, _, h3, _, _, h6, _⟩ := (canonical_iff v).mp hv
  have hrec := ri_rec_eq ndebug hv hn
  have hrc : Canonical (canon (val v)⁻¹) := ri_rec_canonical hv hrec
  have hv0 := val_ne_zero hv hn
  have hshape : canon (val v)⁻¹ = ⟨|v.denominator|, signum v.denominator * v.numerator⟩ := by
    have e : (val v)⁻¹ = (v.denominator : ℚ) / (v.numerator : ℚ) := by
      unfold val; rw [inv_div]
    have hpos : 0 < v.numerator := by omega
    rw [e, canon_of_coprime h3 hn (by rw [Int.gcd_comm]; exact h6), signum_pos hpos,
      abs_of_nonneg h1, mul_one]
  have hrn : (canon (val v)⁻¹).numerator ≠ 0 := by
    rw [hshape]
    exact abs_ne_zero.mpr h3
  refine ⟨_, hrec, hrc, by rw [hshape], by rw [hshape], ?_, ?_⟩
  · rw [ri_rec_eq ndebug hrc hrn, val_canon, inv_inv, canon_val hv]
  · have hprod : val v * val (canon (val v)⁻¹) = 1 := by
      rw [val_canon]; exact mul_inv_cancel₀ hv0
    have hfit : Fits (val v * val (canon (val v)⁻¹)) := by rw [hprod]; exact fits_one
    rw [ri_mul_fits ndebug (canonical_den_ne hv) (canonical_den_ne hrc) hfit, hprod, canon_one]

theorem ri_rec_swaps_witness :
    (Canonical ⟨5, -2⟩ ∧ (5 : Int) ≠ 0) ∧
    ri_rec false ⟨5, -2⟩ = Res.ok ⟨2, -5⟩ ∧
    ∃ r, ri_rec false ⟨5, -2⟩ = Res.ok r ∧ Canonical r ∧
      r.numerator = |(-2 : Int)| ∧ r.denominator = signum (-2) * 5 ∧
      ri_rec false r = Res.ok ⟨5, -2⟩ ∧ ri_mul false ⟨5, -2⟩ r = Res.ok ⟨1, 1⟩ :=
  ⟨by decide, by decide, ri_rec_swaps false ⟨5, -2⟩ (by decide) (by decide)⟩

/-! ## Round trips through text (C19, C20) -/

/-- C19. Compact round trip: for every canonical fraction `v`, in either build, there is
a non-empty text that `ri_fmt` writes for `v` into every buffer whose capacity exceeds
the length of the text, and `ri_scn` on that text returns status 0, stores a result
identical to `v`, and reports an end of conversion equal to the length of the text. -/
theorem compact_round_trip (ndebug : Bool) (v : RationalInt) (hv : Canonical v) :
    ∃ text : List Char, text ≠ [] ∧
      (∀ (buffer : List Char) (buflen : Nat), text.length < buflen →
        ri_fmt ndebug v buffer buflen = Res.ok text) ∧
      ri_scn ndebug text = Res.ok ⟨0, some text.length, some v, Errno.ENOERROR⟩ := by
  by_cases hd : v.denominator.natAbs = 1
  · refine ⟨(if v.denominator < 0 then '-' else '+') :: Nat.toDigits 10 v.numerator.natAbs,
      List.cons_ne_nil _ _, ?_, scan_sign_integer ndebug hv hd⟩
    intro buffer buflen hlen
    rw [ri_fmt_text ndebug hv buffer (by omega), if_pos hd,
      buffer_after_fits (List.cons_ne_nil _ _) hlen]
  · refine ⟨(if v.denominator < 0 then '-' else '+') ::
        (Nat.toDigits 10 v.numerator.natAbs ++ '/' :: Nat.toDigits 10 v.denominator.natAbs),
      List.cons_ne_nil _ _, ?_, scan_sign_simple ndebug hv⟩
    intro buffer buflen hlen
    rw [ri_fmt_text ndebug hv buffer (by omega), if_neg hd,
      buffer_after_fits (List.cons_ne_nil _ _) hlen]

theorem compact_round_trip_witness :
    Canonical ⟨206, -63⟩ ∧
    (∃ text : List Char, text ≠ [] ∧
      (∀ (buffer : List Char) (buflen : Nat), text.length < buflen →
        ri_fmt false ⟨206, -63⟩ buffer buflen = Res.ok text) ∧
      ri_scn false text = Res.ok ⟨0, some text.length, some ⟨206, -63⟩, Errno.ENOERROR⟩) ∧
    (ri_fmt false ⟨0, 1⟩ [] 32 = Res.ok ['+', '0'] ∧
      ri_scn false ['+', '0'] = Res.ok ⟨0, some 2, some ⟨0, 1⟩, Errno.ENOERROR⟩) ∧
    (ri_fmt false ⟨1, 1⟩ [] 32 = Res.ok ['+', '1'] ∧
      ri_scn false ['+', '1'] = Res.ok ⟨0, some 2, some ⟨1, 1⟩, Errno.ENOERROR⟩) ∧
    (ri_fmt false ⟨3, -4⟩ [] 32 = Res.ok ['-', '3', '/', '4'] ∧
      ri_scn false ['-', '3', '/', '4'] =
        Res.ok ⟨0, some 4, some ⟨3, -4⟩, Errno.ENOERROR⟩) ∧
    (ri_fmt false ⟨206, -63⟩ [] 32 = Res.ok ['-', '2', '0', '6', '/', '6', '3'] ∧
      ri_scn false ['-', '2', '0', '6', '/', '6', '3'] =
        Res.ok ⟨0, some 7, some ⟨206, -63⟩, Errno.ENOERROR⟩) :=
  ⟨by decide, compact_round_trip false ⟨206, -63⟩ (by decide), by decide, by decide,
    by decide, by decide⟩

/-- C20. Proper-form round trip: for every canonical fraction `v`, in either build, there
is a non-empty text that `ri_fmtproper` writes for `v` into every buffer whose capacity
exceeds the length of the text, and `ri_scn` on that text returns status 0, stores a
result identical to `v`, and reports an end of conversion equal to the length of the
text; a mixed number among these texts passes the overflow test of `cvt_compound`. -/
theorem proper_round_trip (ndebug : Bool) (v : RationalInt) (hv : Canonical v) :
    ∃ text : List Char, text ≠ [] ∧
      (∀ buflen : Nat, text.length < buflen → ri_fmtproper ndebug v buflen = Res.ok text) ∧
      ri_scn ndebug text = Res.ok ⟨0, some text.length, some v, Errno.ENOERROR⟩ := by
  obtain ⟨h1, _, h3, _, _, h6, h7⟩ := (canonical_iff v).mp hv
  by_cases hq : v.numerator.natAbs / v.denominator.natAbs = 0
  · by_cases hr : v.numerator.natAbs % v.denominator.natAbs = 0
    · -- the value is zero
      have hn : v.numerator = 0 := by
        have := Nat.div_add_mod v.numerator.natAbs v.denominator.natAbs
        rw [hq, hr] at this
        omega
      have hv0 : v = ⟨0, 1⟩ := by
        cases v
        simp only [RationalInt.mk.injEq]
        exact ⟨hn, h7 hn⟩
      refine ⟨['0'], List.cons_ne_nil _ _, ?_, ?_⟩
      · intro buflen hlen
        rw [ri_fmtproper_text ndebug hv (by omega), if_neg (fun h => h.1 hq),
          if_neg (fun h => h hq), if_neg (fun h => h hr),
          buffer_after_fits (List.cons_ne_nil _ _) hlen]
      · rw [scan_zero_text, hv0]
        rfl
    · refine ⟨(if v.denominator < 0 then '-' else '+') ::
          (Nat.toDigits 10 v.numerator.natAbs ++ '/' :: Nat.toDigits 10 v.denominator.natAbs),
        List.cons_ne_nil _ _, ?_, scan_sign_simple ndebug hv⟩
      intro buflen hlen
      rw [ri_fmtproper_text ndebug hv (by omega), if_neg (fun h => h.1 hq),
        if_neg (fun h => h hq), if_pos hr, buffer_after_fits (List.cons_ne_nil _ _) hlen]
  · by_cases hr : v.numerator.natAbs % v.denominator.natAbs = 0
    · -- a whole number: the denominator divides the numerator and is coprime to it
      have hd : v.denominator.natAbs = 1 := by
        have hdvd : v.denominator.natAbs ∣ v.numerator.natAbs := Nat.dvd_of_mod_eq_zero hr
        have hg : Nat.gcd v.numerator.natAbs v.denominator.natAbs = 1 := by
          rw [← Int.gcd_eq_natAbs]
          exact h6
        rw [Nat.gcd_eq_right hdvd] at hg
        exact hg
      have hqn : v.numerator.natAbs / v.denominator.natAbs = v.numerator.natAbs := by
        rw [hd, Nat.div_one]
      refine ⟨(if v.denominator < 0 then '-' else '+') :: Nat.toDigits 10 v.numerator.natAbs,
        List.cons_ne_nil _ _, ?_, scan_sign_integer ndebug hv hd⟩
      intro buflen hlen
      rw [ri_fmtproper_text ndebug hv (by omega), if_neg (fun h => h.2 hr), if_pos hq, hqn,
        buffer_after_fits (List.cons_ne_nil _ _) hlen]
    · refine ⟨(if v.denominator < 0 then '-' else '+') ::
          (Nat.toDigits 10 (v.numerator.natAbs / v.denominator.natAbs) ++ ' ' ::
            (Nat.toDigits 10 (v.numerator.natAbs % v.denominator.natAbs) ++ '/' ::
              Nat.toDigits 10 v.denominator.natAbs)),
        List.cons_ne_nil _ _, ?_, scan_sign_compound ndebug hv⟩
      intro buflen hlen
      rw [ri_fmtproper_text ndebug hv (by omega), if_pos ⟨hq, hr⟩,
        buffer_after_fits (List.cons_ne_nil _ _) hlen]

theorem proper_round_trip_witness :
    Canonical ⟨206, -63⟩ ∧
    (∃ text : List Char, text ≠ [] ∧
      (∀ buflen : Nat, text.length < buflen →
        ri_fmtproper false ⟨206, -63⟩ buflen = Res.ok text) ∧
      ri_scn false text = Res.ok ⟨0, some text.length, some ⟨206, -63⟩, Errno.ENOERROR⟩) ∧
    (ri_fmtproper false ⟨0, 1⟩ 32 = Res.ok ['0'] ∧
      ri_scn false ['0'] = Res.ok ⟨0, some 1, some ⟨0, 1⟩, Errno.ENOERROR⟩) ∧
    (ri_fmtproper false ⟨1, 1⟩ 32 = Res.ok ['+', '1'] ∧
      ri_scn false ['+', '1'] = Res.ok ⟨0, some 2, some ⟨1, 1⟩, Errno.ENOERROR⟩) ∧
    (ri_fmtproper false ⟨3, -4⟩ 32 = Res.ok ['-', '3', '/', '4'] ∧
      ri_scn false ['-', '3', '/', '4'] =
        Res.ok ⟨0, some 4, some ⟨3, -4⟩, Errno.ENOERROR⟩) ∧
    (ri_fmtproper false ⟨206, -63⟩ 32 = Res.ok ['-', '3', ' ', '1', '7', '/', '6', '3'] ∧
      ri_scn false ['-', '3', ' ', '1', '7', '/', '6', '3'] =
        Res.ok ⟨0, some 8, some ⟨206, -63⟩, Errno.ENOERROR⟩) :=
  ⟨by decide, proper_round_trip false ⟨206, -63⟩ (by decide), by decide, by decide,
    by decide, by decide⟩

/-! ## The two renderings (C21, C22, C23) -/

/-- C21. Compact format: for every canonical fraction `v`, in either build, and every
buffer whose capacity exceeds the length of the rendering, `ri_fmt` leaves in the
buffer the sign character (`-` when the denominator is negative, `+` otherwise), the
decimal digits of the numerator and, exactly when the magnitude of the denominator is
not 1, a slash and the decimal digits of that magnitude; the first character is always
the sign. -/
theorem ri_fmt_compact (ndebug : Bool) (v : RationalInt) (hv : Canonical v)
    (buffer : List Char) (buflen : Nat) (hlen : (spec_compact_text v).length < buflen) :
    ri_fmt ndebug v buffer buflen = Res.ok (spec_compact_text v) ∧
      (spec_compact_text v).head? = some (if v.denominator < 0 then '-' else '+') := by
  refine ⟨?_, rfl⟩
  rw [ri_fmt_spec ndebug hv buffer (by omega), if_pos hlen]

theorem ri_fmt_compact_witness :
    (Canonical ⟨0, 1⟩ ∧ (spec_compact_text ⟨0, 1⟩).length < 32) ∧
    spec_compact_text ⟨0, 1⟩ = ['+', '0'] ∧
    spec_compact_text ⟨7, -1⟩ = ['-', '7'] ∧
    spec_compact_text ⟨206, -63⟩ = ['-', '2', '0', '6', '/', '6', '3'] ∧
    (ri_fmt false ⟨0, 1⟩ [] 32 = Res.ok (spec_compact_text ⟨0, 1⟩) ∧
      (spec_compact_text ⟨0, 1⟩).head? = some (if (1 : Int) < 0 then '-' else '+')) :=
  ⟨by decide, by decide, by decide, by decide,
    ri_fmt_compact false ⟨0, 1⟩ (by decide) [] 32 (by decide)⟩

/-- C22. Proper format: for every canonical fraction `v`, in either build, and every
buffer whose capacity exceeds the length of the rendering, `ri_fmtproper` leaves in the
buffer the mixed-number text of the specification: with `I` the magnitude of `v` rounded
toward zero and `N/D` the rest in lowest terms, sign, `I`, space, `N`, slash, `D` when
`I` and `N` are not zero, sign and `I` when only `I` is not zero, sign, `N`, slash, `D`
when only `N` is not zero, and `0` without a sign when `v` is zero. -/
theorem ri_fmtproper_mixed (ndebug : Bool) (v : RationalInt) (hv : Canonical v)
    (buflen : Nat) (hlen : (spec_proper_text v).length < buflen) :
    ri_fmtproper ndebug v buflen = Res.ok (spec_proper_text v) := by
  rw [ri_fmtproper_spec ndebug hv (by omega), if_pos hlen]

theorem ri_fmtproper_mixed_witness :
    (Canonical ⟨206, -63⟩ ∧ (spec_proper_text ⟨206, -63⟩).length < 32) ∧
    spec_proper_text ⟨206, -63⟩ = ['-', '3', ' ', '1', '7', '/', '6', '3'] ∧
    spec_proper_text ⟨12, 1⟩ = ['+', '1', '2'] ∧
    spec_proper_text ⟨3, -4⟩ = ['-', '3', '/', '4'] ∧
    spec_proper_text ⟨0, 1⟩ = ['0'] ∧
    ri_fmtproper false ⟨206, -63⟩ 32 = Res.ok (spec_proper_text ⟨206, -63⟩) :=
  ⟨⟨by decide, by rw [spec_proper_text_eq (by decide)]; decide⟩,
    by rw [spec_proper_text_eq (by decide)]; decide,
    by rw [spec_proper_text_eq (by decide)]; decide,
    by rw [spec_proper_text_eq (by decide)]; decide,
    by rw [spec_proper_text_eq (by decide)]; decide,
    ri_fmtproper_mixed false ⟨206, -63⟩ (by decide) 32
      (by rw [spec_proper_text_eq (by decide)]; decide)⟩

/-- C23. No partial rendering: for every canonical fraction `v`, in either build, and
every buffer capacity of at least 1, after `ri_fmt` and after `ri_fmtproper` the buffer
holds the complete rendering when its length is below the capacity and the empty string
when its length is the capacity or more. -/
theorem fmt_whole_or_empty (ndebug : Bool) (v : RationalInt) (hv : Canonical v)
    (buffer : List Char) (buflen : Nat) (hb : 1 ≤ buflen) :
    ri_fmt ndebug v buffer buflen =
        Res.ok (if (spec_compact_text v).length < buflen then spec_compact_text v else []) ∧
      ri_fmtproper ndebug v buflen =
        Res.ok (if (spec_proper_text v).length < buflen then spec_proper_text v else []) :=
  ⟨ri_fmt_spec ndebug hv buffer hb, ri_fmtproper_spec ndebug hv hb⟩

theorem fmt_whole_or_empty_witness :
    (Canonical ⟨206, -63⟩ ∧ 1 ≤ 8) ∧
    ri_fmt false ⟨206, -63⟩ ['x', 'y'] 8 = Res.ok ['-', '2', '0', '6', '/', '6', '3'] ∧
    ri_fmtproper false ⟨206, -63⟩ 8 = Res.ok [] ∧
    ri_fmt false ⟨206, -63⟩ ['x', 'y'] 7 = Res.ok [] ∧
    ri_fmt false ⟨206, -63⟩ ['x', 'y'] 1 = Res.ok [] ∧
    (ri_fmt false ⟨206, -63⟩ ['x', 'y'] 8 =
        Res.ok (if (spec_compact_text ⟨206, -63⟩).length < 8 then spec_compact_text ⟨206, -63⟩
          else []) ∧
      ri_fmtproper false ⟨206, -63⟩ 8 =
        Res.ok (if (spec_proper_text ⟨206, -63⟩).length < 8 then spec_proper_text ⟨206, -63⟩
          else [])) :=
  ⟨by decide, by decide, by decide, by decide, by decide,
    fmt_whole_or_empty false ⟨206, -63⟩ (by decide) ['x', 'y'] 8 (by decide)⟩

/-! ## The forms the scanner recognises (C25 to C29) -/

/-- C25. Nothing recognised: for every input made of blanks, at most one sign, and a
rest whose first character is neither a digit nor a point immediately followed by a
digit (the blanks and the sign being all there are: without a sign the rest starts with
neither a blank nor a sign), `ri_scn` returns -1, sets the end of conversion to the
start of the input (offset 0), stores `EINVAL` and assigns no result; in either build. -/
theorem nothing_recognised (ndebug : Bool) (bl sg rest : List Char)
    (hbl : ∀ c ∈ bl, isblank c = true) (hsg : sg = [] ∨ sg = ['+'] ∨ sg = ['-'])
    (hmax : sg = [] →
      isblank (charAt rest 0) = false ∧ charAt rest 0 ≠ '+' ∧ charAt rest 0 ≠ '-')
    (hnd : isdigit (charAt rest 0) = false)
    (hdot : ¬ (charAt rest 0 = '.' ∧ isdigit (charAt rest 1) = true)) :
    ri_scn ndebug (bl ++ (sg ++ rest)) = Res.ok ⟨-1, some 0, none, Errno.EINVAL⟩ :=
  ri_scn_nothing ndebug hbl hsg hmax hnd hdot

theorem nothing_recognised_witness :
    ri_scn false ([' ', ' ', ' ', ' '] ++ ([] ++ ['X'])) =
      Res.ok ⟨-1, some 0, none, Errno.EINVAL⟩ ∧
    ri_scn false "    X".toList = Res.ok ⟨-1, some 0, none, Errno.EINVAL⟩ ∧
    ri_scn false "- 0".toList = Res.ok ⟨-1, some 0, none, Errno.EINVAL⟩ ∧
    ri_scn false "+. 0".toList = Res.ok ⟨-1, some 0, none, Errno.EINVAL⟩ ∧
    ri_scn false "-.-321".toList = Res.ok ⟨-1, some 0, none, Errno.EINVAL⟩ ∧
    ri_scn false "".toList = Res.ok ⟨-1, some 0, none, Errno.EINVAL⟩ :=
  ⟨nothing_recognised false [' ', ' ', ' ', ' '] [] ['X'] (by decide) (by decide) (by decide)
      (by decide) (by decide),
    by decide, by decide, by decide, by decide, by decide⟩

/-- C26. Bare integer: for every input made of blanks, an optional sign, a digit run of
value `n` that is not followed by a point, blanks, and a rest that starts with neither
a digit nor a slash, the end of conversion is one past the digit run; when `n` is at
most `INT_MAX` the call `ri_new(n, sign)` returns and `ri_scn` returns 0 with that
fraction, and when `n` exceeds `INT_MAX` it returns -1 with `ERANGE` and no result; in
either build. -/
theorem bare_integer_scan (ndebug : Bool) (bl sg ds bl2 rest : List Char)
    (hbl : ∀ c ∈ bl, isblank c = true) (hsg : sg = [] ∨ sg = ['+'] ∨ sg = ['-'])
    (hne : ds ≠ []) (hds : ∀ c ∈ ds, isdigit c = true)
    (hb2 : ∀ c ∈ bl2, isblank c = true) (hdot : charAt (bl2 ++ rest) 0 ≠ '.')
    (hr1 : isblank (charAt rest 0) = false) (hr2 : isdigit (charAt rest 0) = false)
    (hr3 : charAt rest 0 ≠ '/') :
    (run_value ds 0 ≤ INT_MAX →
      ∃ r, ri_new ndebug (run_value ds 0) (if sg = ['-'] then -1 else 1) = Res.ok r ∧
        ri_scn ndebug (bl ++ (sg ++ (ds ++ (bl2 ++ rest)))) =
          Res.ok ⟨0, some (bl.length + sg.length + ds.length), some r, Errno.ENOERROR⟩) ∧
    (INT_MAX < run_value ds 0 →
      ri_scn ndebug (bl ++ (sg ++ (ds ++ (bl2 ++ rest)))) =
        Res.ok ⟨-1, some (bl.length + sg.length + ds.length), none, Errno.ERANGE⟩) := by
  have hstop : isdigit (charAt (bl2 ++ rest) 0) = false :=
    head_blank_run hb2 (fun c hc => isdigit_of_isblank hc) hr2
  have hp : bl.length + sg.length + ds.length = (bl ++ sg ++ ds).length := by
    simp only [List.length_append]
  have h2 : bl ++ (sg ++ (ds ++ (bl2 ++ rest))) = (bl ++ sg ++ ds) ++ (bl2 ++ rest) := by
    simp only [List.append_assoc]
  have hp1 : bl.length + sg.length = (bl ++ sg).length := by
    simp only [List.length_append]
  have h3 : bl ++ (sg ++ (ds ++ (bl2 ++ rest))) = (bl ++ sg) ++ (ds ++ (bl2 ++ rest)) := by
    simp only [List.append_assoc]
  have hscan := ri_scn_head ndebug (rfl : bl ++ (sg ++ (ds ++ (bl2 ++ rest))) = _) hbl hsg hne
    hds hstop
  rw [ri_scn_tail_integer_blank ndebug _ hp h2 hb2 hdot hr1 hr2 hr3,
    cvt_integer_value ndebug hp1 h3 hds hstop rfl rfl sign_cases] at hscan
  constructor
  · intro hv
    refine ⟨_, ri_new_unit ndebug (run_value_nonneg ds 0 le_rfl) hv sign_cases, ?_⟩
    rw [hscan, if_pos hv]
  · intro hv
    rw [hscan, if_neg (by omega)]

theorem bare_integer_scan_witness :
    ri_scn false "-2147483647".toList =
      Res.ok ⟨0, some 11, some ⟨2147483647, -1⟩, Errno.ENOERROR⟩ ∧
    ri_scn false "-2147483648".toList = Res.ok ⟨-1, some 11, none, Errno.ERANGE⟩ ∧
    ri_scn false "  +000  X".toList = Res.ok ⟨0, some 6, some ⟨0, 1⟩, Errno.ENOERROR⟩ ∧
    ((run_value ['1', '2'] 0 ≤ INT_MAX →
      ∃ r, ri_new false (run_value ['1', '2'] 0) (if ['-'] = ['-'] then -1 else 1) = Res.ok r ∧
        ri_scn false ([' '] ++ (['-'] ++ (['1', '2'] ++ ([' '] ++ ['X'])))) =
          Res.ok ⟨0, some ([' '].length + ['-'].length + ['1', '2'].length), some r,
            Errno.ENOERROR⟩) ∧
    (INT_MAX < run_value ['1', '2'] 0 →
      ri_scn false ([' '] ++ (['-'] ++ (['1', '2'] ++ ([' '] ++ ['X'])))) =
        Res.ok ⟨-1, some ([' '].length + ['-'].length + ['1', '2'].length), none,
          Errno.ERANGE⟩)) :=
  ⟨by decide, by decide, by decide,
    bare_integer_scan false [' '] ['-'] ['1', '2'] [' '] ['X'] (by decide) (by decide)
      (by decide) (by decide) (by decide) (by decide) (by decide) (by decide) (by decide)⟩

/-- C27 (the code departs from the claim): on `-7 / 0`, a simple fraction whose
denominator digits denote zero, the build with assertions passes the zero to `ri_new`
and stops at `assert(denominator != 0)` before `cvt_simple` stores an end of
conversion, so no offset one past the last digit of `D` is reported; without
assertions the offset 6 is stored, with status 0 and the fraction `0/1`.  With the
denominator `2` the same input gives the fraction `7/(-2)` at offset 6, and with a
numerator above `INT_MAX` the zero denominator is never used. -/
theorem simple_fraction_zero_denominator :
    ri_scn false "-7 / 0 ".toList = Res.fail Fault.assertion ∧
    ri_scn true "-7 / 0 ".toList = Res.ok ⟨0, some 6, some ⟨0, 1⟩, Errno.ENOERROR⟩ ∧
    ri_scn false "-7 / 2 ".toList = Res.ok ⟨0, some 6, some ⟨7, -2⟩, Errno.ENOERROR⟩ ∧
    ri_scn false "2147483648/0".toList = Res.ok ⟨-1, some 12, none, Errno.ERANGE⟩ := by
  decide

/-- The simple-fraction form apart from a denominator of zero: for every input made of
blanks, an optional sign, a digit run of value `N`, blanks, a slash, blanks, a digit run
of value `D`, and any rest that does not start with a digit, when `N` and `D` are at
most `INT_MAX` and `D` is not zero, `ri_scn` returns 0 with the canonical fraction of
value `sign * N / D`, and when `N` or `D` exceeds `INT_MAX` it returns -1 with `ERANGE`
and no result; the end of conversion is one past the last digit of `D` both times, in
either build. -/
theorem simple_fraction_scan (ndebug : Bool) (bl sg ns bl1 bl2 ds rest : List Char)
    (hbl : ∀ c ∈ bl, isblank c = true) (hsg : sg = [] ∨ sg = ['+'] ∨ sg = ['-'])
    (hnn : ns ≠ []) (hns : ∀ c ∈ ns, isdigit c = true)
    (hb1 : ∀ c ∈ bl1, isblank c = true) (hb2 : ∀ c ∈ bl2, isblank c = true)
    (hne : ds ≠ []) (hds : ∀ c ∈ ds, isdigit c = true)
    (hr : isdigit (charAt rest 0) = false) :
    (run_value ns 0 ≤ INT_MAX ∧ run_value ds 0 ≤ INT_MAX ∧ run_value ds 0 ≠ 0 →
      ri_scn ndebug (bl ++ (sg ++ (ns ++ (bl1 ++ ('/' :: (bl2 ++ (ds ++ rest))))))) =
        Res.ok ⟨0,
          some (bl.length + sg.length + ns.length + bl1.length + 1 + bl2.length + ds.length),
          some (canon ((((if sg = ['-'] then -1 else 1) * run_value ns 0 : Int) : ℚ) /
            ((run_value ds 0 : Int) : ℚ))),
          Errno.ENOERROR⟩) ∧
    (INT_MAX < run_value ns 0 ∨ INT_MAX < run_value ds 0 →
      ri_scn ndebug (bl ++ (sg ++ (ns ++ (bl1 ++ ('/' :: (bl2 ++ (ds ++ rest))))))) =
        Res.ok ⟨-1,
          some (bl.length + sg.length + ns.length + bl1.length + 1 + bl2.length + ds.length),
          none, Errno.ERANGE⟩) := by
  have hstop : isdigit (charAt (bl1 ++ ('/' :: (bl2 ++ (ds ++ rest)))) 0) = false :=
    head_blank_run hb1 (fun c hc => isdigit_of_isblank hc) (by show isdigit '/' = false; decide)
  have hp : bl.length + sg.length + ns.length = (bl ++ sg ++ ns).length := by
    simp only [List.length_append]
  have h2 : bl ++ (sg ++ (ns ++ (bl1 ++ ('/' :: (bl2 ++ (ds ++ rest)))))) =
      (bl ++ sg ++ ns) ++ (bl1 ++ ('/' :: (bl2 ++ (ds ++ rest)))) := by
    simp only [List.append_assoc]
  have hp1 : bl.length + sg.length = (bl ++ sg).length := by
    simp only [List.length_append]
  have h3 : bl ++ (sg ++ (ns ++ (bl1 ++ ('/' :: (bl2 ++ (ds ++ rest)))))) =
      (bl ++ sg) ++ (ns ++ (bl1 ++ ('/' :: (bl2 ++ (ds ++ rest))))) := by
    simp only [List.append_assoc]
  have hp2 : bl.length + sg.length + ns.length + bl1.length + 1 + bl2.length =
      (bl ++ sg ++ ns ++ bl1 ++ ['/'] ++ bl2).length := by
    simp only [List.length_append, List.length_singleton]
  have h4 : bl ++ (sg ++ (ns ++ (bl1 ++ ('/' :: (bl2 ++ (ds ++ rest)))))) =
      (bl ++ sg ++ ns ++ bl1 ++ ['/'] ++ bl2) ++ (ds ++ rest) := by
    simp only [List.append_assoc, List.singleton_append, List.cons_append, List.nil_append]
  have hscan := ri_scn_head ndebug
    (rfl : bl ++ (sg ++ (ns ++ (bl1 ++ ('/' :: (bl2 ++ (ds ++ rest)))))) = _) hbl hsg hnn
    hns hstop
  rw [ri_scn_tail_simple ndebug _ hp h2 hb1 hb2 hne hds,
    cvt_simple_at ndebug hp1 hp2 h3 h4 hns hstop hds hr rfl rfl rfl rfl] at hscan
  constructor
  · rintro ⟨hv1, hv2, hv3⟩
    have hd0 : 0 < run_value ds 0 := by
      have := run_value_nonneg ds 0 le_rfl
      omega
    rw [hscan, if_pos ⟨hv1, hv2⟩,
      ri_new_signed ndebug (run_value_nonneg ns 0 le_rfl) hd0 hv2 sign_cases, Res.ok_bind]
  · intro hv
    rw [hscan, if_neg (by omega)]

theorem simple_fraction_scan_witness :
    ri_scn false "1/2".toList = Res.ok ⟨0, some 3, some ⟨1, 2⟩, Errno.ENOERROR⟩ ∧
    ri_scn false "-3192/2147X83647".toList =
      Res.ok ⟨0, some 10, some ⟨168, -113⟩, Errno.ENOERROR⟩ ∧
    ri_scn false "-3192/2147483648".toList = Res.ok ⟨-1, some 16, none, Errno.ERANGE⟩ ∧
    ((run_value ['1'] 0 ≤ INT_MAX ∧ run_value ['2'] 0 ≤ INT_MAX ∧ run_value ['2'] 0 ≠ 0 →
      ri_scn false ([] ++ ([] ++ (['1'] ++ ([] ++ ('/' :: ([] ++ (['2'] ++ []))))))) =
        Res.ok ⟨0,
          some (([] : List Char).length + ([] : List Char).length + ['1'].length +
            ([] : List Char).length + 1 + ([] : List Char).length + ['2'].length),
          some (canon ((((if ([] : List Char) = ['-'] then -1 else 1) * run_value ['1'] 0 :
            Int) : ℚ) / ((run_value ['2'] 0 : Int) : ℚ))),
          Errno.ENOERROR⟩) ∧
    (INT_MAX < run_value ['1'] 0 ∨ INT_MAX < run_value ['2'] 0 →
      ri_scn false ([] ++ ([] ++ (['1'] ++ ([] ++ ('/' :: ([] ++ (['2'] ++ []))))))) =
        Res.ok ⟨-1,
          some (([] : List Char).length + ([] : List Char).length + ['1'].length +
            ([] : List Char).length + 1 + ([] : List Char).length + ['2'].length),
          none, Errno.ERANGE⟩)) :=
  ⟨by decide, by decide, by decide,
    simple_fraction_scan false [] [] ['1'] [] [] ['2'] [] (by decide) (by decide) (by decide)
      (by decide) (by decide) (by decide) (by decide) (by decide) (by decide)⟩

/-- C28. Compound number: for every input made of blanks, an optional sign, a digit run
of value `I`, at least one blank, a digit run of value `N`, blanks, a slash, blanks, a
digit run of value `D`, and any rest that does not start with a digit, with `I`, `N`, `D`
at most `INT_MAX` and `D` positive, the end of conversion is one past the last digit of
`D`; `ri_scn` returns 0 with the canonical fraction of value `sign * (I * D + N) / D`
when the exact integer `I * D + N` is at most `INT_MAX`, and -1 with `ERANGE` and no
result when it is more; in either build. -/
theorem compound_scan (ndebug : Bool) (bl sg is bl1 ns bl2 bl3 ds rest : List Char)
    (hbl : ∀ c ∈ bl, isblank c = true) (hsg : sg = [] ∨ sg = ['+'] ∨ sg = ['-'])
    (hin : is ≠ []) (his : ∀ c ∈ is, isdigit c = true)
    (hb1n : bl1 ≠ []) (hb1 : ∀ c ∈ bl1, isblank c = true)
    (hnn : ns ≠ []) (hns : ∀ c ∈ ns, isdigit c = true)
    (hb2 : ∀ c ∈ bl2, isblank c = true) (hb3 : ∀ c ∈ bl3, isblank c = true)
    (hne : ds ≠ []) (hds : ∀ c ∈ ds, isdigit c = true)
    (hr : isdigit (charAt rest 0) = false)
    (hI : run_value is 0 ≤ INT_MAX) (hN : run_value ns 0 ≤ INT_MAX)
    (hD : run_value ds 0 ≤ INT_MAX) (hD0 : 0 < run_value ds 0) :
    (run_value is 0 * run_value ds 0 + run_value ns 0 ≤ INT_MAX →
      ri_scn ndebug
          (bl ++ (sg ++ (is ++ (bl1 ++ (ns ++ (bl2 ++ ('/' :: (bl3 ++ (ds ++ rest))))))))) =
        Res.ok ⟨0,
          some (bl.length + sg.length + is.length + bl1.length + ns.length + bl2.length + 1 +
            bl3.length + ds.length),
          some (canon ((((if sg = ['-'] then -1 else 1) *
              (run_value is 0 * run_value ds 0 + run_value ns 0) : Int) : ℚ) /
            ((run_value ds 0 : Int) : ℚ))),
          Errno.ENOERROR⟩) ∧
    (INT_MAX < run_value is 0 * run_value ds 0 + run_value ns 0 →
      ri_scn ndebug
          (bl ++ (sg ++ (is ++ (bl1 ++ (ns ++ (bl2 ++ ('/' :: (bl3 ++ (ds ++ rest))))))))) =
        Res.ok ⟨-1,
          some (bl.length + sg.length + is.length + bl1.length + ns.length + bl2.length + 1 +
            bl3.length + ds.length),
          none, Errno.ERANGE⟩) := by
  have hm : INT_MAX = 2147483647 := rfl
  have hb1h : isblank (charAt (bl1 ++ (ns ++ (bl2 ++ ('/' :: (bl3 ++ (ds ++ rest)))))) 0)
      = true := by
    rw [charAt_zero_append hb1n]
    exact hb1 _ (charAt_zero_mem hb1n)
  have hstop1 : isdigit (charAt (bl1 ++ (ns ++ (bl2 ++ ('/' :: (bl3 ++ (ds ++ rest)))))) 0)
      = false := isdigit_of_isblank hb1h
  have hstop2 : isdigit (charAt (bl2 ++ ('/' :: (bl3 ++ (ds ++ rest)))) 0) = false :=
    head_blank_run hb2 (fun c hc => isdigit_of_isblank hc) (by show isdigit '/' = false; decide)
  have hp : bl.length + sg.length + is.length = (bl ++ sg ++ is).length := by
    simp only [List.length_append]
  have h2 : bl ++ (sg ++ (is ++ (bl1 ++ (ns ++ (bl2 ++ ('/' :: (bl3 ++ (ds ++ rest)))))))) =
      (bl ++ sg ++ is) ++ (bl1 ++ (ns ++ (bl2 ++ ('/' :: (bl3 ++ (ds ++ rest)))))) := by
    simp only [List.append_assoc]
  have hp1 : bl.length + sg.length = (bl ++ sg).length := by
    simp only [List.length_append]
  have h3 : bl ++ (sg ++ (is ++ (bl1 ++ (ns ++ (bl2 ++ ('/' :: (bl3 ++ (ds ++ rest)))))))) =
      (bl ++ sg) ++ (is ++ (bl1 ++ (ns ++ (bl2 ++ ('/' :: (bl3 ++ (ds ++ rest))))))) := by
    simp only [List.append_assoc]
  have hp2 : bl.length + sg.length + is.length + bl1.length =
      (bl ++ sg ++ is ++ bl1).length := by
    simp only [List.length_append]
  have h4 : bl ++ (sg ++ (is ++ (bl1 ++ (ns ++ (bl2 ++ ('/' :: (bl3 ++ (ds ++ rest)))))))) =
      (bl ++ sg ++ is ++ bl1) ++ (ns ++ (bl2 ++ ('/' :: (bl3 ++ (ds ++ rest))))) := by
    simp only [List.append_assoc]
  have hp3 : bl.length + sg.length + is.length + bl1.length + ns.length + bl2.length + 1 +
      bl3.length = (bl ++ sg ++ is ++ bl1 ++ ns ++ bl2 ++ ['/'] ++ bl3).length := by
    simp only [List.length_append, List.length_singleton]
  have h5 : bl ++ (sg ++ (is ++ (bl1 ++ (ns ++ (bl2 ++ ('/' :: (bl3 ++ (ds ++ rest)))))))) =
      (bl ++ sg ++ is ++ bl1 ++ ns ++ bl2 ++ ['/'] ++ bl3) ++ (ds ++ rest) := by
    simp only [List.append_assoc, List.singleton_append, List.cons_append, List.nil_append]
  have hscan := ri_scn_head ndebug
    (rfl : bl ++ (sg ++ (is ++ (bl1 ++ (ns ++ (bl2 ++ ('/' :: (bl3 ++ (ds ++ rest)))))))) = _)
    hbl hsg hin his hstop1
  rw [ri_scn_tail_compound ndebug _ hp h2 hb1 hb2 hb3 hnn hns hne hds,
    cvt_compound_at ndebug hp1 hp2 hp3 h3 h4 h5 his hstop1 hns hstop2 hds hr rfl rfl rfl rfl
      rfl rfl,
    if_pos ⟨hI, hN, hD⟩, cdiv_of_ne (by omega), Res.ok_bind] at hscan
  have hI0 := run_value_nonneg is 0 le_rfl
  have hN0 := run_value_nonneg ns 0 le_rfl
  have hnn0 : (0 : Int) ≤ INT_MAX - run_value ns 0 := by omega
  have hq : (INT_MAX - run_value ns 0).tdiv (run_value ds 0) =
      (INT_MAX - run_value ns 0) / run_value ds 0 := Int.tdiv_eq_ediv hnn0 (by omega)
  rw [hq] at hscan
  have hcomm : run_value ds 0 * run_value is 0 = run_value is 0 * run_value ds 0 :=
    Int.mul_comm _ _
  constructor
  · intro hv
    have hle : run_value is 0 ≤ (INT_MAX - run_value ns 0) / run_value ds 0 := by
      apply Int.le_ediv_of_mul_le hD0
      omega
    have hsum0 : 0 ≤ run_value is 0 * run_value ds 0 + run_value ns 0 := by
      have := Int.mul_nonneg hI0 (le_of_lt hD0)
      omega
    rw [hscan, if_neg (by omega), hcomm,
      ri_new_signed ndebug hsum0 hD0 hD sign_cases, Res.ok_bind]
  · intro hv
    have hlt : (INT_MAX - run_value ns 0) / run_value ds 0 < run_value is 0 := by
      apply Int.ediv_lt_of_lt_mul hD0
      omega
    rw [hscan, if_pos hlt]

theorem compound_scan_witness :
    ri_scn false "+1 1/2".toList = Res.ok ⟨0, some 6, some ⟨3, 2⟩, Errno.ENOERROR⟩ ∧
    ri_scn false "+134217727 15/16".toList =
      Res.ok ⟨0, some 16, some ⟨2147483647, 16⟩, Errno.ENOERROR⟩ ∧
    ri_scn false " 134217727 16/16".toList = Res.ok ⟨-1, some 16, none, Errno.ERANGE⟩ ∧
    ((run_value ['1'] 0 * run_value ['2'] 0 + run_value ['1'] 0 ≤ INT_MAX →
      ri_scn false
          ([] ++ (['+'] ++ (['1'] ++ ([' '] ++ (['1'] ++ ([] ++ ('/' :: ([] ++
            (['2'] ++ []))))))))) =
        Res.ok ⟨0,
          some (([] : List Char).length + ['+'].length + ['1'].length + [' '].length +
            ['1'].length + ([] : List Char).length + 1 + ([] : List Char).length +
            ['2'].length),
          some (canon ((((if ['+'] = ['-'] then -1 else 1) *
              (run_value ['1'] 0 * run_value ['2'] 0 + run_value ['1'] 0) : Int) : ℚ) /
            ((run_value ['2'] 0 : Int) : ℚ))),
          Errno.ENOERROR⟩) ∧
    (INT_MAX < run_value ['1'] 0 * run_value ['2'] 0 + run_value ['1'] 0 →
      ri_scn false
          ([] ++ (['+'] ++ (['1'] ++ ([' '] ++ (['1'] ++ ([] ++ ('/' :: ([] ++
            (['2'] ++ []))))))))) =
        Res.ok ⟨-1,
          some (([] : List Char).length + ['+'].length + ['1'].length + [' '].length +
            ['1'].length + ([] : List Char).length + 1 + ([] : List Char).length +
            ['2'].length),
          none, Errno.ERANGE⟩)) :=
  ⟨by decide, by decide, by decide,
    compound_scan false [] ['+'] ['1'] [' '] ['1'] [] [] ['2'] [] (by decide) (by decide)
      (by decide) (by decide) (by decide) (by decide) (by decide) (by decide) (by decide)
      (by decide) (by decide) (by decide) (by decide) (by decide) (by decide) (by decide)
      (by decide)⟩

/-- C29. Fallback to the integer form: let the input be blanks, an optional sign, a
digit run of value `I` at most `INT_MAX`, and then one of: blanks, a slash, blanks and
no digit; or at least one blank, a second digit run, blanks and neither a slash nor a digit; or at least
one blank, a second digit run, blanks, a slash, blanks and no digit.  In each case, in
either build, `ri_new(I, sign)` returns and `ri_scn` returns 0 with that fraction and an
end of conversion of one past the first digit run. -/
theorem integer_fallback (ndebug : Bool) (bl sg is bl1 ns bl2 bl3 rest : List Char)
    (hbl : ∀ c ∈ bl, isblank c = true) (hsg : sg = [] ∨ sg = ['+'] ∨ sg = ['-'])
    (hin : is ≠ []) (his : ∀ c ∈ is, isdigit c = true) (hI : run_value is 0 ≤ INT_MAX)
    (hb1 : ∀ c ∈ bl1, isblank c = true) (hb2 : ∀ c ∈ bl2, isblank c = true)
    (hb3 : ∀ c ∈ bl3, isblank c = true)
    (hnn : ns ≠ []) (hns : ∀ c ∈ ns, isdigit c = true)
    (hr1 : isblank (charAt rest 0) = false) (hr2 : isdigit (charAt rest 0) = false) :
    ∃ r, ri_new ndebug (run_value is 0) (if sg = ['-'] then -1 else 1) = Res.ok r ∧
      ri_scn ndebug (bl ++ (sg ++ (is ++ (bl1 ++ ('/' :: (bl2 ++ rest)))))) =
        Res.ok ⟨0, some (bl.length + sg.length + is.length), some r, Errno.ENOERROR⟩ ∧
      (∀ rest2 : List Char, bl1 ≠ [] → isblank (charAt rest2 0) = false →
        isdigit (charAt (bl2 ++ rest2) 0) = false → charAt rest2 0 ≠ '/' →
        ri_scn ndebug (bl ++ (sg ++ (is ++ (bl1 ++ (ns ++ (bl2 ++ rest2)))))) =
          Res.ok ⟨0, some (bl.length + sg.length + is.length), some r, Errno.ENOERROR⟩) ∧
      (bl1 ≠ [] →
        ri_scn ndebug
            (bl ++ (sg ++ (is ++ (bl1 ++ (ns ++ (bl2 ++ ('/' :: (bl3 ++ rest)))))))) =
          Res.ok ⟨0, some (bl.length + sg.length + is.length), some r, Errno.ENOERROR⟩) := by
  have hp : bl.length + sg.length + is.length = (bl ++ sg ++ is).length := by
    simp only [List.length_append]
  have hp1 : bl.length + sg.length = (bl ++ sg).length := by
    simp only [List.length_append]
  refine ⟨_, ri_new_unit ndebug (run_value_nonneg is 0 le_rfl) hI sign_cases, ?_, ?_, ?_⟩
  · have hstop : isdigit (charAt (bl1 ++ ('/' :: (bl2 ++ rest))) 0) = false :=
      head_blank_run hb1 (fun c hc => isdigit_of_isblank hc)
        (by show isdigit '/' = false; decide)
    have h2 : bl ++ (sg ++ (is ++ (bl1 ++ ('/' :: (bl2 ++ rest))))) =
        (bl ++ sg ++ is) ++ (bl1 ++ ('/' :: (bl2 ++ rest))) := by
      simp only [List.append_assoc]
    have h3 : bl ++ (sg ++ (is ++ (bl1 ++ ('/' :: (bl2 ++ rest))))) =
        (bl ++ sg) ++ (is ++ (bl1 ++ ('/' :: (bl2 ++ rest)))) := by
      simp only [List.append_assoc]
    rw [ri_scn_head ndebug (rfl : bl ++ (sg ++ (is ++ (bl1 ++ ('/' :: (bl2 ++ rest))))) = _)
        hbl hsg hin his hstop,
      ri_scn_tail_slash_only ndebug _ hp h2 hb1 hb2 hr1 hr2,
      cvt_integer_value ndebug hp1 h3 his hstop rfl rfl sign_cases, if_pos hI]
  · intro rest2 hb1n hq1 hq2 hq3
    have hb1h : isblank (charAt (bl1 ++ (ns ++ (bl2 ++ rest2))) 0) = true := by
      rw [charAt_zero_append hb1n]
      exact hb1 _ (charAt_zero_mem hb1n)
    have hstop : isdigit (charAt (bl1 ++ (ns ++ (bl2 ++ rest2))) 0) = false :=
      isdigit_of_isblank hb1h
    have h2 : bl ++ (sg ++ (is ++ (bl1 ++ (ns ++ (bl2 ++ rest2))))) =
        (bl ++ sg ++ is) ++ (bl1 ++ (ns ++ (bl2 ++ rest2))) := by
      simp only [List.append_assoc]
    have h3 : bl ++ (sg ++ (is ++ (bl1 ++ (ns ++ (bl2 ++ rest2))))) =
        (bl ++ sg) ++ (is ++ (bl1 ++ (ns ++ (bl2 ++ rest2)))) := by
      simp only [List.append_assoc]
    rw [ri_scn_head ndebug (rfl : bl ++ (sg ++ (is ++ (bl1 ++ (ns ++ (bl2 ++ rest2))))) = _)
        hbl hsg hin his hstop,
      ri_scn_tail_second_run ndebug _ hp h2 hb1 hb2 hnn hns hq1 hq2 hq3,
      cvt_integer_value ndebug hp1 h3 his hstop rfl rfl sign_cases, if_pos hI]
  · intro hb1n
    have hb1h : isblank (charAt (bl1 ++ (ns ++ (bl2 ++ ('/' :: (bl3 ++ rest))))) 0) = true := by
      rw [charAt_zero_append hb1n]
      exact hb1 _ (charAt_zero_mem hb1n)
    have hstop : isdigit (charAt (bl1 ++ (ns ++ (bl2 ++ ('/' :: (bl3 ++ rest))))) 0) = false :=
      isdigit_of_isblank hb1h
    have h2 : bl ++ (sg ++ (is ++ (bl1 ++ (ns ++ (bl2 ++ ('/' :: (bl3 ++ rest))))))) =
        (bl ++ sg ++ is) ++ (bl1 ++ (ns ++ (bl2 ++ ('/' :: (bl3 ++ rest))))) := by
      simp only [List.append_assoc]
    have h3 : bl ++ (sg ++ (is ++ (bl1 ++ (ns ++ (bl2 ++ ('/' :: (bl3 ++ rest))))))) =
        (bl ++ sg) ++ (is ++ (bl1 ++ (ns ++ (bl2 ++ ('/' :: (bl3 ++ rest)))))) := by
      simp only [List.append_assoc]
    rw [ri_scn_head ndebug
        (rfl : bl ++ (sg ++ (is ++ (bl1 ++ (ns ++ (bl2 ++ ('/' :: (bl3 ++ rest))))))) = _)
        hbl hsg hin his hstop,
      ri_scn_tail_second_run_slash ndebug _ hp h2 hb1 hb2 hb3 hnn hns hr1 hr2,
      cvt_integer_value ndebug hp1 h3 his hstop rfl rfl sign_cases, if_pos hI]

theorem integer_fallback_witness :
    ri_scn false "+312/".toList = Res.ok ⟨0, some 4, some ⟨312, 1⟩, Errno.ENOERROR⟩ ∧
    ri_scn false "+312/X".toList = Res.ok ⟨0, some 4, some ⟨312, 1⟩, Errno.ENOERROR⟩ ∧
    ri_scn false "+312 123X".toList = Res.ok ⟨0, some 4, some ⟨312, 1⟩, Errno.ENOERROR⟩ ∧
    ri_scn false "+312 123/X".toList = Res.ok ⟨0, some 4, some ⟨312, 1⟩, Errno.ENOERROR⟩ ∧
    (∃ r, ri_new false (run_value ['3', '1', '2'] 0) (if ['+'] = ['-'] then -1 else 1) =
        Res.ok r ∧
      ri_scn false ([] ++ (['+'] ++ (['3', '1', '2'] ++ ([' '] ++ ('/' :: ([] ++ ['X'])))))) =
        Res.ok ⟨0, some (([] : List Char).length + ['+'].length + ['3', '1', '2'].length),
          some r, Errno.ENOERROR⟩ ∧
      (∀ rest2 : List Char, [' '] ≠ [] → isblank (charAt rest2 0) = false →
        isdigit (charAt ([] ++ rest2) 0) = false → charAt rest2 0 ≠ '/' →
        ri_scn false
            ([] ++ (['+'] ++ (['3', '1', '2'] ++ ([' '] ++ (['1', '2', '3'] ++
              ([] ++ rest2)))))) =
          Res.ok ⟨0, some (([] : List Char).length + ['+'].length + ['3', '1', '2'].length),
            some r, Errno.ENOERROR⟩) ∧
      ([' '] ≠ [] →
        ri_scn false
            ([] ++ (['+'] ++ (['3', '1', '2'] ++ ([' '] ++ (['1', '2', '3'] ++
              ([] ++ ('/' :: ([] ++ ['X']))))))))  =
          Res.ok ⟨0, some (([] : List Char).length + ['+'].length + ['3', '1', '2'].length),
            some r, Errno.ENOERROR⟩)) :=
  ⟨by decide, by decide, by decide, by decide,
    integer_fallback false [] ['+'] ['3', '1', '2'] [' '] ['1', '2', '3'] [] [] ['X']
      (by decide) (by decide) (by decide) (by decide) (by decide) (by decide) (by decide)
      (by decide) (by decide) (by decide) (by decide) (by decide)⟩

/-! ## The end of conversion (C24) and the decimal form (C30) -/

/-- C24 (the code departs from the claim): on the input `2147483648.`, an integer part
above `INT_MAX` followed by a point and no digit, `ri_scn` returns -1 with `ERANGE` and
stores the null pointer as the end of conversion, in either build, because the range
exit of `cvt_decimal` hands back `fs.d_end`, which is set only when a digit follows the
point; with a digit after the point, or without the point, the same overflow reports
the end of the digits. -/
theorem ri_scn_null_end_of_conversion :
    ri_scn false "2147483648.".toList = Res.ok ⟨-1, none, none, Errno.ERANGE⟩ ∧
    ri_scn true "2147483648.".toList = Res.ok ⟨-1, none, none, Errno.ERANGE⟩ ∧
    ri_scn false " -99999999999.X".toList = Res.ok ⟨-1, none, none, Errno.ERANGE⟩ ∧
    ri_scn false "2147483648.0".toList = Res.ok ⟨-1, some 12, none, Errno.ERANGE⟩ ∧
    ri_scn false "2147483648".toList = Res.ok ⟨-1, some 10, none, Errno.ERANGE⟩ := by
  decide

/-- C30. Decimal scan: let the input be blanks, an optional sign, integer digits `I`
(none in the form that starts with the point), a point, fraction digits `F` made of
digits `F1` that do not end in a zero followed by zeros (so `F1` is `F` without its
trailing zeros; `F` is not empty when `I` is), and a rest that does not start with a
digit.  If `F1` has at most nine digits and the number written by `I` followed by `F1`
is at most `INT_MAX`, then in either build `ri_scn` returns 0 with the canonical
fraction of value `sign * (I F1) / 10^len(F1)` and an end of conversion of one past the
last digit of `F` (one past the point when `F` is empty); further zeros appended to `F`
move the end of conversion and change neither the status nor the fraction. -/
theorem decimal_scan (ndebug : Bool) (bl sg is fp zs rest : List Char)
    (hbl : ∀ c ∈ bl, isblank c = true) (hsg : sg = [] ∨ sg = ['+'] ∨ sg = ['-'])
    (his : ∀ c ∈ is, isdigit c = true) (hfp : ∀ c ∈ fp, isdigit c = true)
    (hlast : fp.getLast? ≠ some '0') (hzs : ∀ c ∈ zs, c = '0')
    (hne : is = [] → fp ++ zs ≠ []) (hr : isdigit (charAt rest 0) = false)
    (hlen : fp.length ≤ 9) (hval : run_value (is ++ fp) 0 ≤ INT_MAX) :
    ri_scn ndebug (bl ++ (sg ++ (is ++ ('.' :: (fp ++ (zs ++ rest)))))) =
        Res.ok ⟨0, some (bl.length + sg.length + is.length + 1 + fp.length + zs.length),
          some (canon ((((if sg = ['-'] then -1 else 1) * run_value (is ++ fp) 0 : Int) : ℚ) /
            (((10 : Int) ^ fp.length : Int) : ℚ))),
          Errno.ENOERROR⟩ ∧
      ∀ more : List Char, (∀ c ∈ more, c = '0') →
        ri_scn ndebug (bl ++ (sg ++ (is ++ ('.' :: (fp ++ ((zs ++ more) ++ rest)))))) =
          Res.ok ⟨0,
            some (bl.length + sg.length + is.length + 1 + fp.length + (zs ++ more).length),
            some (canon ((((if sg = ['-'] then -1 else 1) * run_value (is ++ fp) 0 : Int) : ℚ) /
              (((10 : Int) ^ fp.length : Int) : ℚ))),
            Errno.ENOERROR⟩ := by
  refine ⟨scan_decimal_text ndebug hbl hsg his hfp hlast hzs hne hr hlen hval, ?_⟩
  intro more hmore
  have hzs2 : ∀ c ∈ zs ++ more, c = '0' := by
    intro c hc
    rcases List.mem_append.mp hc with h | h
    · exact hzs c h
    · exact hmore c h
  have hne2 : is = [] → fp ++ (zs ++ more) ≠ [] := by
    intro e h
    apply hne e
    rw [← List.append_assoc] at h
    exact (List.append_eq_nil.mp h).1
  exact scan_decimal_text ndebug hbl hsg his hfp hlast hzs2 hne2 hr hlen hval

theorem decimal_scan_witness :
    ri_scn false "6.250".toList = Res.ok ⟨0, some 5, some ⟨25, 4⟩, Errno.ENOERROR⟩ ∧
    ri_scn false "6.25".toList = Res.ok ⟨0, some 4, some ⟨25, 4⟩, Errno.ENOERROR⟩ ∧
    ri_scn false "0.5XX".toList = Res.ok ⟨0, some 3, some ⟨1, 2⟩, Errno.ENOERROR⟩ ∧
    ri_scn false "-2147.4836470000".toList =
      Res.ok ⟨0, some 16, some ⟨2147483647, -1000000⟩, Errno.ENOERROR⟩ ∧
    ri_scn false "-321.".toList = Res.ok ⟨0, some 5, some ⟨321, -1⟩, Errno.ENOERROR⟩ ∧
    ri_scn false " .001".toList = Res.ok ⟨0, some 5, some ⟨1, 1000⟩, Errno.ENOERROR⟩ ∧
    (ri_scn false ([] ++ ([] ++ (['6'] ++ ('.' :: (['2', '5'] ++ (['0'] ++ [])))))) =
        Res.ok ⟨0,
          some (([] : List Char).length + ([] : List Char).length + ['6'].length + 1 +
            ['2', '5'].length + ['0'].length),
          some (canon ((((if ([] : List Char) = ['-'] then -1 else 1) *
              run_value (['6'] ++ ['2', '5']) 0 : Int) : ℚ) /
            (((10 : Int) ^ ['2', '5'].length : Int) : ℚ))),
          Errno.ENOERROR⟩ ∧
      ∀ more : List Char, (∀ c ∈ more, c = '0') →
        ri_scn false ([] ++ ([] ++ (['6'] ++ ('.' :: (['2', '5'] ++ ((['0'] ++ more) ++ [])))))) =
          Res.ok ⟨0,
            some (([] : List Char).length + ([] : List Char).length + ['6'].length + 1 +
              ['2', '5'].length + (['0'] ++ more).length),
            some (canon ((((if ([] : List Char) = ['-'] then -1 else 1) *
                run_value (['6'] ++ ['2', '5']) 0 : Int) : ℚ) /
              (((10 : Int) ^ ['2', '5'].length : Int) : ℚ))),
            Errno.ENOERROR⟩) :=
  ⟨by decide, by decide, by decide, by decide, by decide, by decide,
    decimal_scan false [] [] ['6'] ['2', '5'] ['0'] [] (by decide) (by decide) (by decide)
      (by decide) (by decide) (by decide) (by decide) (by decide) (by decide) (by decide)⟩

/-! ## Decimal overflow (C31), ties of `ri_cmp` (C32), a zero denominator in the text (C33) -/

/-- C31. Decimal overflow: let the input be blanks, an optional sign, integer digits `I`
(possibly none), a point, a fraction digit run `F` that is not empty, made of digits `F1`
that do not end in a zero followed by zeros, and a rest that does not start with a
digit.  If the number written by `I` followed by `F1` exceeds `INT_MAX`, or `F1` has
more than nine digits, then in either build `ri_scn` returns -1 with `ERANGE`, stores no
result, and sets the end of conversion to one past the last digit of `F`. -/
theorem decimal_overflow (ndebug : Bool) (bl sg is fp zs rest : List Char)
    (hbl : ∀ c ∈ bl, isblank c = true) (hsg : sg = [] ∨ sg = ['+'] ∨ sg = ['-'])
    (his : ∀ c ∈ is, isdigit c = true) (hfp : ∀ c ∈ fp, isdigit c = true)
    (hlast : fp.getLast? ≠ some '0') (hzs : ∀ c ∈ zs, c = '0')
    (hF : fp ++ zs ≠ []) (hr : isdigit (charAt rest 0) = false)
    (hov : INT_MAX < run_value (is ++ fp) 0 ∨ 9 < fp.length) :
    ri_scn ndebug (bl ++ (sg ++ (is ++ ('.' :: (fp ++ (zs ++ rest)))))) =
      Res.ok ⟨-1, some (bl.length + sg.length + is.length + 1 + fp.length + zs.length),
        none, Errno.ERANGE⟩ :=
  scan_decimal_range ndebug hbl hsg his hfp hlast hzs hF hr hov

theorem decimal_overflow_witness :
    ri_scn false "-2147.483648 ".toList = Res.ok ⟨-1, some 12, none, Errno.ERANGE⟩ ∧
    ri_scn false "-0.0000000001000".toList = Res.ok ⟨-1, some 16, none, Errno.ERANGE⟩ ∧
    ri_scn false "-0.0000000010000".toList =
      Res.ok ⟨0, some 16, some ⟨1, -1000000000⟩, Errno.ENOERROR⟩ ∧
    ri_scn false "99999999999.000".toList = Res.ok ⟨-1, some 15, none, Errno.ERANGE⟩ ∧
    ri_scn false
        ([] ++ (['-'] ++ (['2', '1', '4', '7'] ++ ('.' :: (['4', '8', '3', '6', '4', '8'] ++
          ([] ++ [' ']))))))
      = Res.ok ⟨-1,
        some (([] : List Char).length + ['-'].length + ['2', '1', '4', '7'].length + 1 +
          ['4', '8', '3', '6', '4', '8'].length + ([] : List Char).length),
        none, Errno.ERANGE⟩ :=
  ⟨by decide, by decide, by decide, by decide,
    decimal_overflow false [] ['-'] ['2', '1', '4', '7'] ['4', '8', '3', '6', '4', '8'] [] [' ']
      (by decide) (by decide) (by decide) (by decide) (by decide) (by decide) (by decide)
      (by decide) (by decide)⟩

/-- C32. No tie on distinct fractions: for canonical `lhs` and `rhs`, in either build,
when the two differ in numerator or denominator and their denominators have the same
sign, `lhs.numerator * |rhs.denominator|` differs from `rhs.numerator *
|lhs.denominator|`, so the assertion `v1 != v2` holds; `ri_cmp` always returns, and it
returns 0 exactly when numerator and denominator are identical. -/
theorem ri_cmp_never_ties (ndebug : Bool) (lhs rhs : RationalInt) (hl : Canonical lhs)
    (hr : Canonical rhs) :
    ((lhs.numerator ≠ rhs.numerator ∨ lhs.denominator ≠ rhs.denominator) →
      (0 < lhs.denominator ↔ 0 < rhs.denominator) →
      lhs.numerator * |rhs.denominator| ≠ rhs.numerator * |lhs.denominator|) ∧
    ∃ r, ri_cmp ndebug lhs rhs = Res.ok r ∧
      (r = 0 ↔ lhs.numerator = rhs.numerator ∧ lhs.denominator = rhs.denominator) := by
  obtain ⟨_, _, hl3, _⟩ := (canonical_iff lhs).mp hl
  obtain ⟨_, _, hr3, _⟩ := (canonical_iff rhs).mp hr
  have hfield : lhs = rhs ↔
      lhs.numerator = rhs.numerator ∧ lhs.denominator = rhs.denominator := by
    cases lhs
    cases rhs
    simp only [RationalInt.mk.injEq]
  constructor
  · intro hd hs
    have hab : lhs ≠ rhs := by
      intro e
      rcases hd with h | h
      · exact h (hfield.mp e).1
      · exact h (hfield.mp e).2
    have hsig : signum lhs.denominator = signum rhs.denominator := by
      rcases lt_or_gt_of_ne hl3 with h | h
      · have h2 : rhs.denominator < 0 := by
          have : ¬ 0 < rhs.denominator := fun h3 => absurd (hs.mpr h3) (by omega)
          omega
        rw [signum_neg h, signum_neg h2]
      · rw [signum_pos h, signum_pos (hs.mp h)]
    have hne := cross_ne hl hr hab hsig
    rw [iabs_eq, iabs_eq, ← Int.abs_eq_natAbs, ← Int.abs_eq_natAbs] at hne
    exact hne
  · rcases ri_cmp_cases ndebug hl hr with ⟨e, h⟩ | ⟨e, h | h⟩
    · exact ⟨0, h, ⟨fun _ => hfield.mp e, fun _ => rfl⟩⟩
    · refine ⟨-1, h, ⟨fun h0 => absurd h0 (by decide), fun h2 => absurd (hfield.mpr h2) e⟩⟩
    · refine ⟨1, h, ⟨fun h0 => absurd h0 (by decide), fun h2 => absurd (hfield.mpr h2) e⟩⟩

theorem ri_cmp_never_ties_witness :
    (Canonical ⟨1, 2⟩ ∧ Canonical ⟨2, 3⟩) ∧
    ri_cmp false ⟨1, 2⟩ ⟨2, 3⟩ = Res.ok (-1) ∧
    ri_cmp false ⟨2, 3⟩ ⟨2, 3⟩ = Res.ok 0 ∧
    (((1 : Int) ≠ 2 ∨ (2 : Int) ≠ 3) → ((0 : Int) < 2 ↔ (0 : Int) < 3) →
      (1 : Int) * |(3 : Int)| ≠ 2 * |(2 : Int)|) ∧
    ∃ r, ri_cmp false ⟨1, 2⟩ ⟨2, 3⟩ = Res.ok r ∧ (r = 0 ↔ (1 : Int) = 2 ∧ (2 : Int) = 3) :=
  ⟨by decide, by decide, by decide, ri_cmp_never_ties false ⟨1, 2⟩ ⟨2, 3⟩ (by decide) (by decide)⟩

/-- C33 (the code departs from the claim): a denominator of zero in the text is not
rejected.  On `1 1/0` the overflow test of `cvt_compound` divides by the zero, in either
build.  On `1/0` and `3/000` the zero is passed to `ri_new`: with assertions the call
ends in the failed `assert(denominator != 0)` and `ri_scn` does not return; without
them `ri_new` answers `0/1` and `ri_scn` returns status 0 with that fraction. -/
theorem ri_scn_zero_denominator :
    ri_scn false "1 1/0".toList = Res.fail Fault.divByZero ∧
    ri_scn true "1 1/0".toList = Res.fail Fault.divByZero ∧
    ri_scn false "1/0".toList = Res.fail Fault.assertion ∧
    ri_scn true "1/0".toList = Res.ok ⟨0, some 3, some ⟨0, 1⟩, Errno.ENOERROR⟩ ∧
    ri_scn false "3/000".toList = Res.fail Fault.assertion ∧
    ri_scn true "3/000".toList = Res.ok ⟨0, some 5, some ⟨0, 1⟩, Errno.ENOERROR⟩ := by
  decide

end Soq
